import Mathlib

/-!
# ITPLA: iterative tile placement by force relaxation

A shallow embedding of `src/C++/ITPLA.h` (the exact-predicate variant) and of the
parts of `src/sdk.h` (the sampling variant) that differ from it.

Conventions of the embedding

* `double`/`float32` values are elements of an ordered field `α` (the rationals for
  evaluation, the reals for trigonometry); rounding is outside the model.  A division
  is the field's division.
* The C library (`sin`, `cos`, `sqrt`, `exp`, `atan2`), the Box2D constants and the CGAL
  predicates are not part of the repository; they are the fields of `Ext`.
* `pow` is only ever called with the integer exponents `-12`, `-2` and `2`; it is the
  field's integer power.
* `int` counters are mathematical integers.
* `assert` is active (a build without `NDEBUG`); a failed assertion and `exit(-1)` end
  the call with an `Abort`.
-/

namespace ITPLA

/-- The `b2Vec2` of Box2D: a pair of coordinates. -/
structure Point (α : Type) where
  x : α
  y : α
deriving DecidableEq, Repr

/-- A `Triangle_2` of CGAL, by its three corners. -/
structure Triangle (α : Type) where
  p0 : Point α
  p1 : Point α
  p2 : Point α
deriving DecidableEq, Repr

/-- A `Segment_2` of CGAL, by its two ends. -/
structure Segment (α : Type) where
  s1 : Point α
  s2 : Point α
deriving DecidableEq, Repr

/-- The three answers of `CGAL::bounded_side_2`. -/
inductive Side where
  | ON_BOUNDED_SIDE
  | ON_BOUNDARY
  | ON_UNBOUNDED_SIDE
deriving DecidableEq, Repr

/-- What lies outside the repository: the C library, the constants of Box2D and of the
platform, and the geometric predicates of CGAL. -/
structure Ext (α : Type) where
  sin : α → α
  cos : α → α
  sqrt : α → α
  exp : α → α
  atan2 : α → α → α
  pi : α
  b2_epsilon : α
  RAND_MAX : Nat
  tri_tri : Triangle α → Triangle α → Bool
  tri_seg : Triangle α → Segment α → Bool
  seg_seg : Segment α → Segment α → Bool
  area : List (Point α) → α
  bounded_side : List (Point α) → Point α → Side

/-- How a call can end without returning: `exit(-1)`, a failed `assert` (with the line
it stands on), or a `std::vector` asked for a negative number of slots.  `unfinished`
is not an end of the call: it is the answer of the model when the rounds it follows of
the sampling loop of `place` are used up and the loop is still running. -/
inductive Abort where
  | exit_minus_one
  | assertion (line : Nat)
  | bad_length
  | unfinished
deriving DecidableEq, Repr

section Scalars

variable {α : Type} [LinearOrderedField α]

/-- Embeds `#define ZERO 1e-9`. -/
def ZERO : α := 1 / 1000000000

/-- Embeds `INT_MAX` of `<climits>`. -/
def INT_MAX : Int := 2147483647

/-- Embeds `#define to_rad(x) ((x) / 180.0 * pi)`. -/
def to_rad (X : Ext α) (x : α) : α := x / 180 * X.pi

/-- Embeds `#define to_deg(x) ((x) * 180.0 / pi)`. -/
def to_deg (X : Ext α) (x : α) : α := x * 180 / X.pi

namespace Point

/-- Embeds `b2Vec2 operator+`. -/
def add (a b : Point α) : Point α := ⟨a.x + b.x, a.y + b.y⟩

/-- Embeds `b2Vec2 operator-`. -/
def sub (a b : Point α) : Point α := ⟨a.x - b.x, a.y - b.y⟩

/-- Embeds `operator*(float, b2Vec2)`. -/
def smul (s : α) (a : Point α) : Point α := ⟨s * a.x, s * a.y⟩

/-- Embeds `b2Vec2::Length`. -/
def Length (X : Ext α) (a : Point α) : α := X.sqrt (a.x * a.x + a.y * a.y)

/-- Embeds `b2Vec2::Normalize`: scales the vector to length one and returns the old length,
unless that length is below `b2_epsilon` (then the vector stays and 0 is returned). -/
def Normalize (X : Ext α) (a : Point α) : α × Point α :=
  let length := Length X a
  if length < X.b2_epsilon then (0, a)
  else
    let invLength := 1 / length
    (length, ⟨a.x * invLength, a.y * invLength⟩)

end Point

/-- The loop of `normalize_angle`, run for at most `fuel` rounds. -/
def normalize_angle_loop : Nat → α → α
  | 0, angle => angle
  | fuel + 1, angle =>
    if 180 < |angle| then
      if 0 < angle then normalize_angle_loop fuel (angle - 360)
      else normalize_angle_loop fuel (angle + 360)
    else angle

/-- The loop test of `normalize_angle`. -/
def normalize_angle_test (angle : α) : Bool := decide (180 < |angle|)

/-- Embeds `normalize_angle` (the same in `ITPLA.h` and `sdk.h`).  The loop is given
`⌈|angle| / 360⌉ + 1` rounds, which `normalize_angle_loop_stops` shows to be enough for
the loop to stop on its own test. -/
def normalize_angle [FloorRing α] (angle : α) : α :=
  normalize_angle_loop (⌈|angle| / 360⌉₊ + 1) angle

/-- Embeds `angle_diff`. -/
def angle_diff [FloorRing α] (init fin : α) : α := normalize_angle (fin - init)


/-- Embeds `distance_to_line`: the distance of `p` from the line through `u` and `v`. -/
def distance_to_line (X : Ext α) (p u v : Point α) : α :=
  let e1 := u.sub v
  let e2 := p.sub v
  |e1.x * e2.y - e1.y * e2.x| / e1.Length X

/-- Embeds `normalize_point`. -/
def normalize_point (p : Point α) (edge_length : α) : Point α :=
  ⟨p.x / edge_length, p.y / edge_length⟩

/-- Embeds `normalize_polygon`. -/
def normalize_polygon (polygon : List (Point α)) (edge_length : α) : List (Point α) :=
  polygon.map (fun p => normalize_point p edge_length)

/-- Embeds `area_polygon`: the area CGAL computes for the polygon. -/
def area_polygon (X : Ext α) (polygon : List (Point α)) : α := X.area polygon

/-- Embeds `in_polygon` of `ITPLA.h`: only the bounded side counts as inside. -/
def in_polygon (X : Ext α) (polygon : List (Point α)) (p : Point α) : Bool :=
  match X.bounded_side polygon p with
  | Side.ON_BOUNDED_SIDE => true
  | Side.ON_BOUNDARY => false
  | Side.ON_UNBOUNDED_SIDE => false

/-- Embeds `create_triangle`: the corners at headings `arc - 60`, `arc - 180`, `arc + 60`. -/
def create_triangle (X : Ext α) (c : Point α) (arc : α) : Triangle α :=
  { p0 := c.add ⟨X.sin (to_rad X (arc - 60)), X.cos (to_rad X (arc - 60))⟩
    p1 := c.add ⟨X.sin (to_rad X (arc - 180)), X.cos (to_rad X (arc - 180))⟩
    p2 := c.add ⟨X.sin (to_rad X (arc + 60)), X.cos (to_rad X (arc + 60))⟩ }

/-- Embeds `create_segment`. -/
def create_segment (s1 s2 : Point α) : Segment α := ⟨s1, s2⟩

/-- Embeds `intersect_each` for two tiles (triangle against triangle). -/
def intersect_each (X : Ext α) (c1 : Point α) (a1 : α) (c2 : Point α) (a2 : α) : Bool :=
  X.tri_tri (create_triangle X c1 a1) (create_triangle X c2 a2)

/-- Embeds `intersect_each` for a tile and a segment (triangle against segment). -/
def intersect_each_segment (X : Ext α) (c : Point α) (a : α) (s1 s2 : Point α) : Bool :=
  X.tri_seg (create_triangle X c a) (create_segment s1 s2)

/-- The test of `calc_direction` for sector `i` with an opening of `deg` degrees:
`cos(to_rad(deg)) * v.Length() <= v.x * n.x + v.y * n.y`. -/
def sector_test (X : Ext α) (deg : α) (v : Point α) (arc : α) (i : Nat) : Bool :=
  let ai := arc + 120 * (i : α)
  let n : Point α := ⟨X.sin (to_rad X ai), X.cos (to_rad X ai)⟩
  decide (X.cos (to_rad X deg) * v.Length X ≤ v.x * n.x + v.y * n.y)

/-- Embeds `calc_direction`: the first sector passing the 60 degree test, else the first one
passing the 70 degree test, else `exit(-1)`. -/
def calc_direction (X : Ext α) (c : Point α) (arc : α) (p : Point α) : Except Abort Nat :=
  let v := p.sub c
  match (List.range 3).find? (sector_test X 60 v arc) with
  | some i => .ok i
  | none =>
    match (List.range 3).find? (sector_test X 70 v arc) with
    | some i => .ok i
    | none => .error Abort.exit_minus_one

/-- Embeds `calc_weight`: `pow(dis / min_dis, -12)`. -/
def calc_weight (dis min_dis : α) : α := (dis / min_dis) ^ (-12 : ℤ)

/-- A `b2Body` as far as the algorithm uses it: the pointer (`handle`), the pose and the
two velocities. -/
structure Body (α : Type) where
  handle : Nat
  position : Point α
  angle : α
  linearVelocity : Point α
  angularVelocity : α
deriving DecidableEq, Repr

/-- The body read at an index that is out of range (never read by the code on a
well-formed call). -/
def Body.null : Body α := ⟨0, ⟨0, 0⟩, 0, ⟨0, 0⟩, 0⟩

/-- The pointer and the pose of a body: what `calc_next_step` never writes. -/
def Body.pose (b : Body α) : Nat × Point α × α := (b.handle, b.position, b.angle)

/-- Embeds `points[i]`. -/
def body_at (points : List (Body α)) (i : Nat) : Body α := points.getD i Body.null

/-- Embeds `normalized_polygon[j]`. -/
def vertex_at (polygon : List (Point α)) (j : Nat) : Point α := polygon.getD j ⟨0, 0⟩

/-- The globals and function statics of `calc_next_step`:
`K, E, pre_E, min_E, min_t, frame`, the static `pre_del` and the static `pause_time`. -/
structure Globals (α : Type) where
  K : α
  E : α
  pre_E : α
  min_E : α
  min_t : Int
  frame : Int
  pre_del : Int × Int
  pause_time : Int
deriving DecidableEq, Repr

/-- The values the globals are initialised with:
`double K, E = INT_MAX, pre_E, min_E = INT_MAX; int min_t = 0; int frame;`
`static pair<int, int> pre_del(-1, 0); static int pause_time = 0;`. -/
def Globals.initial : Globals α :=
  { K := 0, E := (INT_MAX : α), pre_E := 0, min_E := (INT_MAX : α), min_t := 0, frame := 0,
    pre_del := (-1, 0), pause_time := 0 }

/-! ### Lines 189-218: nearest neighbours and overlaps -/

/-- The body of the `j` loop (lines 195-210) for tile `i`: `st.1` is `nearest_point[i]`,
`st.2` is `overlap_module[i]`. -/
def scan_pair (X : Ext α) (points : List (Body α)) (i : Nat)
    (st : List Int × List Nat) (j : Nat) : Except Abort (List Int × List Nat) :=
  if i ≠ j then
    let p1 := body_at points i
    let p2 := body_at points j
    match calc_direction X p1.position (to_deg X p1.angle) p2.position with
    | .error e => .error e
    | .ok k =>
      let nearest :=
        if st.1.getD k (-1) = -1 then st.1.set k (j : Int)
        else
          let p3 := body_at points (st.1.getD k (-1)).toNat
          if (p2.position.sub p1.position).Length X < (p1.position.sub p3.position).Length X
          then st.1.set k (j : Int)
          else st.1
      let overlap :=
        if intersect_each X p1.position (to_deg X p1.angle) p2.position (to_deg X p2.angle)
        then st.2 ++ [j]
        else st.2
      .ok (nearest, overlap)
  else .ok st

/-- The test of line 215 for edge `j`; the orientation is passed as stored (radians),
not converted by `to_deg`. -/
def edge_overlaps (X : Ext α) (normalized_polygon : List (Point α)) (p1 : Body α)
    (j : Nat) : Bool :=
  intersect_each_segment X p1.position p1.angle (vertex_at normalized_polygon j)
    (vertex_at normalized_polygon ((j + 1) % normalized_polygon.length))

/-- The three rows the first loop fills for one tile. -/
structure Row where
  nearest_point : List Int
  overlap_module : List Nat
  overlap_edge : List Nat
deriving DecidableEq, Repr

/-- The rows of a tile as line 189-191 create them: no neighbour, no overlap. -/
def Row.initial : Row := { nearest_point := [-1, -1, -1], overlap_module := [], overlap_edge := [] }

/-- The body of the `i` loop of lines 192-218. -/
def scan_tile (X : Ext α) (normalized_polygon : List (Point α)) (points : List (Body α))
    (i : Nat) : Except Abort Row :=
  match (List.range points.length).foldlM (scan_pair X points i)
      (Row.initial.nearest_point, Row.initial.overlap_module) with
  | .error e => .error e
  | .ok st =>
    .ok { nearest_point := st.1
          overlap_module := st.2
          overlap_edge := (List.range normalized_polygon.length).filter
            (edge_overlaps X normalized_polygon (body_at points i)) }

/-- Lines 189-218: the tables `nearest_point`, `overlap_module`, `overlap_edge`. -/
def scan_tiles (X : Ext α) (normalized_polygon : List (Point α)) (points : List (Body α)) :
    Except Abort (List Row) :=
  (List.range points.length).mapM (scan_tile X normalized_polygon points)

/-! ### Lines 220-393: forces, energy and removal scores -/

/-- The running values while tile `i` is processed: `force[i]`, `angle[i]`, the local
`weight_sum`, the globals `K` and `E`, and the two fields of `del_rank.back().first`. -/
structure TileAcc (α : Type) where
  force : Point α
  angle : α
  weight_sum : α
  K : α
  E : α
  rank_count : Int
  rank_score : α
deriving DecidableEq, Repr

/-- The locals of lines 238-257 (and, word for word, of lines 271-290). -/
structure PairLocals (α : Type) where
  v : Point α
  n : Point α
  t : Point α
  p1_line_middle : Point α
  n2 : Point α
  p2_line_middle : Point α
  ang_diff : α
  v_n_length : α
  v_n2_length : α
  p2_line_middle_t_length : α
  min_distance : α
  kr : α
  kt : α
  r : Point α
deriving DecidableEq, Repr

/-- Lines 238-257 for tile `p1`, the other tile `p2`, the heading `ak` of the sector of
`p1` and the sector `l` of `p2` (found by `calc_direction` from `p2` towards `p1`). -/
def pair_locals [FloorRing α] (X : Ext α) (p1 p2 : Body α) (ak : α) (l : Nat) :
    PairLocals α :=
  let v := p2.position.sub p1.position
  let n : Point α := ⟨X.sin (to_rad X ak), X.cos (to_rad X ak)⟩
  let t : Point α := ⟨X.sin (to_rad X (ak + 90)), X.cos (to_rad X (ak + 90))⟩
  let p1_line_middle := Point.smul (1 / 2) n
  let al := to_deg X p2.angle + (l : α) * 120
  let n2 : Point α := ⟨X.sin (to_rad X al), X.cos (to_rad X al)⟩
  let p2_line_middle := v.add (Point.smul (1 / 2) n2)
  let ang_diff := angle_diff ak (al + 180)
  let v_n_length := v.x * n.x + v.y * n.y
  let v_n2_length := -(v.x * n2.x + v.y * n2.y)
  let p2_line_middle_t_length := p2_line_middle.x * t.x + p2_line_middle.y * t.y
  let min_distance :=
    (1 / 2 + X.sin (to_rad X (30 + |ang_diff|))) / (max v_n_length v_n2_length / v.Length X)
  let kr := 1 - (v.Length X / min_distance) ^ (-2 : ℤ)
  let kt := 1 / 2 * p2_line_middle_t_length
  let r := Point.smul (1 / v.Length X) v
  { v := v, n := n, t := t, p1_line_middle := p1_line_middle, n2 := n2,
    p2_line_middle := p2_line_middle, ang_diff := ang_diff, v_n_length := v_n_length,
    v_n2_length := v_n2_length, p2_line_middle_t_length := p2_line_middle_t_length,
    min_distance := min_distance, kr := kr, kt := kt, r := r }

/-- The body of the `k` loop of lines 232-264 (nearest neighbour of sector `k`). -/
def neighbour_step [FloorRing α] (X : Ext α) (points : List (Body α)) (i : Nat)
    (nearest_point : List Int) (acc : TileAcc α) (k : Nat) : Except Abort (TileAcc α) :=
  if nearest_point.getD k (-1) ≠ -1 then
    let p1 := body_at points i
    let ak := to_deg X p1.angle + (k : α) * 120
    let j := (nearest_point.getD k (-1)).toNat
    let p2 := body_at points j
    match calc_direction X p2.position (to_deg X p2.angle) p1.position with
    | .error e => .error e
    | .ok l =>
      let c := pair_locals X p1 p2 ak l
      if 0 ≤ c.v_n_length then
        let weight := calc_weight c.min_distance 2 + calc_weight (c.v.Length X) 2
        .ok { acc with
              force := acc.force.add
                (Point.smul weight ((Point.smul c.kr c.r).add (Point.smul c.kt c.t)))
              angle := acc.angle + 1 / 2 * c.ang_diff * weight
              weight_sum := acc.weight_sum + weight
              rank_count :=
                if (c.p1_line_middle.sub c.p2_line_middle).Length X < 15 / 100
                then acc.rank_count + 10 else acc.rank_count }
      else .error (Abort.assertion 256)
  else .ok acc

/-- The body of the loop of lines 266-296 (one entry `j` of `overlap_module[i]`). -/
def overlap_step [FloorRing α] (X : Ext α) (points : List (Body α)) (i : Nat)
    (acc : TileAcc α) (j : Nat) : Except Abort (TileAcc α) :=
  let p1 := body_at points i
  let p2 := body_at points j
  match calc_direction X p1.position (to_deg X p1.angle) p2.position with
  | .error e => .error e
  | .ok k =>
    let ak := (k : α) * 120 + to_deg X p1.angle
    match calc_direction X p2.position (to_deg X p2.angle) p1.position with
    | .error e => .error e
    | .ok l =>
      let c := pair_locals X p1 p2 ak l
      if 0 ≤ c.v_n_length then
        .ok { acc with
              E := acc.E + max 0 (1 / (c.v.Length X / c.min_distance) - 1)
              K := min acc.K (c.v.Length X / c.min_distance)
              rank_score := acc.rank_score - max 0 (1 - c.v.Length X / c.min_distance) }
      else .error (Abort.assertion 289)

/-- Lines 305-315: the sector of `p1` whose edge midpoint is nearest to the line through
`u` and `v`, as the pair `(k, min_dist)`, starting from `(-1, INT_MAX)`. -/
def nearest_sector (X : Ext α) (p1 : Body α) (u v : Point α) : Int × α :=
  (List.range 3).foldl
    (fun (st : Int × α) (l : Nat) =>
      let al := to_deg X p1.angle + (l : α) * 120
      let t := p1.position.add (Point.smul (1 / 2) ⟨X.sin (to_rad X al), X.cos (to_rad X al)⟩)
      let dist := distance_to_line X t u v
      if dist < st.2 then ((l : Int), dist) else st)
    (-1, (INT_MAX : α))

/-- The values of the `m` loop of lines 339-358. -/
structure SideAcc (α : Type) where
  intersect_num : Int
  iu : Bool
  iv : Bool
  intersect_points : List (Point α)
deriving DecidableEq, Repr

/-- The body of the `m` loop of lines 339-358: the side `t1 t2` of the tile against the
side `bm` of the box; the crossing point of the two lines is `(ix, iy)`. -/
def box_side_step (X : Ext α) (u v t1 t2 : Point α) (acc : SideAcc α)
    (bm : Point α × Point α) : SideAcc α :=
  if X.seg_seg (create_segment t1 t2) (create_segment bm.1 bm.2) then
    let vt := t2.sub t1
    let vm := bm.2.sub bm.1
    let A1 := vt.y
    let B1 := -vt.x
    let C1 := -A1 * t1.x - B1 * t1.y
    let A2 := vm.y
    let B2 := -vm.x
    let C2 := -A2 * bm.1.x - B2 * bm.1.y
    let ix := (B1 * C2 - C1 * B2) / (A1 * B2 - A2 * B1)
    let iy := (C1 * A2 - A1 * C2) / (A1 * B2 - A2 * B1)
    if (u.sub ⟨ix, iy⟩).Length X < ZERO then { acc with iu := true }
    else if (v.sub ⟨ix, iy⟩).Length X < ZERO then { acc with iv := true }
    else { acc with intersect_num := acc.intersect_num + 1
                    intersect_points := acc.intersect_points ++ [⟨ix, iy⟩] }
  else acc

/-- The body of the `l` loop of lines 331-365: side `l` of the tile against the three
sides of the box; `intersect_points` is carried from side to side. -/
def triangle_side_step (X : Ext α) (p1 : Body α) (u v : Point α)
    (box : List (Point α × Point α)) (intersect_points : List (Point α)) (l : Nat) :
    List (Point α) :=
  let al := to_deg X p1.angle + 120 * (l : α)
  let t1 := p1.position.add ⟨X.sin (to_rad X (al - 60)), X.cos (to_rad X (al - 60))⟩
  let t2 := p1.position.add ⟨X.sin (to_rad X (al + 60)), X.cos (to_rad X (al + 60))⟩
  let acc := box.foldl (box_side_step X u v t1 t2) ⟨0, false, false, intersect_points⟩
  let intersect_num := acc.intersect_num + (if acc.iu then 1 else 0) + (if acc.iv then 1 else 0)
  if intersect_num = 1 then
    if (v.sub u).x * (t1.sub v).y - (v.sub u).y * (t1.sub v).x < 0
    then acc.intersect_points ++ [t1]
    else acc.intersect_points ++ [t2]
  else acc.intersect_points

/-- The locals of lines 299-372 the rest of the edge loop reads. -/
structure EdgeLocals (α : Type) where
  dis : α
  n : Point α
  k : Int
  min_dist : α
  ang_diff : α
  intersect_points : List (Point α)
  max_dis : α
  min_distance : α
  kn : α
deriving DecidableEq, Repr

/-- Lines 299-372 for tile `p1` and the edge `e` of the polygon.  (The value line 319
gives to `min_distance` is overwritten on line 370 before it is read.) -/
def edge_locals [FloorRing α] (X : Ext α) (normalized_polygon : List (Point α))
    (p1 : Body α) (e : Nat) : EdgeLocals α :=
  let u := vertex_at normalized_polygon e
  let v := vertex_at normalized_polygon ((e + 1) % normalized_polygon.length)
  let dis := distance_to_line X p1.position u v
  let n := Point.smul 4 (Point.Normalize X ⟨u.y - v.y, v.x - u.x⟩).2
  let ks := nearest_sector X p1 u v
  let ak := to_deg X p1.angle + (ks.1 : α) * 120
  let ang_diff := angle_diff ak (180 - to_deg X (X.atan2 (v.y - u.y) (v.x - u.x)))
  let box := [(u, v), (u, u.sub n), (v, v.sub n)]
  let intersect_points := (List.range 3).foldl (triangle_side_step X p1 u v box) []
  let max_dis := intersect_points.foldl (fun m p => max m (distance_to_line X p u v)) 0
  let min_distance := dis + max_dis
  let kn := 1 - (dis / min_distance) ^ (-2 : ℤ)
  { dis := dis, n := n, k := ks.1, min_dist := ks.2, ang_diff := ang_diff,
    intersect_points := intersect_points, max_dis := max_dis,
    min_distance := min_distance, kn := kn }

/-- The body of the loop of lines 298-387 (one entry `e` of `overlap_edge[i]`).  The
`assert` of line 377 calls `n.Normalize()`, so from there on `n` has length one. -/
def edge_step [FloorRing α] (X : Ext α) (normalized_polygon : List (Point α))
    (points : List (Body α)) (i : Nat) (acc : TileAcc α) (e : Nat) :
    Except Abort (TileAcc α) :=
  let c := edge_locals X normalized_polygon (body_at points i) e
  if c.k = -1 then .error (Abort.assertion 316)
  else if 0 < c.kn then .ok acc
  else
    let nn := Point.Normalize X c.n
    if ZERO < |nn.1| then
      let weight := calc_weight c.min_distance 1 + calc_weight c.dis 1
      .ok { force := acc.force.sub (Point.smul (weight * c.kn) nn.2)
            angle := acc.angle + c.ang_diff * weight
            weight_sum := acc.weight_sum + weight
            K := min acc.K (c.dis / c.min_distance)
            rank_count := if c.min_dist < 1 / 10 then acc.rank_count + 1 else acc.rank_count
            rank_score := acc.rank_score - max 0 (1 - c.dis / c.min_distance)
            E := acc.E + max 0 (1 / (c.dis / c.min_distance) - 1) }
    else .error (Abort.assertion 377)

/-- Lines 389-392: the sums are divided by the weight sum when it is above `ZERO`. -/
def normalize_by_weight (acc : TileAcc α) : TileAcc α :=
  if ZERO < acc.weight_sum then
    { acc with force := Point.smul (1 / acc.weight_sum) acc.force
               angle := acc.angle / acc.weight_sum }
  else acc

/-- The body of the `i` loop of lines 226-393, entered with the current `K` and `E`. -/
def tile_forces [FloorRing α] (X : Ext α) (normalized_polygon : List (Point α))
    (points : List (Body α)) (row : Row) (i : Nat) (K E : α) : Except Abort (TileAcc α) :=
  match (List.range 3).foldlM (neighbour_step X points i row.nearest_point)
      { force := ⟨0, 0⟩, angle := 0, weight_sum := 0, K := K, E := E,
        rank_count := 0, rank_score := 0 } with
  | .error e => .error e
  | .ok a1 =>
    match row.overlap_module.foldlM (overlap_step X points i) a1 with
    | .error e => .error e
    | .ok a2 =>
      match row.overlap_edge.foldlM (edge_step X normalized_polygon points i) a2 with
      | .error e => .error e
      | .ok a3 => .ok (normalize_by_weight a3)

/-- What lines 220-393 leave behind: `K`, the sum `E`, and per tile the values of
`force[i]`, `angle[i]` and `del_rank[i].first`. -/
structure Forces (α : Type) where
  K : α
  E : α
  tiles : List (TileAcc α)
deriving DecidableEq, Repr

/-- One round of the `i` loop of lines 226-393. -/
def forces_step [FloorRing α] (X : Ext α) (normalized_polygon : List (Point α))
    (points : List (Body α)) (rows : List Row) (st : Forces α) (i : Nat) :
    Except Abort (Forces α) :=
  match tile_forces X normalized_polygon points (rows.getD i Row.initial) i st.K st.E with
  | .error e => .error e
  | .ok a => .ok { K := a.K, E := a.E, tiles := st.tiles ++ [a] }

/-- Lines 220-393, started with `K = 1` and `E = 0`. -/
def forces [FloorRing α] (X : Ext α) (normalized_polygon : List (Point α))
    (points : List (Body α)) (rows : List Row) : Except Abort (Forces α) :=
  (List.range points.length).foldlM (forces_step X normalized_polygon points rows)
    { K := 1, E := 0, tiles := [] }

/-! ### Lines 394-451: convergence tracking and tile removal -/

/-- An entry of `del_rank`: `pair<pair<int, double>, int>`. -/
abbrev Rank (α : Type) := (Int × α) × Int

/-- Embeds `operator<` of `pair<int, double>`. -/
def key_lt (a b : Int × α) : Bool :=
  decide (a.1 < b.1) || (!decide (b.1 < a.1) && decide (a.2 < b.2))

/-- Embeds `operator<` of `pair<pair<int, double>, int>`. -/
def rank_lt (a b : Rank α) : Bool :=
  key_lt a.1 b.1 || (!key_lt b.1 a.1 && decide (a.2 < b.2))

/-- The vector `del_rank` as the `i` loop leaves it: entry `i` is
`((bonus count, score), i)`. -/
def del_rank_of (tiles : List (TileAcc α)) : List (Rank α) :=
  tiles.enum.map (fun ia => ((ia.2.rank_count, ia.2.rank_score), (ia.1 : Int)))

/-- Embeds `sort(del_rank.begin(), del_rank.end())`: ascending for `operator<`. -/
def sort_del_rank (del_rank : List (Rank α)) : List (Rank α) :=
  del_rank.insertionSort (fun a b => rank_lt b a = false)

/-- Lines 406-409: the first entry of the sorted `del_rank` whose absolute score is at
least `abs(sum / del_rank.size())`; `-1` when there is none. -/
def find_del (del_rank : List (Rank α)) (sum : α) : Int :=
  match del_rank.find? (fun r => decide (|sum / (del_rank.length : α)| ≤ |r.1.2|)) with
  | some r => r.2
  | none => -1

/-- Lines 396-400: the velocities are handed to the bodies. -/
def set_velocities (X : Ext α) (points : List (Body α)) (tiles : List (TileAcc α)) :
    List (Body α) :=
  (List.range points.length).map (fun i =>
    { body_at points i with
      linearVelocity := (tiles.getD i ⟨⟨0, 0⟩, 0, 0, 0, 0, 0, 0⟩).force
      angularVelocity := to_rad X (tiles.getD i ⟨⟨0, 0⟩, 0, 0, 0, 0, 0, 0⟩).angle })

/-- The loops of lines 432-436 and 446-450: every velocity is set to zero. -/
def zero_velocities (points : List (Body α)) : List (Body α) :=
  points.map (fun p => { p with linearVelocity := ⟨0, 0⟩, angularVelocity := 0 })

/-- What a call of `calc_next_step` leaves behind: the globals, the vector `points`, and
the body handed to `DestroyBody`, if any. -/
structure StepResult (α : Type) where
  globals : Globals α
  points : List (Body α)
  destroyed : Option (Body α)
deriving DecidableEq, Repr

/-- The condition of line 437. -/
def removal_gate (pre_del : Int × Int) (size : Nat) (pause_time min_t : Int) (K : α) : Bool :=
  decide (pre_del.1 ≠ -1) &&
    (decide (((size : α)) ^ 2 < (pause_time : α)) || decide (120 * 60 < min_t)) &&
    decide (K < 85 / 100)

/-- The values lines 394-436 compute, as they stand on line 437: the globals, the
vector `points` (velocities set) and the local `del`. -/
structure Tracked (α : Type) where
  K : α
  E : α
  pre_E : α
  min_E : α
  min_t : Int
  frame : Int
  pre_del : Int × Int
  pause_time : Int
  del : Int
  points : List (Body α)
deriving DecidableEq, Repr

/-- Lines 394-436, with `rnd` the value `rand()` returns on line 429. -/
def track (X : Ext α) (g : Globals α) (points : List (Body α)) (f : Forces α) (rnd : Nat) :
    Tracked α :=
  let pre_E := g.E
  let E := f.E / 2
  let points1 := set_velocities X points f.tiles
  let del_rank := sort_del_rank (del_rank_of f.tiles)
  let sum := del_rank.foldl (fun s r => s + r.1.2) 0
  let del := find_del del_rank sum
  let pre_del : Int × Int :=
    if g.pre_del.1 = del then (g.pre_del.1, g.pre_del.2 + 1) else (del, 1)
  let frame := g.frame + 1
  let min_t := if E < g.min_E then 0 else g.min_t + 1
  let min_E := min g.min_E E
  let pause_time :=
    g.pause_time + (if X.exp (1 - E / pre_E) < (rnd : α) / (X.RAND_MAX : α) then 1 else 0)
  let stop := decide (frame > 60001 + 100)
  { K := f.K, E := E, pre_E := pre_E, min_E := min_E, min_t := min_t,
    frame := if stop then frame - 1 else frame
    pre_del := pre_del, pause_time := pause_time, del := del
    points := if stop then zero_velocities points1 else points1 }

/-- Lines 437-451: the removal of the tile `del`, or nothing. -/
def remove_or_keep (t : Tracked α) : StepResult α :=
  if removal_gate t.pre_del t.points.length t.pause_time t.min_t t.K then
    { globals :=
        { K := t.K, E := t.E, pre_E := (INT_MAX : α), min_E := (INT_MAX : α), min_t := 0,
          frame := t.frame, pre_del := (t.pre_del.1, 0), pause_time := 0 }
      points := zero_velocities
        ((t.points.set t.del.toNat (body_at t.points (t.points.length - 1))).dropLast)
      destroyed := some (body_at t.points t.del.toNat) }
  else
    { globals :=
        { K := t.K, E := t.E, pre_E := t.pre_E, min_E := t.min_E, min_t := t.min_t,
          frame := t.frame, pre_del := t.pre_del, pause_time := t.pause_time }
      points := t.points
      destroyed := none }

/-- Lines 394-451. -/
def finish (X : Ext α) (g : Globals α) (points : List (Body α)) (f : Forces α) (rnd : Nat) :
    StepResult α :=
  remove_or_keep (track X g points f rnd)

/-- Embeds `calc_next_step` of `ITPLA.h`. -/
def calc_next_step [FloorRing α] (X : Ext α) (normalized_polygon : List (Point α))
    (g : Globals α) (points : List (Body α)) (rnd : Nat) : Except Abort (StepResult α) :=
  match scan_tiles X normalized_polygon points with
  | .error e => .error e
  | .ok rows =>
    match forces X normalized_polygon points rows with
    | .error e => .error e
    | .ok f => .ok (finish X g points f rnd)

/-! ### `place` -/

/-- Embeds `rand_point` (the same in `ITPLA.h` and `sdk.h`); `r1` and `r2` are the two values of
`rand()`, and `line` is the line its `assert` stands on (55 in `ITPLA.h`, 36 in
`sdk.h`). -/
def rand_point (line : Nat) (X : Ext α) (plb prt : Point α) (r1 r2 : Nat) :
    Except Abort (Point α) :=
  if plb.x ≤ prt.x ∧ plb.y ≤ prt.y then
    .ok ⟨(prt.x - plb.x) * (r1 : α) / (X.RAND_MAX : α) + plb.x,
         (prt.y - plb.y) * (r2 : α) / (X.RAND_MAX : α) + plb.y⟩
  else .error (Abort.assertion line)

/-- Lines 462-470: the corners `plb` and `prt` of the bounding box. -/
def bounding_box (normalized_polygon : List (Point α)) : Point α × Point α :=
  normalized_polygon.tail.foldl
    (fun (b : Point α × Point α) (p : Point α) =>
      ((⟨min b.1.x p.x, min b.1.y p.y⟩ : Point α), (⟨max b.2.x p.x, max b.2.y p.y⟩ : Point α)))
    (vertex_at normalized_polygon 0, vertex_at normalized_polygon 0)

/-- The conversion `int(x)` of a `double`: rounding towards zero. -/
def trunc_int [FloorRing α] (x : α) : Int := if 0 ≤ x then ⌊x⌋ else ⌈x⌉

/-- Line 497 with `xxx = -1`: `int(area / (3 * sqrt(3) / 4))`. -/
def point_number [FloorRing α] (X : Ext α) (area : α) : Int :=
  trunc_int (area / (3 * X.sqrt 3 / 4))

/-- The calls `place` makes to Box2D that create something. -/
inductive Event where
  | new_world
  | create_border
  | create_fixture (j : Nat)
  | create_body (i : Nat)
deriving DecidableEq, Repr

/-- The outcome of `place`: the creating calls made so far, and the vector returned or
the way the call ended. -/
structure PlaceResult (α : Type) where
  log : List Event
  result : Except Abort (List (Body α))

/-- The loop of line 501, `while (!in_polygon(normalized_polygon, p = rand_point(plb, prt)))`,
followed for at most `fuel` rounds; `rnd` is the sequence `rand()` returns and `pos` the
number of values already taken.  With no round left the answer is `Abort.unfinished`. -/
def sample_inside (line : Nat) (inside : Point α → Bool) (X : Ext α) (plb prt : Point α)
    (rnd : Nat → Nat) : Nat → Nat → Except Abort (Point α × Nat)
  | 0, _ => .error Abort.unfinished
  | fuel + 1, pos =>
    match rand_point line X plb prt (rnd pos) (rnd (pos + 1)) with
    | .error e => .error e
    | .ok p =>
      if inside p then .ok (p, pos + 2)
      else sample_inside line inside X plb prt rnd fuel (pos + 2)

/-- The loop of lines 499-512: `m` bodies are still to be created, `i` is the loop
index. -/
def create_points (line : Nat) (inside : Point α → Bool) (X : Ext α) (plb prt : Point α)
    (rnd : Nat → Nat) (fuel : Nat) :
    Nat → Nat → Nat → List Event → List (Body α) → PlaceResult α
  | 0, _, _, log, points => ⟨log, .ok points⟩
  | m + 1, i, pos, log, points =>
    match sample_inside line inside X plb prt rnd fuel pos with
    | .error e => ⟨log, .error e⟩
    | .ok (p, pos1) =>
      create_points line inside X plb prt rnd fuel m (i + 1) (pos1 + 1)
        (log ++ [Event.create_body i])
        (points ++ [{ handle := i + 1, position := p,
                      angle := 2 * X.pi * (rnd pos1 : α) / (X.RAND_MAX : α),
                      linearVelocity := ⟨0, 0⟩, angularVelocity := 0 }])

/-- The part of `place` after the area is known (lines 479-530; the same as lines
273-322 of `sdk.h`): the world, the border with one fixture per edge, and the tiles. -/
def place_bodies [FloorRing α] (line : Nat) (inside : Point α → Bool) (X : Ext α)
    (normalized_polygon : List (Point α)) (plb prt : Point α) (area : α)
    (rnd : Nat → Nat) (pos fuel : Nat) : PlaceResult α :=
  let log := [Event.new_world, Event.create_border] ++
    (List.range normalized_polygon.length).map Event.create_fixture
  if point_number X area < 0 then ⟨log, .error Abort.bad_length⟩
  else
    create_points line inside X plb prt rnd fuel (point_number X area).toNat 0 pos log []

/-- Embeds `place` of `ITPLA.h` (exact area).  `rnd` is the sequence of values `rand()` returns
after `srand(stime)`; `fuel` bounds the rounds followed in each sampling loop. -/
def place [FloorRing α] (X : Ext α) (polygon : List (Point α)) (edge_length : α)
    (rnd : Nat → Nat) (fuel : Nat) : PlaceResult α :=
  if 2 < polygon.length then
    let normalized_polygon := normalize_polygon polygon (edge_length / X.sqrt 3)
    let box := bounding_box normalized_polygon
    let area := area_polygon X normalized_polygon
    place_bodies 55 (in_polygon X normalized_polygon) X normalized_polygon box.1 box.2 area
      rnd 0 fuel
  else ⟨[], .error (Abort.assertion 457)⟩

namespace sdk

/-- The test of lines 75-78 of `sdk.h` for the edge from `p1` to `p2`. -/
def crosses (p1 p2 p : Point α) : Bool :=
  decide ((p1.y - p.y) * (p2.y - p.y) ≤ 0) &&
  decide ((ZERO : α) < |p1.y - p2.y|) &&
  !(decide (p.x < p1.x) && decide (|p.y - p1.y| < ZERO)) &&
  decide (p1.x + (p.y - p1.y) * (p1.x - p2.x) / (p1.y - p2.y) ≤ p.x)

/-- The loop of `in_polygon` of `sdk.h` over the edges still to visit, with the current
value of `result`; the early `return true` ends it. -/
def in_polygon_loop (polygon : List (Point α)) (p : Point α) :
    List Nat → Bool → Bool
  | [], result => result
  | i :: rest, result =>
    let p1 := vertex_at polygon i
    let p2 := vertex_at polygon ((i + 1) % polygon.length)
    if crosses p1 p2 p then
      if |p1.x + (p.y - p1.y) * (p1.x - p2.x) / (p1.y - p2.y) - p.x| < ZERO then true
      else in_polygon_loop polygon p rest (!result)
    else in_polygon_loop polygon p rest result

/-- Embeds `in_polygon` of `sdk.h` (ray crossing). -/
def in_polygon (polygon : List (Point α)) (p : Point α) : Bool :=
  in_polygon_loop polygon p (List.range polygon.length) false

/-- Lines 266-269 of `sdk.h`: of `total` sampled points, the number `in_polygon` reports
inside; sample `i` takes the values `rnd (2 i)` and `rnd (2 i + 1)`. -/
def count_inside (X : Ext α) (normalized_polygon : List (Point α)) (plb prt : Point α)
    (rnd : Nat → Nat) : Nat → Except Abort Nat
  | 0 => .ok 0
  | i + 1 =>
    match count_inside X normalized_polygon plb prt rnd i with
    | .error e => .error e
    | .ok inside =>
      match rand_point 36 X plb prt (rnd (2 * i)) (rnd (2 * i + 1)) with
      | .error e => .error e
      | .ok p => .ok (inside + (if in_polygon normalized_polygon p then 1 else 0))

/-- Line 270 of `sdk.h`. -/
def estimate_area (plb prt : Point α) (inside total : Nat) : α :=
  (prt.x - plb.x) * (prt.y - plb.x) * (inside : α) / (total : α)

/-- Embeds `place` of `sdk.h` (sampled area, `total = 0xfff`). -/
def place [FloorRing α] (X : Ext α) (polygon : List (Point α)) (edge_length : α)
    (rnd : Nat → Nat) (fuel : Nat) : PlaceResult α :=
  if 2 < polygon.length then
    let normalized_polygon := normalize_polygon polygon (edge_length / X.sqrt 3)
    let box := bounding_box normalized_polygon
    match count_inside X normalized_polygon box.1 box.2 rnd 4095 with
    | .error e => ⟨[], .error e⟩
    | .ok inside =>
      place_bodies 36 (in_polygon normalized_polygon) X normalized_polygon box.1 box.2
        (estimate_area box.1 box.2 inside 4095) rnd (2 * 4095) fuel
  else ⟨[], .error (Abort.assertion 248)⟩

end sdk


/-! ### The collaborators over the real numbers -/

/-- Twice the signed area of the triangle `a b c`. -/
def cross (a b c : Point α) : α := (b.x - a.x) * (c.y - a.y) - (b.y - a.y) * (c.x - a.x)

/-- The point `c` lies in the bounding box of `a` and `b`. -/
def in_box (a b c : Point α) : Bool :=
  decide (min a.x b.x ≤ c.x) && decide (c.x ≤ max a.x b.x) &&
  decide (min a.y b.y ≤ c.y) && decide (c.y ≤ max a.y b.y)

/-- Modelled from the spec: `segments_intersect` of the GeometryPredicates collaborator
(`CGAL::do_intersect` on two `Segment_2`, not in the repository): the two closed
segments share a point. -/
def seg_seg_exact (s t : Segment α) : Bool :=
  let d1 := cross t.s1 t.s2 s.s1
  let d2 := cross t.s1 t.s2 s.s2
  let d3 := cross s.s1 s.s2 t.s1
  let d4 := cross s.s1 s.s2 t.s2
  ((decide (0 < d1) && decide (d2 < 0) || decide (d1 < 0) && decide (0 < d2)) &&
    (decide (0 < d3) && decide (d4 < 0) || decide (d3 < 0) && decide (0 < d4))) ||
  (decide (d1 = 0) && in_box t.s1 t.s2 s.s1) ||
  (decide (d2 = 0) && in_box t.s1 t.s2 s.s2) ||
  (decide (d3 = 0) && in_box s.s1 s.s2 t.s1) ||
  (decide (d4 = 0) && in_box s.s1 s.s2 t.s2)

/-- The point `p` lies in the closed triangle `T`. -/
def in_triangle (T : Triangle α) (p : Point α) : Bool :=
  let d1 := cross T.p0 T.p1 p
  let d2 := cross T.p1 T.p2 p
  let d3 := cross T.p2 T.p0 p
  (decide (0 ≤ d1) && decide (0 ≤ d2) && decide (0 ≤ d3)) ||
  (decide (d1 ≤ 0) && decide (d2 ≤ 0) && decide (d3 ≤ 0))

/-- The three sides of a triangle. -/
def sides (T : Triangle α) : List (Segment α) := [⟨T.p0, T.p1⟩, ⟨T.p1, T.p2⟩, ⟨T.p2, T.p0⟩]

/-- Modelled from the spec: `triangle_intersects_segment` of the GeometryPredicates
collaborator (`CGAL::do_intersect` on a `Triangle_2` and a `Segment_2`, not in the
repository): the closed triangle and the closed segment share a point. -/
def tri_seg_exact (T : Triangle α) (s : Segment α) : Bool :=
  in_triangle T s.s1 || in_triangle T s.s2 || (sides T).any (fun e => seg_seg_exact e s)

/-- Modelled from the spec: `triangle_intersects_triangle` of the GeometryPredicates
collaborator (`CGAL::do_intersect` on two `Triangle_2`, not in the repository): the two
closed triangles share a point. -/
def tri_tri_exact (T U : Triangle α) : Bool :=
  in_triangle T U.p0 || in_triangle U T.p0 ||
  (sides T).any (fun e => (sides U).any (fun f => seg_seg_exact e f))


/-- One term of the area sum: the edge from `a` to `b`. -/
def shoelace_term (a b : Point α) : α := a.x * b.y - b.x * a.y

/-- Modelled from the spec: `polygon_area` of the GeometryPredicates collaborator
(`Polygon_2::area` of CGAL, not in the repository): the signed area of the polygon,
positive for a counterclockwise one. -/
def shoelace_area (polygon : List (Point α)) : α :=
  ((List.range polygon.length).map (fun i =>
    shoelace_term (vertex_at polygon i) (vertex_at polygon ((i + 1) % polygon.length)))).sum / 2

/-- The point `p` lies on the closed segment from `a` to `b`. -/
def on_segment (a b p : Point α) : Bool := decide (cross a b p = 0) && in_box a b p

/-- The ray from `p` towards larger `x` crosses the edge from `a` to `b`. -/
def ray_crosses (a b p : Point α) : Bool :=
  (decide (p.y < a.y) != decide (p.y < b.y)) &&
  decide (p.x < a.x + (p.y - a.y) * (b.x - a.x) / (b.y - a.y))

/-- Modelled from the spec: `point_in_polygon` of the GeometryPredicates collaborator
(`CGAL::bounded_side_2`, not in the repository), for a simple polygon: on an edge, or
inside by the parity of the crossings of a ray. -/
def bounded_side_exact (polygon : List (Point α)) (p : Point α) : Side :=
  let edges := (List.range polygon.length).map (fun i =>
    (vertex_at polygon i, vertex_at polygon ((i + 1) % polygon.length)))
  if edges.any (fun e => on_segment e.1 e.2 p) then Side.ON_BOUNDARY
  else if (edges.filter (fun e => ray_crosses e.1 e.2 p)).length % 2 = 1
  then Side.ON_BOUNDED_SIDE
  else Side.ON_UNBOUNDED_SIDE

/-- The square (0,0), (10,0), (10,10), (0,10) of the scenario of the specification, in
the units of the input. -/
def square10 : List (Point α) := [⟨0, 0⟩, ⟨10, 0⟩, ⟨10, 10⟩, ⟨0, 10⟩]

/-- A polygon of two vertices. -/
def two_gon : List (Point α) := [⟨0, 0⟩, ⟨10, 0⟩]

/-! ### Quantities named by the specification -/

/-- Follows the words of the specification, not the code: the mean of the absolute
removal scores of all tiles. -/
def spec_mean_abs_score (tiles : List (TileAcc α)) : α :=
  (tiles.map (fun a => |a.rank_score|)).sum / (tiles.length : α)

/-- Follows the words of the specification, not the code: the test "no correction is
needed" for an edge, `1 - (dis / required_separation)^2 > 0`. -/
def spec_edge_skip_test (dis required_separation : α) : Bool :=
  decide (0 < 1 - (dis / required_separation) ^ 2)

/-- The state of `nearest_point[i]` (the list `np`) once the tiles of `visited` went
through the `j` loop of lines 195-206: every sector `k` either holds `-1`, and no visited
tile other than `i` has the sector `k` by `calc_direction`, or holds a visited tile
`j` other than `i` of sector `k` that is no farther from tile `i` than any visited tile
of that sector. -/
def nearest_after (X : Ext α) (points : List (Body α)) (i : Nat) (visited : List Nat)
    (np : List Int) : Prop :=
  np.length = 3 ∧ ∀ k, k < 3 →
    (np.getD k (-1) = -1 ∧ ∀ j ∈ visited, j ≠ i →
      calc_direction X (body_at points i).position (to_deg X (body_at points i).angle)
        (body_at points j).position ≠ .ok k) ∨
    (∃ j ∈ visited, np.getD k (-1) = (j : Int) ∧ j ≠ i ∧
      calc_direction X (body_at points i).position (to_deg X (body_at points i).angle)
        (body_at points j).position = .ok k ∧
      ∀ j2 ∈ visited, j2 ≠ i →
        calc_direction X (body_at points i).position (to_deg X (body_at points i).angle)
          (body_at points j2).position = .ok k →
        ((body_at points j).position.sub (body_at points i).position).Length X ≤
          ((body_at points j2).position.sub (body_at points i).position).Length X)

/-- Follows the words of the specification, not the code: the overlap correction for one
entry `j` of the overlap list of tile `i`, "same formula" as the neighbour interaction
(the linear term, the angular term and the weight are added to the sums of the tile),
and additionally the updates of `E`, `K` and the removal score. -/
def spec_overlap_step [FloorRing α] (X : Ext α) (points : List (Body α)) (i : Nat)
    (acc : TileAcc α) (j : Nat) : Except Abort (TileAcc α) :=
  let p1 := body_at points i
  let p2 := body_at points j
  match calc_direction X p1.position (to_deg X p1.angle) p2.position with
  | .error e => .error e
  | .ok k =>
    let ak := (k : α) * 120 + to_deg X p1.angle
    match calc_direction X p2.position (to_deg X p2.angle) p1.position with
    | .error e => .error e
    | .ok l =>
      let c := pair_locals X p1 p2 ak l
      if 0 ≤ c.v_n_length then
        let weight := calc_weight c.min_distance 2 + calc_weight (c.v.Length X) 2
        .ok { acc with
              force := acc.force.add
                (Point.smul weight ((Point.smul c.kr c.r).add (Point.smul c.kt c.t)))
              angle := acc.angle + 1 / 2 * c.ang_diff * weight
              weight_sum := acc.weight_sum + weight
              E := acc.E + max 0 (1 / (c.v.Length X / c.min_distance) - 1)
              K := min acc.K (c.v.Length X / c.min_distance)
              rank_score := acc.rank_score - max 0 (1 - c.v.Length X / c.min_distance) }
      else .error (Abort.assertion 289)

/-- Follows the words of the specification, not the code: the sums of tile `i` over all
three kinds of interaction (neighbours, overlap list, edges), divided by the total
weight. -/
def spec_tile_forces [FloorRing α] (X : Ext α) (normalized_polygon : List (Point α))
    (points : List (Body α)) (row : Row) (i : Nat) (K E : α) : Except Abort (TileAcc α) :=
  match (List.range 3).foldlM (neighbour_step X points i row.nearest_point)
      { force := ⟨0, 0⟩, angle := 0, weight_sum := 0, K := K, E := E,
        rank_count := 0, rank_score := 0 } with
  | .error e => .error e
  | .ok a1 =>
    match row.overlap_module.foldlM (spec_overlap_step X points i) a1 with
    | .error e => .error e
    | .ok a2 =>
      match row.overlap_edge.foldlM (edge_step X normalized_polygon points i) a2 with
      | .error e => .error e
      | .ok a3 => .ok (normalize_by_weight a3)

/-- Follows the words of the specification, not the code: the area estimate of the
sampling variant, the area of the bounding box times the fraction of the sampled points
found inside. -/
def spec_estimate_area (plb prt : Point α) (inside total : Nat) : α :=
  (prt.x - plb.x) * (prt.y - plb.y) * ((inside : α) / (total : α))

/-- The square of side 10 with the lower left corner at `(0, 1)`. -/
def square10_up : List (Point α) := [⟨0, 1⟩, ⟨10, 1⟩, ⟨10, 11⟩, ⟨0, 11⟩]

/-- A contribution to the sums of a tile: its weight, its linear term and its angular
term. -/
structure Term (α : Type) where
  weight : α
  linear : Point α
  angular : α
deriving DecidableEq, Repr

/-- Follows the words of the specification, not the code: the contribution of sector `k`
of tile `i` to the sums.  An unresolved sector contributes nothing; the neighbour `j` of a
resolved sector contributes its weight, the linear term
`weight * (kr * unit(v) + kt * t)` and the angular term `weight * ang_diff / 2`, with the
locals of lines 238-257 (`l` is the sector of `j` that faces `i`). -/
def spec_neighbour_term [FloorRing α] (X : Ext α) (points : List (Body α)) (i : Nat)
    (nearest_point : List Int) (k : Nat) : Term α :=
  if nearest_point.getD k (-1) = -1 then ⟨0, ⟨0, 0⟩, 0⟩
  else
    let p1 := body_at points i
    let p2 := body_at points (nearest_point.getD k (-1)).toNat
    match calc_direction X p2.position (to_deg X p2.angle) p1.position with
    | .error _ => ⟨0, ⟨0, 0⟩, 0⟩
    | .ok l =>
      let c := pair_locals X p1 p2 (to_deg X p1.angle + (k : α) * 120) l
      let weight := calc_weight c.min_distance 2 + calc_weight (c.v.Length X) 2
      ⟨weight, Point.smul weight ((Point.smul c.kr c.r).add (Point.smul c.kt c.t)),
        1 / 2 * c.ang_diff * weight⟩

/-- Follows the words of the specification, not the code: the contribution of the edge
`e` of the edge-overlap list of tile `i` to the sums.  An edge whose correction is skipped
(`0 < kn`) contributes nothing; a corrected edge contributes its weight, the term
`-(weight * kn) * n` along the unit normal `n` of the edge and the angular term
`weight * ang_diff`, with the locals of lines 299-372. -/
def spec_edge_term [FloorRing α] (X : Ext α) (normalized_polygon : List (Point α))
    (points : List (Body α)) (i : Nat) (e : Nat) : Term α :=
  let c := edge_locals X normalized_polygon (body_at points i) e
  if 0 < c.kn then ⟨0, ⟨0, 0⟩, 0⟩
  else
    let weight := calc_weight c.min_distance 1 + calc_weight c.dis 1
    ⟨weight, Point.smul (-(weight * c.kn)) (Point.Normalize X c.n).2, c.ang_diff * weight⟩

/-- The sum of a list of contributions, taken from the left. -/
def sum_terms (l : List (Term α)) : Term α :=
  l.foldl (fun s t => ⟨s.weight + t.weight, s.linear.add t.linear, s.angular + t.angular⟩)
    ⟨0, ⟨0, 0⟩, 0⟩

/-- Follows the words of the specification, not the code: the linear velocity and the
angular velocity (in degrees) of tile `i`, the sums of the contributions of its three
sectors and of the edges of its edge-overlap list, divided by the sum of the weights when
that sum is above `ZERO`. -/
def spec_velocity [FloorRing α] (X : Ext α) (normalized_polygon : List (Point α))
    (points : List (Body α)) (row : Row) (i : Nat) : Point α × α :=
  let s := sum_terms
    ((List.range 3).map (spec_neighbour_term X points i row.nearest_point) ++
      row.overlap_edge.map (spec_edge_term X normalized_polygon points i))
  if ZERO < s.weight then (Point.smul (1 / s.weight) s.linear, s.angular / s.weight)
  else (s.linear, s.angular)

/-! ### `calc_direction` with the storage types of the source -/

/-- Embeds `b2_pi` of Box2D, the `float` constant `3.14159265359f`: its value is
`13176795 / 2^22`. -/
def b2_pi : α := 13176795 / 4194304

/-- The `float` (IEEE binary32: 24 significant bits, ties to even) nearest to `x`.  The
range of the exponent is not modelled. -/
def round_f32 [FloorRing α] (x : α) : α :=
  if x = 0 then 0
  else
    let q : α := (2 : α) ^ (Int.log 2 |x| - 23)
    let m : ℤ := ⌊|x| / q⌋
    let f : α := |x| / q - (m : α)
    let n : ℤ :=
      if f < 1 / 2 then m else if 1 / 2 < f then m + 1 else if m % 2 = 0 then m else m + 1
    (if x < 0 then -1 else 1) * (n : α) * q

/-- The test of `calc_direction` for sector `i` as `sector_test`, with the storage of the
source: `v` and `n` are `b2Vec2` values, whose coordinates are `float`s, so the values of
`sin` and `cos` are rounded when `n` is built, and `v.Length()` and `v.x * n.x + v.y * n.y`
are computed in `float`; `cos(to_rad(deg))` and the product on the left are `double`s (the
rounding of `double`s is not modelled). -/
def sector_test_f32 [FloorRing α] (X : Ext α) (deg : α) (v : Point α) (arc : α) (i : Nat) :
    Bool :=
  let ai := arc + 120 * (i : α)
  let n : Point α := ⟨round_f32 (X.sin (to_rad X ai)), round_f32 (X.cos (to_rad X ai))⟩
  let length := round_f32 (X.sqrt (round_f32 (round_f32 (v.x * v.x) + round_f32 (v.y * v.y))))
  decide (X.cos (to_rad X deg) * length ≤
    round_f32 (round_f32 (v.x * n.x) + round_f32 (v.y * n.y)))

/-- Embeds `calc_direction` as `calc_direction` does, with the storage of the source: the
difference `p - c` is a `b2Vec2`, and the tests are those of `sector_test_f32`. -/
def calc_direction_f32 [FloorRing α] (X : Ext α) (c : Point α) (arc : α) (p : Point α) :
    Except Abort Nat :=
  let v : Point α := ⟨round_f32 (p.x - c.x), round_f32 (p.y - c.y)⟩
  match (List.range 3).find? (sector_test_f32 X 60 v arc) with
  | some i => .ok i
  | none =>
    match (List.range 3).find? (sector_test_f32 X 70 v arc) with
    | some i => .ok i
    | none => .error Abort.exit_minus_one

end Scalars

/-- The collaborators over the real numbers: the functions of the C library are the real
functions, `b2_pi` is `π`, `b2_epsilon` is `FLT_EPSILON = 2^-23`, `RAND_MAX` is `2^31 - 1`,
and the predicates of CGAL are the exact ones. -/
noncomputable def realExt : Ext ℝ :=
  { sin := Real.sin
    cos := Real.cos
    sqrt := Real.sqrt
    exp := Real.exp
    atan2 := fun y x => Complex.arg ⟨x, y⟩
    pi := Real.pi
    b2_epsilon := 1 / 8388608
    RAND_MAX := 2147483647
    tri_tri := tri_tri_exact
    tri_seg := tri_seg_exact
    seg_seg := seg_seg_exact
    area := shoelace_area
    bounded_side := bounded_side_exact }

/-! ### Two worked inputs -/

/-- A square of side 10 (counterclockwise), already in the units of the tiles. -/
noncomputable def square : List (Point ℝ) := [⟨-5, 0⟩, ⟨5, 0⟩, ⟨5, 10⟩, ⟨-5, 10⟩]

/-- A tile whose centre is at distance 1/2 from the lower edge of `square`: its lower
corner sticks out of the polygon. -/
noncomputable def tile_low : Body ℝ :=
  { handle := 1, position := ⟨0, 1 / 2⟩, angle := 0, linearVelocity := ⟨0, 0⟩,
    angularVelocity := 0 }

/-- A tile in the middle of `square`, away from every edge. -/
noncomputable def tile_mid : Body ℝ :=
  { handle := 1, position := ⟨0, 5⟩, angle := 0, linearVelocity := ⟨0, 0⟩,
    angularVelocity := 0 }

/-- A state of stagnation: the energy has stood at its minimum 1/2 for 7200 steps, with
tile 0 the deletion candidate all along. -/
noncomputable def stalled : Globals ℝ :=
  { K := 1 / 2, E := 1 / 2, pre_E := 1 / 2, min_E := 1 / 2, min_t := 7200, frame := 7200,
    pre_del := (0, 7200), pause_time := 0 }

/-- A second tile at the very place of `tile_mid`, with the same orientation. -/
noncomputable def tile_twin : Body ℝ :=
  { handle := 2, position := ⟨0, 5⟩, angle := 0, linearVelocity := ⟨0, 0⟩,
    angularVelocity := 0 }

/-- The tile `tile_low` with the velocities the step gives it. -/
noncomputable def tile_low_pushed : Body ℝ :=
  { tile_low with linearVelocity := ⟨0, 3⟩, angularVelocity := to_rad realExt 60 }

/-- A second tile in `square`, one unit above `tile_low`, with the same orientation. -/
noncomputable def tile_up : Body ℝ :=
  { handle := 2, position := ⟨0, 3 / 2⟩, angle := 0, linearVelocity := ⟨0, 0⟩,
    angularVelocity := 0 }

/-- The weight line 258 computes for `tile_low` and `tile_up`: the required separation is
`3/2`, the distance is `1`. -/
noncomputable def weight_low_up : ℝ := calc_weight (3 / 2) 2 + calc_weight 1 2

/-- What lines 226-393 leave for `tile_low` in `square` next to `tile_up`: the neighbour
`tile_up` (weight `weight_low_up`) and the lower edge (weight 4097) are in the sums. -/
noncomputable def forces_low_pair : TileAcc ℝ :=
  { force := Point.smul (1 / (weight_low_up + 4097))
      ⟨weight_low_up * (Real.sqrt 3 / 8), weight_low_up * -(5 / 4) + 12291⟩
    angle := (1 / 2 * -60 * weight_low_up + 60 * 4097) / (weight_low_up + 4097)
    weight_sum := weight_low_up + 4097
    K := 1 / 2, E := 3 / 2, rank_count := 0, rank_score := -(5 / 6) }

/-- What the sums of the specification (the entry of the overlap list counted like the
neighbour) are for `tile_low` in `square` next to `tile_up`. -/
noncomputable def spec_forces_low_pair : TileAcc ℝ :=
  { force := Point.smul (1 / (weight_low_up + weight_low_up + 4097))
      ⟨weight_low_up * (Real.sqrt 3 / 8) + weight_low_up * (Real.sqrt 3 / 8),
        weight_low_up * -(5 / 4) + weight_low_up * -(5 / 4) + 12291⟩
    angle := (1 / 2 * -60 * weight_low_up + 1 / 2 * -60 * weight_low_up + 60 * 4097) /
      (weight_low_up + weight_low_up + 4097)
    weight_sum := weight_low_up + weight_low_up + 4097
    K := 1 / 2, E := 3 / 2, rank_count := 0, rank_score := -(5 / 6) }

/-- A tile in `square` that points upwards: the centre at height `3/4`, the orientation
`pi` radians (180 degrees). -/
noncomputable def tile_flipped : Body ℝ :=
  { handle := 1, position := ⟨0, 3 / 4⟩, angle := Real.pi, linearVelocity := ⟨0, 0⟩,
    angularVelocity := 0 }

/-- What the step on `tile_low` leaves when started in the state `stalled`. -/
noncomputable def result_low_stalled : StepResult ℝ :=
  { globals := { K := 1 / 2, E := 1 / 2, pre_E := (INT_MAX : ℝ), min_E := (INT_MAX : ℝ),
                 min_t := 0, frame := 7201, pre_del := (0, 0), pause_time := 0 }
    points := []
    destroyed := some tile_low_pushed }

/-- What the step on `tile_low` leaves when started with the initial globals. -/
noncomputable def result_low_initial : StepResult ℝ :=
  { globals := { K := 1 / 2, E := 1 / 2, pre_E := (INT_MAX : ℝ), min_E := 1 / 2,
                 min_t := 0, frame := 1, pre_del := (0, 1), pause_time := 0 }
    points := [tile_low_pushed]
    destroyed := none }

/-- What the step on `tile_mid` leaves when started with the initial globals. -/
noncomputable def result_mid_initial : StepResult ℝ :=
  { globals := { K := 1, E := 0, pre_E := (INT_MAX : ℝ), min_E := 0,
                 min_t := 0, frame := 1, pre_del := (0, 1), pause_time := 0 }
    points := [tile_mid]
    destroyed := none }

/-- The collaborators as `realExt`, but with the constant `pi` of the code, the `float`
`b2_pi`, in the place of `π`. -/
noncomputable def b2Ext : Ext ℝ := { realExt with pi := b2_pi }

/-- What lines 226-393 leave for `tile_up` in `square` above `tile_low`, entered with the
`K = 1/2` and `E = 3/2` of `tile_low`: the neighbour `tile_low` is in the sums. -/
noncomputable def forces_up_pair : TileAcc ℝ :=
  { force := ⟨-(Real.sqrt 3 / 16), 17 / 16⟩, angle := 30, weight_sum := weight_low_up,
    K := 1 / 2, E := 2, rank_count := 0, rank_score := -(1 / 3) }

/-- The tile `tile_low` with the velocities a step gives it next to `tile_up`. -/
noncomputable def tile_low_pair_pushed : Body ℝ :=
  { tile_low with linearVelocity := forces_low_pair.force,
                  angularVelocity := to_rad realExt forces_low_pair.angle }

/-- The tile `tile_up` with the velocities a step gives it next to `tile_low`. -/
noncomputable def tile_up_pushed : Body ℝ :=
  { tile_up with linearVelocity := ⟨-(Real.sqrt 3 / 16), 17 / 16⟩,
                 angularVelocity := to_rad realExt 30 }

/-- A state of stagnation as `stalled`, with a pause accumulator of 5. -/
noncomputable def stalled_pair : Globals ℝ :=
  { K := 1 / 2, E := 1 / 2, pre_E := 1 / 2, min_E := 1 / 2, min_t := 7200, frame := 7200,
    pre_del := (0, 7200), pause_time := 5 }

/-- What the step on `tile_low` and `tile_up` leaves when started in the state
`stalled_pair`: `tile_low` is removed and `tile_up` takes its slot. -/
noncomputable def result_pair_removed : StepResult ℝ :=
  { globals := { K := 1 / 2, E := 1, pre_E := (INT_MAX : ℝ), min_E := (INT_MAX : ℝ),
                 min_t := 0, frame := 7201, pre_del := (0, 0), pause_time := 0 }
    points := [tile_up]
    destroyed := some tile_low_pair_pushed }

/-- What the step on `tile_low` and `tile_up` leaves when started with the initial
globals. -/
noncomputable def result_pair_initial : StepResult ℝ :=
  { globals := { K := 1 / 2, E := 1, pre_E := (INT_MAX : ℝ), min_E := 1,
                 min_t := 0, frame := 1, pre_del := (0, 1), pause_time := 0 }
    points := [tile_low_pair_pushed, tile_up_pushed]
    destroyed := none }

section NormalizeAngle

variable {α : Type} [LinearOrderedField α]

theorem normalize_angle_loop_of_le (fuel : Nat) (a : α) (h : |a| ≤ 180) :
    normalize_angle_loop fuel a = a := by
  cases fuel with
  | zero => rfl
  | succ n => simp [normalize_angle_loop, not_lt.mpr h]

/-- With `|a| ≤ 360 * fuel + 180` the loop ends on its test: the result is at most 180
in absolute value, and it is `a` moved by a whole number of turns. -/
theorem normalize_angle_loop_spec (fuel : Nat) :
    ∀ a : α, |a| ≤ 360 * (fuel : α) + 180 →
      |normalize_angle_loop fuel a| ≤ 180 ∧
      ∃ k : Int, normalize_angle_loop fuel a = a + 360 * (k : α) := by
  induction fuel with
  | zero =>
    intro a h
    refine ⟨by simpa [normalize_angle_loop] using h, 0, by simp [normalize_angle_loop]⟩
  | succ n ih =>
    intro a h
    push_cast at h
    by_cases hgt : 180 < |a|
    · by_cases hpos : 0 < a
      · have habs : |a| = a := abs_of_pos hpos
        have hb : |a - 360| ≤ 360 * (n : α) + 180 := by
          rw [abs_le]
          rw [habs] at h hgt
          have hn : (0 : α) ≤ (n : α) := Nat.cast_nonneg n
          constructor <;> linarith
        obtain ⟨h1, k, hk⟩ := ih (a - 360) hb
        simp only [normalize_angle_loop, hgt, hpos, if_true]
        refine ⟨h1, k - 1, ?_⟩
        rw [hk]; push_cast; ring
      · have hneg : a < 0 := by
          rcases lt_or_eq_of_le (not_lt.mp hpos) with h0 | h0
          · exact h0
          · subst h0
            simp at hgt
            exact absurd hgt (by norm_num)
        have habs : |a| = -a := abs_of_neg hneg
        have hb : |a + 360| ≤ 360 * (n : α) + 180 := by
          rw [abs_le]
          rw [habs] at h hgt
          have hn : (0 : α) ≤ (n : α) := Nat.cast_nonneg n
          constructor <;> linarith
        obtain ⟨h1, k, hk⟩ := ih (a + 360) hb
        simp only [normalize_angle_loop, hgt, hpos, if_true, if_false]
        refine ⟨h1, k + 1, ?_⟩
        rw [hk]; push_cast; ring
    · have hle : |a| ≤ 180 := not_lt.mp hgt
      rw [normalize_angle_loop_of_le _ _ hle]
      exact ⟨hle, 0, by simp⟩

theorem normalize_angle_fuel_enough [FloorRing α] (a : α) :
    |a| ≤ 360 * ((⌈|a| / 360⌉₊ + 1 : Nat) : α) + 180 := by
  have h1 : |a| / 360 ≤ (⌈|a| / 360⌉₊ : α) := Nat.le_ceil _
  have h2 : |a| ≤ 360 * (⌈|a| / 360⌉₊ : α) := by
    have := (div_le_iff₀ (by norm_num : (0 : α) < 360)).mp h1
    linarith
  push_cast
  linarith

/-- The rounds given to the loop of `normalize_angle` are enough: on the value returned
the loop test `180 < abs(angle)` is false. -/
theorem normalize_angle_loop_stops [FloorRing α] (a : α) :
    normalize_angle_test (normalize_angle a) = false := by
  have h := (normalize_angle_loop_spec _ a (normalize_angle_fuel_enough a)).1
  simp [normalize_angle_test, normalize_angle, h]


/-- C6, as stated, fails: `normalize_angle(-180)` is `-180`, which is not in the
half-open interval `(-180, 180]`. -/
theorem normalize_angle_minus_180 :
    normalize_angle (-180 : ℝ) = -180 ∧
    ¬ (-180 < normalize_angle (-180 : ℝ) ∧ normalize_angle (-180 : ℝ) ≤ 180) := by
  have h : normalize_angle (-180 : ℝ) = -180 := by
    unfold normalize_angle
    exact normalize_angle_loop_of_le _ _ (by simp)
  refine ⟨h, ?_⟩
  rw [h]
  intro hc
  exact lt_irrefl _ hc.1

/-- C6, amended: `normalize_angle(x)` lies in the closed interval `[-180, 180]` and
differs from `x` by a whole multiple of 360; hence `angle_diff(init, fin)` lies in
`[-180, 180]` too. -/
theorem normalize_angle_range [FloorRing α] (x init fin : α) :
    (-180 ≤ normalize_angle x ∧ normalize_angle x ≤ 180) ∧
    (∃ k : Int, normalize_angle x = x + 360 * (k : α)) ∧
    (-180 ≤ angle_diff init fin ∧ angle_diff init fin ≤ 180) := by
  have key : ∀ y : α, (-180 ≤ normalize_angle y ∧ normalize_angle y ≤ 180) ∧
      (∃ k : Int, normalize_angle y = y + 360 * (k : α)) := by
    intro y
    obtain ⟨h1, h2⟩ := normalize_angle_loop_spec _ y (normalize_angle_fuel_enough y)
    exact ⟨abs_le.mp h1, h2⟩
  exact ⟨(key x).1, (key x).2, (key (fin - init)).1⟩

end NormalizeAngle

section Step

variable {α : Type} [LinearOrderedField α]

/-- A property kept by every round that ends well is kept by the whole loop. -/
theorem foldlM_ok_invariant {σ β : Type} (P : σ → Prop) (f : σ → β → Except Abort σ)
    (hf : ∀ s b s', P s → f s b = .ok s' → P s') :
    ∀ (l : List β) (s s' : σ), P s → l.foldlM f s = .ok s' → P s' := by
  intro l
  induction l with
  | nil =>
    intro s s' hs h
    simp only [List.foldlM, pure, Except.pure] at h
    cases h
    exact hs
  | cons b l ih =>
    intro s s' hs h
    simp only [List.foldlM, bind, Except.bind] at h
    cases hb : f s b with
    | error e => rw [hb] at h; cases h
    | ok s1 =>
      rw [hb] at h
      exact ih s1 s' (hf s b s1 hs hb) h

theorem neighbour_step_keeps [FloorRing α] (X : Ext α) (points : List (Body α)) (i : Nat)
    (np : List Int) (acc acc' : TileAcc α) (k : Nat)
    (h : neighbour_step X points i np acc k = .ok acc') :
    acc'.K = acc.K ∧ acc'.E = acc.E ∧ acc'.rank_score = acc.rank_score := by
  unfold neighbour_step at h
  split at h
  · dsimp only at h
    split at h
    · cases h
    · split at h
      · cases h
        exact ⟨rfl, rfl, rfl⟩
      · cases h
  · cases h
    exact ⟨rfl, rfl, rfl⟩

theorem overlap_step_bounds [FloorRing α] (X : Ext α) (points : List (Body α)) (i : Nat)
    (acc acc' : TileAcc α) (j : Nat)
    (h : overlap_step X points i acc j = .ok acc') :
    acc'.K ≤ acc.K ∧ acc.E ≤ acc'.E := by
  unfold overlap_step at h
  dsimp only at h
  split at h
  · cases h
  · split at h
    · cases h
    · split at h
      · cases h
        exact ⟨min_le_left _ _, le_add_of_nonneg_right (le_max_left _ _)⟩
      · cases h

theorem edge_step_bounds [FloorRing α] (X : Ext α) (poly : List (Point α))
    (points : List (Body α)) (i : Nat) (acc acc' : TileAcc α) (e : Nat)
    (h : edge_step X poly points i acc e = .ok acc') :
    acc'.K ≤ acc.K ∧ acc.E ≤ acc'.E := by
  unfold edge_step at h
  simp only at h
  split at h
  · cases h
  · split at h
    · cases h
      exact ⟨le_refl _, le_refl _⟩
    · split at h
      · cases h
        exact ⟨min_le_left _ _, le_add_of_nonneg_right (le_max_left _ _)⟩
      · cases h

theorem normalize_by_weight_keeps (acc : TileAcc α) :
    (normalize_by_weight acc).K = acc.K ∧ (normalize_by_weight acc).E = acc.E ∧
    (normalize_by_weight acc).rank_count = acc.rank_count ∧
    (normalize_by_weight acc).rank_score = acc.rank_score := by
  unfold normalize_by_weight
  split <;> exact ⟨rfl, rfl, rfl, rfl⟩

/-- One tile leaves `K` no larger and `E` no smaller than it found them. -/
theorem tile_forces_bounds [FloorRing α] (X : Ext α) (poly : List (Point α))
    (points : List (Body α)) (row : Row) (i : Nat) (K E : α) (a : TileAcc α)
    (h : tile_forces X poly points row i K E = .ok a) : a.K ≤ K ∧ E ≤ a.E := by
  unfold tile_forces at h
  split at h
  · cases h
  · rename_i a1 h1
    split at h
    · cases h
    · rename_i a2 h2
      split at h
      · cases h
      · rename_i a3 h3
        cases h
        have e1 := foldlM_ok_invariant (fun s : TileAcc α => s.K = K ∧ s.E = E)
          (neighbour_step X points i row.nearest_point)
          (fun s b s' hs hb => by
            have := neighbour_step_keeps X points i _ s s' b hb
            exact ⟨this.1.trans hs.1, this.2.1.trans hs.2⟩)
          _ _ a1 ⟨rfl, rfl⟩ h1
        have e2 := foldlM_ok_invariant (fun s : TileAcc α => s.K ≤ K ∧ E ≤ s.E)
          (overlap_step X points i)
          (fun s b s' hs hb => by
            have := overlap_step_bounds X points i s s' b hb
            exact ⟨this.1.trans hs.1, hs.2.trans this.2⟩)
          _ a1 a2 ⟨e1.1.le, e1.2.ge⟩ h2
        have e3 := foldlM_ok_invariant (fun s : TileAcc α => s.K ≤ K ∧ E ≤ s.E)
          (edge_step X poly points i)
          (fun s b s' hs hb => by
            have := edge_step_bounds X poly points i s s' b hb
            exact ⟨this.1.trans hs.1, hs.2.trans this.2⟩)
          _ a2 a3 e2 h3
        obtain ⟨k1, k2, _, _⟩ := normalize_by_weight_keeps a3
        rw [k1, k2]
        exact e3

/-- A tile with no recorded overlap leaves `K` and `E` as it found them. -/
theorem tile_forces_no_overlap [FloorRing α] (X : Ext α) (poly : List (Point α))
    (points : List (Body α)) (row : Row) (i : Nat) (K E : α) (a : TileAcc α)
    (hm : row.overlap_module = []) (he : row.overlap_edge = [])
    (h : tile_forces X poly points row i K E = .ok a) : a.K = K ∧ a.E = E := by
  unfold tile_forces at h
  rw [hm, he] at h
  split at h
  · cases h
  · rename_i a1 h1
    simp only [List.foldlM, pure, Except.pure] at h
    cases h
    have e1 := foldlM_ok_invariant (fun s : TileAcc α => s.K = K ∧ s.E = E)
      (neighbour_step X points i row.nearest_point)
      (fun s b s' hs hb => by
        have := neighbour_step_keeps X points i _ s s' b hb
        exact ⟨this.1.trans hs.1, this.2.1.trans hs.2⟩)
      _ _ a1 ⟨rfl, rfl⟩ h1
    obtain ⟨k1, k2, _, _⟩ := normalize_by_weight_keeps a1
    rw [k1, k2]
    exact e1

/-- Lines 220-393 end with `K ≤ 1` and `0 ≤ E`. -/
theorem forces_bounds [FloorRing α] (X : Ext α) (poly : List (Point α))
    (points : List (Body α)) (rows : List Row) (f : Forces α)
    (h : forces X poly points rows = .ok f) : f.K ≤ 1 ∧ 0 ≤ f.E := by
  unfold forces at h
  refine foldlM_ok_invariant (fun s : Forces α => s.K ≤ 1 ∧ 0 ≤ s.E)
    (forces_step X poly points rows) ?_ _ _ f ⟨le_refl _, le_refl _⟩ h
  intro s b s' hs hb
  unfold forces_step at hb
  split at hb
  · cases hb
  · rename_i a ha
    cases hb
    have := tile_forces_bounds X poly points _ b s.K s.E a ha
    exact ⟨this.1.trans hs.1, hs.2.trans this.2⟩

/-- With no overlap recorded for any tile, lines 220-393 end with `K = 1` and `E = 0`. -/
theorem forces_no_overlap [FloorRing α] (X : Ext α) (poly : List (Point α))
    (points : List (Body α)) (rows : List Row) (f : Forces α)
    (hrows : ∀ row ∈ rows, row.overlap_module = [] ∧ row.overlap_edge = [])
    (h : forces X poly points rows = .ok f) : f.K = 1 ∧ f.E = 0 := by
  unfold forces at h
  refine foldlM_ok_invariant (fun s : Forces α => s.K = 1 ∧ s.E = 0)
    (forces_step X poly points rows) ?_ _ _ f ⟨rfl, rfl⟩ h
  intro s b s' hs hb
  unfold forces_step at hb
  split at hb
  · cases hb
  · rename_i a ha
    cases hb
    have hrow : (rows.getD b Row.initial).overlap_module = [] ∧
        (rows.getD b Row.initial).overlap_edge = [] := by
      by_cases hb : b < rows.length
      · rw [List.getD_eq_getElem _ _ hb]
        exact hrows _ (List.getElem_mem _)
      · rw [List.getD_eq_default _ _ (not_lt.mp hb)]
        exact ⟨rfl, rfl⟩
    have := tile_forces_no_overlap X poly points _ b s.K s.E a hrow.1 hrow.2 ha
    exact ⟨this.1.trans hs.1, this.2.trans hs.2⟩

end Step

section StepClaims

variable {α : Type} [LinearOrderedField α]

theorem length_set_velocities (X : Ext α) (points : List (Body α)) (tiles : List (TileAcc α)) :
    (set_velocities X points tiles).length = points.length := by
  simp [set_velocities]

theorem length_zero_velocities (points : List (Body α)) :
    (zero_velocities points).length = points.length := by
  simp [zero_velocities]

theorem pose_set_velocities (X : Ext α) (points : List (Body α)) (tiles : List (TileAcc α)) :
    (set_velocities X points tiles).map Body.pose = points.map Body.pose := by
  apply List.ext_getElem
  · simp [set_velocities]
  · intro n h1 h2
    simp only [set_velocities, List.length_map, List.length_range] at h1
    simp [set_velocities, Body.pose, body_at, List.getD_eq_getElem _ _ h1, h1]

theorem pose_zero_velocities (points : List (Body α)) :
    (zero_velocities points).map Body.pose = points.map Body.pose := by
  simp [zero_velocities, Body.pose, Function.comp_def]

theorem length_track_points (X : Ext α) (g : Globals α) (points : List (Body α))
    (f : Forces α) (rnd : Nat) : (track X g points f rnd).points.length = points.length := by
  unfold track
  dsimp only
  split <;> simp [length_zero_velocities, length_set_velocities]

theorem pose_track_points (X : Ext α) (g : Globals α) (points : List (Body α))
    (f : Forces α) (rnd : Nat) :
    (track X g points f rnd).points.map Body.pose = points.map Body.pose := by
  unfold track
  dsimp only
  split <;> simp [pose_zero_velocities, pose_set_velocities]

/-- The two ways lines 437-451 can end: the test of line 437 holds, a body is destroyed
and one slot dropped; or it fails and nothing is touched. -/
theorem remove_or_keep_cases (t : Tracked α) :
    (removal_gate t.pre_del t.points.length t.pause_time t.min_t t.K = true ∧
      (remove_or_keep t).destroyed = some (body_at t.points t.del.toNat) ∧
      (remove_or_keep t).points.length = t.points.length - 1 ∧
      (remove_or_keep t).globals.min_t = 0 ∧
      (remove_or_keep t).globals.pause_time = 0 ∧
      (remove_or_keep t).globals.min_E = (INT_MAX : α)) ∨
    (removal_gate t.pre_del t.points.length t.pause_time t.min_t t.K = false ∧
      (remove_or_keep t).destroyed = none ∧
      (remove_or_keep t).points = t.points ∧
      (remove_or_keep t).globals.min_t = t.min_t ∧
      (remove_or_keep t).globals.min_E = t.min_E ∧
      (remove_or_keep t).globals.pause_time = t.pause_time) := by
  unfold remove_or_keep
  by_cases hg : removal_gate t.pre_del t.points.length t.pause_time t.min_t t.K = true
  · left
    rw [if_pos hg]
    refine ⟨hg, rfl, ?_, rfl, rfl, rfl⟩
    simp [length_zero_velocities]
  · right
    rw [if_neg hg]
    exact ⟨by simpa using hg, rfl, rfl, rfl, rfl, rfl⟩

theorem remove_or_keep_K_E (t : Tracked α) :
    (remove_or_keep t).globals.K = t.K ∧ (remove_or_keep t).globals.E = t.E := by
  unfold remove_or_keep
  split <;> exact ⟨rfl, rfl⟩

theorem removal_gate_K (pre_del : Int × Int) (size : Nat) (pause_time min_t : Int) (K : α)
    (h : removal_gate pre_del size pause_time min_t K = true) : K < 85 / 100 := by
  simp only [removal_gate, Bool.and_eq_true, decide_eq_true_eq] at h
  exact h.2

/-- A call that returns went through the three parts. -/
theorem calc_next_step_ok [FloorRing α] (X : Ext α) (poly : List (Point α)) (g : Globals α)
    (points : List (Body α)) (rnd : Nat) (r : StepResult α)
    (h : calc_next_step X poly g points rnd = .ok r) :
    ∃ rows f, scan_tiles X poly points = .ok rows ∧ forces X poly points rows = .ok f ∧
      r = remove_or_keep (track X g points f rnd) := by
  unfold calc_next_step at h
  split at h
  · cases h
  · rename_i rows hrows
    split at h
    · cases h
    · rename_i f hf
      cases h
      exact ⟨rows, f, hrows, hf, rfl⟩

end StepClaims

section RealEval

theorem sqrt3_sq : Real.sqrt 3 * Real.sqrt 3 = 3 := Real.mul_self_sqrt (by norm_num)

theorem sqrt3_lower : (17 / 10 : ℝ) < Real.sqrt 3 := by
  rw [show (17 / 10 : ℝ) = Real.sqrt ((17 / 10) ^ 2) from (Real.sqrt_sq (by norm_num)).symm]
  exact Real.sqrt_lt_sqrt (by norm_num) (by norm_num)

theorem sqrt3_upper : Real.sqrt 3 < (18 / 10 : ℝ) := by
  rw [show (18 / 10 : ℝ) = Real.sqrt ((18 / 10) ^ 2) from (Real.sqrt_sq (by norm_num)).symm]
  exact Real.sqrt_lt_sqrt (by norm_num) (by norm_num)

theorem decide_lt_true {a b : ℝ} [inst : Decidable (a < b)] (h : a < b) :
    @decide (a < b) inst = true := by simpa using h
theorem decide_lt_false {a b : ℝ} [inst : Decidable (a < b)] (h : b ≤ a) :
    @decide (a < b) inst = false := by simpa using h
theorem decide_le_true {a b : ℝ} [inst : Decidable (a ≤ b)] (h : a ≤ b) :
    @decide (a ≤ b) inst = true := by simpa using h
theorem decide_le_false {a b : ℝ} [inst : Decidable (a ≤ b)] (h : b < a) :
    @decide (a ≤ b) inst = false := by simpa using h

theorem decide_eq_true_of {a b : ℝ} [inst : Decidable (a = b)] (h : a = b) :
    @decide (a = b) inst = true := by simpa using h

theorem decide_eq_false_lt {a b : ℝ} [inst : Decidable (a = b)] (h : a < b) :
    @decide (a = b) inst = false := by simpa using h.ne

theorem decide_eq_false_gt {a b : ℝ} [inst : Decidable (a = b)] (h : b < a) :
    @decide (a = b) inst = false := by simpa using h.ne'

theorem real_sin_deg (x : ℝ) : realExt.sin (to_rad realExt x) = Real.sin (x / 180 * Real.pi) := rfl
theorem real_cos_deg (x : ℝ) : realExt.cos (to_rad realExt x) = Real.cos (x / 180 * Real.pi) := rfl

theorem sin_deg_60 : realExt.sin (to_rad realExt 60) = Real.sqrt 3 / 2 := by
  rw [real_sin_deg, show (60 / 180 * Real.pi : ℝ) = Real.pi / 3 by ring]
  exact Real.sin_pi_div_three

theorem cos_deg_60 : realExt.cos (to_rad realExt 60) = 1 / 2 := by
  rw [real_cos_deg, show (60 / 180 * Real.pi : ℝ) = Real.pi / 3 by ring]
  exact Real.cos_pi_div_three

theorem sin_deg_0 : realExt.sin (to_rad realExt 0) = 0 := by
  rw [real_sin_deg]; simp

theorem cos_deg_0 : realExt.cos (to_rad realExt 0) = 1 := by
  rw [real_cos_deg]; simp

theorem sin_deg_neg (x : ℝ) :
    realExt.sin (to_rad realExt (-x)) = -realExt.sin (to_rad realExt x) := by
  rw [real_sin_deg, real_sin_deg, show (-x / 180 * Real.pi : ℝ) = -(x / 180 * Real.pi) by ring]
  exact Real.sin_neg _

theorem cos_deg_neg (x : ℝ) :
    realExt.cos (to_rad realExt (-x)) = realExt.cos (to_rad realExt x) := by
  rw [real_cos_deg, real_cos_deg, show (-x / 180 * Real.pi : ℝ) = -(x / 180 * Real.pi) by ring]
  exact Real.cos_neg _

theorem sin_deg_180 : realExt.sin (to_rad realExt 180) = 0 := by
  rw [real_sin_deg]; simp

theorem cos_deg_180 : realExt.cos (to_rad realExt 180) = -1 := by
  rw [real_cos_deg]; simp

theorem sin_deg_120 : realExt.sin (to_rad realExt 120) = Real.sqrt 3 / 2 := by
  rw [real_sin_deg, show (120 / 180 * Real.pi : ℝ) = Real.pi - Real.pi / 3 by ring,
    Real.sin_pi_sub]
  exact Real.sin_pi_div_three

theorem cos_deg_120 : realExt.cos (to_rad realExt 120) = -(1 / 2) := by
  rw [real_cos_deg, show (120 / 180 * Real.pi : ℝ) = Real.pi - Real.pi / 3 by ring,
    Real.cos_pi_sub, Real.cos_pi_div_three]

theorem sin_deg_240 : realExt.sin (to_rad realExt 240) = -(Real.sqrt 3 / 2) := by
  rw [real_sin_deg, show (240 / 180 * Real.pi : ℝ) = Real.pi / 3 + Real.pi by ring,
    Real.sin_add_pi, Real.sin_pi_div_three]

theorem cos_deg_240 : realExt.cos (to_rad realExt 240) = -(1 / 2) := by
  rw [real_cos_deg, show (240 / 180 * Real.pi : ℝ) = Real.pi / 3 + Real.pi by ring,
    Real.cos_add_pi, Real.cos_pi_div_three]

theorem sin_deg_300 : realExt.sin (to_rad realExt 300) = -(Real.sqrt 3 / 2) := by
  rw [real_sin_deg, show (300 / 180 * Real.pi : ℝ) = -(Real.pi / 3) + 2 * Real.pi by ring,
    Real.sin_add_two_pi, Real.sin_neg, Real.sin_pi_div_three]

theorem cos_deg_300 : realExt.cos (to_rad realExt 300) = 1 / 2 := by
  rw [real_cos_deg, show (300 / 180 * Real.pi : ℝ) = -(Real.pi / 3) + 2 * Real.pi by ring,
    Real.cos_add_two_pi, Real.cos_neg, Real.cos_pi_div_three]

theorem to_deg_zero : to_deg realExt 0 = 0 := by simp [to_deg]

theorem real_sqrt_sq (x : ℝ) (h : 0 ≤ x) : realExt.sqrt (x * x) = x := Real.sqrt_mul_self h

end RealEval

section Geometry

variable {α : Type} [LinearOrderedField α]

/-- Two segments that cross properly intersect. -/
theorem seg_seg_exact_of_crossing (s t : Segment α)
    (h12 : (0 < cross t.s1 t.s2 s.s1 ∧ cross t.s1 t.s2 s.s2 < 0) ∨
      (cross t.s1 t.s2 s.s1 < 0 ∧ 0 < cross t.s1 t.s2 s.s2))
    (h34 : (0 < cross s.s1 s.s2 t.s1 ∧ cross s.s1 s.s2 t.s2 < 0) ∨
      (cross s.s1 s.s2 t.s1 < 0 ∧ 0 < cross s.s1 s.s2 t.s2)) :
    seg_seg_exact s t = true := by
  simp only [seg_seg_exact, Bool.or_eq_true, Bool.and_eq_true, decide_eq_true_eq]
  exact Or.inl (Or.inl (Or.inl (Or.inl ⟨h12, h34⟩)))

theorem between_mul_nonpos (a b p : α) (h1 : min a b ≤ p) (h2 : p ≤ max a b) :
    (a - p) * (b - p) ≤ 0 := by
  rcases le_total a b with hab | hab
  · rw [min_eq_left hab] at h1
    rw [max_eq_right hab] at h2
    exact mul_nonpos_of_nonpos_of_nonneg (by linarith) (by linarith)
  · rw [min_eq_right hab] at h1
    rw [max_eq_left hab] at h2
    exact mul_nonpos_of_nonneg_of_nonpos (by linarith) (by linarith)

/-- A point of the box of `a` and `b` on the line through them: the values of an
affine function at `a` and `b` do not lie strictly on the same side of its value at the
point.  Here the function is `q ↦ cross p s q`, which vanishes at `p`. -/
theorem cross_sides_of_between (a b p s : Point α) (hc : cross a b p = 0)
    (hb : in_box a b p = true) : cross p s a * cross p s b ≤ 0 := by
  simp only [in_box, Bool.and_eq_true, decide_eq_true_eq] at hb
  obtain ⟨⟨⟨hx1, hx2⟩, hy1⟩, hy2⟩ := hb
  have hp : 0 ≤ -((a.x - p.x) * (b.x - p.x)) := by
    have := between_mul_nonpos a.x b.x p.x hx1 hx2
    linarith
  have hq : 0 ≤ -((a.y - p.y) * (b.y - p.y)) := by
    have := between_mul_nonpos a.y b.y p.y hy1 hy2
    linarith
  have hm : (a.x - p.x) * (b.y - p.y) = (a.y - p.y) * (b.x - p.x) := by
    unfold cross at hc
    linarith
  set ax := a.x - p.x with hax
  set ay := a.y - p.y with hay
  set bx := b.x - p.x with hbx
  set by_ := b.y - p.y with hby
  set wx := s.x - p.x with hwx
  set wy := s.y - p.y with hwy
  have e : cross p s a * cross p s b =
      -(wx ^ 2 * (-(ay * by_)) + 2 * wx * wy * (ax * by_) + wy ^ 2 * (-(ax * bx))) := by
    unfold cross
    simp only [← hax, ← hay, ← hbx, ← hby, ← hwx, ← hwy]
    linear_combination (wx * wy) * hm
  rw [e]
  have key : 0 ≤ wx ^ 2 * (-(ay * by_)) + 2 * wx * wy * (ax * by_) + wy ^ 2 * (-(ax * bx)) := by
    have hmm : (ax * by_) ^ 2 = (-(ay * by_)) * (-(ax * bx)) := by
      have : (ax * by_) ^ 2 = (ax * by_) * (ay * bx) := by rw [← hm]; ring
      rw [this]; ring
    rcases eq_or_lt_of_le hq with h0 | hpos
    · have hz : ax * by_ = 0 := by
        have : (ax * by_) ^ 2 = 0 := by rw [hmm, ← h0]; ring
        exact pow_eq_zero_iff (two_ne_zero) |>.mp this
      rw [← h0, hz]
      nlinarith [sq_nonneg wy]
    · have hsq : 0 ≤ (wx * (-(ay * by_)) + wy * (ax * by_)) ^ 2 := sq_nonneg _
      have hexp : (-(ay * by_)) * (wx ^ 2 * (-(ay * by_)) + 2 * wx * wy * (ax * by_) +
          wy ^ 2 * (-(ax * bx))) = (wx * (-(ay * by_)) + wy * (ax * by_)) ^ 2 := by
        linear_combination (-(wy ^ 2)) * hmm
      by_contra hneg
      push_neg at hneg
      have := mul_neg_of_pos_of_neg hpos hneg
      linarith
  linarith

/-- Two segments do not intersect when both ends of the first lie strictly on the same
side of the line through the second. -/
theorem seg_seg_exact_of_same_side (s t : Segment α)
    (h : 0 < cross t.s1 t.s2 s.s1 * cross t.s1 t.s2 s.s2) :
    seg_seg_exact s t = false := by
  have h1 : cross t.s1 t.s2 s.s1 ≠ 0 := by
    intro h0; rw [h0, zero_mul] at h; exact lt_irrefl _ h
  have h2 : cross t.s1 t.s2 s.s2 ≠ 0 := by
    intro h0; rw [h0, mul_zero] at h; exact lt_irrefl _ h
  have h3 : ¬ (cross s.s1 s.s2 t.s1 = 0 ∧ in_box s.s1 s.s2 t.s1 = true) := by
    rintro ⟨hc, hb⟩
    have := cross_sides_of_between s.s1 s.s2 t.s1 t.s2 hc hb
    have e1 : cross t.s1 t.s2 s.s1 = cross t.s1 t.s2 s.s1 := rfl
    linarith
  have h4 : ¬ (cross s.s1 s.s2 t.s2 = 0 ∧ in_box s.s1 s.s2 t.s2 = true) := by
    rintro ⟨hc, hb⟩
    have := cross_sides_of_between s.s1 s.s2 t.s2 t.s1 hc hb
    have e1 : cross t.s2 t.s1 s.s1 = -cross t.s1 t.s2 s.s1 := by unfold cross; ring
    have e2 : cross t.s2 t.s1 s.s2 = -cross t.s1 t.s2 s.s2 := by unfold cross; ring
    rw [e1, e2] at this
    linarith
  have h5 : ¬ ((0 < cross t.s1 t.s2 s.s1 ∧ cross t.s1 t.s2 s.s2 < 0) ∨
      (cross t.s1 t.s2 s.s1 < 0 ∧ 0 < cross t.s1 t.s2 s.s2)) := by
    rintro (⟨a, b⟩ | ⟨a, b⟩)
    · have := mul_neg_of_pos_of_neg a b; linarith
    · have := mul_neg_of_neg_of_pos a b; linarith
  simp only [seg_seg_exact, Bool.or_eq_false_iff, Bool.and_eq_false_iff, decide_eq_false_iff_not,
    Bool.or_eq_true, Bool.and_eq_true, decide_eq_true_eq]
  refine ⟨⟨⟨⟨?_, ?_⟩, ?_⟩, ?_⟩, ?_⟩
  · left
    rw [not_or] at h5
    exact ⟨not_and_or.mp h5.1, not_and_or.mp h5.2⟩
  · exact Or.inl h1
  · exact Or.inl h2
  · by_cases hc : cross s.s1 s.s2 t.s1 = 0
    · right
      simpa using fun hb => h3 ⟨hc, hb⟩
    · exact Or.inl hc
  · by_cases hc : cross s.s1 s.s2 t.s2 = 0
    · right
      simpa using fun hb => h4 ⟨hc, hb⟩
    · exact Or.inl hc

end Geometry

section Geometry2

variable {α : Type} [LinearOrderedField α]

/-- A point of the line through `a` and `b` is not in a triangle (of non-zero area)
whose corners lie strictly to the left of that line. -/
theorem in_triangle_of_left (T : Triangle α) (a b p : Point α)
    (h0 : 0 < cross a b T.p0) (h1 : 0 < cross a b T.p1) (h2 : 0 < cross a b T.p2)
    (hA : cross T.p0 T.p1 T.p2 ≠ 0) (hp : cross a b p = 0) : in_triangle T p = false := by
  have hsum : cross T.p0 T.p1 p + cross T.p1 T.p2 p + cross T.p2 T.p0 p =
      cross T.p0 T.p1 T.p2 := by
    unfold cross; ring
  have hid : cross T.p0 T.p1 p * cross a b T.p2 + cross T.p1 T.p2 p * cross a b T.p0 +
      cross T.p2 T.p0 p * cross a b T.p1 = cross T.p0 T.p1 T.p2 * cross a b p := by
    unfold cross; ring
  rw [hp, mul_zero] at hid
  by_contra hin
  rw [Bool.not_eq_false] at hin
  simp only [in_triangle, Bool.or_eq_true, Bool.and_eq_true, decide_eq_true_eq] at hin
  rcases hin with ⟨⟨d1, d2⟩, d3⟩ | ⟨⟨d1, d2⟩, d3⟩
  · have e1 := mul_nonneg d1 h2.le
    have e2 := mul_nonneg d2 h0.le
    have e3 := mul_nonneg d3 h1.le
    have z1 : cross T.p0 T.p1 p = 0 := by
      have : cross T.p0 T.p1 p * cross a b T.p2 = 0 := by linarith
      rcases mul_eq_zero.mp this with h | h
      · exact h
      · exact absurd h h2.ne'
    have z2 : cross T.p1 T.p2 p = 0 := by
      have : cross T.p1 T.p2 p * cross a b T.p0 = 0 := by linarith
      rcases mul_eq_zero.mp this with h | h
      · exact h
      · exact absurd h h0.ne'
    have z3 : cross T.p2 T.p0 p = 0 := by
      have : cross T.p2 T.p0 p * cross a b T.p1 = 0 := by linarith
      rcases mul_eq_zero.mp this with h | h
      · exact h
      · exact absurd h h1.ne'
    exact hA (by rw [← hsum, z1, z2, z3]; ring)
  · have e1 := mul_nonpos_of_nonpos_of_nonneg d1 h2.le
    have e2 := mul_nonpos_of_nonpos_of_nonneg d2 h0.le
    have e3 := mul_nonpos_of_nonpos_of_nonneg d3 h1.le
    have z1 : cross T.p0 T.p1 p = 0 := by
      have : cross T.p0 T.p1 p * cross a b T.p2 = 0 := by linarith
      rcases mul_eq_zero.mp this with h | h
      · exact h
      · exact absurd h h2.ne'
    have z2 : cross T.p1 T.p2 p = 0 := by
      have : cross T.p1 T.p2 p * cross a b T.p0 = 0 := by linarith
      rcases mul_eq_zero.mp this with h | h
      · exact h
      · exact absurd h h0.ne'
    have z3 : cross T.p2 T.p0 p = 0 := by
      have : cross T.p2 T.p0 p * cross a b T.p1 = 0 := by linarith
      rcases mul_eq_zero.mp this with h | h
      · exact h
      · exact absurd h h1.ne'
    exact hA (by rw [← hsum, z1, z2, z3]; ring)

/-- A triangle (of non-zero area) whose corners lie strictly to the left of the line
through a segment does not meet the segment. -/
theorem tri_seg_exact_of_left (T : Triangle α) (s : Segment α)
    (h0 : 0 < cross s.s1 s.s2 T.p0) (h1 : 0 < cross s.s1 s.s2 T.p1)
    (h2 : 0 < cross s.s1 s.s2 T.p2) (hA : cross T.p0 T.p1 T.p2 ≠ 0) :
    tri_seg_exact T s = false := by
  have a1 : in_triangle T s.s1 = false :=
    in_triangle_of_left T s.s1 s.s2 s.s1 h0 h1 h2 hA (by unfold cross; ring)
  have a2 : in_triangle T s.s2 = false :=
    in_triangle_of_left T s.s1 s.s2 s.s2 h0 h1 h2 hA (by unfold cross; ring)
  have b1 : seg_seg_exact ⟨T.p0, T.p1⟩ s = false :=
    seg_seg_exact_of_same_side _ _ (mul_pos h0 h1)
  have b2 : seg_seg_exact ⟨T.p1, T.p2⟩ s = false :=
    seg_seg_exact_of_same_side _ _ (mul_pos h1 h2)
  have b3 : seg_seg_exact ⟨T.p2, T.p0⟩ s = false :=
    seg_seg_exact_of_same_side _ _ (mul_pos h2 h0)
  simp [tri_seg_exact, sides, a1, a2, b1, b2, b3]

/-- A triangle meets a segment that one of its sides crosses. -/
theorem tri_seg_exact_of_side (T : Triangle α) (s : Segment α) (e : Segment α)
    (he : e ∈ sides T) (h : seg_seg_exact e s = true) : tri_seg_exact T s = true := by
  simp only [tri_seg_exact, Bool.or_eq_true, List.any_eq_true]
  exact Or.inr ⟨e, he, h⟩

/-- A triangle meets every triangle that contains its first corner, itself included. -/
theorem in_triangle_corner (T : Triangle α) : in_triangle T T.p0 = true := by
  have e1 : cross T.p0 T.p1 T.p0 = 0 := by unfold cross; ring
  have e3 : cross T.p2 T.p0 T.p0 = 0 := by unfold cross; ring
  simp only [in_triangle, e1, e3, le_refl, decide_True, Bool.true_and, Bool.and_true,
    Bool.or_eq_true, decide_eq_true_eq]
  exact le_total _ _

theorem tri_tri_exact_self (T : Triangle α) : tri_tri_exact T T = true := by
  simp [tri_tri_exact, in_triangle_corner]

end Geometry2

section Worked

theorem range_three : List.range 3 = [0, 1, 2] := rfl
theorem range_four : List.range 4 = [0, 1, 2, 3] := rfl
theorem range_one : List.range 1 = [0] := rfl

theorem triangle_low : create_triangle realExt tile_low.position tile_low.angle =
    ⟨⟨-(Real.sqrt 3 / 2), 1⟩, ⟨0, -(1 / 2)⟩, ⟨Real.sqrt 3 / 2, 1⟩⟩ := by
  simp only [create_triangle, tile_low, Point.add, zero_sub, zero_add, sin_deg_neg, cos_deg_neg,
    sin_deg_60, cos_deg_60, sin_deg_180, cos_deg_180]
  norm_num

theorem triangle_mid : create_triangle realExt tile_mid.position tile_mid.angle =
    ⟨⟨-(Real.sqrt 3 / 2), 11 / 2⟩, ⟨0, 4⟩, ⟨Real.sqrt 3 / 2, 11 / 2⟩⟩ := by
  simp only [create_triangle, tile_mid, Point.add, zero_sub, zero_add, sin_deg_neg, cos_deg_neg,
    sin_deg_60, cos_deg_60, sin_deg_180, cos_deg_180]
  norm_num

theorem edges_low : (List.range square.length).filter (edge_overlaps realExt square tile_low) =
    [0] := by
  have h2 := sqrt3_lower
  have h3 := sqrt3_upper
  have e0 : edge_overlaps realExt square tile_low 0 = true := by
    unfold edge_overlaps intersect_each_segment
    rw [triangle_low]
    refine tri_seg_exact_of_side _ _ ⟨⟨-(Real.sqrt 3 / 2), 1⟩, ⟨0, -(1 / 2)⟩⟩ (by simp [sides]) ?_
    apply seg_seg_exact_of_crossing
    · left
      simp only [cross, square, vertex_at, create_segment, List.getD_cons_zero,
        List.getD_cons_succ, List.length_cons, List.length_nil]
      constructor <;> norm_num
    · right
      simp only [cross, square, vertex_at, create_segment, List.getD_cons_zero,
        List.getD_cons_succ, List.length_cons, List.length_nil]
      constructor <;> norm_num <;> linarith
  have e1 : edge_overlaps realExt square tile_low 1 = false := by
    unfold edge_overlaps intersect_each_segment
    rw [triangle_low]
    apply tri_seg_exact_of_left <;>
      simp only [cross, square, vertex_at, create_segment, List.getD_cons_zero,
        List.getD_cons_succ, List.length_cons, List.length_nil] <;> norm_num <;> linarith
  have e2 : edge_overlaps realExt square tile_low 2 = false := by
    unfold edge_overlaps intersect_each_segment
    rw [triangle_low]
    apply tri_seg_exact_of_left <;>
      simp only [cross, square, vertex_at, create_segment, List.getD_cons_zero,
        List.getD_cons_succ, List.length_cons, List.length_nil] <;> norm_num
  have e3 : edge_overlaps realExt square tile_low 3 = false := by
    unfold edge_overlaps intersect_each_segment
    rw [triangle_low]
    apply tri_seg_exact_of_left <;>
      simp only [cross, square, vertex_at, create_segment, List.getD_cons_zero,
        List.getD_cons_succ, List.length_cons, List.length_nil] <;> norm_num <;> linarith
  have hl : square.length = 4 := rfl
  rw [hl, range_four]
  simp [List.filter, e0, e1, e2, e3]

theorem edges_mid : (List.range square.length).filter (edge_overlaps realExt square tile_mid) =
    [] := by
  have h2 := sqrt3_lower
  have h3 := sqrt3_upper
  have e0 : edge_overlaps realExt square tile_mid 0 = false := by
    unfold edge_overlaps intersect_each_segment
    rw [triangle_mid]
    apply tri_seg_exact_of_left <;>
      simp only [cross, square, vertex_at, create_segment, List.getD_cons_zero,
        List.getD_cons_succ, List.length_cons, List.length_nil] <;> norm_num
  have e1 : edge_overlaps realExt square tile_mid 1 = false := by
    unfold edge_overlaps intersect_each_segment
    rw [triangle_mid]
    apply tri_seg_exact_of_left <;>
      simp only [cross, square, vertex_at, create_segment, List.getD_cons_zero,
        List.getD_cons_succ, List.length_cons, List.length_nil] <;> norm_num <;> linarith
  have e2 : edge_overlaps realExt square tile_mid 2 = false := by
    unfold edge_overlaps intersect_each_segment
    rw [triangle_mid]
    apply tri_seg_exact_of_left <;>
      simp only [cross, square, vertex_at, create_segment, List.getD_cons_zero,
        List.getD_cons_succ, List.length_cons, List.length_nil] <;> norm_num
  have e3 : edge_overlaps realExt square tile_mid 3 = false := by
    unfold edge_overlaps intersect_each_segment
    rw [triangle_mid]
    apply tri_seg_exact_of_left <;>
      simp only [cross, square, vertex_at, create_segment, List.getD_cons_zero,
        List.getD_cons_succ, List.length_cons, List.length_nil] <;> norm_num <;> linarith
  have hl : square.length = 4 := rfl
  rw [hl, range_four]
  simp [List.filter, e0, e1, e2, e3]

/-- With a single tile the first loop finds no neighbour and no tile overlap; only the
edges are tested. -/
theorem scan_tiles_single {α : Type} [LinearOrderedField α] (X : Ext α)
    (poly : List (Point α)) (b : Body α) :
    scan_tiles X poly [b] = .ok
      [Row.mk [-1, -1, -1] [] ((List.range poly.length).filter (edge_overlaps X poly b))] := by
  rfl

end Worked

section WorkedEdge

theorem real_sqrt_eq (x y : ℝ) (hy : 0 ≤ y) (h : y * y = x) : realExt.sqrt x = y := by
  rw [← h]
  exact Real.sqrt_mul_self hy

theorem real_length_far (p : Point ℝ) (h : 1 ≤ p.x * p.x + p.y * p.y) :
    ¬ (p.Length realExt < ZERO) := by
  unfold Point.Length ZERO
  have : (1 : ℝ) ≤ Real.sqrt (p.x * p.x + p.y * p.y) := by
    rw [show (1 : ℝ) = Real.sqrt 1 by simp]
    exact Real.sqrt_le_sqrt h
  show ¬ (Real.sqrt (p.x * p.x + p.y * p.y) < 1 / 1000000000)
  linarith

/-- The distance from the lower edge of `square`. -/
theorem distance_low (p : Point ℝ) : distance_to_line realExt p ⟨-5, 0⟩ ⟨5, 0⟩ = |p.y| := by
  unfold distance_to_line Point.Length
  simp only [Point.sub]
  rw [real_sqrt_eq _ 10 (by norm_num) (by norm_num)]
  rw [show (-5 - 5 : ℝ) * (p.y - 0) - (0 - 0) * (p.x - 5) = -10 * p.y by ring, abs_mul]
  norm_num

theorem box_side_step_miss {α : Type} [LinearOrderedField α] (X : Ext α) (u v t1 t2 : Point α)
    (acc : SideAcc α) (bm : Point α × Point α)
    (h : X.seg_seg (create_segment t1 t2) (create_segment bm.1 bm.2) = false) :
    box_side_step X u v t1 t2 acc bm = acc := by
  unfold box_side_step
  simp [h]

theorem box_side_step_hit {α : Type} [LinearOrderedField α] (X : Ext α) (u v t1 t2 : Point α)
    (acc : SideAcc α) (bm : Point α × Point α) (ix iy : α)
    (h : X.seg_seg (create_segment t1 t2) (create_segment bm.1 bm.2) = true)
    (hx : ((-(t2.sub t1).x) * (-(bm.2.sub bm.1).y * bm.1.x - (-(bm.2.sub bm.1).x) * bm.1.y) -
      (-(t2.sub t1).y * t1.x - (-(t2.sub t1).x) * t1.y) * (-(bm.2.sub bm.1).x)) /
      ((t2.sub t1).y * (-(bm.2.sub bm.1).x) - (bm.2.sub bm.1).y * (-(t2.sub t1).x)) = ix)
    (hy : ((-(t2.sub t1).y * t1.x - (-(t2.sub t1).x) * t1.y) * (bm.2.sub bm.1).y -
      (t2.sub t1).y * (-(bm.2.sub bm.1).y * bm.1.x - (-(bm.2.sub bm.1).x) * bm.1.y)) /
      ((t2.sub t1).y * (-(bm.2.sub bm.1).x) - (bm.2.sub bm.1).y * (-(t2.sub t1).x)) = iy)
    (hu : ¬ ((u.sub ⟨ix, iy⟩).Length X < ZERO)) (hv : ¬ ((v.sub ⟨ix, iy⟩).Length X < ZERO)) :
    box_side_step X u v t1 t2 acc bm =
      { acc with intersect_num := acc.intersect_num + 1
                 intersect_points := acc.intersect_points ++ [⟨ix, iy⟩] } := by
  unfold box_side_step
  simp only [h, if_true]
  rw [hx, hy]
  simp [hu, hv]

end WorkedEdge

section WorkedSides

/-- The sides of the box below the lower edge of `square`. -/
theorem box_low : [((⟨-5, 0⟩ : Point ℝ), (⟨5, 0⟩ : Point ℝ)),
      (⟨-5, 0⟩, (⟨-5, 0⟩ : Point ℝ).sub ⟨0, 4⟩), (⟨5, 0⟩, (⟨5, 0⟩ : Point ℝ).sub ⟨0, 4⟩)] =
    [(⟨-5, 0⟩, ⟨5, 0⟩), (⟨-5, 0⟩, ⟨-5, -4⟩), (⟨5, 0⟩, ⟨5, -4⟩)] := by
  simp only [Point.sub]
  norm_num

theorem side_low_1 (pts : List (Point ℝ)) :
    triangle_side_step realExt tile_low ⟨-5, 0⟩ ⟨5, 0⟩
      [(⟨-5, 0⟩, ⟨5, 0⟩), (⟨-5, 0⟩, ⟨-5, -4⟩), (⟨5, 0⟩, ⟨5, -4⟩)] pts 1 =
    pts ++ [⟨Real.sqrt 3 / 6, 0⟩, ⟨0, -(1 / 2)⟩] := by
  have h2 := sqrt3_lower
  have h3 := sqrt3_upper
  have ht1 : tile_low.position.add
      ⟨realExt.sin (to_rad realExt (to_deg realExt tile_low.angle + 120 * ((1 : ℕ) : ℝ) - 60)),
       realExt.cos (to_rad realExt (to_deg realExt tile_low.angle + 120 * ((1 : ℕ) : ℝ) - 60))⟩ =
      ⟨Real.sqrt 3 / 2, 1⟩ := by
    simp only [tile_low, to_deg_zero, Point.add]
    norm_num [sin_deg_60, cos_deg_60]
  have ht2 : tile_low.position.add
      ⟨realExt.sin (to_rad realExt (to_deg realExt tile_low.angle + 120 * ((1 : ℕ) : ℝ) + 60)),
       realExt.cos (to_rad realExt (to_deg realExt tile_low.angle + 120 * ((1 : ℕ) : ℝ) + 60))⟩ =
      ⟨0, -(1 / 2)⟩ := by
    simp only [tile_low, to_deg_zero, Point.add]
    norm_num [sin_deg_180, cos_deg_180]
  have s0 : box_side_step realExt ⟨-5, 0⟩ ⟨5, 0⟩ ⟨Real.sqrt 3 / 2, 1⟩ ⟨0, -(1 / 2)⟩
      ⟨0, false, false, pts⟩ (⟨-5, 0⟩, ⟨5, 0⟩) =
      ⟨1, false, false, pts ++ [⟨Real.sqrt 3 / 6, 0⟩]⟩ := by
    rw [box_side_step_hit realExt _ _ _ _ _ _ (Real.sqrt 3 / 6) 0]
    · simp
    · show seg_seg_exact _ _ = true
      apply seg_seg_exact_of_crossing
      · left
        simp only [cross, create_segment]
        constructor <;> norm_num
      · right
        simp only [cross, create_segment]
        constructor <;> norm_num <;> linarith
    · simp only [Point.sub]
      field_simp
      ring
    · simp only [Point.sub]
      norm_num
    · apply real_length_far
      simp only [Point.sub]
      nlinarith
    · apply real_length_far
      simp only [Point.sub]
      nlinarith
  have s1 : box_side_step realExt ⟨-5, 0⟩ ⟨5, 0⟩ ⟨Real.sqrt 3 / 2, 1⟩ ⟨0, -(1 / 2)⟩
      ⟨1, false, false, pts ++ [⟨Real.sqrt 3 / 6, 0⟩]⟩ (⟨-5, 0⟩, ⟨-5, -4⟩) =
      ⟨1, false, false, pts ++ [⟨Real.sqrt 3 / 6, 0⟩]⟩ := by
    apply box_side_step_miss
    show seg_seg_exact _ _ = false
    apply seg_seg_exact_of_same_side
    simp only [cross, create_segment]
    norm_num
    linarith
  have s2 : box_side_step realExt ⟨-5, 0⟩ ⟨5, 0⟩ ⟨Real.sqrt 3 / 2, 1⟩ ⟨0, -(1 / 2)⟩
      ⟨1, false, false, pts ++ [⟨Real.sqrt 3 / 6, 0⟩]⟩ (⟨5, 0⟩, ⟨5, -4⟩) =
      ⟨1, false, false, pts ++ [⟨Real.sqrt 3 / 6, 0⟩]⟩ := by
    apply box_side_step_miss
    show seg_seg_exact _ _ = false
    apply seg_seg_exact_of_same_side
    simp only [cross, create_segment]
    norm_num
    linarith
  unfold triangle_side_step
  simp only [ht1, ht2, List.foldl, s0, s1, s2]
  simp only [Point.sub]
  norm_num

theorem side_low_0 (pts : List (Point ℝ)) :
    triangle_side_step realExt tile_low ⟨-5, 0⟩ ⟨5, 0⟩
      [(⟨-5, 0⟩, ⟨5, 0⟩), (⟨-5, 0⟩, ⟨-5, -4⟩), (⟨5, 0⟩, ⟨5, -4⟩)] pts 0 = pts := by
  have h2 := sqrt3_lower
  have h3 := sqrt3_upper
  have ht1 : tile_low.position.add
      ⟨realExt.sin (to_rad realExt (to_deg realExt tile_low.angle + 120 * ((0 : ℕ) : ℝ) - 60)),
       realExt.cos (to_rad realExt (to_deg realExt tile_low.angle + 120 * ((0 : ℕ) : ℝ) - 60))⟩ =
      ⟨-(Real.sqrt 3 / 2), 1⟩ := by
    simp only [tile_low, to_deg_zero, Point.add]
    norm_num [sin_deg_60, cos_deg_60, sin_deg_neg, cos_deg_neg]
  have ht2 : tile_low.position.add
      ⟨realExt.sin (to_rad realExt (to_deg realExt tile_low.angle + 120 * ((0 : ℕ) : ℝ) + 60)),
       realExt.cos (to_rad realExt (to_deg realExt tile_low.angle + 120 * ((0 : ℕ) : ℝ) + 60))⟩ =
      ⟨Real.sqrt 3 / 2, 1⟩ := by
    simp only [tile_low, to_deg_zero, Point.add]
    norm_num [sin_deg_60, cos_deg_60]
  have miss : ∀ (acc : SideAcc ℝ) (bm : Point ℝ × Point ℝ),
      bm ∈ [((⟨-5, 0⟩ : Point ℝ), (⟨5, 0⟩ : Point ℝ)), (⟨-5, 0⟩, ⟨-5, -4⟩), (⟨5, 0⟩, ⟨5, -4⟩)] →
      box_side_step realExt ⟨-5, 0⟩ ⟨5, 0⟩ ⟨-(Real.sqrt 3 / 2), 1⟩ ⟨Real.sqrt 3 / 2, 1⟩ acc bm =
        acc := by
    intro acc bm hbm
    apply box_side_step_miss
    show seg_seg_exact _ _ = false
    apply seg_seg_exact_of_same_side
    simp only [List.mem_cons, List.mem_singleton, List.not_mem_nil, or_false] at hbm
    rcases hbm with rfl | rfl | rfl <;> simp only [cross, create_segment] <;> norm_num <;>
      nlinarith
  unfold triangle_side_step
  simp only [ht1, ht2, List.foldl]
  rw [miss _ _ (by simp), miss _ _ (by simp), miss _ _ (by simp)]
  simp

theorem side_low_2 (pts : List (Point ℝ)) :
    triangle_side_step realExt tile_low ⟨-5, 0⟩ ⟨5, 0⟩
      [(⟨-5, 0⟩, ⟨5, 0⟩), (⟨-5, 0⟩, ⟨-5, -4⟩), (⟨5, 0⟩, ⟨5, -4⟩)] pts 2 =
    pts ++ [⟨-(Real.sqrt 3 / 6), 0⟩, ⟨0, -(1 / 2)⟩] := by
  have h2 := sqrt3_lower
  have h3 := sqrt3_upper
  have ht1 : tile_low.position.add
      ⟨realExt.sin (to_rad realExt (to_deg realExt tile_low.angle + 120 * ((2 : ℕ) : ℝ) - 60)),
       realExt.cos (to_rad realExt (to_deg realExt tile_low.angle + 120 * ((2 : ℕ) : ℝ) - 60))⟩ =
      ⟨0, -(1 / 2)⟩ := by
    simp only [tile_low, to_deg_zero, Point.add]
    norm_num [sin_deg_180, cos_deg_180]
  have ht2 : tile_low.position.add
      ⟨realExt.sin (to_rad realExt (to_deg realExt tile_low.angle + 120 * ((2 : ℕ) : ℝ) + 60)),
       realExt.cos (to_rad realExt (to_deg realExt tile_low.angle + 120 * ((2 : ℕ) : ℝ) + 60))⟩ =
      ⟨-(Real.sqrt 3 / 2), 1⟩ := by
    simp only [tile_low, to_deg_zero, Point.add]
    norm_num [sin_deg_300, cos_deg_300]
  have s0 : box_side_step realExt ⟨-5, 0⟩ ⟨5, 0⟩ ⟨0, -(1 / 2)⟩ ⟨-(Real.sqrt 3 / 2), 1⟩
      ⟨0, false, false, pts⟩ (⟨-5, 0⟩, ⟨5, 0⟩) =
      ⟨1, false, false, pts ++ [⟨-(Real.sqrt 3 / 6), 0⟩]⟩ := by
    rw [box_side_step_hit realExt _ _ _ _ _ _ (-(Real.sqrt 3 / 6)) 0]
    · simp
    · show seg_seg_exact _ _ = true
      apply seg_seg_exact_of_crossing
      · right
        simp only [cross, create_segment]
        constructor <;> norm_num
      · left
        simp only [cross, create_segment]
        constructor <;> norm_num <;> linarith
    · simp only [Point.sub]
      field_simp
      ring
    · simp only [Point.sub]
      norm_num
    · apply real_length_far
      simp only [Point.sub]
      nlinarith
    · apply real_length_far
      simp only [Point.sub]
      nlinarith
  have s1 : box_side_step realExt ⟨-5, 0⟩ ⟨5, 0⟩ ⟨0, -(1 / 2)⟩ ⟨-(Real.sqrt 3 / 2), 1⟩
      ⟨1, false, false, pts ++ [⟨-(Real.sqrt 3 / 6), 0⟩]⟩ (⟨-5, 0⟩, ⟨-5, -4⟩) =
      ⟨1, false, false, pts ++ [⟨-(Real.sqrt 3 / 6), 0⟩]⟩ := by
    apply box_side_step_miss
    show seg_seg_exact _ _ = false
    apply seg_seg_exact_of_same_side
    simp only [cross, create_segment]
    norm_num
    linarith
  have s2 : box_side_step realExt ⟨-5, 0⟩ ⟨5, 0⟩ ⟨0, -(1 / 2)⟩ ⟨-(Real.sqrt 3 / 2), 1⟩
      ⟨1, false, false, pts ++ [⟨-(Real.sqrt 3 / 6), 0⟩]⟩ (⟨5, 0⟩, ⟨5, -4⟩) =
      ⟨1, false, false, pts ++ [⟨-(Real.sqrt 3 / 6), 0⟩]⟩ := by
    apply box_side_step_miss
    show seg_seg_exact _ _ = false
    apply seg_seg_exact_of_same_side
    simp only [cross, create_segment]
    norm_num
    linarith
  unfold triangle_side_step
  simp only [ht1, ht2, List.foldl, s0, s1, s2]
  simp only [Point.sub]
  norm_num

end WorkedSides

section WorkedLocals

theorem real_atan2_zero (x : ℝ) (hx : 0 ≤ x) : realExt.atan2 0 x = 0 := by
  show Complex.arg ⟨x, 0⟩ = 0
  have : (⟨x, 0⟩ : ℂ) = ((x : ℝ) : ℂ) := by
    apply Complex.ext <;> simp
  rw [this]
  exact Complex.arg_ofReal_of_nonneg hx

theorem normalize_angle_of_le {α : Type} [LinearOrderedField α] [FloorRing α] (a : α)
    (h : |a| ≤ 180) : normalize_angle a = a :=
  normalize_angle_loop_of_le _ _ h

theorem normal_low : Point.smul 4 (Point.Normalize realExt (⟨0 - 0, 5 - -5⟩ : Point ℝ)).2 =
    ⟨0, 4⟩ := by
  have hl : Point.Length realExt (⟨0 - 0, 5 - -5⟩ : Point ℝ) = 10 := by
    unfold Point.Length
    exact real_sqrt_eq _ 10 (by norm_num) (by norm_num)
  unfold Point.Normalize
  simp only [hl]
  have : ¬ ((10 : ℝ) < realExt.b2_epsilon) := by
    show ¬ ((10 : ℝ) < 1 / 8388608)
    norm_num
  simp only [this, if_false, Point.smul]
  norm_num

theorem normal_low_unit : Point.Normalize realExt (⟨0, 4⟩ : Point ℝ) = (4, ⟨0, 1⟩) := by
  have hl : Point.Length realExt (⟨0, 4⟩ : Point ℝ) = 4 := by
    unfold Point.Length
    exact real_sqrt_eq _ 4 (by norm_num) (by norm_num)
  unfold Point.Normalize
  simp only [hl]
  have : ¬ ((4 : ℝ) < realExt.b2_epsilon) := by
    show ¬ ((4 : ℝ) < 1 / 8388608)
    norm_num
  simp only [this, if_false]
  norm_num

theorem nearest_sector_low : nearest_sector realExt tile_low ⟨-5, 0⟩ ⟨5, 0⟩ = (1, 1 / 4) := by
  unfold nearest_sector
  simp only [range_three, List.foldl, distance_low, tile_low, to_deg_zero, Point.add, Point.smul]
  have a4 : |(1 / 4 : ℝ)| = 1 / 4 := abs_of_pos (by norm_num)
  norm_num [sin_deg_0, cos_deg_0, sin_deg_120, cos_deg_120, sin_deg_240, cos_deg_240, INT_MAX, a4]

theorem edge_locals_low : edge_locals realExt square tile_low 0 =
    { dis := 1 / 2, n := ⟨0, 4⟩, k := 1, min_dist := 1 / 4, ang_diff := 60,
      intersect_points := [⟨Real.sqrt 3 / 6, 0⟩, ⟨0, -(1 / 2)⟩, ⟨-(Real.sqrt 3 / 6), 0⟩,
        ⟨0, -(1 / 2)⟩],
      max_dis := 1 / 2, min_distance := 1, kn := -3 } := by
  have hu : vertex_at square 0 = ⟨-5, 0⟩ := rfl
  have hv : vertex_at square ((0 + 1) % square.length) = ⟨5, 0⟩ := rfl
  have hang : angle_diff (to_deg realExt tile_low.angle + (((1 : ℤ) : ℝ)) * 120)
      (180 - to_deg realExt (realExt.atan2 ((0 : ℝ) - 0) (5 - -5))) = 60 := by
    rw [sub_zero, real_atan2_zero _ (by norm_num)]
    simp only [tile_low, to_deg_zero, angle_diff]
    rw [normalize_angle_of_le _ (by norm_num [abs_le])]
    norm_num
  unfold edge_locals
  simp only [hu, hv, nearest_sector_low, normal_low, box_low, range_three, List.foldl,
    side_low_0, side_low_1, side_low_2, distance_low, List.nil_append, List.cons_append]
  have hdis : |tile_low.position.y| = 1 / 2 := by
    simp only [tile_low]
    exact abs_of_pos (by norm_num)
  have hmax : (0 : ℝ) ⊔ |0| ⊔ |(-(1 / 2) : ℝ)| ⊔ |0| ⊔ |(-(1 / 2) : ℝ)| = 1 / 2 := by
    rw [abs_zero, abs_neg, abs_of_pos (by norm_num : (0 : ℝ) < 1 / 2)]
    norm_num
  rw [hang, hdis, hmax]
  norm_num

end WorkedLocals

section WorkedStep

/-- A tile without neighbours passes the neighbour loop untouched. -/
theorem neighbour_loop_none {α : Type} [LinearOrderedField α] [FloorRing α] (X : Ext α)
    (points : List (Body α)) (i : Nat) (acc : TileAcc α) :
    (List.range 3).foldlM (neighbour_step X points i [-1, -1, -1]) acc = .ok acc := by
  rfl

/-- The forces on `tile_low` in `square`: only the lower edge acts. -/
theorem forces_low :
    forces realExt square [tile_low] [Row.mk [-1, -1, -1] [] [0]] =
      .ok ⟨1 / 2, 1, [⟨⟨0, 3⟩, 60, 4097, 1 / 2, 1, 0, -(1 / 2)⟩]⟩ := by
  have hb : body_at [tile_low] 0 = tile_low := rfl
  have hedge : ∀ acc : TileAcc ℝ, edge_step realExt square [tile_low] 0 acc 0 =
      .ok { force := acc.force.sub (Point.smul (4097 * -3) ⟨0, 1⟩)
            angle := acc.angle + 60 * 4097
            weight_sum := acc.weight_sum + 4097
            K := min acc.K (1 / 2)
            rank_count := acc.rank_count
            rank_score := acc.rank_score - 1 / 2
            E := acc.E + 1 } := by
    intro acc
    unfold edge_step
    simp only [hb, edge_locals_low, normal_low_unit, calc_weight, ZERO]
    norm_num
  have htile : tile_forces realExt square [tile_low] (Row.mk [-1, -1, -1] [] [0]) 0 1 0 =
      .ok ⟨⟨0, 3⟩, 60, 4097, 1 / 2, 1, 0, -(1 / 2)⟩ := by
    unfold tile_forces
    dsimp only
    rw [neighbour_loop_none]
    simp only [List.foldlM, bind, Except.bind, pure, Except.pure, hedge, normalize_by_weight,
      ZERO, Point.sub, Point.smul]
    norm_num
  unfold forces
  simp only [List.length_singleton, range_one, List.foldlM, forces_step, bind, Except.bind,
    pure, Except.pure, List.getD_cons_zero, htile, List.nil_append]

theorem step_low_stalled :
    calc_next_step realExt square stalled [tile_low] 0 = .ok result_low_stalled := by
  unfold result_low_stalled tile_low_pushed calc_next_step
  rw [scan_tiles_single, edges_low]
  simp only [forces_low, finish]
  unfold track
  simp only [stalled, del_rank_of, List.enum, List.enumFrom, List.map, sort_del_rank,
    List.insertionSort, List.orderedInsert, List.foldl, find_del, List.find?, List.length_singleton]
  have hdec : decide (|(0 + -(1 / 2 : ℝ)) / ((1 : ℕ) : ℝ)| ≤ |(-(1 / 2) : ℝ)|) = true := by
    simp
  have hexp : ¬ (realExt.exp (1 - 1 / 2 / (1 / 2)) < ((0 : ℕ) : ℝ) / (realExt.RAND_MAX : ℝ)) := by
    have := Real.exp_pos (1 - 1 / 2 / (1 / 2))
    simp only [Nat.cast_zero, zero_div, not_lt]
    exact this.le
  have hset : set_velocities realExt [tile_low]
      [⟨⟨0, 3⟩, 60, 4097, 1 / 2, 1, 0, -(1 / 2)⟩] =
      [{ tile_low with linearVelocity := ⟨0, 3⟩, angularVelocity := to_rad realExt 60 }] := rfl
  simp only [hdec, hexp, hset, if_false]
  unfold remove_or_keep removal_gate
  simp only [zero_velocities, body_at]
  norm_num

end WorkedStep

section WorkedStep2

theorem step_low_initial :
    calc_next_step realExt square Globals.initial [tile_low] 0 = .ok result_low_initial := by
  unfold result_low_initial tile_low_pushed calc_next_step
  rw [scan_tiles_single, edges_low]
  simp only [forces_low, finish]
  unfold track
  simp only [Globals.initial, del_rank_of, List.enum, List.enumFrom, List.map, sort_del_rank,
    List.insertionSort, List.orderedInsert, List.foldl, find_del, List.find?, List.length_singleton]
  have hdec : decide (|(0 + -(1 / 2 : ℝ)) / ((1 : ℕ) : ℝ)| ≤ |(-(1 / 2) : ℝ)|) = true := by
    simp
  have hexp : ¬ (realExt.exp (1 - 1 / 2 / ((INT_MAX : ℤ) : ℝ)) <
      ((0 : ℕ) : ℝ) / (realExt.RAND_MAX : ℝ)) := by
    have := Real.exp_pos (1 - 1 / 2 / ((INT_MAX : ℤ) : ℝ))
    simp only [Nat.cast_zero, zero_div, not_lt]
    exact this.le
  have hset : set_velocities realExt [tile_low]
      [⟨⟨0, 3⟩, 60, 4097, 1 / 2, 1, 0, -(1 / 2)⟩] =
      [{ tile_low with linearVelocity := ⟨0, 3⟩, angularVelocity := to_rad realExt 60 }] := rfl
  simp only [hdec, hexp, hset, if_false]
  unfold remove_or_keep removal_gate
  norm_num [INT_MAX]

/-- The forces on `tile_mid` in `square`: nothing acts. -/
theorem forces_mid :
    forces realExt square [tile_mid] [Row.mk [-1, -1, -1] [] []] =
      .ok ⟨1, 0, [⟨⟨0, 0⟩, 0, 0, 1, 0, 0, 0⟩]⟩ := by
  have htile : tile_forces realExt square [tile_mid] (Row.mk [-1, -1, -1] [] []) 0 1 0 =
      .ok ⟨⟨0, 0⟩, 0, 0, 1, 0, 0, 0⟩ := by
    unfold tile_forces
    dsimp only
    rw [neighbour_loop_none]
    simp only [List.foldlM, bind, Except.bind, pure, Except.pure, normalize_by_weight, ZERO]
    norm_num
  unfold forces
  simp only [List.length_singleton, range_one, List.foldlM, forces_step, bind, Except.bind,
    pure, Except.pure, List.getD_cons_zero, htile, List.nil_append]

theorem step_mid_initial :
    calc_next_step realExt square Globals.initial [tile_mid] 0 = .ok result_mid_initial := by
  unfold result_mid_initial calc_next_step
  rw [scan_tiles_single, edges_mid]
  simp only [forces_mid, finish]
  unfold track
  simp only [Globals.initial, del_rank_of, List.enum, List.enumFrom, List.map, sort_del_rank,
    List.insertionSort, List.orderedInsert, List.foldl, find_del, List.find?, List.length_singleton]
  have hdec : decide (|(0 + (0 : ℝ)) / ((1 : ℕ) : ℝ)| ≤ |(0 : ℝ)|) = true := by
    simp
  have hexp : ¬ (realExt.exp (1 - 0 / 2 / ((INT_MAX : ℤ) : ℝ)) <
      ((0 : ℕ) : ℝ) / (realExt.RAND_MAX : ℝ)) := by
    have := Real.exp_pos (1 - 0 / 2 / ((INT_MAX : ℤ) : ℝ))
    rw [not_lt, Nat.cast_zero, zero_div (realExt.RAND_MAX : ℝ)]
    exact this.le
  have hset : set_velocities realExt [tile_mid] [⟨⟨0, 0⟩, 0, 0, 1, 0, 0, 0⟩] = [tile_mid] := by
    simp [set_velocities, range_one, body_at, tile_mid, to_rad]
  simp only [hdec, hexp, hset, if_false]
  unfold remove_or_keep removal_gate
  norm_num [INT_MAX]

end WorkedStep2

section TailLemmas

variable {α : Type} [LinearOrderedField α]

theorem forces_fold_length [FloorRing α] (X : Ext α) (poly : List (Point α))
    (points : List (Body α)) (rows : List Row) :
    ∀ (l : List Nat) (s s' : Forces α),
      l.foldlM (forces_step X poly points rows) s = .ok s' →
      s'.tiles.length = s.tiles.length + l.length := by
  intro l
  induction l with
  | nil =>
    intro s s' h
    simp only [List.foldlM, pure, Except.pure] at h
    cases h
    simp
  | cons b l ih =>
    intro s s' h
    simp only [List.foldlM, bind, Except.bind] at h
    cases hb : forces_step X poly points rows s b with
    | error e => rw [hb] at h; cases h
    | ok s1 =>
      rw [hb] at h
      have h1 := ih s1 s' h
      unfold forces_step at hb
      split at hb
      · cases hb
      · cases hb
        simp only [List.length_append, List.length_singleton] at h1
        simp only [List.length_cons]
        omega

/-- Lines 220-393 leave one entry per tile. -/
theorem forces_tiles_length [FloorRing α] (X : Ext α) (poly : List (Point α))
    (points : List (Body α)) (rows : List Row) (f : Forces α)
    (h : forces X poly points rows = .ok f) : f.tiles.length = points.length := by
  unfold forces at h
  have := forces_fold_length X poly points rows _ _ _ h
  simpa using this

/-- After line 414 the first field of `pre_del` is `del`. -/
theorem track_pre_del (X : Ext α) (g : Globals α) (points : List (Body α)) (f : Forces α)
    (rnd : Nat) : (track X g points f rnd).pre_del.1 = (track X g points f rnd).del := by
  unfold track
  dsimp only
  split
  · rename_i h
    exact h
  · rfl

/-- With no tile there is no deletion candidate. -/
theorem track_del_nil (X : Ext α) (g : Globals α) (points : List (Body α)) (f : Forces α)
    (rnd : Nat) (h : f.tiles = []) : (track X g points f rnd).del = -1 := by
  unfold track
  simp [h, del_rank_of, sort_del_rank, find_del, List.enum]

/-- With one tile the deletion candidate is that tile. -/
theorem track_del_single (X : Ext α) (g : Globals α) (points : List (Body α)) (f : Forces α)
    (rnd : Nat) (a : TileAcc α) (h : f.tiles = [a]) : (track X g points f rnd).del = 0 := by
  unfold track
  simp [h, del_rank_of, sort_del_rank, find_del, List.enum, List.enumFrom]

theorem track_fields (X : Ext α) (g : Globals α) (points : List (Body α)) (f : Forces α)
    (rnd : Nat) :
    (track X g points f rnd).K = f.K ∧ (track X g points f rnd).E = f.E / 2 ∧
    (track X g points f rnd).min_t = (if f.E / 2 < g.min_E then 0 else g.min_t + 1) ∧
    (track X g points f rnd).min_E = min g.min_E (f.E / 2) ∧
    g.pause_time ≤ (track X g points f rnd).pause_time ∧
    (track X g points f rnd).pause_time ≤ g.pause_time + 1 := by
  unfold track
  dsimp only
  refine ⟨rfl, rfl, rfl, rfl, ?_, ?_⟩ <;> split <;> omega

end TailLemmas

section Claims

variable {α : Type} [LinearOrderedField α]

/-- What a returning call leaves behind, in terms of the test of line 437. -/
theorem step_outcome [FloorRing α] (X : Ext α) (poly : List (Point α)) (g : Globals α)
    (points : List (Body α)) (rnd : Nat) (r : StepResult α)
    (h : calc_next_step X poly g points rnd = .ok r) :
    ∃ f : Forces α, f.tiles.length = points.length ∧ f.K ≤ 1 ∧ 0 ≤ f.E ∧
      r.globals.K = f.K ∧ r.globals.E = f.E / 2 ∧
      r = remove_or_keep (track X g points f rnd) := by
  obtain ⟨rows, f, _, hf, hr⟩ := calc_next_step_ok X poly g points rnd r h
  have hb := forces_bounds X poly points rows f hf
  have hK := (remove_or_keep_K_E (track X g points f rnd)).1
  have hE := (remove_or_keep_K_E (track X g points f rnd)).2
  rw [← hr] at hK hE
  exact ⟨f, forces_tiles_length X poly points rows f hf, hb.1, hb.2,
    hK.trans (track_fields X g points f rnd).1, hE.trans (track_fields X g points f rnd).2.1, hr⟩

/-- C1: a call of `calc_next_step` that returns leaves the vector `points` with the same
number of tiles (no body destroyed) or with exactly one tile less (one body destroyed),
for every polygon and every value of the globals. -/
theorem tile_count_step [FloorRing α] (X : Ext α) (poly : List (Point α)) (g : Globals α)
    (points : List (Body α)) (rnd : Nat) (r : StepResult α)
    (h : calc_next_step X poly g points rnd = .ok r) :
    (r.destroyed = none ∧ r.points.length = points.length) ∨
    (r.destroyed ≠ none ∧ r.points.length + 1 = points.length) := by
  obtain ⟨f, hlen, -, -, -, -, hr⟩ := step_outcome X poly g points rnd r h
  rcases remove_or_keep_cases (track X g points f rnd) with
    ⟨hg, hd, hl, -⟩ | ⟨-, hd, hp, -⟩
  · right
    rw [← hr] at hd hl
    refine ⟨by rw [hd]; simp, ?_⟩
    rw [hl, length_track_points]
    have hne : f.tiles ≠ [] := by
      intro hnil
      have hdel := track_del_nil X g points f rnd hnil
      have hpre := track_pre_del X g points f rnd
      simp only [removal_gate, Bool.and_eq_true, decide_eq_true_eq] at hg
      exact hg.1.1 (hpre.trans hdel)
    have : 0 < f.tiles.length := List.length_pos.mpr hne
    omega
  · left
    rw [← hr] at hd hp
    exact ⟨hd, by rw [hp, length_track_points]⟩

/-- C2: whenever the quality signal `K` computed by the step is at least 0.85, no body
is destroyed and `points` holds the same bodies with the same poses in the same slots,
whatever the pause accumulator, `min_t` and the deletion candidate are. -/
theorem no_removal_above_gate [FloorRing α] (X : Ext α) (poly : List (Point α))
    (g : Globals α) (points : List (Body α)) (rnd : Nat) (r : StepResult α)
    (h : calc_next_step X poly g points rnd = .ok r) (hK : 85 / 100 ≤ r.globals.K) :
    r.destroyed = none ∧ r.points.map Body.pose = points.map Body.pose := by
  obtain ⟨f, -, -, -, hfK, -, hr⟩ := step_outcome X poly g points rnd r h
  rcases remove_or_keep_cases (track X g points f rnd) with
    ⟨hg, -⟩ | ⟨-, hd, hp, -⟩
  · have := removal_gate_K _ _ _ _ _ hg
    rw [(track_fields X g points f rnd).1, ← hfK] at this
    exact absurd hK (not_le.mpr this)
  · rw [← hr] at hd hp
    exact ⟨hd, by rw [hp, pose_track_points]⟩

/-- C4: after a call that returns, `E ≥ 0`; and `E = 0` when the first loop recorded no
tile overlap and no edge overlap for any tile. -/
theorem energy_nonneg [FloorRing α] (X : Ext α) (poly : List (Point α))
    (g : Globals α) (points : List (Body α)) (rnd : Nat) (r : StepResult α)
    (h : calc_next_step X poly g points rnd = .ok r) :
    0 ≤ r.globals.E ∧
    ∀ rows, scan_tiles X poly points = .ok rows →
      (∀ row ∈ rows, row.overlap_module = [] ∧ row.overlap_edge = []) → r.globals.E = 0 := by
  obtain ⟨rows, f, hrows, hf, hr⟩ := calc_next_step_ok X poly g points rnd r h
  have hE := (remove_or_keep_K_E (track X g points f rnd)).2
  rw [← hr, (track_fields X g points f rnd).2.1] at hE
  refine ⟨?_, ?_⟩
  · rw [hE]
    exact div_nonneg (forces_bounds X poly points rows f hf).2 (by norm_num)
  · intro rows' hrows' hempty
    rw [hrows] at hrows'
    cases hrows'
    rw [hE, (forces_no_overlap X poly points rows f hempty hf).2]
    simp

/-- C5: after a call that returns, `K ≤ 1`; and `K` depends on the tiles and the polygon
only: any other call on the same tiles and polygon, whatever its globals (the previous
`K` among them) and its random draw, ends with the same `K`. -/
theorem quality_fresh [FloorRing α] (X : Ext α) (poly : List (Point α))
    (g : Globals α) (points : List (Body α)) (rnd : Nat) (r : StepResult α)
    (h : calc_next_step X poly g points rnd = .ok r) :
    r.globals.K ≤ 1 ∧
    ∀ (g' : Globals α) (rnd' : Nat) (r' : StepResult α),
      calc_next_step X poly g' points rnd' = .ok r' → r'.globals.K = r.globals.K := by
  obtain ⟨rows, f, hrows, hf, hr⟩ := calc_next_step_ok X poly g points rnd r h
  have hK := (remove_or_keep_K_E (track X g points f rnd)).1
  rw [← hr, (track_fields X g points f rnd).1] at hK
  refine ⟨by rw [hK]; exact (forces_bounds X poly points rows f hf).1, ?_⟩
  intro g' rnd' r' h'
  obtain ⟨rows', f', hrows', hf', hr'⟩ := calc_next_step_ok X poly g' points rnd' r' h'
  rw [hrows] at hrows'
  cases hrows'
  rw [hf] at hf'
  cases hf'
  have hK' := (remove_or_keep_K_E (track X g' points f rnd')).1
  rw [← hr', (track_fields X g' points f rnd').1] at hK'
  rw [hK, hK']

/-- C10: in a step that destroys no body, with `E'` the halved energy of the step:
`min_t` becomes 0 if `E' < min_E` and `min_t + 1` otherwise, `min_E` becomes
`min(min_E, E')`, and so `min_E ≤ E'` afterwards. -/
theorem stagnation_update [FloorRing α] (X : Ext α) (poly : List (Point α))
    (g : Globals α) (points : List (Body α)) (rnd : Nat) (r : StepResult α)
    (h : calc_next_step X poly g points rnd = .ok r) (hno : r.destroyed = none) :
    r.globals.min_t = (if r.globals.E < g.min_E then 0 else g.min_t + 1) ∧
    r.globals.min_E = min g.min_E r.globals.E ∧
    r.globals.min_E ≤ r.globals.E := by
  obtain ⟨f, -, -, -, -, hfE, hr⟩ := step_outcome X poly g points rnd r h
  rcases remove_or_keep_cases (track X g points f rnd) with
    ⟨-, hd, -⟩ | ⟨-, -, -, ht, hm, -⟩
  · rw [← hr, hno] at hd
    cases hd
  · rw [← hr] at ht hm
    obtain ⟨-, -, t1, t2, -, -⟩ := track_fields X g points f rnd
    rw [ht, hm, t1, t2, hfE]
    exact ⟨rfl, rfl, min_le_right _ _⟩

end Claims

section OneTile

variable {α : Type} [LinearOrderedField α]

/-- For a single tile the test of line 437 is decided by `K`, the pause accumulator and
`min_t` alone: the tile itself is always the deletion candidate. -/
theorem single_tile_gate [FloorRing α] (X : Ext α) (g : Globals α) (b : Body α)
    (f : Forces α) (rnd : Nat) (hlen : f.tiles.length = 1) :
    removal_gate (track X g [b] f rnd).pre_del (track X g [b] f rnd).points.length
        (track X g [b] f rnd).pause_time (track X g [b] f rnd).min_t (track X g [b] f rnd).K =
      ((decide (1 < (track X g [b] f rnd).pause_time) ||
        decide (7200 < (track X g [b] f rnd).min_t)) && decide (f.K < 85 / 100)) := by
  obtain ⟨a, ha⟩ := List.length_eq_one.mp hlen
  have hdel := track_del_single X g [b] f rnd a ha
  have hpre := track_pre_del X g [b] f rnd
  rw [hdel] at hpre
  have hl := length_track_points X g [b] f rnd
  have hK := (track_fields X g [b] f rnd).1
  unfold removal_gate
  rw [hpre, hl, hK]
  simp only [List.length_singleton, Nat.cast_one, one_pow]
  have e1 : decide ((0 : Int) ≠ -1) = true := by decide
  have e2 : decide ((1 : α) < (((track X g [b] f rnd).pause_time : Int) : α)) =
      decide (1 < (track X g [b] f rnd).pause_time) := by
    congr 1
    rw [eq_iff_iff]
    exact_mod_cast Iff.rfl
  have e3 : decide ((120 : Int) * 60 < (track X g [b] f rnd).min_t) =
      decide (7200 < (track X g [b] f rnd).min_t) := by
    norm_num
  rw [e1, e2, e3, Bool.true_and]

/-- C3, amended: with exactly one tile, a call that returns keeps the tile (same body,
same pose) when no body is destroyed; a body is destroyed only with `K < 0.85` and a
pause accumulator of at least 1 or `min_t` of at least 7200 before the step; and with
`K < 0.85` and a pause accumulator of at least 2 (or `min_t` at least 7200 and the step
energy not below `min_E`) the only tile is destroyed and `points` is left empty. -/
theorem one_tile_step [FloorRing α] (X : Ext α) (poly : List (Point α)) (g : Globals α)
    (b : Body α) (rnd : Nat) (r : StepResult α)
    (h : calc_next_step X poly g [b] rnd = .ok r) :
    (r.destroyed = none → r.points.map Body.pose = [b.pose]) ∧
    (r.destroyed ≠ none →
      r.points = [] ∧ r.globals.K < 85 / 100 ∧ (1 ≤ g.pause_time ∨ 7200 ≤ g.min_t)) ∧
    (r.globals.K < 85 / 100 →
      (2 ≤ g.pause_time ∨ (7200 ≤ g.min_t ∧ g.min_E ≤ r.globals.E)) →
      r.points = [] ∧ r.destroyed ≠ none) := by
  obtain ⟨f, hlen, -, -, hfK, hfE, hr⟩ := step_outcome X poly g [b] rnd r h
  have hgate := single_tile_gate X g b f rnd (by simpa using hlen)
  obtain ⟨-, -, tmin, -, tp1, tp2⟩ := track_fields X g [b] f rnd
  have hl := length_track_points X g [b] f rnd
  have hempty : ∀ l : List (Body α), l.length = 1 - 1 → l = [] := by
    intro l hl0
    exact List.length_eq_zero.mp (by simpa using hl0)
  rcases remove_or_keep_cases (track X g [b] f rnd) with
    ⟨hg, hd, hlen', -⟩ | ⟨hg, hd, hp, -⟩
  · rw [← hr] at hd hlen'
    rw [hgate] at hg
    simp only [Bool.and_eq_true, Bool.or_eq_true, decide_eq_true_eq] at hg
    rw [hl] at hlen'
    have hnil : r.points = [] := hempty _ (by simpa using hlen')
    refine ⟨?_, ?_, ?_⟩
    · intro hno
      rw [hno] at hd
      cases hd
    · intro _
      refine ⟨hnil, by rw [hfK]; exact hg.2, ?_⟩
      rcases hg.1 with hp | ht
      · left; omega
      · right
        rw [tmin] at ht
        split at ht <;> omega
    · intro _ _
      exact ⟨hnil, by rw [hd]; simp⟩
  · rw [← hr] at hd hp
    rw [hgate] at hg
    refine ⟨?_, ?_, ?_⟩
    · intro _
      rw [hp, pose_track_points]
      rfl
    · intro hyes
      exact absurd hd hyes
    · intro hK hstate
      exfalso
      have hK' : decide (f.K < 85 / 100) = true := by
        rw [← hfK]
        simpa using hK
      rw [hK', Bool.and_true] at hg
      simp only [Bool.or_eq_false_iff, decide_eq_false_iff_not, not_lt] at hg
      rcases hstate with hp2 | ⟨ht, hE⟩
      · omega
      · have : ¬ (f.E / 2 < g.min_E) := by
          rw [← hfE]
          exact not_lt.mpr hE
        rw [tmin, if_neg this] at hg
        omega

end OneTile

section ClaimInstances

/-- C1 at the stalled single tile: one body destroyed, one tile less. -/
theorem tile_count_step_witness :
    calc_next_step realExt square stalled [tile_low] 0 = .ok result_low_stalled ∧
    ((result_low_stalled.destroyed = none ∧
        result_low_stalled.points.length = [tile_low].length) ∨
      (result_low_stalled.destroyed ≠ none ∧
        result_low_stalled.points.length + 1 = [tile_low].length)) :=
  ⟨step_low_stalled, tile_count_step realExt square stalled [tile_low] 0 result_low_stalled
    step_low_stalled⟩

/-- C2 at the tile in the middle of the square: `K = 1`, nothing is removed. -/
theorem no_removal_above_gate_witness :
    calc_next_step realExt square Globals.initial [tile_mid] 0 = .ok result_mid_initial ∧
    (85 / 100 : ℝ) ≤ result_mid_initial.globals.K ∧
    result_mid_initial.destroyed = none ∧
    result_mid_initial.points.map Body.pose = [tile_mid].map Body.pose :=
  ⟨step_mid_initial, by norm_num [result_mid_initial],
    no_removal_above_gate realExt square Globals.initial [tile_mid] 0 result_mid_initial
      step_mid_initial (by norm_num [result_mid_initial])⟩

/-- C3, as stated, fails: in `square`, after 7200 steps of stagnation, the step on the
single tile `tile_low` ends with `K = 1/2 < 0.85`, destroys the tile and leaves `points`
empty. -/
theorem one_tile_removed :
    calc_next_step realExt square stalled [tile_low] 0 = .ok result_low_stalled ∧
    [tile_low].length = 1 ∧ result_low_stalled.points = [] ∧
    result_low_stalled.destroyed = some tile_low_pushed ∧
    result_low_stalled.globals.K = 1 / 2 :=
  ⟨step_low_stalled, rfl, rfl, rfl, rfl⟩

/-- The amended C3 at the stalled single tile: the third case applies, the tile goes. -/
theorem one_tile_step_witness :
    calc_next_step realExt square stalled [tile_low] 0 = .ok result_low_stalled ∧
    (result_low_stalled.destroyed = none →
      result_low_stalled.points.map Body.pose = [tile_low.pose]) ∧
    (result_low_stalled.destroyed ≠ none →
      result_low_stalled.points = [] ∧ result_low_stalled.globals.K < 85 / 100 ∧
      (1 ≤ stalled.pause_time ∨ 7200 ≤ stalled.min_t)) ∧
    (result_low_stalled.globals.K < 85 / 100 →
      (2 ≤ stalled.pause_time ∨
        (7200 ≤ stalled.min_t ∧ stalled.min_E ≤ result_low_stalled.globals.E)) →
      result_low_stalled.points = [] ∧ result_low_stalled.destroyed ≠ none) :=
  ⟨step_low_stalled, one_tile_step realExt square stalled tile_low 0 result_low_stalled
    step_low_stalled⟩

/-- C4 at the tile in the middle of the square: no overlap, `E = 0`. -/
theorem energy_nonneg_witness :
    calc_next_step realExt square Globals.initial [tile_mid] 0 = .ok result_mid_initial ∧
    0 ≤ result_mid_initial.globals.E ∧
    ∀ rows, scan_tiles realExt square [tile_mid] = .ok rows →
      (∀ row ∈ rows, row.overlap_module = [] ∧ row.overlap_edge = []) →
      result_mid_initial.globals.E = 0 :=
  ⟨step_mid_initial, energy_nonneg realExt square Globals.initial [tile_mid] 0
    result_mid_initial step_mid_initial⟩

/-- C5 at the tile on the lower edge: `K = 1/2 ≤ 1`, whatever `K` was before. -/
theorem quality_fresh_witness :
    calc_next_step realExt square Globals.initial [tile_low] 0 = .ok result_low_initial ∧
    result_low_initial.globals.K ≤ 1 ∧
    ∀ (g' : Globals ℝ) (rnd' : Nat) (r' : StepResult ℝ),
      calc_next_step realExt square g' [tile_low] rnd' = .ok r' →
      r'.globals.K = result_low_initial.globals.K :=
  ⟨step_low_initial, quality_fresh realExt square Globals.initial [tile_low] 0
    result_low_initial step_low_initial⟩

/-- C10 at the tile on the lower edge, first step: `E' = 1/2 < INT_MAX`, so `min_t = 0`
and `min_E = 1/2`. -/
theorem stagnation_update_witness :
    calc_next_step realExt square Globals.initial [tile_low] 0 = .ok result_low_initial ∧
    result_low_initial.destroyed = none ∧
    result_low_initial.globals.min_t =
      (if result_low_initial.globals.E < (Globals.initial : Globals ℝ).min_E then 0
       else (Globals.initial : Globals ℝ).min_t + 1) ∧
    result_low_initial.globals.min_E =
      min (Globals.initial : Globals ℝ).min_E result_low_initial.globals.E ∧
    result_low_initial.globals.min_E ≤ result_low_initial.globals.E :=
  ⟨step_low_initial, rfl, stagnation_update realExt square Globals.initial [tile_low] 0
    result_low_initial step_low_initial rfl⟩

end ClaimInstances

section Coincident

variable {α : Type} [LinearOrderedField α]

/-- For a tile at distance 0 the first sector test of `calc_direction` holds (`0 ≤ 0`),
so sector 0 is returned. -/
theorem calc_direction_same (X : Ext α) (h0 : X.sqrt 0 = 0) (c : Point α) (arc : α) :
    calc_direction X c arc c = .ok 0 := by
  have ht : sector_test X 60 (c.sub c) arc 0 = true := by
    simp [sector_test, Point.sub, Point.Length, h0]
  unfold calc_direction
  simp [range_three, List.find?, ht]

/-- The locals of lines 238-257 for two tiles at the same place: `v` is the zero vector,
its length is 0, both projections are 0 (the assertion of line 256 holds), and so the
divisors `v.Length()` and `max(v_n_length, v_n2_length) / v.Length()` of line 253 and
the quotient `v.Length() / min_distance` that line 293 divides by are all 0 (the second
one being 0 / 0, which the field's division evaluates to 0). -/
theorem pair_locals_same [FloorRing α] (X : Ext α) (h0 : X.sqrt 0 = 0) (p1 p2 : Body α)
    (hp : p2.position = p1.position) (ak : α) (l : Nat) :
    (pair_locals X p1 p2 ak l).v = ⟨0, 0⟩ ∧
    (pair_locals X p1 p2 ak l).v.Length X = 0 ∧
    (pair_locals X p1 p2 ak l).v_n_length = 0 ∧
    max (pair_locals X p1 p2 ak l).v_n_length (pair_locals X p1 p2 ak l).v_n2_length = 0 ∧
    max (pair_locals X p1 p2 ak l).v_n_length (pair_locals X p1 p2 ak l).v_n2_length /
      (pair_locals X p1 p2 ak l).v.Length X = 0 ∧
    (pair_locals X p1 p2 ak l).v.Length X / (pair_locals X p1 p2 ak l).min_distance = 0 := by
  have hv : (pair_locals X p1 p2 ak l).v = ⟨0, 0⟩ := by
    simp [pair_locals, Point.sub, hp]
  have hl : (pair_locals X p1 p2 ak l).v.Length X = 0 := by
    rw [hv]
    simp [Point.Length, h0]
  have hn : (pair_locals X p1 p2 ak l).v_n_length = 0 := by
    simp [pair_locals, Point.sub, hp]
  have hn2 : (pair_locals X p1 p2 ak l).v_n2_length = 0 := by
    simp [pair_locals, Point.sub, hp]
  refine ⟨hv, hl, hn, ?_, ?_, ?_⟩
  · rw [hn, hn2, max_self]
  · rw [hl, div_zero]
  · rw [hl, zero_div]

/-- No test stands between two tiles at the same place and the divisions of the overlap
loop: the body of lines 266-296 runs to its end. -/
theorem overlap_step_same [FloorRing α] (X : Ext α) (h0 : X.sqrt 0 = 0)
    (points : List (Body α)) (i j : Nat) (acc : TileAcc α)
    (hp : (body_at points j).position = (body_at points i).position) :
    ∃ acc', overlap_step X points i acc j = .ok acc' := by
  have hn := (pair_locals_same X h0 (body_at points i) (body_at points j) hp
    (((0 : ℕ) : α) * 120 + to_deg X (body_at points i).angle) 0).2.2.1
  unfold overlap_step
  dsimp only
  rw [hp, calc_direction_same X h0]
  dsimp only
  rw [calc_direction_same X h0]
  dsimp only
  rw [if_pos (le_of_eq hn.symm)]
  exact ⟨_, rfl⟩

/-- Nor between them and the divisions of the neighbour loop: when tile `j`, at the
place of tile `i`, is the neighbour of sector `k`, the body of lines 232-264 runs to its
end. -/
theorem neighbour_step_same [FloorRing α] (X : Ext α) (h0 : X.sqrt 0 = 0)
    (points : List (Body α)) (i k : Nat) (nearest_point : List Int) (acc : TileAcc α)
    (hp : (body_at points (nearest_point.getD k (-1)).toNat).position =
      (body_at points i).position) :
    ∃ acc', neighbour_step X points i nearest_point acc k = .ok acc' := by
  have hn := (pair_locals_same X h0 (body_at points i)
    (body_at points (nearest_point.getD k (-1)).toNat) hp
    (to_deg X (body_at points i).angle + (k : α) * 120) 0).2.2.1
  unfold neighbour_step
  split
  · dsimp only
    rw [hp, calc_direction_same X h0]
    dsimp only
    rw [if_pos (le_of_eq hn.symm)]
    exact ⟨_, rfl⟩
  · exact ⟨_, rfl⟩

end Coincident

section CoincidentWorked

theorem real_sqrt_zero : realExt.sqrt 0 = 0 := Real.sqrt_zero

theorem twin_position : tile_twin.position = tile_mid.position := rfl

theorem edges_twin : (List.range square.length).filter (edge_overlaps realExt square tile_twin) =
    [] := edges_mid

/-- The first loop on the two tiles `tile_mid` and `tile_twin`: each is the sector 0
neighbour of the other, each overlaps the other, and no edge is touched. -/
theorem scan_twins : scan_tiles realExt square [tile_mid, tile_twin] =
    .ok [Row.mk [1, -1, -1] [1] [], Row.mk [0, -1, -1] [0] []] := by
  have hb0 : body_at [tile_mid, tile_twin] 0 = tile_mid := rfl
  have hb1 : body_at [tile_mid, tile_twin] 1 = tile_twin := rfl
  have hov01 : intersect_each realExt tile_mid.position (to_deg realExt tile_mid.angle)
      tile_twin.position (to_deg realExt tile_twin.angle) = true :=
    tri_tri_exact_self _
  have hov10 : intersect_each realExt tile_twin.position (to_deg realExt tile_twin.angle)
      tile_mid.position (to_deg realExt tile_mid.angle) = true :=
    tri_tri_exact_self _
  have hd01 : calc_direction realExt tile_mid.position (to_deg realExt tile_mid.angle)
      tile_twin.position = .ok 0 := calc_direction_same realExt real_sqrt_zero _ _
  have hd10 : calc_direction realExt tile_twin.position (to_deg realExt tile_twin.angle)
      tile_mid.position = .ok 0 := calc_direction_same realExt real_sqrt_zero _ _
  have h00 : ∀ st, scan_pair realExt [tile_mid, tile_twin] 0 st 0 = .ok st := fun _ => rfl
  have h11 : ∀ st, scan_pair realExt [tile_mid, tile_twin] 1 st 1 = .ok st := fun _ => rfl
  have h01 : scan_pair realExt [tile_mid, tile_twin] 0 ([-1, -1, -1], []) 1 =
      .ok ([1, -1, -1], [1]) := by
    unfold scan_pair
    simp [hb0, hb1, hd01, hov01]
  have h10 : scan_pair realExt [tile_mid, tile_twin] 1 ([-1, -1, -1], []) 0 =
      .ok ([0, -1, -1], [0]) := by
    unfold scan_pair
    simp [hb0, hb1, hd10, hov10]
  have ht0 : scan_tile realExt square [tile_mid, tile_twin] 0 = .ok (Row.mk [1, -1, -1] [1] []) := by
    unfold scan_tile
    have hr : List.range [tile_mid, tile_twin].length = [0, 1] := rfl
    simp only [hr, List.foldlM, bind, Except.bind, pure, Except.pure, Row.initial, h00, h01,
      hb0, edges_mid]
  have ht1 : scan_tile realExt square [tile_mid, tile_twin] 1 = .ok (Row.mk [0, -1, -1] [0] []) := by
    unfold scan_tile
    have hr : List.range [tile_mid, tile_twin].length = [0, 1] := rfl
    simp only [hr, List.foldlM, bind, Except.bind, pure, Except.pure, Row.initial, h10, h11,
      hb1, edges_twin]
  unfold scan_tiles
  have hr : List.range [tile_mid, tile_twin].length = [0, 1] := rfl
  rw [hr]
  simp only [List.mapM, List.mapM.loop, ht0, ht1, bind, Except.bind, pure, Except.pure,
    List.reverse_cons, List.reverse_nil, List.nil_append, List.singleton_append]

end CoincidentWorked

section CoincidentClaim

/-- C7 at two tiles at the same place (`tile_mid` and `tile_twin` in `square`): the first
loop makes each the sector 0 neighbour of the other and records the mutual overlap; for
either order of the pair and whatever the sector headings, `v.Length()` is 0, both
projections are 0 (the assertion `0 <= v_n_length` holds), so the divisor
`max(v_n_length, v_n2_length) / v.Length()` is `0 / 0` and `v.Length() / min_distance`
has numerator 0; and both the neighbour loop and the overlap loop run their bodies to
the end on this pair: nothing guards the divisions. -/
theorem coincident_tiles_divide_by_zero :
    tile_twin.position = tile_mid.position ∧
    scan_tiles realExt square [tile_mid, tile_twin] =
      .ok [Row.mk [1, -1, -1] [1] [], Row.mk [0, -1, -1] [0] []] ∧
    (∀ (ak : ℝ) (l : Nat),
      (pair_locals realExt tile_mid tile_twin ak l).v.Length realExt = 0 ∧
      (pair_locals realExt tile_mid tile_twin ak l).v_n_length = 0 ∧
      max (pair_locals realExt tile_mid tile_twin ak l).v_n_length
        (pair_locals realExt tile_mid tile_twin ak l).v_n2_length = 0 ∧
      (pair_locals realExt tile_twin tile_mid ak l).v.Length realExt = 0 ∧
      (pair_locals realExt tile_twin tile_mid ak l).v_n_length = 0 ∧
      max (pair_locals realExt tile_twin tile_mid ak l).v_n_length
        (pair_locals realExt tile_twin tile_mid ak l).v_n2_length = 0) ∧
    (∀ acc : TileAcc ℝ,
      (∃ acc', neighbour_step realExt [tile_mid, tile_twin] 0 [1, -1, -1] acc 0 = .ok acc') ∧
      (∃ acc', overlap_step realExt [tile_mid, tile_twin] 0 acc 1 = .ok acc') ∧
      (∃ acc', neighbour_step realExt [tile_mid, tile_twin] 1 [0, -1, -1] acc 0 = .ok acc') ∧
      (∃ acc', overlap_step realExt [tile_mid, tile_twin] 1 acc 0 = .ok acc')) := by
  refine ⟨rfl, scan_twins, ?_, ?_⟩
  · intro ak l
    have h1 := pair_locals_same realExt real_sqrt_zero tile_mid tile_twin rfl ak l
    have h2 := pair_locals_same realExt real_sqrt_zero tile_twin tile_mid rfl ak l
    exact ⟨h1.2.1, h1.2.2.1, h1.2.2.2.1, h2.2.1, h2.2.2.1, h2.2.2.2.1⟩
  · intro acc
    exact ⟨neighbour_step_same realExt real_sqrt_zero _ 0 0 [1, -1, -1] acc rfl,
      overlap_step_same realExt real_sqrt_zero _ 0 1 acc rfl,
      neighbour_step_same realExt real_sqrt_zero _ 1 0 [0, -1, -1] acc rfl,
      overlap_step_same realExt real_sqrt_zero _ 1 0 acc rfl⟩

end CoincidentClaim

section PlaceAsserts

variable {α : Type} [LinearOrderedField α]

theorem rand_point_error (line : Nat) (X : Ext α) (plb prt : Point α) (r1 r2 : Nat) (e : Abort)
    (h : rand_point line X plb prt r1 r2 = .error e) : e = Abort.assertion line := by
  unfold rand_point at h
  split at h
  · cases h
  · cases h
    rfl

theorem sample_inside_error (line : Nat) (inside : Point α → Bool) (X : Ext α)
    (plb prt : Point α) (rnd : Nat → Nat) :
    ∀ (fuel pos : Nat) (e : Abort),
      sample_inside line inside X plb prt rnd fuel pos = .error e →
      e = Abort.assertion line ∨ e = Abort.unfinished := by
  intro fuel
  induction fuel with
  | zero =>
    intro pos e h
    unfold sample_inside at h
    cases h
    exact Or.inr rfl
  | succ n ih =>
    intro pos e h
    unfold sample_inside at h
    split at h
    · rename_i e' he'
      cases h
      exact Or.inl (rand_point_error line X plb prt _ _ _ he')
    · split at h
      · cases h
      · exact ih _ _ h

theorem create_points_error (line : Nat) (inside : Point α → Bool) (X : Ext α)
    (plb prt : Point α) (rnd : Nat → Nat) (fuel : Nat) :
    ∀ (m i pos : Nat) (log : List Event) (points : List (Body α)) (e : Abort),
      (create_points line inside X plb prt rnd fuel m i pos log points).result = .error e →
      e = Abort.assertion line ∨ e = Abort.unfinished := by
  intro m
  induction m with
  | zero =>
    intro i pos log points e h
    unfold create_points at h
    cases h
  | succ n ih =>
    intro i pos log points e h
    unfold create_points at h
    split at h
    · rename_i e' he'
      cases h
      exact sample_inside_error line inside X plb prt rnd _ _ _ he'
    · exact ih _ _ _ _ _ h

theorem place_bodies_error [FloorRing α] (line : Nat) (inside : Point α → Bool) (X : Ext α)
    (poly : List (Point α)) (plb prt : Point α) (area : α) (rnd : Nat → Nat) (pos fuel : Nat)
    (e : Abort)
    (h : (place_bodies line inside X poly plb prt area rnd pos fuel).result = .error e) :
    e = Abort.assertion line ∨ e = Abort.unfinished ∨ e = Abort.bad_length := by
  unfold place_bodies at h
  dsimp only at h
  split at h
  · cases h
    exact Or.inr (Or.inr rfl)
  · rcases create_points_error line inside X plb prt rnd fuel _ _ _ _ _ _ h with h1 | h1
    · exact Or.inl h1
    · exact Or.inr (Or.inl h1)

/-- The world is the first thing `place_bodies` creates. -/
theorem place_bodies_log [FloorRing α] (line : Nat) (inside : Point α → Bool) (X : Ext α)
    (poly : List (Point α)) (plb prt : Point α) (area : α) (rnd : Nat → Nat) (pos fuel : Nat) :
    Event.new_world ∈ (place_bodies line inside X poly plb prt area rnd pos fuel).log := by
  have hcp : ∀ (m i p : Nat) (log : List Event) (points : List (Body α)),
      Event.new_world ∈ log →
      Event.new_world ∈ (create_points line inside X plb prt rnd fuel m i p log points).log := by
    intro m
    induction m with
    | zero =>
      intro i p log points hl
      unfold create_points
      exact hl
    | succ n ih =>
      intro i p log points hl
      unfold create_points
      split
      · exact hl
      · exact ih _ _ _ _ (List.mem_append_left _ hl)
  unfold place_bodies
  dsimp only
  split
  · simp
  · exact hcp _ _ _ _ _ (by simp)

theorem count_inside_error (X : Ext α) (poly : List (Point α)) (plb prt : Point α)
    (rnd : Nat → Nat) :
    ∀ (n : Nat) (e : Abort), sdk.count_inside X poly plb prt rnd n = .error e →
      e = Abort.assertion 36 := by
  intro n
  induction n with
  | zero =>
    intro e h
    unfold sdk.count_inside at h
    cases h
  | succ n ih =>
    intro e h
    unfold sdk.count_inside at h
    split at h
    · rename_i e' he'
      cases h
      exact ih _ he'
    · split at h
      · rename_i e' he'
        cases h
        exact rand_point_error 36 X plb prt _ _ _ he'
      · cases h

/-- C8: with fewer than 3 vertices `place` (either variant) ends on its entry assertion
with nothing created: no world, no border, no body; with 3 vertices or more the call
does not end on that assertion, and in `ITPLA.h` it goes on to create the world. -/
theorem place_entry_assertion [FloorRing α] (X : Ext α) (polygon : List (Point α))
    (edge_length : α) (rnd : Nat → Nat) (fuel : Nat) :
    (polygon.length < 3 →
      (place X polygon edge_length rnd fuel).log = [] ∧
      (place X polygon edge_length rnd fuel).result = .error (Abort.assertion 457) ∧
      (sdk.place X polygon edge_length rnd fuel).log = [] ∧
      (sdk.place X polygon edge_length rnd fuel).result = .error (Abort.assertion 248)) ∧
    (3 ≤ polygon.length →
      (place X polygon edge_length rnd fuel).result ≠ .error (Abort.assertion 457) ∧
      Event.new_world ∈ (place X polygon edge_length rnd fuel).log ∧
      (sdk.place X polygon edge_length rnd fuel).result ≠ .error (Abort.assertion 248)) := by
  constructor
  · intro h
    have h' : ¬ (2 < polygon.length) := by omega
    simp [place, sdk.place, h']
  · intro h
    have h' : 2 < polygon.length := by omega
    refine ⟨?_, ?_, ?_⟩
    · intro hc
      unfold place at hc
      rw [if_pos h'] at hc
      rcases place_bodies_error _ _ _ _ _ _ _ _ _ _ _ hc with h1 | h1 | h1 <;> cases h1
    · unfold place
      rw [if_pos h']
      exact place_bodies_log _ _ _ _ _ _ _ _ _ _
    · intro hc
      unfold sdk.place at hc
      rw [if_pos h'] at hc
      dsimp only at hc
      split at hc
      · rename_i e he
        have := count_inside_error X _ _ _ rnd _ _ he
        cases hc
        cases this
      · rcases place_bodies_error _ _ _ _ _ _ _ _ _ _ _ hc with h1 | h1 | h1 <;> cases h1

end PlaceAsserts

section PlaceCount

variable {α : Type} [LinearOrderedField α]

theorem create_points_length (line : Nat) (inside : Point α → Bool) (X : Ext α)
    (plb prt : Point α) (rnd : Nat → Nat) (fuel : Nat) :
    ∀ (m i pos : Nat) (log : List Event) (points pts : List (Body α)),
      (create_points line inside X plb prt rnd fuel m i pos log points).result = .ok pts →
      pts.length = points.length + m := by
  intro m
  induction m with
  | zero =>
    intro i pos log points pts h
    unfold create_points at h
    cases h
    rfl
  | succ n ih =>
    intro i pos log points pts h
    unfold create_points at h
    split at h
    · cases h
    · have := ih _ _ _ _ _ h
      rw [this, List.length_append, List.length_singleton]
      omega

/-- When every sampling loop ends, all the bodies are created. -/
theorem create_points_total (line : Nat) (inside : Point α → Bool) (X : Ext α)
    (plb prt : Point α) (rnd : Nat → Nat) (fuel : Nat)
    (hs : ∀ pos, ∃ q, sample_inside line inside X plb prt rnd fuel pos = .ok q) :
    ∀ (m i pos : Nat) (log : List Event) (points : List (Body α)),
      ∃ pts, (create_points line inside X plb prt rnd fuel m i pos log points).result =
        .ok pts := by
  intro m
  induction m with
  | zero =>
    intro i pos log points
    unfold create_points
    exact ⟨points, rfl⟩
  | succ n ih =>
    intro i pos log points
    obtain ⟨q, hq⟩ := hs pos
    unfold create_points
    rw [hq]
    exact ih _ _ _ _

/-- The vector `place` returns has `point_number` slots, computed from the area of the
normalised polygon. -/
theorem place_count [FloorRing α] (X : Ext α) (polygon : List (Point α)) (edge_length : α)
    (rnd : Nat → Nat) (fuel : Nat) (pts : List (Body α))
    (h : (place X polygon edge_length rnd fuel).result = .ok pts) :
    pts.length = (point_number X (area_polygon X
      (normalize_polygon polygon (edge_length / X.sqrt 3)))).toNat := by
  unfold place at h
  split at h
  · unfold place_bodies at h
    dsimp only at h
    split at h
    · cases h
    · have := create_points_length _ _ _ _ _ _ _ _ _ _ _ _ _ h
      simpa using this
  · cases h

theorem normalize_square10 (s : α) :
    normalize_polygon (square10 : List (Point α)) (1 / s) =
      [⟨0, 0⟩, ⟨10 * s, 0⟩, ⟨10 * s, 10 * s⟩, ⟨0, 10 * s⟩] := by
  simp [normalize_polygon, square10, normalize_point]

theorem area_square10 (s : α) (hs : s * s = 3) :
    shoelace_area ([⟨0, 0⟩, ⟨10 * s, 0⟩, ⟨10 * s, 10 * s⟩, ⟨0, 10 * s⟩] : List (Point α)) =
      300 := by
  simp only [shoelace_area, List.length_cons, List.length_nil, range_four, List.map, vertex_at,
    shoelace_term, List.sum_cons, List.sum_nil]
  norm_num
  linear_combination 100 * hs

theorem sqrt3_bounds (s : α) (hs : s * s = 3) (hpos : 0 < s) :
    (17316 : α) / 10000 < s ∧ s < 17321 / 10000 := by
  constructor
  · by_contra h
    push_neg at h
    nlinarith
  · by_contra h
    push_neg at h
    nlinarith

theorem point_number_300 [FloorRing α] (X : Ext α) (hs : X.sqrt 3 * X.sqrt 3 = 3)
    (hpos : 0 < X.sqrt 3) : point_number X 300 = 230 := by
  obtain ⟨h1, h2⟩ := sqrt3_bounds _ hs hpos
  have hq : (300 : α) / (3 * X.sqrt 3 / 4) = 400 / X.sqrt 3 := by
    field_simp
    ring
  have hnn : (0 : α) ≤ 400 / X.sqrt 3 := by positivity
  unfold point_number trunc_int
  rw [hq, if_pos hnn, Int.floor_eq_iff]
  constructor
  · rw [le_div_iff₀ hpos]
    push_cast
    nlinarith
  · rw [div_lt_iff₀ hpos]
    push_cast
    nlinarith

end PlaceCount

section PlaceSquare

variable {α : Type} [LinearOrderedField α]

/-- A point strictly inside an axis-parallel square with a corner at the origin is on
its bounded side. -/
theorem bounded_side_exact_square (a x y : α) (ha : 0 < a) (hx0 : 0 < x) (hx1 : x < a)
    (hy0 : 0 < y) (hy1 : y < a) :
    bounded_side_exact ([⟨0, 0⟩, ⟨a, 0⟩, ⟨a, a⟩, ⟨0, a⟩] : List (Point α)) ⟨x, y⟩ =
      Side.ON_BOUNDED_SIDE := by
  have c0 : cross (⟨0, 0⟩ : Point α) ⟨a, 0⟩ ⟨x, y⟩ ≠ 0 := by
    simp only [cross]
    have : 0 < a * y := mul_pos ha hy0
    intro h
    linarith
  have c1 : cross (⟨a, 0⟩ : Point α) ⟨a, a⟩ ⟨x, y⟩ ≠ 0 := by
    simp only [cross]
    have : 0 < a * (a - x) := mul_pos ha (by linarith)
    intro h
    linarith
  have c2 : cross (⟨a, a⟩ : Point α) ⟨0, a⟩ ⟨x, y⟩ ≠ 0 := by
    simp only [cross]
    have : 0 < a * (a - y) := mul_pos ha (by linarith)
    intro h
    linarith
  have c3 : cross (⟨0, a⟩ : Point α) ⟨0, 0⟩ ⟨x, y⟩ ≠ 0 := by
    simp only [cross]
    have : 0 < a * x := mul_pos ha hx0
    intro h
    linarith
  have r0 : ray_crosses (⟨0, 0⟩ : Point α) ⟨a, 0⟩ ⟨x, y⟩ = false := by
    simp [ray_crosses]
  have r1 : ray_crosses (⟨a, 0⟩ : Point α) ⟨a, a⟩ ⟨x, y⟩ = true := by
    simp [ray_crosses, hy1, hx1, not_lt.mpr hy0.le]
  have r2 : ray_crosses (⟨a, a⟩ : Point α) ⟨0, a⟩ ⟨x, y⟩ = false := by
    simp [ray_crosses]
  have r3 : ray_crosses (⟨0, a⟩ : Point α) ⟨0, 0⟩ ⟨x, y⟩ = false := by
    simp [ray_crosses, hy1, not_lt.mpr hy0.le, not_lt.mpr hx0.le]
  simp [bounded_side_exact, range_four, vertex_at, on_segment, c0, c1, c2, c3, r0, r1, r2, r3,
    List.filter]

theorem bounding_box_square (a : α) (ha : 0 ≤ a) :
    bounding_box ([⟨0, 0⟩, ⟨a, 0⟩, ⟨a, a⟩, ⟨0, a⟩] : List (Point α)) = (⟨0, 0⟩, ⟨a, a⟩) := by
  simp [bounding_box, vertex_at, List.foldl, ha]

end PlaceSquare

section PlaceSquareCount

variable {α : Type} [LinearOrderedField α]

/-- The call of `place` on the square of side 10 with tile edge length 1: the normalised polygon has
area 300, so `point_number` is 230; every returned vector has 230 bodies, and with an
exact point-in-polygon test and a constant random sequence strictly between 0 and
`RAND_MAX` the call does return. -/
theorem square_place [FloorRing α] (X : Ext α) (hs : X.sqrt 3 * X.sqrt 3 = 3)
    (hpos : 0 < X.sqrt 3) (harea : X.area = shoelace_area) :
    area_polygon X (normalize_polygon (square10 : List (Point α)) (1 / X.sqrt 3)) = 300 ∧
    point_number X (300 : α) = 230 ∧
    (∀ (rnd : Nat → Nat) (fuel : Nat) (pts : List (Body α)),
      (place X square10 1 rnd fuel).result = .ok pts → pts.length = 230) ∧
    (X.bounded_side = bounded_side_exact →
      ∀ r : Nat, 0 < r → r < X.RAND_MAX → ∀ fuel : Nat, 0 < fuel →
        ∃ pts, (place X square10 1 (fun _ => r) fuel).result = .ok pts ∧ pts.length = 230) := by
  have ha : area_polygon X (normalize_polygon (square10 : List (Point α)) (1 / X.sqrt 3)) =
      300 := by
    rw [area_polygon, harea, normalize_square10, area_square10 _ hs]
  have hn := point_number_300 X hs hpos
  have hcount : ∀ (rnd : Nat → Nat) (fuel : Nat) (pts : List (Body α)),
      (place X square10 1 rnd fuel).result = .ok pts → pts.length = 230 := by
    intro rnd fuel pts h
    have := place_count X square10 1 rnd fuel pts h
    rw [ha, hn] at this
    simpa using this
  refine ⟨ha, hn, hcount, ?_⟩
  intro hside r hr0 hr1 fuel hfuel
  have h10 : (0 : α) < 10 * X.sqrt 3 := by positivity
  have hRM : (0 : α) < (X.RAND_MAX : α) := by
    exact_mod_cast (lt_trans hr0 hr1)
  have hq0 : (0 : α) < (10 * X.sqrt 3 - 0) * (r : α) / (X.RAND_MAX : α) + 0 := by
    have hr : (0 : α) < (r : α) := by exact_mod_cast hr0
    have : (0 : α) < (10 * X.sqrt 3 - 0) * (r : α) / (X.RAND_MAX : α) := by
      rw [sub_zero]
      positivity
    linarith
  have hq1 : (10 * X.sqrt 3 - 0) * (r : α) / (X.RAND_MAX : α) + 0 < 10 * X.sqrt 3 := by
    have hr : (r : α) < (X.RAND_MAX : α) := by exact_mod_cast hr1
    rw [add_zero, sub_zero, div_lt_iff₀ hRM]
    exact mul_lt_mul_of_pos_left hr h10
  have hsample : ∀ pos, ∃ q, sample_inside 55
      (in_polygon X [⟨0, 0⟩, ⟨10 * X.sqrt 3, 0⟩, ⟨10 * X.sqrt 3, 10 * X.sqrt 3⟩,
        ⟨0, 10 * X.sqrt 3⟩]) X ⟨0, 0⟩ ⟨10 * X.sqrt 3, 10 * X.sqrt 3⟩ (fun _ => r) fuel pos =
        .ok q := by
    intro pos
    obtain ⟨n, rfl⟩ : ∃ n, fuel = n + 1 := ⟨fuel - 1, by omega⟩
    unfold sample_inside
    have hrp : rand_point 55 X (⟨0, 0⟩ : Point α) ⟨10 * X.sqrt 3, 10 * X.sqrt 3⟩ r r =
        .ok ⟨(10 * X.sqrt 3 - 0) * (r : α) / (X.RAND_MAX : α) + 0,
             (10 * X.sqrt 3 - 0) * (r : α) / (X.RAND_MAX : α) + 0⟩ := by
      unfold rand_point
      rw [if_pos ⟨h10.le, h10.le⟩]
    have hin : in_polygon X [⟨0, 0⟩, ⟨10 * X.sqrt 3, 0⟩, ⟨10 * X.sqrt 3, 10 * X.sqrt 3⟩,
        ⟨0, 10 * X.sqrt 3⟩]
        ⟨(10 * X.sqrt 3 - 0) * (r : α) / (X.RAND_MAX : α) + 0,
         (10 * X.sqrt 3 - 0) * (r : α) / (X.RAND_MAX : α) + 0⟩ = true := by
      unfold in_polygon
      rw [hside, bounded_side_exact_square _ _ _ h10 hq0 hq1 hq0 hq1]
    rw [hrp]
    dsimp only
    rw [hin]
    exact ⟨_, rfl⟩
  have hex : ∃ pts, (place X square10 1 (fun _ => r) fuel).result = .ok pts := by
    unfold place
    have h2 : 2 < (square10 : List (Point α)).length := by
      simp [square10]
    rw [if_pos h2]
    dsimp only
    rw [ha, normalize_square10, bounding_box_square _ h10.le]
    unfold place_bodies
    dsimp only
    rw [hn]
    rw [if_neg (by norm_num)]
    exact create_points_total 55 _ X _ _ _ fuel hsample _ _ _ _ _
  obtain ⟨pts, hpts⟩ := hex
  exact ⟨pts, hpts, hcount _ _ _ hpts⟩

end PlaceSquareCount

section PlaceClaims

theorem real_sqrt3_pos : 0 < realExt.sqrt 3 := Real.sqrt_pos.mpr (by norm_num)

theorem real_sqrt3_sq : realExt.sqrt 3 * realExt.sqrt 3 = 3 := sqrt3_sq

/-- C8 at a polygon of two vertices (rejected, nothing created) and at `square` (the
assertion passes and the world is created). -/
theorem place_entry_assertion_witness :
    ((two_gon : List (Point ℝ)).length < 3 ∧
      (place realExt two_gon 1 (fun _ => 0) 1).log = [] ∧
      (place realExt two_gon 1 (fun _ => 0) 1).result = .error (Abort.assertion 457) ∧
      (sdk.place realExt two_gon 1 (fun _ => 0) 1).log = [] ∧
      (sdk.place realExt two_gon 1 (fun _ => 0) 1).result = .error (Abort.assertion 248)) ∧
    (3 ≤ square.length ∧
      (place realExt square 1 (fun _ => 0) 1).result ≠ .error (Abort.assertion 457) ∧
      Event.new_world ∈ (place realExt square 1 (fun _ => 0) 1).log ∧
      (sdk.place realExt square 1 (fun _ => 0) 1).result ≠ .error (Abort.assertion 248)) :=
  ⟨⟨by simp [two_gon],
      (place_entry_assertion realExt two_gon 1 (fun _ => 0) 1).1 (by simp [two_gon])⟩,
   ⟨by simp [square],
      (place_entry_assertion realExt square 1 (fun _ => 0) 1).2 (by simp [square])⟩⟩

/-- The count the specification names for the square: `⌊100 / (3√3/4)⌋ = 76`, from the
area 100 of the polygon as given. -/
theorem count_of_input_area :
    shoelace_area (square10 : List (Point ℝ)) = 100 ∧
    trunc_int ((100 : ℝ) / (3 * realExt.sqrt 3 / 4)) = 76 := by
  constructor
  · simp only [shoelace_area, square10, List.length_cons, List.length_nil, range_four, List.map,
      vertex_at, shoelace_term, List.sum_cons, List.sum_nil]
    norm_num
  · obtain ⟨h1, h2⟩ := sqrt3_bounds _ real_sqrt3_sq real_sqrt3_pos
    have hpos := real_sqrt3_pos
    have hq : (100 : ℝ) / (3 * realExt.sqrt 3 / 4) = 400 / (3 * realExt.sqrt 3) := by
      field_simp
      ring
    have h3 : (0 : ℝ) < 3 * realExt.sqrt 3 := by positivity
    have hnn : (0 : ℝ) ≤ 400 / (3 * realExt.sqrt 3) := by positivity
    unfold trunc_int
    rw [hq, if_pos hnn, Int.floor_eq_iff]
    constructor
    · rw [le_div_iff₀ h3]
      push_cast
      nlinarith
    · rw [div_lt_iff₀ h3]
      push_cast
      nlinarith [real_sqrt3_sq]

/-- C9, as stated, fails: for the square (0,0), (10,0), (10,10), (0,10) and edge length 1
`place` returns 230 bodies (here with the random sequence constant at `RAND_MAX / 2`),
not `⌊100 / (3√3/4)⌋ = 76`. -/
theorem square_count_is_230 :
    (∃ pts, (place realExt square10 1 (fun _ => 1073741823) 1).result = .ok pts ∧
      pts.length = 230) ∧
    shoelace_area (square10 : List (Point ℝ)) = 100 ∧
    trunc_int ((100 : ℝ) / (3 * realExt.sqrt 3 / 4)) = 76 :=
  ⟨(square_place realExt real_sqrt3_sq real_sqrt3_pos rfl).2.2.2 rfl 1073741823
      (by norm_num) (by norm_num [realExt]) 1 (by norm_num),
    count_of_input_area⟩

/-- C9, amended: for the square (0,0), (10,0), (10,10), (0,10) and edge length 1 the
polygon `place` works on is the normalised one, of area 300; the tile count is
`int(300 / (3√3/4)) = 230`: every vector `place` returns has 230 bodies, and `place`
does return when the point-in-polygon test is exact and the random sequence is a
constant strictly between 0 and `RAND_MAX`. -/
theorem square_tile_count {α : Type} [LinearOrderedField α] [FloorRing α] (X : Ext α)
    (hs : X.sqrt 3 * X.sqrt 3 = 3) (hpos : 0 < X.sqrt 3) (harea : X.area = shoelace_area) :
    area_polygon X (normalize_polygon (square10 : List (Point α)) (1 / X.sqrt 3)) = 300 ∧
    point_number X (300 : α) = 230 ∧
    (∀ (rnd : Nat → Nat) (fuel : Nat) (pts : List (Body α)),
      (place X square10 1 rnd fuel).result = .ok pts → pts.length = 230) ∧
    (X.bounded_side = bounded_side_exact →
      ∀ r : Nat, 0 < r → r < X.RAND_MAX → ∀ fuel : Nat, 0 < fuel →
        ∃ pts, (place X square10 1 (fun _ => r) fuel).result = .ok pts ∧ pts.length = 230) :=
  square_place X hs hpos harea

/-- The amended C9 over the real numbers. -/
theorem square_tile_count_witness :
    realExt.sqrt 3 * realExt.sqrt 3 = 3 ∧ 0 < realExt.sqrt 3 ∧
    realExt.area = shoelace_area ∧
    area_polygon realExt (normalize_polygon (square10 : List (Point ℝ)) (1 / realExt.sqrt 3)) =
      300 ∧
    point_number realExt (300 : ℝ) = 230 ∧
    (∀ (rnd : Nat → Nat) (fuel : Nat) (pts : List (Body ℝ)),
      (place realExt square10 1 rnd fuel).result = .ok pts → pts.length = 230) ∧
    (realExt.bounded_side = bounded_side_exact →
      ∀ r : Nat, 0 < r → r < realExt.RAND_MAX → ∀ fuel : Nat, 0 < fuel →
        ∃ pts, (place realExt square10 1 (fun _ => r) fuel).result = .ok pts ∧
          pts.length = 230) :=
  ⟨real_sqrt3_sq, real_sqrt3_pos, rfl, square_tile_count realExt real_sqrt3_sq real_sqrt3_pos rfl⟩

end PlaceClaims

section SwapRemove

/-- Slot `i` of a vector after `l[del] = l.back(); l.pop_back();`. -/
theorem swap_remove_getElem? {β : Type} (l : List β) (d : β) (del i : Nat)
    (hi : i < l.length - 1) :
    ((l.set del (l.getD (l.length - 1) d)).dropLast)[i]? =
      if i = del then l[l.length - 1]? else l[i]? := by
  have hlast : l.length - 1 < l.length := by omega
  rw [List.dropLast_eq_take, List.length_set, List.getElem?_take_of_lt hi,
    List.getD_eq_getElem _ _ hlast]
  by_cases h : i = del
  · subst h
    rw [if_pos rfl, List.getElem?_set_self (by omega), List.getElem?_eq_getElem hlast]
  · rw [if_neg h, List.getElem?_set_ne (Ne.symm h)]

/-- The vector after `l[del] = l.back(); l.pop_back();` holds the old entries but the one
in slot `del`, each once. -/
theorem swap_remove_perm {β : Type} (d : β) :
    ∀ (l : List β) (del : Nat), del < l.length →
      ((l.set del (l.getD (l.length - 1) d)).dropLast).Perm (l.eraseIdx del) := by
  intro l
  induction l with
  | nil => intro del h; simp at h
  | cons a l ih =>
    intro del h
    cases l with
    | nil =>
      have : del = 0 := by simpa using h
      subst this
      simp
    | cons b l =>
      cases del with
      | zero =>
        simp only [List.set_cons_zero, List.eraseIdx_cons_zero, List.length_cons,
          Nat.add_sub_cancel, List.getD_cons_succ]
        rw [List.dropLast_cons₂]
        have hlen : l.length < (b :: l).length := by simp
        rw [List.getD_eq_getElem _ _ hlen]
        have hg : (b :: l)[l.length] = (b :: l).getLast (by simp) := by
          rw [List.getLast_eq_getElem]
          simp
        have hb : b :: l = (b :: l).dropLast ++ [(b :: l)[l.length]] := by
          rw [hg, List.dropLast_append_getLast]
        conv_rhs => rw [hb]
        exact (List.perm_append_singleton _ _).symm
      | succ del =>
        have h1 : del < (b :: l).length := by simpa using h
        have := ih del h1
        simp only [List.set_cons_succ, List.eraseIdx_cons_succ, List.length_cons,
          Nat.add_sub_cancel, List.getD_cons_succ] at this ⊢
        cases hs : (b :: l).set del ((b :: l).getD l.length d) with
        | nil =>
          have := congrArg List.length hs
          simp at this
        | cons c m =>
          rw [List.dropLast_cons₂]
          rw [hs] at this
          exact List.Perm.cons a this

/-- The third field of an entry of `del_rank` is the index of a tile. -/
theorem mem_del_rank_of {α : Type} (tiles : List (TileAcc α)) (r : Rank α)
    (h : r ∈ del_rank_of tiles) : ∃ i : Nat, i < tiles.length ∧ r.2 = (i : Int) := by
  unfold del_rank_of at h
  rw [List.mem_map] at h
  obtain ⟨ia, hia, rfl⟩ := h
  exact ⟨ia.1, List.fst_lt_of_mem_enum hia, rfl⟩

end SwapRemove

section DelIndex

variable {α : Type} [LinearOrderedField α]

/-- A candidate found on lines 406-409 is an entry of `del_rank` that passes the test. -/
theorem find_del_mem (del_rank : List (Rank α)) (sum : α)
    (h : find_del del_rank sum ≠ -1) :
    ∃ r ∈ del_rank, r.2 = find_del del_rank sum ∧
      |sum / (del_rank.length : α)| ≤ |r.1.2| := by
  unfold find_del at h ⊢
  cases hf : del_rank.find? (fun r => decide (|sum / (del_rank.length : α)| ≤ |r.1.2|)) with
  | none => rw [hf] at h; exact absurd rfl h
  | some r =>
    refine ⟨r, List.mem_of_find?_eq_some hf, rfl, ?_⟩
    have := List.find?_some hf
    simpa using this

theorem mem_sort_del_rank (l : List (Rank α)) (r : Rank α) :
    r ∈ sort_del_rank l ↔ r ∈ l :=
  (List.perm_insertionSort _ l).mem_iff

theorem length_sort_del_rank (l : List (Rank α)) : (sort_del_rank l).length = l.length :=
  (List.perm_insertionSort _ l).length_eq

/-- A deletion candidate other than `-1` is the index of a tile. -/
theorem track_del_range (X : Ext α) (g : Globals α) (points : List (Body α)) (f : Forces α)
    (rnd : Nat) (h : (track X g points f rnd).del ≠ -1) :
    ∃ i : Nat, i < f.tiles.length ∧ (track X g points f rnd).del = (i : Int) := by
  have hdel : (track X g points f rnd).del =
      find_del (sort_del_rank (del_rank_of f.tiles))
        ((sort_del_rank (del_rank_of f.tiles)).foldl (fun s r => s + r.1.2) 0) := rfl
  rw [hdel] at h ⊢
  obtain ⟨r, hr, hr2, -⟩ := find_del_mem _ _ h
  obtain ⟨i, hi, hri⟩ := mem_del_rank_of f.tiles r ((mem_sort_del_rank _ r).mp hr)
  exact ⟨i, hi, by rw [← hr2, hri]⟩

/-- What lines 437-451 leave when a body was destroyed. -/
theorem remove_or_keep_removed (t : Tracked α) (h : (remove_or_keep t).destroyed ≠ none) :
    removal_gate t.pre_del t.points.length t.pause_time t.min_t t.K = true ∧
    (remove_or_keep t).destroyed = some (body_at t.points t.del.toNat) ∧
    (remove_or_keep t).points = zero_velocities
      ((t.points.set t.del.toNat (body_at t.points (t.points.length - 1))).dropLast) ∧
    (remove_or_keep t).globals.pause_time = 0 ∧
    (remove_or_keep t).globals.min_t = 0 ∧
    (remove_or_keep t).globals.min_E = (INT_MAX : α) ∧
    (remove_or_keep t).globals.pre_del = (t.pre_del.1, 0) := by
  unfold remove_or_keep at h ⊢
  by_cases hg : removal_gate t.pre_del t.points.length t.pause_time t.min_t t.K = true
  · rw [if_pos hg]
    exact ⟨hg, rfl, rfl, rfl, rfl, rfl, rfl⟩
  · rw [if_neg hg] at h
    exact absurd rfl h

theorem mem_zero_velocities (points : List (Body α)) (b : Body α)
    (h : b ∈ zero_velocities points) : b.linearVelocity = ⟨0, 0⟩ ∧ b.angularVelocity = 0 := by
  unfold zero_velocities at h
  rw [List.mem_map] at h
  obtain ⟨p, -, rfl⟩ := h
  exact ⟨rfl, rfl⟩

end DelIndex

section RemovalClaims

variable {α : Type} [LinearOrderedField α]

/-- The poses after `points[del] = points.back(); points.pop_back();`. -/
theorem pose_swap_remove (l : List (Body α)) (i : Nat) :
    (zero_velocities ((l.set i (body_at l (l.length - 1))).dropLast)).map Body.pose =
      ((l.map Body.pose).set i
        ((l.map Body.pose).getD ((l.map Body.pose).length - 1) Body.null.pose)).dropLast := by
  rw [pose_zero_velocities, List.map_dropLast, List.map_set, List.length_map]
  congr 2
  unfold body_at
  by_cases h : l.length - 1 < l.length
  · rw [List.getD_eq_getElem _ _ h, List.getD_eq_getElem _ _ (by simpa using h)]
    simp
  · rw [List.getD_eq_default _ _ (not_lt.mp h),
      List.getD_eq_default _ _ (by simpa using not_lt.mp h)]

/-- A step that destroys a body went through the removal branch with a deletion candidate
that is the index of a tile. -/
theorem removal_outcome [FloorRing α] (X : Ext α) (poly : List (Point α)) (g : Globals α)
    (points : List (Body α)) (rnd : Nat) (r : StepResult α)
    (h : calc_next_step X poly g points rnd = .ok r) (hd : r.destroyed ≠ none) :
    ∃ (f : Forces α) (del : Nat), del < points.length ∧
      (track X g points f rnd).del = (del : Int) ∧
      r.globals.pre_del = ((del : Int), 0) ∧
      r.destroyed = some (body_at (track X g points f rnd).points del) ∧
      r.points = zero_velocities
        (((track X g points f rnd).points.set del
          (body_at (track X g points f rnd).points
            ((track X g points f rnd).points.length - 1))).dropLast) ∧
      r.globals.pause_time = 0 ∧ r.globals.min_t = 0 ∧ r.globals.min_E = (INT_MAX : α) := by
  obtain ⟨f, hlen, -, -, -, -, hr⟩ := step_outcome X poly g points rnd r h
  rw [hr] at hd
  obtain ⟨hg, h1, h2, h3, h4, h5, h6⟩ := remove_or_keep_removed _ hd
  have hpre := track_pre_del X g points f rnd
  have hne : (track X g points f rnd).del ≠ -1 := by
    simp only [removal_gate, Bool.and_eq_true, decide_eq_true_eq] at hg
    rw [← hpre]
    exact hg.1.1
  obtain ⟨i, hi, hdel⟩ := track_del_range X g points f rnd hne
  have htn : (track X g points f rnd).del.toNat = i := by rw [hdel]; rfl
  rw [htn] at h1 h2
  rw [hpre, hdel] at h6
  rw [← hr] at h1 h2 h3 h4 h5 h6
  exact ⟨f, i, hlen ▸ hi, hdel, h6, h1, h2, h3, h4, h5⟩

/-- C12: after a step that removes a tile the pause accumulator is 0, `min_t` is 0,
`min_E` is `INT_MAX`, the value it is initialised with, and every remaining tile has
linear velocity `(0, 0)` and angular velocity 0. -/
theorem removal_resets [FloorRing α] (X : Ext α) (poly : List (Point α)) (g : Globals α)
    (points : List (Body α)) (rnd : Nat) (r : StepResult α)
    (h : calc_next_step X poly g points rnd = .ok r) (hd : r.destroyed ≠ none) :
    r.globals.pause_time = 0 ∧ r.globals.min_t = 0 ∧
    r.globals.min_E = (INT_MAX : α) ∧
    r.globals.min_E = (Globals.initial : Globals α).min_E ∧
    ∀ b ∈ r.points, b.linearVelocity = ⟨0, 0⟩ ∧ b.angularVelocity = 0 := by
  obtain ⟨f, del, -, -, -, -, hp, h1, h2, h3⟩ := removal_outcome X poly g points rnd r h hd
  refine ⟨h1, h2, h3, h3, ?_⟩
  intro b hb
  rw [hp] at hb
  exact mem_zero_velocities _ b hb

/-- C11: a step that removes a tile removes the tile of an index `del` below the number
`n` of tiles (the deletion candidate), and leaves `n - 1` slots; slot `del`, if below
`n - 1`, holds the tile of the former last slot, every other slot below `n - 1` holds
the tile it held, and the tiles left are the old ones without the one of slot `del`,
each once (tiles are compared by pointer and pose). -/
theorem swap_remove_step [FloorRing α] (X : Ext α) (poly : List (Point α)) (g : Globals α)
    (points : List (Body α)) (rnd : Nat) (r : StepResult α)
    (h : calc_next_step X poly g points rnd = .ok r) (hd : r.destroyed ≠ none) :
    ∃ del : Nat, del < points.length ∧ r.globals.pre_del.1 = (del : Int) ∧
      r.destroyed.map Body.pose = (points.map Body.pose)[del]? ∧
      r.points.length = points.length - 1 ∧
      (del < points.length - 1 →
        (r.points.map Body.pose)[del]? = (points.map Body.pose)[points.length - 1]?) ∧
      (∀ i, i < points.length - 1 → i ≠ del →
        (r.points.map Body.pose)[i]? = (points.map Body.pose)[i]?) ∧
      (r.points.map Body.pose).Perm ((points.map Body.pose).eraseIdx del) := by
  obtain ⟨f, del, hlt, -, hpre, hdes, hp, -, -, -⟩ :=
    removal_outcome X poly g points rnd r h hd
  have hpose : r.points.map Body.pose =
      ((points.map Body.pose).set del
        ((points.map Body.pose).getD ((points.map Body.pose).length - 1)
          Body.null.pose)).dropLast := by
    rw [hp, pose_swap_remove, pose_track_points]
  have hlen : (points.map Body.pose).length = points.length := List.length_map _ _
  refine ⟨del, hlt, by rw [hpre], ?_, ?_, ?_, ?_, ?_⟩
  · rw [hdes, Option.map_some', ← pose_track_points X g points f rnd]
    have hl : del < (track X g points f rnd).points.length := by
      rw [length_track_points]; exact hlt
    unfold body_at
    rw [List.getD_eq_getElem _ _ hl, List.getElem?_eq_getElem (by simpa using hl)]
    simp
  · have := congrArg List.length hpose
    simpa using this
  · intro hdl
    rw [hpose, swap_remove_getElem? _ _ _ _ (by rw [hlen]; exact hdl), if_pos rfl, hlen]
  · intro i hi hne
    rw [hpose, swap_remove_getElem? _ _ _ _ (by rw [hlen]; exact hi), if_neg hne]
  · rw [hpose]
    exact swap_remove_perm _ _ _ (by rw [hlen]; exact hlt)

end RemovalClaims


section RankOrder

variable {α : Type} [LinearOrderedField α]

/-- The order `operator<` gives to `pair<int, double>` is the lexicographic one. -/
theorem key_lt_iff (a b : Int × α) :
    key_lt a b = true ↔ a.1 < b.1 ∨ (a.1 = b.1 ∧ a.2 < b.2) := by
  unfold key_lt
  simp only [Bool.or_eq_true, Bool.and_eq_true, Bool.not_eq_true', decide_eq_true_eq,
    decide_eq_false_iff_not, not_lt]
  constructor
  · rintro (h | ⟨h1, h2⟩)
    · exact Or.inl h
    · rcases lt_or_eq_of_le h1 with h | h
      · exact Or.inl h
      · exact Or.inr ⟨h, h2⟩
  · rintro (h | ⟨h1, h2⟩)
    · exact Or.inl h
    · exact Or.inr ⟨h1.le, h2⟩

theorem key_lt_irrefl (a : Int × α) : key_lt a a = false := by
  rw [Bool.eq_false_iff]
  intro h
  rcases (key_lt_iff a a).mp h with h | ⟨-, h⟩ <;> exact lt_irrefl _ h

theorem key_lt_trans (a b c : Int × α) (h1 : key_lt a b = true) (h2 : key_lt b c = true) :
    key_lt a c = true := by
  rw [key_lt_iff] at h1 h2 ⊢
  rcases h1 with h1 | ⟨e1, h1⟩ <;> rcases h2 with h2 | ⟨e2, h2⟩
  · exact Or.inl (h1.trans h2)
  · exact Or.inl (e2 ▸ h1)
  · exact Or.inl (e1 ▸ h2)
  · exact Or.inr ⟨e1.trans e2, h1.trans h2⟩

theorem key_lt_total (a b : Int × α) (h1 : key_lt a b = false) (h2 : key_lt b a = false) :
    a = b := by
  rw [Bool.eq_false_iff, Ne, key_lt_iff] at h1 h2
  push_neg at h1 h2
  have e1 : a.1 = b.1 := le_antisymm h2.1 h1.1
  have e2 : a.2 = b.2 := le_antisymm (h2.2 e1.symm) (h1.2 e1)
  exact Prod.ext e1 e2

/-- The order `operator<` gives to the entries of `del_rank` is the lexicographic one. -/
theorem rank_lt_iff (a b : Rank α) :
    rank_lt a b = true ↔ key_lt a.1 b.1 = true ∨ (a.1 = b.1 ∧ a.2 < b.2) := by
  unfold rank_lt
  simp only [Bool.or_eq_true, Bool.and_eq_true, Bool.not_eq_true', decide_eq_true_eq]
  constructor
  · rintro (h | ⟨h1, h2⟩)
    · exact Or.inl h
    · by_cases h : key_lt a.1 b.1 = true
      · exact Or.inl h
      · exact Or.inr ⟨key_lt_total _ _ (by simpa using h) h1, h2⟩
  · rintro (h | ⟨h1, h2⟩)
    · exact Or.inl h
    · exact Or.inr ⟨by rw [h1]; exact key_lt_irrefl _, h2⟩

theorem rank_lt_trans (a b c : Rank α) (h1 : rank_lt a b = true) (h2 : rank_lt b c = true) :
    rank_lt a c = true := by
  rw [rank_lt_iff] at h1 h2 ⊢
  rcases h1 with h1 | ⟨e1, h1⟩ <;> rcases h2 with h2 | ⟨e2, h2⟩
  · exact Or.inl (key_lt_trans _ _ _ h1 h2)
  · exact Or.inl (e2 ▸ h1)
  · exact Or.inl (e1 ▸ h2)
  · exact Or.inr ⟨e1.trans e2, h1.trans h2⟩

theorem rank_lt_total (a b : Rank α) (h1 : rank_lt a b = false) (h2 : rank_lt b a = false) :
    a = b := by
  rw [Bool.eq_false_iff, Ne, rank_lt_iff] at h1 h2
  push_neg at h1 h2
  have e1 : a.1 = b.1 :=
    key_lt_total _ _ (by simpa using h1.1) (by simpa using h2.1)
  have e2 : a.2 = b.2 := le_antisymm (h2.2 e1.symm) (h1.2 e1)
  exact Prod.ext e1 e2

/-- After `sort`, no entry precedes an earlier one. -/
theorem sort_del_rank_sorted (l : List (Rank α)) :
    (sort_del_rank l).Pairwise (fun a b => rank_lt b a = false) := by
  haveI : IsTotal (Rank α) (fun a b => rank_lt b a = false) :=
    ⟨fun a b => by
      by_cases h : rank_lt b a = false
      · exact Or.inl h
      · right
        rw [Bool.eq_false_iff]
        intro h2
        have h3 : rank_lt b a = true := by simpa using h
        have h4 := rank_lt_trans _ _ _ h2 h3
        rw [rank_lt_iff] at h4
        rcases h4 with h4 | ⟨-, h4⟩
        · rw [key_lt_irrefl] at h4; cases h4
        · exact lt_irrefl _ h4⟩
  haveI : IsTrans (Rank α) (fun a b => rank_lt b a = false) :=
    ⟨fun a b c hab hbc => by
      rw [Bool.eq_false_iff]
      intro hca
      by_cases hba : rank_lt a b = true
      · by_cases hcb : rank_lt b c = true
        · have := rank_lt_trans _ _ _ hca hba
          rw [hbc] at this; cases this
        · have e := rank_lt_total b c (by simpa using hcb) hbc
          subst e
          rw [hab] at hca; cases hca
      · have e := rank_lt_total a b (by simpa using hba) hab
        subst e
        rw [hbc] at hca; cases hca⟩
  exact List.sorted_insertionSort _ l

/-- The first entry of a sorted vector that passes a test is preceded by no entry that
passes it. -/
theorem find?_first_of_pairwise {β : Type} (R : β → β → Prop) (p : β → Bool)
    (hrefl : ∀ a, R a a) :
    ∀ (l : List β) (d : β), l.Pairwise R → l.find? p = some d →
      ∀ e ∈ l, p e = true → R d e := by
  intro l
  induction l with
  | nil => intro d _ h; cases h
  | cons a l ih =>
    intro d hs h e he hp
    rw [List.pairwise_cons] at hs
    by_cases ha : p a = true
    · rw [List.find?_cons_of_pos _ ha] at h
      cases h
      rcases List.mem_cons.mp he with rfl | he
      · exact hrefl _
      · exact hs.1 e he
    · rw [List.find?_cons_of_neg _ ha] at h
      rcases List.mem_cons.mp he with rfl | he
      · exact absurd hp ha
      · exact ih d hs.2 h e he hp

end RankOrder

section Scores

variable {α : Type} [LinearOrderedField α]

theorem overlap_step_score [FloorRing α] (X : Ext α) (points : List (Body α)) (i : Nat)
    (acc acc' : TileAcc α) (j : Nat)
    (h : overlap_step X points i acc j = .ok acc') : acc'.rank_score ≤ acc.rank_score := by
  unfold overlap_step at h
  dsimp only at h
  split at h
  · cases h
  · split at h
    · cases h
    · split at h
      · cases h
        exact sub_le_self _ (le_max_left _ _)
      · cases h

theorem edge_step_score [FloorRing α] (X : Ext α) (poly : List (Point α))
    (points : List (Body α)) (i : Nat) (acc acc' : TileAcc α) (e : Nat)
    (h : edge_step X poly points i acc e = .ok acc') : acc'.rank_score ≤ acc.rank_score := by
  unfold edge_step at h
  simp only at h
  split at h
  · cases h
  · split at h
    · cases h
      exact le_refl _
    · split at h
      · cases h
        exact sub_le_self _ (le_max_left _ _)
      · cases h

/-- The removal score of a tile is never positive. -/
theorem tile_forces_score [FloorRing α] (X : Ext α) (poly : List (Point α))
    (points : List (Body α)) (row : Row) (i : Nat) (K E : α) (a : TileAcc α)
    (h : tile_forces X poly points row i K E = .ok a) : a.rank_score ≤ 0 := by
  unfold tile_forces at h
  split at h
  · cases h
  · rename_i a1 h1
    split at h
    · cases h
    · rename_i a2 h2
      split at h
      · cases h
      · rename_i a3 h3
        cases h
        have e1 := foldlM_ok_invariant (fun s : TileAcc α => s.rank_score ≤ 0)
          (neighbour_step X points i row.nearest_point)
          (fun s b s' hs hb => by
            have := neighbour_step_keeps X points i _ s s' b hb
            exact this.2.2.le.trans hs)
          _ _ a1 (le_refl _) h1
        have e2 := foldlM_ok_invariant (fun s : TileAcc α => s.rank_score ≤ 0)
          (overlap_step X points i)
          (fun s b s' hs hb => (overlap_step_score X points i s s' b hb).trans hs)
          _ a1 a2 e1 h2
        have e3 := foldlM_ok_invariant (fun s : TileAcc α => s.rank_score ≤ 0)
          (edge_step X poly points i)
          (fun s b s' hs hb => (edge_step_score X poly points i s s' b hb).trans hs)
          _ a2 a3 e2 h3
        rw [(normalize_by_weight_keeps a3).2.2.2]
        exact e3

/-- Lines 220-393 leave no positive removal score. -/
theorem forces_scores [FloorRing α] (X : Ext α) (poly : List (Point α))
    (points : List (Body α)) (rows : List Row) (f : Forces α)
    (h : forces X poly points rows = .ok f) : ∀ a ∈ f.tiles, a.rank_score ≤ 0 := by
  unfold forces at h
  refine foldlM_ok_invariant (fun s : Forces α => ∀ a ∈ s.tiles, a.rank_score ≤ 0)
    (forces_step X poly points rows) ?_ _ _ f (by simp) h
  intro s b s' hs hb
  unfold forces_step at hb
  split at hb
  · cases hb
  · rename_i a ha
    cases hb
    intro c hc
    rcases List.mem_append.mp hc with hc | hc
    · exact hs c hc
    · rw [List.mem_singleton] at hc
      rw [hc]
      exact tile_forces_score X poly points _ b s.K s.E a ha

theorem sum_abs_of_nonpos : ∀ l : List α, (∀ x ∈ l, x ≤ 0) →
    l.sum ≤ 0 ∧ (l.map (fun x => |x|)).sum = -l.sum := by
  intro l
  induction l with
  | nil => intro _; simp
  | cons a l ih =>
    intro h
    have ha := h a (List.mem_cons_self _ _)
    obtain ⟨h1, h2⟩ := ih (fun x hx => h x (List.mem_cons_of_mem _ hx))
    refine ⟨?_, ?_⟩
    · rw [List.sum_cons]; exact add_nonpos ha h1
    · rw [List.map_cons, List.sum_cons, List.sum_cons, h2, abs_of_nonpos ha]
      ring

theorem foldl_score_sum (l : List (Rank α)) (init : α) :
    l.foldl (fun s r => s + r.1.2) init = init + (l.map (fun r => r.1.2)).sum := by
  induction l generalizing init with
  | nil => simp
  | cons a l ih => rw [List.foldl_cons, ih, List.map_cons, List.sum_cons]; ring

theorem del_rank_scores {β : Type} (tiles : List (TileAcc β)) :
    (del_rank_of tiles).map (fun r => r.1.2) = tiles.map (fun a => a.rank_score) := by
  unfold del_rank_of
  rw [List.map_map]
  conv_rhs => rw [← List.enum_map_snd tiles, List.map_map]
  rfl

/-- The sum of line 403-405 is the sum of the removal scores. -/
theorem sorted_score_sum (tiles : List (TileAcc α)) :
    (sort_del_rank (del_rank_of tiles)).foldl (fun s r => s + r.1.2) 0 =
      (tiles.map (fun a => a.rank_score)).sum := by
  rw [foldl_score_sum, zero_add, ← del_rank_scores]
  exact ((List.perm_insertionSort _ _).map _).sum_eq

/-- With no positive score, the value `abs(sum / size)` of line 408 is the mean of the
absolute scores. -/
theorem abs_mean_eq (tiles : List (TileAcc α)) (h : ∀ a ∈ tiles, a.rank_score ≤ 0) :
    |(tiles.map (fun a => a.rank_score)).sum / (tiles.length : α)| =
      spec_mean_abs_score tiles := by
  have hs := sum_abs_of_nonpos (tiles.map (fun a => a.rank_score))
    (fun x hx => by
      rw [List.mem_map] at hx
      obtain ⟨a, ha, rfl⟩ := hx
      exact h a ha)
  unfold spec_mean_abs_score
  rw [List.map_map] at hs
  rw [abs_div, abs_of_nonpos hs.1, abs_of_nonneg (Nat.cast_nonneg _), ← hs.2]
  rfl

/-- Some tile of a non-empty field has an absolute score at least the mean. -/
theorem exists_above_mean (tiles : List (TileAcc α)) (hne : tiles ≠ []) :
    ∃ a ∈ tiles, spec_mean_abs_score tiles ≤ |a.rank_score| := by
  have hpos : (0 : α) < (tiles.length : α) := by
    exact_mod_cast List.length_pos.mpr hne
  refine List.exists_le_of_sum_le hne (fun _ => spec_mean_abs_score tiles)
    (fun a => |a.rank_score|) ?_
  rw [List.map_const', List.sum_replicate, nsmul_eq_mul]
  unfold spec_mean_abs_score
  rw [mul_div_cancel₀ _ hpos.ne']

end Scores

section Candidate

variable {α : Type} [LinearOrderedField α]

/-- Lines 437-451 leave the first field of `pre_del` as it is. -/
theorem remove_or_keep_pre_del (t : Tracked α) :
    (remove_or_keep t).globals.pre_del.1 = t.pre_del.1 := by
  unfold remove_or_keep
  split <;> rfl

/-- The deletion candidate of lines 402-409, for scores none of which is positive. -/
theorem find_del_first (tiles : List (TileAcc α)) (hne : tiles ≠ [])
    (hs : ∀ a ∈ tiles, a.rank_score ≤ 0) :
    ∃ d ∈ del_rank_of tiles,
      d.2 = find_del (sort_del_rank (del_rank_of tiles))
        ((sort_del_rank (del_rank_of tiles)).foldl (fun s r => s + r.1.2) 0) ∧
      spec_mean_abs_score tiles ≤ |d.1.2| ∧
      ∀ e ∈ del_rank_of tiles, spec_mean_abs_score tiles ≤ |e.1.2| →
        rank_lt e d = false ∧ (e ≠ d → rank_lt d e = true) := by
  have hlen : (sort_del_rank (del_rank_of tiles)).length = tiles.length := by
    rw [length_sort_del_rank]
    simp [del_rank_of]
  have hmean : |(sort_del_rank (del_rank_of tiles)).foldl (fun s r => s + r.1.2) 0 /
      ((sort_del_rank (del_rank_of tiles)).length : α)| = spec_mean_abs_score tiles := by
    rw [sorted_score_sum, hlen, abs_mean_eq tiles hs]
  obtain ⟨a, ha, hab⟩ := exists_above_mean tiles hne
  have hex : ∃ e ∈ sort_del_rank (del_rank_of tiles), spec_mean_abs_score tiles ≤ |e.1.2| := by
    obtain ⟨i, hi, hia⟩ := List.getElem_of_mem ha
    refine ⟨((a.rank_count, a.rank_score), (i : Int)), ?_, hab⟩
    rw [mem_sort_del_rank]
    unfold del_rank_of
    rw [List.mem_map]
    refine ⟨(i, a), ?_, rfl⟩
    rw [List.mk_mem_enum_iff_getElem?, List.getElem?_eq_getElem hi, hia]
  unfold find_del
  rw [hmean]
  cases hf : (sort_del_rank (del_rank_of tiles)).find?
      (fun r => decide (spec_mean_abs_score tiles ≤ |r.1.2|)) with
  | none =>
    rw [List.find?_eq_none] at hf
    obtain ⟨e, he, hep⟩ := hex
    have := hf e he
    simp only [decide_eq_true_eq] at this
    exact absurd hep this
  | some d =>
    have hd : d ∈ sort_del_rank (del_rank_of tiles) := List.mem_of_find?_eq_some hf
    have hdp : spec_mean_abs_score tiles ≤ |d.1.2| := by
      simpa using List.find?_some hf
    refine ⟨d, (mem_sort_del_rank _ d).mp hd, rfl, hdp, ?_⟩
    intro e he hep
    have h1 : rank_lt e d = false :=
      find?_first_of_pairwise (fun a b : Rank α => rank_lt b a = false) _
        (fun a => by
          show rank_lt a a = false
          rw [Bool.eq_false_iff]
          intro h
          rw [rank_lt_iff] at h
          rcases h with h | ⟨-, h⟩
          · rw [key_lt_irrefl] at h; cases h
          · exact lt_irrefl _ h)
        _ d (sort_del_rank_sorted _) hf e ((mem_sort_del_rank _ e).mpr he) (by simpa using hep)
    refine ⟨h1, fun hne => ?_⟩
    by_contra h2
    exact hne (rank_lt_total e d h1 (by simpa using h2))

/-- C18: for a non-empty tile field the step finds a deletion candidate (`del` is not
`-1`; it is what the step leaves in the first field of `pre_del`), and the candidate is
the tile that comes first in the ascending order of (bonus count, score, index) among the
tiles whose absolute removal score is at least the mean of the absolute removal scores of
all tiles: no such tile precedes it, and it precedes every other such tile. -/
theorem deletion_candidate [FloorRing α] (X : Ext α) (poly : List (Point α)) (g : Globals α)
    (points : List (Body α)) (rnd : Nat) (r : StepResult α)
    (h : calc_next_step X poly g points rnd = .ok r) (hne : points ≠ []) :
    ∃ rows f, scan_tiles X poly points = .ok rows ∧ forces X poly points rows = .ok f ∧
      r.globals.pre_del.1 ≠ -1 ∧
      ∃ d ∈ del_rank_of f.tiles, d.2 = r.globals.pre_del.1 ∧
        spec_mean_abs_score f.tiles ≤ |d.1.2| ∧
        ∀ e ∈ del_rank_of f.tiles, spec_mean_abs_score f.tiles ≤ |e.1.2| →
          rank_lt e d = false ∧ (e ≠ d → rank_lt d e = true) := by
  obtain ⟨rows, f, hrows, hf, hr⟩ := calc_next_step_ok X poly g points rnd r h
  have hlen := forces_tiles_length X poly points rows f hf
  have hfne : f.tiles ≠ [] := by
    intro h0
    rw [h0] at hlen
    exact hne (List.length_eq_zero.mp hlen.symm)
  obtain ⟨d, hd, hd2, hd3, hd4⟩ := find_del_first f.tiles hfne (forces_scores X poly points rows f hf)
  have hdel : r.globals.pre_del.1 =
      find_del (sort_del_rank (del_rank_of f.tiles))
        ((sort_del_rank (del_rank_of f.tiles)).foldl (fun s r => s + r.1.2) 0) := by
    rw [hr, remove_or_keep_pre_del, track_pre_del]
    rfl
  refine ⟨rows, f, hrows, hf, ?_, d, hd, hd2.trans hdel.symm, hd3, hd4⟩
  rw [hdel, ← hd2]
  obtain ⟨i, -, hi⟩ := mem_del_rank_of f.tiles d hd
  rw [hi]
  omega

end Candidate

section CandidateInstances

/-- C18 at the tile on the lower edge: the single tile is the deletion candidate. -/
theorem deletion_candidate_witness :
    calc_next_step realExt square Globals.initial [tile_low] 0 = .ok result_low_initial ∧
    [tile_low] ≠ [] ∧
    ∃ rows f, scan_tiles realExt square [tile_low] = .ok rows ∧
      forces realExt square [tile_low] rows = .ok f ∧
      result_low_initial.globals.pre_del.1 ≠ -1 ∧
      ∃ d ∈ del_rank_of f.tiles, d.2 = result_low_initial.globals.pre_del.1 ∧
        spec_mean_abs_score f.tiles ≤ |d.1.2| ∧
        ∀ e ∈ del_rank_of f.tiles, spec_mean_abs_score f.tiles ≤ |e.1.2| →
          rank_lt e d = false ∧ (e ≠ d → rank_lt d e = true) :=
  ⟨step_low_initial, by simp,
    deletion_candidate realExt square Globals.initial [tile_low] 0 result_low_initial
      step_low_initial (by simp)⟩

end CandidateInstances

section EdgeSkip

variable {α : Type} [LinearOrderedField α]

/-- C19, amended: for a tile and an edge of its edge-overlap list, with `dis` the distance
of the centre to the line of the edge (not zero) and the required separation
`min_distance = dis + max_dis`, the correction is skipped (the sums of the tile stay as
they are) exactly when `1 - (dis / min_distance)^(-2) > 0`, that is when
`(min_distance / dis)^2 < 1`; the exponent is `-2`, not `2`. -/
theorem edge_skip_iff [FloorRing α] (X : Ext α) (poly : List (Point α))
    (points : List (Body α)) (i : Nat) (acc : TileAcc α) (e : Nat)
    (hk : (edge_locals X poly (body_at points i) e).k ≠ -1)
    (hdis : (edge_locals X poly (body_at points i) e).dis ≠ 0) :
    (edge_locals X poly (body_at points i) e).dis =
      distance_to_line X (body_at points i).position (vertex_at poly e)
        (vertex_at poly ((e + 1) % poly.length)) ∧
    (edge_locals X poly (body_at points i) e).min_distance =
      (edge_locals X poly (body_at points i) e).dis +
        (edge_locals X poly (body_at points i) e).max_dis ∧
    (edge_step X poly points i acc e = .ok acc ↔
      0 < 1 - ((edge_locals X poly (body_at points i) e).dis /
        (edge_locals X poly (body_at points i) e).min_distance) ^ (-2 : ℤ)) ∧
    (0 < 1 - ((edge_locals X poly (body_at points i) e).dis /
        (edge_locals X poly (body_at points i) e).min_distance) ^ (-2 : ℤ) ↔
      ((edge_locals X poly (body_at points i) e).min_distance /
        (edge_locals X poly (body_at points i) e).dis) ^ 2 < 1) := by
  refine ⟨rfl, rfl, ?_, ?_⟩
  · have hkn : (edge_locals X poly (body_at points i) e).kn =
        1 - ((edge_locals X poly (body_at points i) e).dis /
          (edge_locals X poly (body_at points i) e).min_distance) ^ (-2 : ℤ) := rfl
    rw [← hkn]
    unfold edge_step
    simp only [if_neg hk]
    constructor
    · intro h
      by_contra hn
      rw [if_neg hn] at h
      split at h
      · have hw := congrArg TileAcc.weight_sum (Except.ok.inj h)
        simp only [calc_weight, div_one] at hw
        have h1 : 0 ≤ (edge_locals X poly (body_at points i) e).min_distance ^ (-12 : ℤ) :=
          Even.zpow_nonneg (by decide) _
        have h2 : 0 < (edge_locals X poly (body_at points i) e).dis ^ (-12 : ℤ) :=
          Even.zpow_pos (by decide) hdis
        linarith
      · cases h
    · intro h
      rw [if_pos h]
  · rw [sub_pos, zpow_neg, ← inv_zpow, inv_div, zpow_ofNat]

end EdgeSkip
section EdgeSkipWorked

/-- The correction of the lower edge of `square` on `tile_low`, whatever the sums are. -/
theorem edge_step_low (acc : TileAcc ℝ) :
    edge_step realExt square [tile_low] 0 acc 0 =
      .ok { force := acc.force.sub (Point.smul (4097 * -3) ⟨0, 1⟩)
            angle := acc.angle + 60 * 4097
            weight_sum := acc.weight_sum + 4097
            K := min acc.K (1 / 2)
            rank_count := acc.rank_count
            rank_score := acc.rank_score - 1 / 2
            E := acc.E + 1 } := by
  have hb : body_at [tile_low] 0 = tile_low := rfl
  unfold edge_step
  simp only [hb, edge_locals_low, normal_low_unit, calc_weight, ZERO]
  norm_num

/-- C19, as stated, fails: for `tile_low` and the lower edge of `square` (an edge of the
edge-overlap list of the tile) `dis = 1/2` and the required separation is `1`, so
`1 - (dis / required_separation)^2 = 3/4 > 0`; yet the correction is applied: the weight
sum of the tile grows by 4097. -/
theorem edge_low_not_skipped :
    (List.range square.length).filter (edge_overlaps realExt square tile_low) = [0] ∧
    (edge_locals realExt square (body_at [tile_low] 0) 0).dis = 1 / 2 ∧
    (edge_locals realExt square (body_at [tile_low] 0) 0).min_distance = 1 ∧
    spec_edge_skip_test (edge_locals realExt square (body_at [tile_low] 0) 0).dis
      (edge_locals realExt square (body_at [tile_low] 0) 0).min_distance = true ∧
    edge_step realExt square [tile_low] 0 ⟨⟨0, 0⟩, 0, 0, 1, 0, 0, 0⟩ 0 =
      .ok ⟨⟨0, 12291⟩, 245820, 4097, 1 / 2, 1, 0, -(1 / 2)⟩ ∧
    edge_step realExt square [tile_low] 0 ⟨⟨0, 0⟩, 0, 0, 1, 0, 0, 0⟩ 0 ≠
      .ok ⟨⟨0, 0⟩, 0, 0, 1, 0, 0, 0⟩ := by
  have hb : body_at [tile_low] 0 = tile_low := rfl
  have hs : edge_step realExt square [tile_low] 0 ⟨⟨0, 0⟩, 0, 0, 1, 0, 0, 0⟩ 0 =
      .ok ⟨⟨0, 12291⟩, 245820, 4097, 1 / 2, 1, 0, -(1 / 2)⟩ := by
    rw [edge_step_low]
    simp only [Point.sub, Point.smul]
    norm_num
  refine ⟨edges_low, ?_, ?_, ?_, hs, ?_⟩
  · rw [hb, edge_locals_low]
  · rw [hb, edge_locals_low]
  · rw [hb, edge_locals_low]
    unfold spec_edge_skip_test
    norm_num
  · rw [hs]
    intro h
    have := congrArg TileAcc.weight_sum (Except.ok.inj h)
    norm_num at this

/-- The amended C19 at `tile_low` and the lower edge of `square`:
`1 - (1/2 / 1)^(-2) = -3`, the correction is applied. -/
theorem edge_skip_iff_witness :
    (edge_locals realExt square (body_at [tile_low] 0) 0).k ≠ -1 ∧
    (edge_locals realExt square (body_at [tile_low] 0) 0).dis ≠ 0 ∧
    (edge_locals realExt square (body_at [tile_low] 0) 0).dis =
      distance_to_line realExt (body_at [tile_low] 0).position (vertex_at square 0)
        (vertex_at square ((0 + 1) % square.length)) ∧
    (edge_locals realExt square (body_at [tile_low] 0) 0).min_distance =
      (edge_locals realExt square (body_at [tile_low] 0) 0).dis +
        (edge_locals realExt square (body_at [tile_low] 0) 0).max_dis ∧
    (edge_step realExt square [tile_low] 0 ⟨⟨0, 0⟩, 0, 0, 1, 0, 0, 0⟩ 0 =
        .ok ⟨⟨0, 0⟩, 0, 0, 1, 0, 0, 0⟩ ↔
      0 < 1 - ((edge_locals realExt square (body_at [tile_low] 0) 0).dis /
        (edge_locals realExt square (body_at [tile_low] 0) 0).min_distance) ^ (-2 : ℤ)) ∧
    (0 < 1 - ((edge_locals realExt square (body_at [tile_low] 0) 0).dis /
        (edge_locals realExt square (body_at [tile_low] 0) 0).min_distance) ^ (-2 : ℤ) ↔
      ((edge_locals realExt square (body_at [tile_low] 0) 0).min_distance /
        (edge_locals realExt square (body_at [tile_low] 0) 0).dis) ^ 2 < 1) :=
  have hb : body_at [tile_low] 0 = tile_low := rfl
  have hk : (edge_locals realExt square (body_at [tile_low] 0) 0).k ≠ -1 := by
    rw [hb, edge_locals_low]; decide
  have hd : (edge_locals realExt square (body_at [tile_low] 0) 0).dis ≠ 0 := by
    rw [hb, edge_locals_low]; norm_num
  ⟨hk, hd, edge_skip_iff realExt square [tile_low] 0 ⟨⟨0, 0⟩, 0, 0, 1, 0, 0, 0⟩ 0 hk hd⟩

end EdgeSkipWorked

section Footprint

theorem sin_deg_add (x y : ℝ) :
    realExt.sin (to_rad realExt (x + y)) =
      realExt.sin (to_rad realExt x) * realExt.cos (to_rad realExt y) +
        realExt.cos (to_rad realExt x) * realExt.sin (to_rad realExt y) := by
  simp only [real_sin_deg, real_cos_deg]
  rw [show ((x + y) / 180 * Real.pi : ℝ) = x / 180 * Real.pi + y / 180 * Real.pi by ring]
  exact Real.sin_add _ _

theorem cos_deg_add (x y : ℝ) :
    realExt.cos (to_rad realExt (x + y)) =
      realExt.cos (to_rad realExt x) * realExt.cos (to_rad realExt y) -
        realExt.sin (to_rad realExt x) * realExt.sin (to_rad realExt y) := by
  simp only [real_sin_deg, real_cos_deg]
  rw [show ((x + y) / 180 * Real.pi : ℝ) = x / 180 * Real.pi + y / 180 * Real.pi by ring]
  exact Real.cos_add _ _

theorem sin_cos_deg_sq (x : ℝ) :
    realExt.sin (to_rad realExt x) * realExt.sin (to_rad realExt x) +
      realExt.cos (to_rad realExt x) * realExt.cos (to_rad realExt x) = 1 := by
  simp only [real_sin_deg, real_cos_deg]
  have := Real.sin_sq_add_cos_sq (x / 180 * Real.pi)
  nlinarith

theorem sin_deg_360 : realExt.sin (to_rad realExt 360) = 0 := by
  rw [real_sin_deg, show (360 / 180 * Real.pi : ℝ) = 2 * Real.pi by ring]
  exact Real.sin_two_pi

theorem cos_deg_360 : realExt.cos (to_rad realExt 360) = 1 := by
  rw [real_cos_deg, show (360 / 180 * Real.pi : ℝ) = 2 * Real.pi by ring]
  exact Real.cos_two_pi

/-- The corners of the footprint with the sine and cosine of the orientation. -/
theorem create_triangle_real (c : Point ℝ) (arc : ℝ) :
    create_triangle realExt c arc =
      ⟨⟨c.x + (realExt.sin (to_rad realExt arc) / 2 -
            realExt.cos (to_rad realExt arc) * Real.sqrt 3 / 2),
          c.y + (realExt.cos (to_rad realExt arc) / 2 +
            realExt.sin (to_rad realExt arc) * Real.sqrt 3 / 2)⟩,
        ⟨c.x - realExt.sin (to_rad realExt arc), c.y - realExt.cos (to_rad realExt arc)⟩,
        ⟨c.x + (realExt.sin (to_rad realExt arc) / 2 +
            realExt.cos (to_rad realExt arc) * Real.sqrt 3 / 2),
          c.y + (realExt.cos (to_rad realExt arc) / 2 -
            realExt.sin (to_rad realExt arc) * Real.sqrt 3 / 2)⟩⟩ := by
  simp only [create_triangle, Point.add, sub_eq_add_neg, sin_deg_add, cos_deg_add, sin_deg_neg,
    cos_deg_neg, sin_deg_60, cos_deg_60, sin_deg_180, cos_deg_180]
  congr 2 <;> ring

theorem real_length_eq (v : Point ℝ) (r : ℝ) (hr : 0 ≤ r) (h : v.x * v.x + v.y * v.y = r * r) :
    Point.Length realExt v = r := by
  unfold Point.Length
  rw [h]
  exact Real.sqrt_mul_self hr

/-- C13: for every centre `c` and every orientation `arc` (degrees), over the real
numbers, each corner of `create_triangle(c, arc)` is at distance 1 of `c`, any two corners
are at distance `sqrt(3)`, and the area of the triangle is `3 * sqrt(3) / 4`, the divisor
of the initial tile count. -/
theorem footprint_equilateral (c : Point ℝ) (arc : ℝ) :
    Point.Length realExt ((create_triangle realExt c arc).p0.sub c) = 1 ∧
    Point.Length realExt ((create_triangle realExt c arc).p1.sub c) = 1 ∧
    Point.Length realExt ((create_triangle realExt c arc).p2.sub c) = 1 ∧
    Point.Length realExt
      ((create_triangle realExt c arc).p0.sub (create_triangle realExt c arc).p1) =
        realExt.sqrt 3 ∧
    Point.Length realExt
      ((create_triangle realExt c arc).p1.sub (create_triangle realExt c arc).p2) =
        realExt.sqrt 3 ∧
    Point.Length realExt
      ((create_triangle realExt c arc).p2.sub (create_triangle realExt c arc).p0) =
        realExt.sqrt 3 ∧
    realExt.area [(create_triangle realExt c arc).p0, (create_triangle realExt c arc).p1,
      (create_triangle realExt c arc).p2] = 3 * realExt.sqrt 3 / 4 ∧
    point_number realExt (realExt.area [(create_triangle realExt c arc).p0,
      (create_triangle realExt c arc).p1, (create_triangle realExt c arc).p2]) = 1 := by
  have h1 := sin_cos_deg_sq arc
  have h3 := sqrt3_sq
  have hpos : (0 : ℝ) ≤ Real.sqrt 3 := Real.sqrt_nonneg 3
  have harea : realExt.area [(create_triangle realExt c arc).p0,
      (create_triangle realExt c arc).p1, (create_triangle realExt c arc).p2] =
      3 * realExt.sqrt 3 / 4 := by
    rw [create_triangle_real]
    show shoelace_area _ = 3 * Real.sqrt 3 / 4
    simp only [shoelace_area, List.length_cons, List.length_nil, range_three, List.map,
      vertex_at, shoelace_term, List.sum_cons, List.sum_nil]
    norm_num
    linear_combination (3 * Real.sqrt 3 / 4) * h1
  rw [harea, create_triangle_real]
  generalize realExt.sin (to_rad realExt arc) = s at h1 ⊢
  generalize realExt.cos (to_rad realExt arc) = k at h1 ⊢
  refine ⟨?_, ?_, ?_, ?_, ?_, ?_, rfl, ?_⟩
  · apply real_length_eq _ 1 (by norm_num)
    simp only [Point.sub]
    linear_combination ((1 + Real.sqrt 3 * Real.sqrt 3) / 4) * h1 + (1 / 4) * h3
  · apply real_length_eq _ 1 (by norm_num)
    simp only [Point.sub]
    linear_combination h1
  · apply real_length_eq _ 1 (by norm_num)
    simp only [Point.sub]
    linear_combination ((1 + Real.sqrt 3 * Real.sqrt 3) / 4) * h1 + (1 / 4) * h3
  · apply real_length_eq _ _ hpos
    simp only [Point.sub]
    linear_combination ((9 + Real.sqrt 3 * Real.sqrt 3) / 4) * h1 + (-3 / 4) * h3
  · apply real_length_eq _ _ hpos
    simp only [Point.sub]
    linear_combination ((9 + Real.sqrt 3 * Real.sqrt 3) / 4) * h1 + (-3 / 4) * h3
  · apply real_length_eq _ _ hpos
    simp only [Point.sub]
    linear_combination (Real.sqrt 3 * Real.sqrt 3) * h1
  · unfold point_number trunc_int
    have hne : (3 * realExt.sqrt 3 / 4 : ℝ) ≠ 0 := by
      show (3 * Real.sqrt 3 / 4 : ℝ) ≠ 0
      have := sqrt3_lower
      intro h
      linarith
    rw [div_self hne]
    simp

end Footprint
section FootprintSymmetry

theorem sin_deg_period (x : ℝ) :
    realExt.sin (to_rad realExt (x + 360)) = realExt.sin (to_rad realExt x) := by
  rw [sin_deg_add, sin_deg_360, cos_deg_360]; ring

theorem cos_deg_period (x : ℝ) :
    realExt.cos (to_rad realExt (x + 360)) = realExt.cos (to_rad realExt x) := by
  rw [cos_deg_add, sin_deg_360, cos_deg_360]; ring

/-- The edge of sector `k` has its middle at half the heading of the sector. -/
theorem edge_middle (c : Point ℝ) (a : ℝ) :
    c.add (Point.smul (1 / 2) ⟨realExt.sin (to_rad realExt a), realExt.cos (to_rad realExt a)⟩) =
      Point.smul (1 / 2)
        ((c.add ⟨realExt.sin (to_rad realExt (a - 60)), realExt.cos (to_rad realExt (a - 60))⟩).add
          (c.add ⟨realExt.sin (to_rad realExt (a + 60)),
            realExt.cos (to_rad realExt (a + 60))⟩)) := by
  simp only [Point.add, Point.smul, sub_eq_add_neg, sin_deg_add, cos_deg_add, sin_deg_neg,
    cos_deg_neg, sin_deg_60, cos_deg_60]
  congr 1 <;> ring

/-- C14: over the real numbers, `create_triangle(c, arc + 120)` has the corners of
`create_triangle(c, arc)` (in the order `p2, p0, p1`), `create_triangle(c, arc + 360)` is
`create_triangle(c, arc)`, and for each sector `k` with heading `a_k = arc + 120 k` the
points of `c` at the headings `a_k - 60` and `a_k + 60` are two corners of the footprint
and `c + 0.5 (sin a_k, cos a_k)` is the middle of the two. -/
theorem footprint_symmetry (c : Point ℝ) (arc : ℝ) :
    create_triangle realExt c (arc + 120) =
      ⟨(create_triangle realExt c arc).p2, (create_triangle realExt c arc).p0,
        (create_triangle realExt c arc).p1⟩ ∧
    create_triangle realExt c (arc + 360) = create_triangle realExt c arc ∧
    ∀ k : Fin 3,
      (c.add ⟨realExt.sin (to_rad realExt (arc + 120 * ((k : ℕ) : ℝ) - 60)),
          realExt.cos (to_rad realExt (arc + 120 * ((k : ℕ) : ℝ) - 60))⟩ =
        [(create_triangle realExt c arc).p0, (create_triangle realExt c arc).p2,
          (create_triangle realExt c arc).p1].getD k c) ∧
      (c.add ⟨realExt.sin (to_rad realExt (arc + 120 * ((k : ℕ) : ℝ) + 60)),
          realExt.cos (to_rad realExt (arc + 120 * ((k : ℕ) : ℝ) + 60))⟩ =
        [(create_triangle realExt c arc).p2, (create_triangle realExt c arc).p1,
          (create_triangle realExt c arc).p0].getD k c) ∧
      c.add (Point.smul (1 / 2)
          ⟨realExt.sin (to_rad realExt (arc + 120 * ((k : ℕ) : ℝ))),
            realExt.cos (to_rad realExt (arc + 120 * ((k : ℕ) : ℝ)))⟩) =
        Point.smul (1 / 2)
          (([(create_triangle realExt c arc).p0, (create_triangle realExt c arc).p2,
              (create_triangle realExt c arc).p1].getD k c).add
            ([(create_triangle realExt c arc).p2, (create_triangle realExt c arc).p1,
              (create_triangle realExt c arc).p0].getD k c)) := by
  have e1 : arc + 120 - 60 = arc + 60 := by ring
  have e2 : arc + 120 - 180 = arc - 60 := by ring
  have e3 : arc + 120 + 60 = arc - 180 + 360 := by ring
  have e4 : arc + 360 - 60 = arc - 60 + 360 := by ring
  have e5 : arc + 360 - 180 = arc - 180 + 360 := by ring
  have e6 : arc + 360 + 60 = arc + 60 + 360 := by ring
  have t120 : create_triangle realExt c (arc + 120) =
      ⟨(create_triangle realExt c arc).p2, (create_triangle realExt c arc).p0,
        (create_triangle realExt c arc).p1⟩ := by
    simp only [create_triangle, e1, e2, e3, sin_deg_period, cos_deg_period]
  have t360 : create_triangle realExt c (arc + 360) = create_triangle realExt c arc := by
    simp only [create_triangle, e4, e5, e6, sin_deg_period, cos_deg_period]
  have hn : ∀ n : ℕ, n < 3 →
      (c.add ⟨realExt.sin (to_rad realExt (arc + 120 * (n : ℝ) - 60)),
          realExt.cos (to_rad realExt (arc + 120 * (n : ℝ) - 60))⟩ =
        [(create_triangle realExt c arc).p0, (create_triangle realExt c arc).p2,
          (create_triangle realExt c arc).p1].getD n c) ∧
      (c.add ⟨realExt.sin (to_rad realExt (arc + 120 * (n : ℝ) + 60)),
          realExt.cos (to_rad realExt (arc + 120 * (n : ℝ) + 60))⟩ =
        [(create_triangle realExt c arc).p2, (create_triangle realExt c arc).p1,
          (create_triangle realExt c arc).p0].getD n c) := by
    intro n hlt
    interval_cases n
    · simp only [Nat.cast_zero, mul_zero, add_zero, List.getD_cons_zero, create_triangle,
        and_self]
    · have a1 : arc + 120 * ((1 : ℕ) : ℝ) - 60 = arc + 60 := by
        rw [Nat.cast_one]; ring
      have a2 : arc + 120 * ((1 : ℕ) : ℝ) + 60 = arc - 180 + 360 := by
        rw [Nat.cast_one]; ring
      rw [a1, a2, sin_deg_period, cos_deg_period]
      exact ⟨rfl, rfl⟩
    · have a1 : arc + 120 * ((2 : ℕ) : ℝ) - 60 = arc - 180 + 360 := by
        rw [Nat.cast_ofNat]; ring
      have a2 : arc + 120 * ((2 : ℕ) : ℝ) + 60 = arc - 60 + 360 := by
        rw [Nat.cast_ofNat]; ring
      rw [a1, a2, sin_deg_period, cos_deg_period, sin_deg_period, cos_deg_period]
      exact ⟨rfl, rfl⟩
  have hk := fun k : Fin 3 => hn k.val k.isLt
  refine ⟨t120, t360, fun k => ⟨(hk k).1, (hk k).2, ?_⟩⟩
  rw [← (hk k).1, ← (hk k).2]
  exact edge_middle c _

end FootprintSymmetry

section EdgeTriangle

theorem to_deg_pi : to_deg realExt Real.pi = 180 := by
  show Real.pi * 180 / Real.pi = 180
  field_simp

/-- The footprint of `tile_flipped`: the corner at heading 0 points upwards. -/
theorem footprint_flipped :
    create_triangle realExt tile_flipped.position (to_deg realExt tile_flipped.angle) =
      ⟨⟨Real.sqrt 3 / 2, 1 / 4⟩, ⟨0, 7 / 4⟩, ⟨-(Real.sqrt 3 / 2), 1 / 4⟩⟩ := by
  have h : to_deg realExt tile_flipped.angle = 180 := to_deg_pi
  rw [h, create_triangle_real, sin_deg_180, cos_deg_180]
  simp only [tile_flipped]
  norm_num
  constructor <;> ring

/-- The footprint of `tile_flipped` lies above the lower edge of `square`. -/
theorem footprint_flipped_clear :
    intersect_each_segment realExt tile_flipped.position (to_deg realExt tile_flipped.angle)
      (vertex_at square 0) (vertex_at square ((0 + 1) % square.length)) = false := by
  have hu : vertex_at square 0 = ⟨-5, 0⟩ := rfl
  have hv : vertex_at square ((0 + 1) % square.length) = ⟨5, 0⟩ := rfl
  have h3 := sqrt3_lower
  unfold intersect_each_segment
  rw [footprint_flipped, hu, hv]
  show tri_seg_exact _ _ = false
  apply tri_seg_exact_of_left
  · simp only [create_segment, cross]; norm_num
  · simp only [create_segment, cross]; norm_num
  · simp only [create_segment, cross]; norm_num
  · simp only [cross]
    intro h
    nlinarith

/-- The sine and the cosine of `pi` degrees. -/
theorem sin_cos_pi_deg :
    0 ≤ realExt.sin (to_rad realExt Real.pi) ∧
    realExt.sin (to_rad realExt Real.pi) ≤ 1 / 10 ∧
    99 / 100 ≤ realExt.cos (to_rad realExt Real.pi) ∧
    realExt.cos (to_rad realExt Real.pi) ≤ 1 := by
  have hp3 := Real.pi_gt_three
  have hp4 := Real.pi_le_four
  have hd0 : 0 ≤ Real.pi / 180 * Real.pi := by positivity
  have hd1 : Real.pi / 180 * Real.pi ≤ 1 / 10 := by nlinarith
  rw [real_sin_deg, real_cos_deg]
  refine ⟨?_, ?_, ?_, Real.cos_le_one _⟩
  · exact Real.sin_nonneg_of_nonneg_of_le_pi hd0 (by linarith)
  · exact (Real.sin_le hd0).trans hd1
  · have := Real.one_sub_sq_div_two_le_cos (x := Real.pi / 180 * Real.pi)
    nlinarith

end EdgeTriangle
section EdgeTriangleTested

/-- The triangle line 215 builds for `tile_flipped` (the orientation `pi` read as
degrees) crosses the lower edge of `square`. -/
theorem edge_overlaps_flipped : edge_overlaps realExt square tile_flipped 0 = true := by
  have hu : vertex_at square 0 = ⟨-5, 0⟩ := rfl
  have hv : vertex_at square ((0 + 1) % square.length) = ⟨5, 0⟩ := rfl
  obtain ⟨hs0, hs1, hk0, hk1⟩ := sin_cos_pi_deg
  have hr0 := sqrt3_lower
  have hr1 := sqrt3_upper
  unfold edge_overlaps intersect_each_segment
  rw [hu, hv, create_triangle_real, show tile_flipped.angle = Real.pi from rfl]
  show tri_seg_exact _ _ = true
  generalize realExt.sin (to_rad realExt Real.pi) = s at hs0 hs1 ⊢
  generalize realExt.cos (to_rad realExt Real.pi) = k at hk0 hk1 ⊢
  generalize Real.sqrt 3 = r at hr0 hr1 ⊢
  have hsr0 : 0 ≤ s * r := mul_nonneg hs0 (by linarith)
  have hsr1 : s * r ≤ 1 / 10 * (18 / 10) := mul_le_mul hs1 hr1.le (by linarith) (by norm_num)
  have hkr0 : 99 / 100 * (17 / 10) ≤ k * r := mul_le_mul hk0 hr0.le (by norm_num) (by linarith)
  have hkr1 : k * r ≤ 1 * (18 / 10) := mul_le_mul hk1 hr1.le (by linarith) (by norm_num)
  have hA0 : 0 ≤ (k * r - 3 * s) / 2 := by linarith
  have hA1 : (k * r - 3 * s) / 2 ≤ 9 / 10 := by linarith
  have hB0 : 0 ≤ 3 / 4 + k / 2 + s * r / 2 := by linarith
  have hB1 : 3 / 4 + k / 2 + s * r / 2 ≤ 14 / 10 := by linarith
  have hC0 : 14 / 10 ≤ (3 * k + s * r) / 2 := by linarith
  have hD0 : 5 ≤ 5 - s / 2 + k * r / 2 := by linarith
  have hE1 : -5 - s / 2 + k * r / 2 ≤ -4 := by linarith
  have hAB0 : 0 ≤ (k * r - 3 * s) / 2 * (3 / 4 + k / 2 + s * r / 2) := mul_nonneg hA0 hB0
  have hAB1 : (k * r - 3 * s) / 2 * (3 / 4 + k / 2 + s * r / 2) ≤ 9 / 10 * (14 / 10) :=
    mul_le_mul hA1 hB1 hB0 (by norm_num)
  have hCD : 14 / 10 * 5 ≤ (3 * k + s * r) / 2 * (5 - s / 2 + k * r / 2) :=
    mul_le_mul hC0 hD0 (by norm_num) (by linarith)
  have hCE : (3 * k + s * r) / 2 * (-5 - s / 2 + k * r / 2) ≤ 0 :=
    mul_nonpos_of_nonneg_of_nonpos (by linarith) (by linarith)
  have hCE4 : (3 * k + s * r) / 2 * (-5 - s / 2 + k * r / 2) ≤ 14 / 10 * -4 := by
    nlinarith
  apply tri_seg_exact_of_side _ _ ⟨_, _⟩ (List.mem_cons_self _ _)
  apply seg_seg_exact_of_crossing
  · left
    simp only [create_segment, cross, tile_flipped]
    constructor <;> linarith
  · right
    simp only [create_segment, cross, tile_flipped]
    constructor
    · have e : (0 - s - (0 + (s / 2 - k * r / 2))) * (0 - (3 / 4 + (k / 2 + s * r / 2))) -
          (3 / 4 - k - (3 / 4 + (k / 2 + s * r / 2))) * (-5 - (0 + (s / 2 - k * r / 2))) =
          (3 * k + s * r) / 2 * (-5 - s / 2 + k * r / 2) -
            (k * r - 3 * s) / 2 * (3 / 4 + k / 2 + s * r / 2) := by ring
      rw [e]
      linarith
    · have e : (0 - s - (0 + (s / 2 - k * r / 2))) * (0 - (3 / 4 + (k / 2 + s * r / 2))) -
          (3 / 4 - k - (3 / 4 + (k / 2 + s * r / 2))) * (5 - (0 + (s / 2 - k * r / 2))) =
          (3 * k + s * r) / 2 * (5 - s / 2 + k * r / 2) -
            (k * r - 3 * s) / 2 * (3 / 4 + k / 2 + s * r / 2) := by ring
      rw [e]
      linarith

end EdgeTriangleTested
section EdgeTriangleClaim

/-- C20, as stated, fails: for `tile_flipped` (centre `(0, 3/4)`, orientation `pi`
radians, that is 180 degrees) the footprint, as the tile/tile test builds it, lies above
the lower edge of `square` and does not meet it, but the triangle line 215 tests against
the edge is built from the orientation in radians, is another triangle, meets the edge,
and so the edge is recorded in `overlap_edge` of the tile. -/
theorem edge_test_not_footprint :
    to_deg realExt tile_flipped.angle = 180 ∧
    intersect_each_segment realExt tile_flipped.position (to_deg realExt tile_flipped.angle)
      (vertex_at square 0) (vertex_at square ((0 + 1) % square.length)) = false ∧
    edge_overlaps realExt square tile_flipped 0 = true ∧
    create_triangle realExt tile_flipped.position tile_flipped.angle ≠
      create_triangle realExt tile_flipped.position (to_deg realExt tile_flipped.angle) ∧
    ∃ row, scan_tiles realExt square [tile_flipped] = .ok [row] ∧ 0 ∈ row.overlap_edge := by
  refine ⟨to_deg_pi, footprint_flipped_clear, edge_overlaps_flipped, ?_, ?_⟩
  · intro h
    have h1 := edge_overlaps_flipped
    have h2 := footprint_flipped_clear
    unfold edge_overlaps intersect_each_segment at h1
    unfold intersect_each_segment at h2
    rw [h, h2] at h1
    cases h1
  · refine ⟨_, scan_tiles_single realExt square tile_flipped, ?_⟩
    rw [List.mem_filter]
    exact ⟨by simp [square], edge_overlaps_flipped⟩

end EdgeTriangleClaim

section NearestRule

variable {α : Type} [LinearOrderedField α]

/-- A property of the rounds done so far that every round that ends well extends by its
own round holds for the whole loop. -/
theorem foldlM_ok_prefix {σ β : Type} (P : List β → σ → Prop) (f : σ → β → Except Abort σ)
    (hf : ∀ visited s b s', P visited s → f s b = .ok s' → P (visited ++ [b]) s') :
    ∀ (l visited : List β) (s s' : σ), P visited s → l.foldlM f s = .ok s' →
      P (visited ++ l) s' := by
  intro l
  induction l with
  | nil =>
    intro visited s s' hs h
    simp only [List.foldlM, pure, Except.pure] at h
    cases h
    simpa using hs
  | cons b l ih =>
    intro visited s s' hs h
    simp only [List.foldlM, bind, Except.bind] at h
    cases hb : f s b with
    | error e => rw [hb] at h; cases h
    | ok s1 =>
      rw [hb] at h
      have := ih (visited ++ [b]) s1 s' (hf visited s b s1 hs hb) h
      simpa using this

/-- The sector `calc_direction` returns is 0, 1 or 2. -/
theorem calc_direction_lt (X : Ext α) (c : Point α) (arc : α) (p : Point α) (k : Nat)
    (h : calc_direction X c arc p = .ok k) : k < 3 := by
  unfold calc_direction at h
  dsimp only at h
  split at h
  · rename_i i hi
    cases h
    exact List.mem_range.mp (List.mem_of_find?_eq_some hi)
  · split at h
    · rename_i i hi
      cases h
      exact List.mem_range.mp (List.mem_of_find?_eq_some hi)
    · cases h

theorem length_sub_comm (X : Ext α) (a b : Point α) :
    (a.sub b).Length X = (b.sub a).Length X := by
  unfold Point.Length Point.sub
  congr 1
  ring

theorem getD_set_self {β : Type} (l : List β) (k : Nat) (a d : β) (h : k < l.length) :
    (l.set k a).getD k d = a := by
  rw [List.getD_eq_getElem?_getD, List.getElem?_set_self h]
  rfl

theorem getD_set_ne {β : Type} (l : List β) (k k2 : Nat) (a d : β) (h : k ≠ k2) :
    (l.set k a).getD k2 d = l.getD k2 d := by
  rw [List.getD_eq_getElem?_getD, List.getD_eq_getElem?_getD, List.getElem?_set_ne h]

end NearestRule
section NearestStep

variable {α : Type} [LinearOrderedField α]

/-- Visiting tile `i` itself changes nothing. -/
theorem nearest_after_self (X : Ext α) (points : List (Body α)) (i : Nat)
    (visited : List Nat) (np : List Int) (hs : nearest_after X points i visited np) :
    nearest_after X points i (visited ++ [i]) np := by
  obtain ⟨hlen, hk⟩ := hs
  refine ⟨hlen, fun k hk3 => ?_⟩
  rcases hk k hk3 with ⟨h1, h2⟩ | ⟨j, hj, h1, h2, h3, h4⟩
  · left
    refine ⟨h1, fun j hj hne => ?_⟩
    rcases List.mem_append.mp hj with hj | hj
    · exact h2 j hj hne
    · exact absurd (List.mem_singleton.mp hj) hne
  · right
    refine ⟨j, List.mem_append_left _ hj, h1, h2, h3, fun j2 hj2 hne hc => ?_⟩
    rcases List.mem_append.mp hj2 with hj2 | hj2
    · exact h4 j2 hj2 hne hc
    · exact absurd (List.mem_singleton.mp hj2) hne

/-- A sector other than the one of the visited tile keeps its entry. -/
theorem nearest_after_other (X : Ext α) (points : List (Body α)) (i j k0 k : Nat)
    (visited : List Nat) (np np2 : List Int)
    (hcd : calc_direction X (body_at points i).position (to_deg X (body_at points i).angle)
      (body_at points j).position = .ok k0)
    (hne : k ≠ k0) (hget : np2.getD k (-1) = np.getD k (-1))
    (hs : (np.getD k (-1) = -1 ∧ ∀ j ∈ visited, j ≠ i →
        calc_direction X (body_at points i).position (to_deg X (body_at points i).angle)
          (body_at points j).position ≠ .ok k) ∨
      (∃ j ∈ visited, np.getD k (-1) = (j : Int) ∧ j ≠ i ∧
        calc_direction X (body_at points i).position (to_deg X (body_at points i).angle)
          (body_at points j).position = .ok k ∧
        ∀ j2 ∈ visited, j2 ≠ i →
          calc_direction X (body_at points i).position (to_deg X (body_at points i).angle)
            (body_at points j2).position = .ok k →
          ((body_at points j).position.sub (body_at points i).position).Length X ≤
            ((body_at points j2).position.sub (body_at points i).position).Length X)) :
    (np2.getD k (-1) = -1 ∧ ∀ j1 ∈ visited ++ [j], j1 ≠ i →
        calc_direction X (body_at points i).position (to_deg X (body_at points i).angle)
          (body_at points j1).position ≠ .ok k) ∨
      (∃ j1 ∈ visited ++ [j], np2.getD k (-1) = (j1 : Int) ∧ j1 ≠ i ∧
        calc_direction X (body_at points i).position (to_deg X (body_at points i).angle)
          (body_at points j1).position = .ok k ∧
        ∀ j2 ∈ visited ++ [j], j2 ≠ i →
          calc_direction X (body_at points i).position (to_deg X (body_at points i).angle)
            (body_at points j2).position = .ok k →
          ((body_at points j1).position.sub (body_at points i).position).Length X ≤
            ((body_at points j2).position.sub (body_at points i).position).Length X) := by
  have hnew : calc_direction X (body_at points i).position (to_deg X (body_at points i).angle)
      (body_at points j).position ≠ .ok k := by
    rw [hcd]
    intro h
    exact hne (Except.ok.inj h).symm
  rw [hget]
  rcases hs with ⟨h1, h2⟩ | ⟨j1, hj1, h1, h2, h3, h4⟩
  · left
    refine ⟨h1, fun j2 hj2 hne2 => ?_⟩
    rcases List.mem_append.mp hj2 with hj2 | hj2
    · exact h2 j2 hj2 hne2
    · have e := List.mem_singleton.mp hj2
      subst e
      exact hnew
  · right
    refine ⟨j1, List.mem_append_left _ hj1, h1, h2, h3, fun j2 hj2 hne2 hc => ?_⟩
    rcases List.mem_append.mp hj2 with hj2 | hj2
    · exact h4 j2 hj2 hne2 hc
    · have e := List.mem_singleton.mp hj2
      subst e
      exact absurd hc hnew

end NearestStep
section NearestScan

variable {α : Type} [LinearOrderedField α]

/-- One round of the `j` loop of lines 195-206 keeps `nearest_point[i]` as
`nearest_after` describes it. -/
theorem scan_pair_nearest (X : Ext α) (points : List (Body α)) (i : Nat)
    (visited : List Nat) (st st2 : List Int × List Nat) (j : Nat)
    (hs : nearest_after X points i visited st.1)
    (h : scan_pair X points i st j = .ok st2) :
    nearest_after X points i (visited ++ [j]) st2.1 := by
  unfold scan_pair at h
  by_cases hij : i = j
  · rw [if_neg (not_not.mpr hij)] at h
    cases h
    rw [← hij]
    exact nearest_after_self X points i visited st.1 hs
  · rw [if_pos hij] at h
    dsimp only at h
    split at h
    · cases h
    · rename_i k0 hcd
      cases h
      have hk0 : k0 < 3 := calc_direction_lt X _ _ _ k0 hcd
      obtain ⟨hlen, hk⟩ := hs
      have hji : j ≠ i := fun e => hij e.symm
      -- the entry of sector `k0` after the round
      have hnew : ∀ np2 : List Int, np2.length = 3 →
          (∀ k, k ≠ k0 → np2.getD k (-1) = st.1.getD k (-1)) →
          (∃ j1 ∈ visited ++ [j], np2.getD k0 (-1) = (j1 : Int) ∧ j1 ≠ i ∧
            calc_direction X (body_at points i).position
              (to_deg X (body_at points i).angle) (body_at points j1).position = .ok k0 ∧
            ∀ j2 ∈ visited ++ [j], j2 ≠ i →
              calc_direction X (body_at points i).position
                (to_deg X (body_at points i).angle) (body_at points j2).position = .ok k0 →
              ((body_at points j1).position.sub (body_at points i).position).Length X ≤
                ((body_at points j2).position.sub (body_at points i).position).Length X) →
          nearest_after X points i (visited ++ [j]) np2 := by
        intro np2 hl hother hk0new
        refine ⟨hl, fun k hk3 => ?_⟩
        by_cases hkk : k = k0
        · subst hkk
          exact Or.inr hk0new
        · exact nearest_after_other X points i j k0 k visited st.1 np2 hcd hkk
            (hother k hkk) (hk k hk3)
      have hset : ∀ k, k ≠ k0 → (st.1.set k0 (j : Int)).getD k (-1) = st.1.getD k (-1) :=
        fun k hkk => getD_set_ne _ _ _ _ _ (Ne.symm hkk)
      have hsetlen : (st.1.set k0 (j : Int)).length = 3 := by
        rw [List.length_set]; exact hlen
      have hsetk : (st.1.set k0 (j : Int)).getD k0 (-1) = (j : Int) :=
        getD_set_self _ _ _ _ (by rw [hlen]; exact hk0)
      rcases hk k0 hk0 with ⟨h1, h2⟩ | ⟨j0, hj0, h1, h2, h3, h4⟩
      · rw [if_pos h1]
        refine hnew _ hsetlen hset ⟨j, by simp, hsetk, hji, hcd, fun j2 hj2 hne2 hc => ?_⟩
        rcases List.mem_append.mp hj2 with hj2 | hj2
        · exact absurd hc (h2 j2 hj2 hne2)
        · rw [List.mem_singleton.mp hj2]
      · have hne1 : st.1.getD k0 (-1) ≠ -1 := by
          rw [h1]
          omega
        rw [if_neg hne1]
        have hp3 : (st.1.getD k0 (-1)).toNat = j0 := by rw [h1]; rfl
        rw [hp3, length_sub_comm X (body_at points i).position (body_at points j0).position]
        by_cases hlt : ((body_at points j).position.sub (body_at points i).position).Length X <
            ((body_at points j0).position.sub (body_at points i).position).Length X
        · rw [if_pos hlt]
          refine hnew _ hsetlen hset ⟨j, by simp, hsetk, hji, hcd, fun j2 hj2 hne2 hc => ?_⟩
          rcases List.mem_append.mp hj2 with hj2 | hj2
          · exact hlt.le.trans (h4 j2 hj2 hne2 hc)
          · rw [List.mem_singleton.mp hj2]
        · rw [if_neg hlt]
          refine hnew _ hlen (fun _ _ => rfl)
            ⟨j0, List.mem_append_left _ hj0, h1, h2, h3, fun j2 hj2 hne2 hc => ?_⟩
          rcases List.mem_append.mp hj2 with hj2 | hj2
          · exact h4 j2 hj2 hne2 hc
          · rw [List.mem_singleton.mp hj2]
            exact not_lt.mp hlt

/-- The row of tile `i` after the first loop: `nearest_point[i]` is as `nearest_after`
describes it for all tiles. -/
theorem scan_tile_nearest (X : Ext α) (poly : List (Point α)) (points : List (Body α))
    (i : Nat) (row : Row) (h : scan_tile X poly points i = .ok row) :
    nearest_after X points i (List.range points.length) row.nearest_point := by
  unfold scan_tile at h
  split at h
  · cases h
  · rename_i st hst
    cases h
    have hinit : nearest_after X points i [] (Row.initial.nearest_point,
        Row.initial.overlap_module).1 := by
      refine ⟨rfl, fun k hk3 => Or.inl ⟨?_, fun j hj => absurd hj (List.not_mem_nil j)⟩⟩
      interval_cases k <;> rfl
    have := foldlM_ok_prefix
      (fun visited (s : List Int × List Nat) => nearest_after X points i visited s.1)
      (scan_pair X points i)
      (fun visited s b s2 hs hb => scan_pair_nearest X points i visited s s2 b hs hb)
      _ [] _ st hinit hst
    simpa using this

end NearestScan
section NearestClaim

variable {α : Type} [LinearOrderedField α]

theorem mapM_ok_forall₂ {β γ : Type} (f : β → Except Abort γ) :
    ∀ (l : List β) (rs : List γ), l.mapM f = .ok rs →
      List.Forall₂ (fun b r => f b = .ok r) l rs := by
  intro l
  induction l with
  | nil =>
    intro rs h
    rw [List.mapM_nil] at h
    cases h
    exact List.Forall₂.nil
  | cons b l ih =>
    intro rs h
    rw [List.mapM_cons] at h
    cases hb : f b with
    | error e => rw [hb] at h; cases h
    | ok r =>
      rw [hb] at h
      cases hl : l.mapM f with
      | error e => rw [hl] at h; cases h
      | ok rs1 =>
        rw [hl] at h
        cases h
        exact List.Forall₂.cons hb (ih rs1 hl)

/-- The first loop leaves one row per tile, the one `scan_tile` computes. -/
theorem scan_tiles_row (X : Ext α) (poly : List (Point α)) (points : List (Body α))
    (rows : List Row) (h : scan_tiles X poly points = .ok rows) :
    rows.length = points.length ∧
    ∀ i, i < points.length → scan_tile X poly points i = .ok (rows.getD i Row.initial) := by
  unfold scan_tiles at h
  have hf := mapM_ok_forall₂ _ _ _ h
  have hlen : rows.length = points.length := by
    rw [← hf.length_eq, List.length_range]
  refine ⟨hlen, fun i hi => ?_⟩
  have hi2 : i < rows.length := by rw [hlen]; exact hi
  have := hf.get (by rw [List.length_range]; exact hi) hi2
  rw [List.getD_eq_getElem _ _ hi2]
  simpa using this

/-- The sector `calc_direction` returns is the first one that passes the 60 degree test,
or, when none passes it, the first one that passes the 70 degree test. -/
theorem calc_direction_iff (X : Ext α) (c : Point α) (arc : α) (p : Point α) (k : Nat)
    (hk : k < 3) :
    calc_direction X c arc p = .ok k ↔
      (sector_test X 60 (p.sub c) arc k = true ∧
        ∀ k2, k2 < k → sector_test X 60 (p.sub c) arc k2 = false) ∨
      ((∀ k2, k2 < 3 → sector_test X 60 (p.sub c) arc k2 = false) ∧
        sector_test X 70 (p.sub c) arc k = true ∧
        ∀ k2, k2 < k → sector_test X 70 (p.sub c) arc k2 = false) := by
  interval_cases k
  all_goals
    unfold calc_direction
    simp only [show List.range 3 = [0, 1, 2] from rfl, List.find?, Nat.forall_lt_succ, Nat.not_lt_zero, false_imp_iff,
      implies_true, true_and]
    generalize sector_test X 60 (p.sub c) arc 0 = b0
    generalize sector_test X 60 (p.sub c) arc 1 = b1
    generalize sector_test X 60 (p.sub c) arc 2 = b2
    generalize sector_test X 70 (p.sub c) arc 0 = b3
    generalize sector_test X 70 (p.sub c) arc 1 = b4
    generalize sector_test X 70 (p.sub c) arc 2 = b5
    cases b0 <;> cases b1 <;> cases b2 <;> cases b3 <;> cases b4 <;> cases b5 <;> simp

end NearestClaim
section NearestClaim2

variable {α : Type} [LinearOrderedField α]

/-- C17, amended: after the first loop, for every tile `i` and sector `k` in {0,1,2},
the entry `nearest_point[i][k]` is `-1` exactly when no other tile `j` has the sector `k`
as seen from `i`; otherwise it is a tile `j` other than `i` of sector `k` whose distance to
`i` is minimal among the other tiles of sector `k`.  The sector of `j` as seen from `i` is
the one `calc_direction` returns: the first sector whose 60 degree test
`cos(60) |v| <= v.n(a_k)` the direction `v` from `i` to `j` passes, or, when it passes
none, the first sector whose 70 degree test it passes.  A tile that passes the test of
two sectors counts for the first of them only. -/
theorem nearest_neighbour_rule (X : Ext α) (poly : List (Point α)) (points : List (Body α))
    (rows : List Row) (h : scan_tiles X poly points = .ok rows) (i k : Nat)
    (hi : i < points.length) (hk : k < 3) :
    ((rows.getD i Row.initial).nearest_point.getD k (-1) = -1 ↔
      ∀ j, j < points.length → j ≠ i →
        calc_direction X (body_at points i).position (to_deg X (body_at points i).angle)
          (body_at points j).position ≠ .ok k) ∧
    ((rows.getD i Row.initial).nearest_point.getD k (-1) ≠ -1 →
      ∃ j, j < points.length ∧
        (rows.getD i Row.initial).nearest_point.getD k (-1) = (j : Int) ∧ j ≠ i ∧
        calc_direction X (body_at points i).position (to_deg X (body_at points i).angle)
          (body_at points j).position = .ok k ∧
        ∀ j2, j2 < points.length → j2 ≠ i →
          calc_direction X (body_at points i).position (to_deg X (body_at points i).angle)
            (body_at points j2).position = .ok k →
          ((body_at points j).position.sub (body_at points i).position).Length X ≤
            ((body_at points j2).position.sub (body_at points i).position).Length X) ∧
    (∀ j, calc_direction X (body_at points i).position (to_deg X (body_at points i).angle)
        (body_at points j).position = .ok k ↔
      (sector_test X 60 ((body_at points j).position.sub (body_at points i).position)
          (to_deg X (body_at points i).angle) k = true ∧
        ∀ k2, k2 < k →
          sector_test X 60 ((body_at points j).position.sub (body_at points i).position)
            (to_deg X (body_at points i).angle) k2 = false) ∨
      ((∀ k2, k2 < 3 →
          sector_test X 60 ((body_at points j).position.sub (body_at points i).position)
            (to_deg X (body_at points i).angle) k2 = false) ∧
        sector_test X 70 ((body_at points j).position.sub (body_at points i).position)
          (to_deg X (body_at points i).angle) k = true ∧
        ∀ k2, k2 < k →
          sector_test X 70 ((body_at points j).position.sub (body_at points i).position)
            (to_deg X (body_at points i).angle) k2 = false)) := by
  have hrow := (scan_tiles_row X poly points rows h).2 i hi
  obtain ⟨-, hall⟩ := scan_tile_nearest X poly points i _ hrow
  refine ⟨?_, ?_, fun j => calc_direction_iff X _ _ _ k hk⟩
  · rcases hall k hk with ⟨h1, h2⟩ | ⟨j, hj, h1, h2, h3, -⟩
    · exact ⟨fun _ j hj hne => h2 j (List.mem_range.mpr hj) hne, fun _ => h1⟩
    · constructor
      · intro h0
        rw [h1] at h0
        omega
      · intro hnone
        exact absurd h3 (hnone j (List.mem_range.mp hj) h2)
  · intro hne
    rcases hall k hk with ⟨h1, -⟩ | ⟨j, hj, h1, h2, h3, h4⟩
    · exact absurd h1 hne
    · exact ⟨j, List.mem_range.mp hj, h1, h2, h3,
        fun j2 hj2 hne2 hc => h4 j2 (List.mem_range.mpr hj2) hne2 hc⟩

end NearestClaim2
section TwoTiles

theorem triangle_up : create_triangle realExt tile_up.position tile_up.angle =
    ⟨⟨-(Real.sqrt 3 / 2), 2⟩, ⟨0, 1 / 2⟩, ⟨Real.sqrt 3 / 2, 2⟩⟩ := by
  simp only [create_triangle, tile_up, Point.add, zero_sub, zero_add, sin_deg_neg, cos_deg_neg,
    sin_deg_60, cos_deg_60, sin_deg_180, cos_deg_180]
  norm_num

theorem edges_up : (List.range square.length).filter (edge_overlaps realExt square tile_up) =
    [] := by
  have h2 := sqrt3_lower
  have h3 := sqrt3_upper
  have e0 : edge_overlaps realExt square tile_up 0 = false := by
    unfold edge_overlaps intersect_each_segment
    rw [triangle_up]
    apply tri_seg_exact_of_left <;>
      simp only [cross, square, vertex_at, create_segment, List.getD_cons_zero,
        List.getD_cons_succ, List.length_cons, List.length_nil] <;> norm_num
  have e1 : edge_overlaps realExt square tile_up 1 = false := by
    unfold edge_overlaps intersect_each_segment
    rw [triangle_up]
    apply tri_seg_exact_of_left <;>
      simp only [cross, square, vertex_at, create_segment, List.getD_cons_zero,
        List.getD_cons_succ, List.length_cons, List.length_nil] <;> norm_num <;> linarith
  have e2 : edge_overlaps realExt square tile_up 2 = false := by
    unfold edge_overlaps intersect_each_segment
    rw [triangle_up]
    apply tri_seg_exact_of_left <;>
      simp only [cross, square, vertex_at, create_segment, List.getD_cons_zero,
        List.getD_cons_succ, List.length_cons, List.length_nil] <;> norm_num
  have e3 : edge_overlaps realExt square tile_up 3 = false := by
    unfold edge_overlaps intersect_each_segment
    rw [triangle_up]
    apply tri_seg_exact_of_left <;>
      simp only [cross, square, vertex_at, create_segment, List.getD_cons_zero,
        List.getD_cons_succ, List.length_cons, List.length_nil] <;> norm_num <;> linarith
  have hl : square.length = 4 := rfl
  rw [hl, range_four]
  simp [List.filter, e0, e1, e2, e3]

/-- Two triangles with two sides that cross meet. -/
theorem tri_tri_exact_of_sides {α : Type} [LinearOrderedField α] (T U : Triangle α)
    (e f : Segment α) (he : e ∈ sides T) (hf : f ∈ sides U)
    (h : seg_seg_exact e f = true) : tri_tri_exact T U = true := by
  simp only [tri_tri_exact, Bool.or_eq_true, List.any_eq_true]
  exact Or.inr ⟨e, he, f, hf, h⟩

theorem deg_low : to_deg realExt tile_low.angle = tile_low.angle := by
  simp [tile_low, to_deg]

theorem deg_up : to_deg realExt tile_up.angle = tile_up.angle := by
  simp [tile_up, to_deg]

/-- The footprints of `tile_low` and `tile_up` overlap: the upper side of the lower one
crosses a side of the upper one. -/
theorem overlap_low_up :
    intersect_each realExt tile_low.position (to_deg realExt tile_low.angle)
      tile_up.position (to_deg realExt tile_up.angle) = true := by
  have h2 := sqrt3_lower
  unfold intersect_each
  rw [deg_low, deg_up, triangle_low, triangle_up]
  refine tri_tri_exact_of_sides _ _ ⟨⟨Real.sqrt 3 / 2, 1⟩, ⟨-(Real.sqrt 3 / 2), 1⟩⟩
    ⟨⟨-(Real.sqrt 3 / 2), 2⟩, ⟨0, 1 / 2⟩⟩ (by simp [sides]) (by simp [sides]) ?_
  apply seg_seg_exact_of_crossing
  · left
    simp only [cross]
    constructor <;> first | (norm_num; done) | (norm_num; linarith)
  · right
    simp only [cross]
    constructor <;> first | (norm_num; done) | (norm_num; linarith)

theorem overlap_up_low :
    intersect_each realExt tile_up.position (to_deg realExt tile_up.angle)
      tile_low.position (to_deg realExt tile_low.angle) = true := by
  have h2 := sqrt3_lower
  unfold intersect_each
  rw [deg_low, deg_up, triangle_low, triangle_up]
  refine tri_tri_exact_of_sides _ _ ⟨⟨-(Real.sqrt 3 / 2), 2⟩, ⟨0, 1 / 2⟩⟩
    ⟨⟨Real.sqrt 3 / 2, 1⟩, ⟨-(Real.sqrt 3 / 2), 1⟩⟩ (by simp [sides]) (by simp [sides]) ?_
  apply seg_seg_exact_of_crossing
  · right
    simp only [cross]
    constructor <;> first | (norm_num; done) | (norm_num; linarith)
  · left
    simp only [cross]
    constructor <;> first | (norm_num; done) | (norm_num; linarith)

end TwoTiles
section TwoTilesScan

theorem sector_vertical_0 (y : ℝ) :
    sector_test realExt 60 ⟨0, y⟩ 0 0 = decide (1 / 2 * |y| ≤ y) := by
  unfold sector_test Point.Length
  simp only [cos_deg_60, Nat.cast_zero, mul_zero, add_zero, sin_deg_0, cos_deg_0, zero_mul,
    zero_add, mul_one]
  rw [show realExt.sqrt (y * y) = |y| from Real.sqrt_mul_self_eq_abs y]

theorem sector_vertical_1 (y : ℝ) :
    sector_test realExt 60 ⟨0, y⟩ 0 1 = decide (1 / 2 * |y| ≤ y * -(1 / 2)) := by
  unfold sector_test Point.Length
  simp only [cos_deg_60, Nat.cast_one, mul_one, zero_add, sin_deg_120, cos_deg_120, zero_mul,
    mul_zero]
  rw [show realExt.sqrt (y * y) = |y| from Real.sqrt_mul_self_eq_abs y]

/-- Seen from `tile_low`, `tile_up` lies in sector 0. -/
theorem direction_low_up :
    calc_direction realExt tile_low.position (to_deg realExt tile_low.angle)
      tile_up.position = .ok 0 := by
  have hv : tile_up.position.sub tile_low.position = ⟨0, 1⟩ := by
    simp only [tile_up, tile_low, Point.sub]; norm_num
  have ha : to_deg realExt tile_low.angle = 0 := to_deg_zero
  unfold calc_direction
  simp only [hv, ha, range_three, List.find?, sector_vertical_0]
  norm_num

/-- Seen from `tile_up`, `tile_low` lies on the boundary of the sectors 1 and 2:
`calc_direction` returns 1, the first of the two. -/
theorem direction_up_low :
    calc_direction realExt tile_up.position (to_deg realExt tile_up.angle)
      tile_low.position = .ok 1 := by
  have hv : tile_low.position.sub tile_up.position = ⟨0, -1⟩ := by
    simp only [tile_up, tile_low, Point.sub]; norm_num
  have ha : to_deg realExt tile_up.angle = 0 := to_deg_zero
  unfold calc_direction
  simp only [hv, ha, range_three, List.find?, sector_vertical_0, sector_vertical_1]
  norm_num

/-- The first loop on `tile_low` and `tile_up`: each is a neighbour of the other (sector 0
of the lower, sector 1 of the upper one), they overlap, and the lower one touches the
lower edge of `square`. -/
theorem scan_two : scan_tiles realExt square [tile_low, tile_up] =
    .ok [Row.mk [1, -1, -1] [1] [0], Row.mk [-1, 0, -1] [0] []] := by
  have hb0 : body_at [tile_low, tile_up] 0 = tile_low := rfl
  have hb1 : body_at [tile_low, tile_up] 1 = tile_up := rfl
  have h00 : ∀ st, scan_pair realExt [tile_low, tile_up] 0 st 0 = .ok st := fun _ => rfl
  have h11 : ∀ st, scan_pair realExt [tile_low, tile_up] 1 st 1 = .ok st := fun _ => rfl
  have h01 : scan_pair realExt [tile_low, tile_up] 0 ([-1, -1, -1], []) 1 =
      .ok ([1, -1, -1], [1]) := by
    unfold scan_pair
    simp [hb0, hb1, direction_low_up, overlap_low_up]
  have h10 : scan_pair realExt [tile_low, tile_up] 1 ([-1, -1, -1], []) 0 =
      .ok ([-1, 0, -1], [0]) := by
    unfold scan_pair
    simp [hb0, hb1, direction_up_low, overlap_up_low]
  have ht0 : scan_tile realExt square [tile_low, tile_up] 0 =
      .ok (Row.mk [1, -1, -1] [1] [0]) := by
    unfold scan_tile
    have hr : List.range [tile_low, tile_up].length = [0, 1] := rfl
    simp only [hr, List.foldlM, bind, Except.bind, pure, Except.pure, Row.initial, h00, h01,
      hb0, edges_low]
  have ht1 : scan_tile realExt square [tile_low, tile_up] 1 =
      .ok (Row.mk [-1, 0, -1] [0] []) := by
    unfold scan_tile
    have hr : List.range [tile_low, tile_up].length = [0, 1] := rfl
    simp only [hr, List.foldlM, bind, Except.bind, pure, Except.pure, Row.initial, h10, h11,
      hb1, edges_up]
  unfold scan_tiles
  rw [show List.range [tile_low, tile_up].length = [0, 1] from rfl]
  simp only [List.mapM, List.mapM.loop, ht0, ht1, bind, Except.bind, pure, Except.pure,
    List.reverse_cons, List.reverse_nil, List.nil_append, List.singleton_append]

end TwoTilesScan
section NearestInstances

/-- C17, as stated, fails: in `square` with two tiles at the same place (`tile_mid`, index
0, and `tile_twin`, index 1) the vector from tile 0 to tile 1 is zero, so tile 1 passes
the test `cos(60) * 0 <= 0` of every sector of tile 0; yet `nearest_point[0][1]` and
`nearest_point[0][2]` are `-1`: the tile was counted for sector 0 only, the first sector
whose test it passes. -/
theorem coincident_tile_unassigned :
    scan_tiles realExt square [tile_mid, tile_twin] =
      .ok [Row.mk [1, -1, -1] [1] [], Row.mk [0, -1, -1] [0] []] ∧
    (body_at [tile_mid, tile_twin] 1).position.sub (body_at [tile_mid, tile_twin] 0).position =
      ⟨0, 0⟩ ∧
    sector_test realExt 60
      ((body_at [tile_mid, tile_twin] 1).position.sub (body_at [tile_mid, tile_twin] 0).position)
      (to_deg realExt (body_at [tile_mid, tile_twin] 0).angle) 1 = true ∧
    sector_test realExt 60
      ((body_at [tile_mid, tile_twin] 1).position.sub (body_at [tile_mid, tile_twin] 0).position)
      (to_deg realExt (body_at [tile_mid, tile_twin] 0).angle) 2 = true ∧
    (([Row.mk [1, -1, -1] [1] [], Row.mk [0, -1, -1] [0] []] : List Row).getD 0
      Row.initial).nearest_point.getD 1 (-1) = -1 ∧
    (([Row.mk [1, -1, -1] [1] [], Row.mk [0, -1, -1] [0] []] : List Row).getD 0
      Row.initial).nearest_point.getD 2 (-1) = -1 := by
  have hv : (body_at [tile_mid, tile_twin] 1).position.sub
      (body_at [tile_mid, tile_twin] 0).position = ⟨0, 0⟩ := by
    show tile_twin.position.sub tile_mid.position = ⟨0, 0⟩
    simp only [tile_twin, tile_mid, Point.sub]; norm_num
  have ht : ∀ k, sector_test realExt 60 (⟨0, 0⟩ : Point ℝ)
      (to_deg realExt (body_at [tile_mid, tile_twin] 0).angle) k = true := by
    intro k
    simp [sector_test, Point.Length, real_sqrt_zero]
  refine ⟨scan_twins, hv, ?_, ?_, rfl, rfl⟩
  · rw [hv]; exact ht 1
  · rw [hv]; exact ht 2

/-- The amended C17 at `tile_up` and its sector 1: the neighbour is `tile_low`. -/
theorem nearest_neighbour_rule_witness :
    scan_tiles realExt square [tile_low, tile_up] =
      .ok [Row.mk [1, -1, -1] [1] [0], Row.mk [-1, 0, -1] [0] []] ∧
    1 < [tile_low, tile_up].length ∧ 1 < 3 ∧
    ((([Row.mk [1, -1, -1] [1] [0], Row.mk [-1, 0, -1] [0] []]).getD 1 Row.initial).nearest_point.getD 1 (-1) = -1 ↔
      ∀ j, j < [tile_low, tile_up].length → j ≠ 1 →
        calc_direction realExt (body_at [tile_low, tile_up] 1).position (to_deg realExt (body_at [tile_low, tile_up] 1).angle)
          (body_at [tile_low, tile_up] j).position ≠ .ok 1) ∧
    ((([Row.mk [1, -1, -1] [1] [0], Row.mk [-1, 0, -1] [0] []]).getD 1 Row.initial).nearest_point.getD 1 (-1) ≠ -1 →
      ∃ j, j < [tile_low, tile_up].length ∧
        (([Row.mk [1, -1, -1] [1] [0], Row.mk [-1, 0, -1] [0] []]).getD 1 Row.initial).nearest_point.getD 1 (-1) = (j : Int) ∧ j ≠ 1 ∧
        calc_direction realExt (body_at [tile_low, tile_up] 1).position (to_deg realExt (body_at [tile_low, tile_up] 1).angle)
          (body_at [tile_low, tile_up] j).position = .ok 1 ∧
        ∀ j2, j2 < [tile_low, tile_up].length → j2 ≠ 1 →
          calc_direction realExt (body_at [tile_low, tile_up] 1).position (to_deg realExt (body_at [tile_low, tile_up] 1).angle)
            (body_at [tile_low, tile_up] j2).position = .ok 1 →
          ((body_at [tile_low, tile_up] j).position.sub (body_at [tile_low, tile_up] 1).position).Length realExt ≤
            ((body_at [tile_low, tile_up] j2).position.sub (body_at [tile_low, tile_up] 1).position).Length realExt) ∧
    (∀ j, calc_direction realExt (body_at [tile_low, tile_up] 1).position (to_deg realExt (body_at [tile_low, tile_up] 1).angle)
        (body_at [tile_low, tile_up] j).position = .ok 1 ↔
      (sector_test realExt 60 ((body_at [tile_low, tile_up] j).position.sub (body_at [tile_low, tile_up] 1).position)
          (to_deg realExt (body_at [tile_low, tile_up] 1).angle) 1 = true ∧
        ∀ k2, k2 < 1 →
          sector_test realExt 60 ((body_at [tile_low, tile_up] j).position.sub (body_at [tile_low, tile_up] 1).position)
            (to_deg realExt (body_at [tile_low, tile_up] 1).angle) k2 = false) ∨
      ((∀ k2, k2 < 3 →
          sector_test realExt 60 ((body_at [tile_low, tile_up] j).position.sub (body_at [tile_low, tile_up] 1).position)
            (to_deg realExt (body_at [tile_low, tile_up] 1).angle) k2 = false) ∧
        sector_test realExt 70 ((body_at [tile_low, tile_up] j).position.sub (body_at [tile_low, tile_up] 1).position)
          (to_deg realExt (body_at [tile_low, tile_up] 1).angle) 1 = true ∧
        ∀ k2, k2 < 1 →
          sector_test realExt 70 ((body_at [tile_low, tile_up] j).position.sub (body_at [tile_low, tile_up] 1).position)
            (to_deg realExt (body_at [tile_low, tile_up] 1).angle) k2 = false)) :=
  ⟨scan_two, by decide, by decide,
    nearest_neighbour_rule realExt square [tile_low, tile_up] _ scan_two 1 1 (by decide)
      (by decide)⟩

end NearestInstances

section PairWorked

theorem sin_deg_90 : realExt.sin (to_rad realExt 90) = 1 := by
  rw [real_sin_deg, show (90 / 180 * Real.pi : ℝ) = Real.pi / 2 by ring]
  exact Real.sin_pi_div_two

theorem cos_deg_90 : realExt.cos (to_rad realExt 90) = 0 := by
  rw [real_cos_deg, show (90 / 180 * Real.pi : ℝ) = Real.pi / 2 by ring]
  exact Real.cos_pi_div_two

/-- One round of the loop of `normalize_angle` is enough for an angle in `(180, 540]`. -/
theorem normalize_angle_pos_step {α : Type} [LinearOrderedField α] [FloorRing α] (a : α)
    (h1 : 180 < a) (h2 : |a - 360| ≤ 180) : normalize_angle a = a - 360 := by
  have hpos : 0 < a := by linarith
  have habs : 180 < |a| := by rw [abs_of_pos hpos]; exact h1
  unfold normalize_angle
  rw [show ⌈|a| / 360⌉₊ + 1 = Nat.succ ⌈|a| / 360⌉₊ from rfl]
  simp only [normalize_angle_loop, if_pos habs, if_pos hpos]
  exact normalize_angle_loop_of_le _ _ h2

/-- The locals of lines 238-257 for `tile_low` and its neighbour `tile_up`. -/
theorem pair_low_up : pair_locals realExt tile_low tile_up 0 1 =
    { v := ⟨0, 1⟩, n := ⟨0, 1⟩, t := ⟨1, 0⟩, p1_line_middle := ⟨0, 1 / 2⟩,
      n2 := ⟨Real.sqrt 3 / 2, -(1 / 2)⟩, p2_line_middle := ⟨Real.sqrt 3 / 4, 3 / 4⟩,
      ang_diff := -60, v_n_length := 1, v_n2_length := 1 / 2,
      p2_line_middle_t_length := Real.sqrt 3 / 4, min_distance := 3 / 2, kr := -(5 / 4),
      kt := Real.sqrt 3 / 8, r := ⟨0, 1⟩ } := by
  have hal : to_deg realExt tile_up.angle + ((1 : ℕ) : ℝ) * 120 = 120 := by
    rw [show to_deg realExt tile_up.angle = 0 from to_deg_zero]; norm_num
  have hv : tile_up.position.sub tile_low.position = ⟨0, 1⟩ := by
    simp only [tile_up, tile_low, Point.sub]; norm_num
  have hlen : Point.Length realExt (⟨0, 1⟩ : Point ℝ) = 1 :=
    real_length_eq _ 1 (by norm_num) (by norm_num)
  have hang : angle_diff (0 : ℝ) (120 + 180) = -60 := by
    unfold angle_diff
    rw [normalize_angle_pos_step _ (by norm_num) (by norm_num [abs_le])]
    norm_num
  have hsin : realExt.sin (to_rad realExt (30 + |(-60 : ℝ)|)) = 1 := by
    rw [show (30 + |(-60 : ℝ)|) = 90 by norm_num [abs_of_neg]]
    exact sin_deg_90
  unfold pair_locals
  simp only [hal, hv, hlen, hang, hsin, zero_add, sin_deg_0, cos_deg_0, sin_deg_90,
    cos_deg_90, sin_deg_120, cos_deg_120, Point.smul, Point.add]
  norm_num
  constructor <;> ring

end PairWorked
section PairForces

theorem weight_low_up_pos : 0 < weight_low_up := by
  unfold weight_low_up calc_weight
  norm_num

/-- The neighbour `tile_up` in the sums of `tile_low`. -/
theorem neighbour_step_low (acc : TileAcc ℝ) :
    neighbour_step realExt [tile_low, tile_up] 0 [1, -1, -1] acc 0 =
      .ok { acc with
            force := acc.force.add (Point.smul weight_low_up ⟨Real.sqrt 3 / 8, -(5 / 4)⟩)
            angle := acc.angle + 1 / 2 * -60 * weight_low_up
            weight_sum := acc.weight_sum + weight_low_up } := by
  have hb0 : body_at [tile_low, tile_up] 0 = tile_low := rfl
  have hj : body_at [tile_low, tile_up] (([1, -1, -1] : List Int).getD 0 (-1)).toNat =
      tile_up := rfl
  have hne : ([1, -1, -1] : List Int).getD 0 (-1) ≠ -1 := by decide
  have hmid : Point.Length realExt
      ((⟨0, 1 / 2⟩ : Point ℝ).sub ⟨Real.sqrt 3 / 4, 3 / 4⟩) = 1 / 2 := by
    apply real_length_eq _ _ (by norm_num)
    simp only [Point.sub]
    have := sqrt3_sq
    nlinarith
  have hlen : Point.Length realExt (⟨0, 1⟩ : Point ℝ) = 1 :=
    real_length_eq _ 1 (by norm_num) (by norm_num)
  have hak : to_deg realExt tile_low.angle + ((0 : ℕ) : ℝ) * 120 = 0 := by
    rw [show to_deg realExt tile_low.angle = 0 from to_deg_zero]; norm_num
  unfold neighbour_step
  rw [if_pos hne]
  simp only [hb0, hj, direction_up_low, hak, pair_low_up, hmid, hlen]
  have hw : calc_weight (3 / 2 : ℝ) 2 + calc_weight 1 2 = weight_low_up := rfl
  rw [hw]
  norm_num [Point.smul, Point.add]

/-- The entry `tile_up` of the overlap list of `tile_low`: only `E`, `K` and the removal
score change. -/
theorem overlap_step_low (acc : TileAcc ℝ) :
    overlap_step realExt [tile_low, tile_up] 0 acc 1 =
      .ok { acc with E := acc.E + 1 / 2, K := min acc.K (2 / 3),
                     rank_score := acc.rank_score - 1 / 3 } := by
  have hb0 : body_at [tile_low, tile_up] 0 = tile_low := rfl
  have hb1 : body_at [tile_low, tile_up] 1 = tile_up := rfl
  have hlen : Point.Length realExt (⟨0, 1⟩ : Point ℝ) = 1 :=
    real_length_eq _ 1 (by norm_num) (by norm_num)
  have hak : ((0 : ℕ) : ℝ) * 120 + to_deg realExt tile_low.angle = 0 := by
    rw [show to_deg realExt tile_low.angle = 0 from to_deg_zero]; norm_num
  unfold overlap_step
  simp only [hb0, hb1, direction_low_up, direction_up_low, hak, pair_low_up, hlen]
  norm_num

/-- The same entry as the specification counts it: the sums of the tile change too. -/
theorem spec_overlap_step_low (acc : TileAcc ℝ) :
    spec_overlap_step realExt [tile_low, tile_up] 0 acc 1 =
      .ok { acc with
            force := acc.force.add (Point.smul weight_low_up ⟨Real.sqrt 3 / 8, -(5 / 4)⟩)
            angle := acc.angle + 1 / 2 * -60 * weight_low_up
            weight_sum := acc.weight_sum + weight_low_up
            E := acc.E + 1 / 2, K := min acc.K (2 / 3),
            rank_score := acc.rank_score - 1 / 3 } := by
  have hb0 : body_at [tile_low, tile_up] 0 = tile_low := rfl
  have hb1 : body_at [tile_low, tile_up] 1 = tile_up := rfl
  have hlen : Point.Length realExt (⟨0, 1⟩ : Point ℝ) = 1 :=
    real_length_eq _ 1 (by norm_num) (by norm_num)
  have hak : ((0 : ℕ) : ℝ) * 120 + to_deg realExt tile_low.angle = 0 := by
    rw [show to_deg realExt tile_low.angle = 0 from to_deg_zero]; norm_num
  unfold spec_overlap_step
  simp only [hb0, hb1, direction_low_up, direction_up_low, hak, pair_low_up, hlen]
  have hw : calc_weight (3 / 2 : ℝ) 2 + calc_weight 1 2 = weight_low_up := rfl
  rw [hw]
  norm_num [Point.smul, Point.add]

/-- The correction of the lower edge on `tile_low`, with `tile_up` in the field. -/
theorem edge_step_low_pair (acc : TileAcc ℝ) :
    edge_step realExt square [tile_low, tile_up] 0 acc 0 =
      .ok { force := acc.force.sub (Point.smul (4097 * -3) ⟨0, 1⟩)
            angle := acc.angle + 60 * 4097
            weight_sum := acc.weight_sum + 4097
            K := min acc.K (1 / 2)
            rank_count := acc.rank_count
            rank_score := acc.rank_score - 1 / 2
            E := acc.E + 1 } := by
  have hb : body_at [tile_low, tile_up] 0 = tile_low := rfl
  unfold edge_step
  simp only [hb, edge_locals_low, normal_low_unit, calc_weight, ZERO]
  norm_num

end PairForces
section PairForces2

theorem foldlM_single {σ β : Type} (f : σ → β → Except Abort σ) (s : σ) (b : β) :
    [b].foldlM f s = f s b := by
  simp only [List.foldlM, bind, Except.bind, pure, Except.pure]
  cases f s b <;> rfl

theorem foldlM_triple {σ β : Type} (f : σ → β → Except Abort σ) (s s1 s2 : σ) (a b c : β)
    (h1 : f s a = .ok s1) (h2 : f s1 b = .ok s2) :
    [a, b, c].foldlM f s = f s2 c := by
  simp only [List.foldlM, bind, Except.bind, pure, Except.pure, h1, h2]
  cases f s2 c <;> rfl

/-- The sectors 1 and 2 of `tile_low` have no neighbour. -/
theorem neighbour_step_low_1 (acc : TileAcc ℝ) :
    neighbour_step realExt [tile_low, tile_up] 0 [1, -1, -1] acc 1 = .ok acc := rfl

theorem neighbour_step_low_2 (acc : TileAcc ℝ) :
    neighbour_step realExt [tile_low, tile_up] 0 [1, -1, -1] acc 2 = .ok acc := rfl

/-- The sums of `tile_low` next to `tile_up`, as the code computes them. -/
theorem tile_forces_low_pair :
    tile_forces realExt square [tile_low, tile_up] (Row.mk [1, -1, -1] [1] [0]) 0 1 0 =
      .ok forces_low_pair := by
  have hw := weight_low_up_pos
  have hz : (ZERO : ℝ) < 0 + weight_low_up + 4097 := by
    unfold ZERO; linarith
  unfold tile_forces
  rw [range_three, foldlM_triple _ _ _ _ 0 1 2 (neighbour_step_low _) (neighbour_step_low_1 _),
    neighbour_step_low_2]
  dsimp only
  rw [foldlM_single, overlap_step_low]
  dsimp only
  rw [foldlM_single, edge_step_low_pair]
  dsimp only
  rw [normalize_by_weight, if_pos hz]
  unfold forces_low_pair
  simp only [Point.add, Point.sub, Point.smul]
  norm_num

/-- The sums of `tile_low` next to `tile_up`, as the specification describes them. -/
theorem spec_tile_forces_low_pair :
    spec_tile_forces realExt square [tile_low, tile_up] (Row.mk [1, -1, -1] [1] [0]) 0 1 0 =
      .ok spec_forces_low_pair := by
  have hw := weight_low_up_pos
  have hz : (ZERO : ℝ) < 0 + weight_low_up + weight_low_up + 4097 := by
    unfold ZERO; linarith
  unfold spec_tile_forces
  rw [range_three, foldlM_triple _ _ _ _ 0 1 2 (neighbour_step_low _) (neighbour_step_low_1 _),
    neighbour_step_low_2]
  dsimp only
  rw [foldlM_single, spec_overlap_step_low]
  dsimp only
  rw [foldlM_single, edge_step_low_pair]
  dsimp only
  rw [normalize_by_weight, if_pos hz]
  unfold spec_forces_low_pair
  simp only [Point.add, Point.sub, Point.smul]
  norm_num

/-- The two sums differ, in the linear and in the angular part. -/
theorem forces_low_pair_differ :
    forces_low_pair.force ≠ spec_forces_low_pair.force ∧
    forces_low_pair.angle ≠ spec_forces_low_pair.angle := by
  have hw := weight_low_up_pos
  have hr : (0 : ℝ) < Real.sqrt 3 := by
    have := sqrt3_lower
    linarith
  have hwr := mul_pos hw hr
  constructor
  · intro h
    have hx := congrArg Point.x h
    simp only [forces_low_pair, spec_forces_low_pair, Point.smul] at hx
    rw [one_div, one_div, inv_mul_eq_div, inv_mul_eq_div,
      div_eq_div_iff (by linarith) (by linarith)] at hx
    nlinarith
  · intro h
    simp only [forces_low_pair, spec_forces_low_pair] at h
    rw [div_eq_div_iff (by linarith) (by linarith)] at h
    nlinarith

end PairForces2
section SumsSimulation

variable {α : Type} [LinearOrderedField α]

/-- An entry of the overlap list leaves the sums of the tile as they are. -/
theorem overlap_step_sums [FloorRing α] (X : Ext α) (points : List (Body α)) (i : Nat)
    (acc b : TileAcc α) (j : Nat) (h : overlap_step X points i acc j = .ok b) :
    b.force = acc.force ∧ b.angle = acc.angle ∧ b.weight_sum = acc.weight_sum := by
  unfold overlap_step at h
  dsimp only at h
  split at h
  · cases h
  · split at h
    · cases h
    · split at h
      · cases h
        exact ⟨rfl, rfl, rfl⟩
      · cases h

end SumsSimulation
section SumsClaim

variable {α : Type} [LinearOrderedField α]

/-- Entry `i` of what lines 220-393 leave is what the loop body computes for tile `i`
from row `i`, for some running values of `K` and `E`. -/
theorem forces_tile [FloorRing α] (X : Ext α) (poly : List (Point α))
    (points : List (Body α)) (rows : List Row) (f : Forces α)
    (h : forces X poly points rows = .ok f) (i : Nat) (hi : i < points.length)
    (d : TileAcc α) :
    ∃ K E, tile_forces X poly points (rows.getD i Row.initial) i K E =
      .ok (f.tiles.getD i d) := by
  unfold forces at h
  have key := foldlM_ok_prefix
    (fun (visited : List Nat) (s : Forces α) =>
      s.tiles.length = visited.length ∧
      ∀ idx, idx < visited.length → ∃ K E,
        tile_forces X poly points (rows.getD (visited.getD idx 0) Row.initial)
          (visited.getD idx 0) K E = .ok (s.tiles.getD idx d))
    (forces_step X poly points rows)
    (fun visited s b s2 hs hb => by
      obtain ⟨hlen, hall⟩ := hs
      unfold forces_step at hb
      split at hb
      · cases hb
      · rename_i a ha
        cases hb
        refine ⟨by simp [hlen], fun idx hidx => ?_⟩
        by_cases hlt : idx < visited.length
        · obtain ⟨K, E, hKE⟩ := hall idx hlt
          refine ⟨K, E, ?_⟩
          rw [List.getD_append _ _ _ _ hlt, List.getD_append _ _ _ _ (by rw [hlen]; exact hlt)]
          exact hKE
        · have hidx2 : idx = visited.length := by
            simp only [List.length_append, List.length_singleton] at hidx
            omega
          subst hidx2
          refine ⟨s.K, s.E, ?_⟩
          rw [List.getD_append_right _ _ _ _ (le_refl _),
            List.getD_append_right _ _ _ _ (by rw [hlen])]
          simp only [Nat.sub_self, hlen, List.getD_cons_zero]
          exact ha)
    (List.range points.length) [] _ f ⟨rfl, fun idx hidx => absurd hidx (Nat.not_lt_zero _)⟩ h
  obtain ⟨-, hall⟩ := key
  have hget : (List.range points.length).getD i 0 = i := by
    rw [List.getD_eq_getElem _ _ (show i < (List.range points.length).length by simpa using hi)]
    simp
  have := hall i (by simpa using hi)
  rw [List.nil_append, hget] at this
  exact this

end SumsClaim
section SumsStep

variable {α : Type} [LinearOrderedField α]

/-- Before frame 60101 the vector `points` stands on line 437 as lines 396-400 left it. -/
theorem track_points_running (X : Ext α) (g : Globals α) (points : List (Body α))
    (f : Forces α) (rnd : Nat) (hfr : g.frame + 1 ≤ 60101) :
    (track X g points f rnd).points = set_velocities X points f.tiles := by
  unfold track
  dsimp only
  have hstop : decide (g.frame + 1 > 60001 + 100) = false := by
    rw [decide_eq_false_iff_not]
    omega
  rw [hstop]
  rfl

theorem body_at_set_velocities (X : Ext α) (points : List (Body α))
    (tiles : List (TileAcc α)) (i : Nat) (hi : i < points.length) :
    (body_at (set_velocities X points tiles) i).linearVelocity =
      (tiles.getD i ⟨⟨0, 0⟩, 0, 0, 0, 0, 0, 0⟩).force ∧
    (body_at (set_velocities X points tiles) i).angularVelocity =
      to_rad X (tiles.getD i ⟨⟨0, 0⟩, 0, 0, 0, 0, 0, 0⟩).angle := by
  unfold body_at set_velocities
  rw [List.getD_eq_getElem _ _ (by simpa using hi)]
  simp

end SumsStep

section SumsInstances

/-- C15, as stated, fails: in `square` with the tiles `tile_low` and `tile_up`, tile 0 has
the neighbour `tile_up`, the entry `tile_up` in its overlap list and the lower edge in its
edge-overlap list.  The code (the first round of the loop of lines 226-393, entered with
`K = 1` and `E = 0`) leaves the sums of the neighbour and the edge, divided by
`weight_low_up + 4097`; the sums over all three kinds, the overlap entry counted with the
same formula, are divided by `2 weight_low_up + 4097`, and differ in the linear and in
the angular part. -/
theorem overlap_entry_not_in_sums :
    scan_tiles realExt square [tile_low, tile_up] =
      .ok [Row.mk [1, -1, -1] [1] [0], Row.mk [-1, 0, -1] [0] []] ∧
    tile_forces realExt square [tile_low, tile_up] (Row.mk [1, -1, -1] [1] [0]) 0 1 0 =
      .ok forces_low_pair ∧
    spec_tile_forces realExt square [tile_low, tile_up] (Row.mk [1, -1, -1] [1] [0]) 0 1 0 =
      .ok spec_forces_low_pair ∧
    forces_low_pair.force ≠ spec_forces_low_pair.force ∧
    forces_low_pair.angle ≠ spec_forces_low_pair.angle :=
  ⟨scan_two, tile_forces_low_pair, spec_tile_forces_low_pair, forces_low_pair_differ⟩

end SumsInstances

section EdgeApplied

variable {α : Type} [LinearOrderedField α]

theorem foldl_max_ge {β : Type} (f : β → α) : ∀ (l : List β) (init : α),
    init ≤ l.foldl (fun m p => max m (f p)) init := by
  intro l
  induction l with
  | nil => intro init; exact le_refl _
  | cons a l ih =>
    intro init
    rw [List.foldl_cons]
    exact (le_max_left _ _).trans (ih _)

/-- C26: for a tile and an edge of its edge-overlap list with `dis > 0`: `max_dis ≥ 0`,
`min_distance = dis + max_dis`, and `kn = 1 - (dis / min_distance)^(-2) ≤ 0`; so the
branch `0 < kn` is not taken, and the round either fails an assertion (line 316 or 377)
or applies the correction: the term `weight * kn * n` is subtracted from the force sum,
`ang_diff * weight` is added to the angle sum, the weight is added to the weight sum, and
`K`, `E`, the bonus count and the removal score are updated. -/
theorem edge_correction_applied [FloorRing α] (X : Ext α) (poly : List (Point α))
    (points : List (Body α)) (i : Nat) (acc : TileAcc α) (e : Nat)
    (hdis : 0 < (edge_locals X poly (body_at points i) e).dis) :
    0 ≤ (edge_locals X poly (body_at points i) e).max_dis ∧
    (edge_locals X poly (body_at points i) e).min_distance =
      (edge_locals X poly (body_at points i) e).dis +
        (edge_locals X poly (body_at points i) e).max_dis ∧
    (edge_locals X poly (body_at points i) e).kn =
      1 - ((edge_locals X poly (body_at points i) e).dis /
        (edge_locals X poly (body_at points i) e).min_distance) ^ (-2 : ℤ) ∧
    (edge_locals X poly (body_at points i) e).kn ≤ 0 ∧
    ((edge_locals X poly (body_at points i) e).k ≠ -1 →
      ZERO < |(Point.Normalize X (edge_locals X poly (body_at points i) e).n).1| →
      ∃ b, edge_step X poly points i acc e = .ok b ∧
        b.weight_sum = acc.weight_sum +
          (calc_weight (edge_locals X poly (body_at points i) e).min_distance 1 +
            calc_weight (edge_locals X poly (body_at points i) e).dis 1) ∧
        b.K = min acc.K ((edge_locals X poly (body_at points i) e).dis /
          (edge_locals X poly (body_at points i) e).min_distance) ∧
        b.E = acc.E + max 0 (1 / ((edge_locals X poly (body_at points i) e).dis /
          (edge_locals X poly (body_at points i) e).min_distance) - 1) ∧
        b.rank_score = acc.rank_score -
          max 0 (1 - (edge_locals X poly (body_at points i) e).dis /
            (edge_locals X poly (body_at points i) e).min_distance) ∧
        b.force = acc.force.sub (Point.smul
          ((calc_weight (edge_locals X poly (body_at points i) e).min_distance 1 +
              calc_weight (edge_locals X poly (body_at points i) e).dis 1) *
            (edge_locals X poly (body_at points i) e).kn)
          (Point.Normalize X (edge_locals X poly (body_at points i) e).n).2) ∧
        b.angle = acc.angle + (edge_locals X poly (body_at points i) e).ang_diff *
          (calc_weight (edge_locals X poly (body_at points i) e).min_distance 1 +
            calc_weight (edge_locals X poly (body_at points i) e).dis 1) ∧
        b.rank_count = (if (edge_locals X poly (body_at points i) e).min_dist < 1 / 10
          then acc.rank_count + 1 else acc.rank_count)) ∧
    (edge_step X poly points i acc e = .error (Abort.assertion 316) ∨
      edge_step X poly points i acc e = .error (Abort.assertion 377) ∨
      ∃ b, edge_step X poly points i acc e = .ok b ∧
        b.E = acc.E + max 0 (1 / ((edge_locals X poly (body_at points i) e).dis /
          (edge_locals X poly (body_at points i) e).min_distance) - 1) ∧
        b.force = acc.force.sub (Point.smul
          ((calc_weight (edge_locals X poly (body_at points i) e).min_distance 1 +
              calc_weight (edge_locals X poly (body_at points i) e).dis 1) *
            (edge_locals X poly (body_at points i) e).kn)
          (Point.Normalize X (edge_locals X poly (body_at points i) e).n).2) ∧
        b.angle = acc.angle + (edge_locals X poly (body_at points i) e).ang_diff *
          (calc_weight (edge_locals X poly (body_at points i) e).min_distance 1 +
            calc_weight (edge_locals X poly (body_at points i) e).dis 1) ∧
        b.weight_sum = acc.weight_sum +
          (calc_weight (edge_locals X poly (body_at points i) e).min_distance 1 +
            calc_weight (edge_locals X poly (body_at points i) e).dis 1) ∧
        b.K = min acc.K ((edge_locals X poly (body_at points i) e).dis /
          (edge_locals X poly (body_at points i) e).min_distance) ∧
        b.rank_score = acc.rank_score -
          max 0 (1 - (edge_locals X poly (body_at points i) e).dis /
            (edge_locals X poly (body_at points i) e).min_distance)) := by
  have hmax : 0 ≤ (edge_locals X poly (body_at points i) e).max_dis :=
    foldl_max_ge _ _ 0
  have hmd : (edge_locals X poly (body_at points i) e).min_distance =
      (edge_locals X poly (body_at points i) e).dis +
        (edge_locals X poly (body_at points i) e).max_dis := rfl
  have hknd : (edge_locals X poly (body_at points i) e).kn =
      1 - ((edge_locals X poly (body_at points i) e).dis /
        (edge_locals X poly (body_at points i) e).min_distance) ^ (-2 : ℤ) := rfl
  have hkn : (edge_locals X poly (body_at points i) e).kn ≤ 0 := by
    rw [hknd]
    have hmdpos : 0 < (edge_locals X poly (body_at points i) e).min_distance := by
      rw [hmd]; linarith
    have hq0 : 0 < (edge_locals X poly (body_at points i) e).dis /
        (edge_locals X poly (body_at points i) e).min_distance := div_pos hdis hmdpos
    have hq1 : (edge_locals X poly (body_at points i) e).dis /
        (edge_locals X poly (body_at points i) e).min_distance ≤ 1 := by
      rw [div_le_one hmdpos, hmd]; linarith
    generalize (edge_locals X poly (body_at points i) e).dis /
      (edge_locals X poly (body_at points i) e).min_distance = q at hq0 hq1
    have hsq : q ^ 2 ≤ 1 := by nlinarith
    have hsqpos : 0 < q ^ 2 := by positivity
    have h1 : 1 ≤ q ^ (-2 : ℤ) := by
      rw [zpow_neg, zpow_ofNat, ← one_div, le_div_iff₀ hsqpos, one_mul]
      exact hsq
    linarith
  have hnot : ¬ 0 < (edge_locals X poly (body_at points i) e).kn := not_lt.mpr hkn
  refine ⟨hmax, hmd, hknd, hkn, ?_, ?_⟩
  · intro hk hz
    unfold edge_step
    simp only [if_neg hk, if_neg hnot, if_pos hz]
    exact ⟨_, rfl, rfl, rfl, rfl, rfl, rfl, rfl, rfl⟩
  · unfold edge_step
    by_cases hk : (edge_locals X poly (body_at points i) e).k = -1
    · left
      simp only [if_pos hk]
    · right
      by_cases hz : ZERO < |(Point.Normalize X (edge_locals X poly (body_at points i) e).n).1|
      · right
        simp only [if_neg hk, if_neg hnot, if_pos hz]
        exact ⟨_, rfl, rfl, rfl, rfl, rfl, rfl, rfl⟩
      · left
        simp only [if_neg hk, if_neg hnot, if_neg hz]

end EdgeApplied

section EdgeAppliedWorked

/-- C26 at `tile_low` and the lower edge of `square`: `dis = 1/2`, `kn = -3`, and the
round subtracts `4097 * (-3) * (0, 1)` from the force sum, adds `60 * 4097` to the angle
sum and `4097` to the weight sum. -/
theorem edge_correction_applied_witness :
    0 < (edge_locals realExt square (body_at [tile_low] 0) 0).dis ∧
    (edge_locals realExt square (body_at [tile_low] 0) 0).kn ≤ 0 ∧
    ∃ b, edge_step realExt square [tile_low] 0 ⟨⟨0, 0⟩, 0, 0, 1, 0, 0, 0⟩ 0 = .ok b ∧
      b.E = 0 + max 0 (1 / ((edge_locals realExt square (body_at [tile_low] 0) 0).dis /
        (edge_locals realExt square (body_at [tile_low] 0) 0).min_distance) - 1) ∧
      b.force = (⟨0, 0⟩ : Point ℝ).sub (Point.smul
        ((calc_weight (edge_locals realExt square (body_at [tile_low] 0) 0).min_distance 1 +
            calc_weight (edge_locals realExt square (body_at [tile_low] 0) 0).dis 1) *
          (edge_locals realExt square (body_at [tile_low] 0) 0).kn)
        (Point.Normalize realExt (edge_locals realExt square (body_at [tile_low] 0) 0).n).2) ∧
      b.force = ⟨0, 12291⟩ ∧ b.angle = 245820 ∧ b.weight_sum = 4097 ∧ b.K = 1 / 2 ∧
      b.E = 1 ∧ b.rank_score = -(1 / 2) :=
  have hb : body_at [tile_low] 0 = tile_low := rfl
  have hd : 0 < (edge_locals realExt square (body_at [tile_low] 0) 0).dis := by
    rw [hb, edge_locals_low]; norm_num
  have hall := edge_correction_applied realExt square [tile_low] 0
    ⟨⟨0, 0⟩, 0, 0, 1, 0, 0, 0⟩ 0 hd
  ⟨hd, hall.2.2.2.1, by
    rcases hall.2.2.2.2.2 with h | h | ⟨b, h, hE, hF, -⟩
    · rw [edge_step_low] at h; cases h
    · rw [edge_step_low] at h; cases h
    · refine ⟨b, h, hE, hF, ?_⟩
      rw [edge_step_low] at h
      cases h
      norm_num [Point.sub, Point.smul]⟩

end EdgeAppliedWorked
section PauseClaim

theorem track_pause_time {α : Type} [LinearOrderedField α] (X : Ext α) (g : Globals α)
    (points : List (Body α)) (f : Forces α) (rnd : Nat) :
    (track X g points f rnd).pause_time = g.pause_time +
      (if X.exp (1 - f.E / 2 / g.E) < (rnd : α) / (X.RAND_MAX : α) then 1 else 0) := rfl

/-- C27: over the real numbers, with a draw `rand() / RAND_MAX` in `[0, 1]`: in a step
whose energy `E` (halved) is at most the energy `pre_E > 0` of the step before, the pause
accumulator is not incremented, because `exp(1 - E / pre_E) ≥ 1`; and a step that
increments it (by one) has `E > pre_E`.  (A step that removes a tile sets it to 0.) -/
theorem pause_needs_rising_energy (poly : List (Point ℝ)) (g : Globals ℝ)
    (points : List (Body ℝ)) (rnd : Nat) (r : StepResult ℝ)
    (h : calc_next_step realExt poly g points rnd = .ok r) (hrnd : rnd ≤ realExt.RAND_MAX) :
    (0 < g.E → r.globals.E ≤ g.E → 1 ≤ realExt.exp (1 - r.globals.E / g.E)) ∧
    (0 < g.E → r.globals.E ≤ g.E → r.destroyed = none →
      r.globals.pause_time = g.pause_time) ∧
    (r.destroyed = none → r.globals.pause_time ≠ g.pause_time →
      g.E < r.globals.E ∧ r.globals.pause_time = g.pause_time + 1) ∧
    (r.destroyed ≠ none → r.globals.pause_time = 0) := by
  obtain ⟨f, -, -, -, -, hE, hr⟩ := step_outcome realExt poly g points rnd r h
  have hdraw : ((rnd : ℝ)) / (realExt.RAND_MAX : ℝ) ≤ 1 := by
    have hpos : (0 : ℝ) < (realExt.RAND_MAX : ℝ) := by
      show (0 : ℝ) < ((2147483647 : ℕ) : ℝ)
      norm_num
    rw [div_le_one hpos]
    exact_mod_cast hrnd
  have hexp : ∀ x : ℝ, 0 ≤ x → 1 ≤ realExt.exp x := fun x hx => Real.one_le_exp hx
  have hkeep : 0 < g.E → r.globals.E ≤ g.E → 1 ≤ realExt.exp (1 - r.globals.E / g.E) := by
    intro hpos hle
    apply hexp
    have : r.globals.E / g.E ≤ 1 := (div_le_one hpos).mpr hle
    linarith
  have hpt := track_pause_time realExt g points f rnd
  rw [← hE] at hpt
  refine ⟨hkeep, ?_, ?_, ?_⟩
  · intro hpos hle hd
    rcases remove_or_keep_cases (track realExt g points f rnd) with
      ⟨-, hd2, -⟩ | ⟨-, -, -, -, -, hp⟩
    · rw [← hr, hd] at hd2; cases hd2
    · rw [← hr] at hp
      rw [hp, hpt, if_neg (not_lt.mpr (hdraw.trans (hkeep hpos hle)))]
      simp
  · intro hd hne
    rcases remove_or_keep_cases (track realExt g points f rnd) with
      ⟨-, hd2, -⟩ | ⟨-, -, -, -, -, hp⟩
    · rw [← hr, hd] at hd2; cases hd2
    · rw [← hr] at hp
      rw [hp, hpt] at hne ⊢
      by_cases hlt : realExt.exp (1 - r.globals.E / g.E) < (rnd : ℝ) / (realExt.RAND_MAX : ℝ)
      · rw [if_pos hlt]
        refine ⟨?_, rfl⟩
        have h1 : realExt.exp (1 - r.globals.E / g.E) < 1 := lt_of_lt_of_le hlt hdraw
        have h2 : 1 - r.globals.E / g.E < 0 := by
          by_contra hcon
          exact absurd h1 (not_lt.mpr (hexp _ (not_lt.mp hcon)))
        have h3 : 1 < r.globals.E / g.E := by linarith
        have hEnn : 0 ≤ r.globals.E := by
          rw [hE]
          exact div_nonneg (by
            obtain ⟨rows, f2, -, hf2, hr2⟩ := calc_next_step_ok realExt poly g points rnd r h
            have hb := forces_bounds realExt poly points rows f2 hf2
            have : r.globals.E = f2.E / 2 := by
              rw [hr2, (remove_or_keep_K_E _).2, (track_fields realExt g points f2 rnd).2.1]
            rw [hE] at this
            linarith [hb.2]) (by norm_num)
        by_contra hcon
        have hle : r.globals.E ≤ g.E := not_lt.mp hcon
        rcases lt_trichotomy g.E 0 with hg | hg | hg
        · have : r.globals.E / g.E ≤ 0 := div_nonpos_of_nonneg_of_nonpos hEnn hg.le
          linarith
        · rw [hg, div_zero] at h3
          linarith
        · have : r.globals.E / g.E ≤ 1 := (div_le_one hg).mpr hle
          linarith
      · rw [if_neg hlt] at hne
        exact absurd (by simp) hne
  · intro hd
    rcases remove_or_keep_cases (track realExt g points f rnd) with
      ⟨-, -, -, -, hp, -⟩ | ⟨-, hd2, -⟩
    · rw [← hr] at hp
      exact hp
    · rw [← hr] at hd2
      exact absurd hd2 hd

end PauseClaim

section PauseInstances

/-- C27 at the first step of the tile on the lower edge: `E = 1/2 ≤ pre_E = INT_MAX`, the
pause accumulator stays 0. -/
theorem pause_needs_rising_energy_witness :
    calc_next_step realExt square Globals.initial [tile_low] 0 = .ok result_low_initial ∧
    0 ≤ realExt.RAND_MAX ∧
    (0 < (Globals.initial : Globals ℝ).E →
      result_low_initial.globals.E ≤ (Globals.initial : Globals ℝ).E →
      result_low_initial.destroyed = none →
      result_low_initial.globals.pause_time = (Globals.initial : Globals ℝ).pause_time) :=
  ⟨step_low_initial, Nat.zero_le _,
    (pause_needs_rising_energy square Globals.initial [tile_low] 0 result_low_initial
      step_low_initial (Nat.zero_le _)).2.1⟩

end PauseInstances

section SampledArea

/-- C23, as stated, fails: line 270 of `sdk.h` multiplies the width of the bounding box by
`prt.y - plb.x`, not by its height `prt.y - plb.y`.  For the square of side 10 with the
lower left corner at `(0, 1)` (edge length `sqrt 3`, so that the normalised polygon is
the polygon itself) the bounding box is `(0, 1), (10, 11)`, and with `inside` of the 4095
points inside the estimate is `110 * inside / 4095`, not `100 * inside / 4095`. -/
theorem sampled_area_uses_plb_x :
    normalize_polygon (square10_up : List (Point ℝ)) (realExt.sqrt 3 / realExt.sqrt 3) =
      square10_up ∧
    bounding_box (square10_up : List (Point ℝ)) = (⟨0, 1⟩, ⟨10, 11⟩) ∧
    ∀ inside : Nat,
      sdk.estimate_area (bounding_box (square10_up : List (Point ℝ))).1
        (bounding_box (square10_up : List (Point ℝ))).2 inside 4095 = 110 * inside / 4095 ∧
      spec_estimate_area (bounding_box (square10_up : List (Point ℝ))).1
        (bounding_box (square10_up : List (Point ℝ))).2 inside 4095 = 100 * inside / 4095 ∧
      (inside ≠ 0 →
        sdk.estimate_area (bounding_box (square10_up : List (Point ℝ))).1
          (bounding_box (square10_up : List (Point ℝ))).2 inside 4095 ≠
        spec_estimate_area (bounding_box (square10_up : List (Point ℝ))).1
          (bounding_box (square10_up : List (Point ℝ))).2 inside 4095) := by
  have hs : realExt.sqrt 3 / realExt.sqrt 3 = 1 := by
    have : (0 : ℝ) < Real.sqrt 3 := by
      have := sqrt3_lower
      linarith
    exact div_self this.ne'
  have hbox : bounding_box (square10_up : List (Point ℝ)) = (⟨0, 1⟩, ⟨10, 11⟩) := by
    simp [bounding_box, square10_up, vertex_at]
  refine ⟨?_, hbox, fun inside => ?_⟩
  · rw [hs]
    simp [normalize_polygon, normalize_point, square10_up]
  · rw [hbox]
    have e1 : sdk.estimate_area (⟨0, 1⟩ : Point ℝ) ⟨10, 11⟩ inside 4095 =
        110 * inside / 4095 := by
      simp only [sdk.estimate_area]
      norm_num
    have e2 : spec_estimate_area (⟨0, 1⟩ : Point ℝ) ⟨10, 11⟩ inside 4095 =
        100 * inside / 4095 := by
      simp only [spec_estimate_area]
      norm_num
      ring
    refine ⟨e1, e2, fun hne => ?_⟩
    rw [e1, e2]
    intro h
    have hpos : (0 : ℝ) < inside := by exact_mod_cast Nat.pos_of_ne_zero hne
    field_simp at h
    rcases h with h | h
    · norm_num at h
    · exact hne h

end SampledArea

section PairSymmetry

variable {α : Type} [LinearOrderedField α]

/-- The two misalignments of a pair, `y` and `360 - y` before normalisation, have the
same absolute value after it. -/
theorem normalize_angle_abs_symm [FloorRing α] (y : α) :
    |normalize_angle (360 - y)| = |normalize_angle y| := by
  obtain ⟨h1, m1, e1⟩ := normalize_angle_loop_spec _ y (normalize_angle_fuel_enough y)
  obtain ⟨h2, m2, e2⟩ :=
    normalize_angle_loop_spec _ (360 - y) (normalize_angle_fuel_enough (360 - y))
  have d1 : normalize_angle y = normalize_angle_loop (⌈|y| / 360⌉₊ + 1) y := rfl
  have d2 : normalize_angle (360 - y) =
      normalize_angle_loop (⌈|360 - y| / 360⌉₊ + 1) (360 - y) := rfl
  rw [← d1] at h1 e1
  rw [← d2] at h2 e2
  generalize normalize_angle y = N1 at h1 e1 ⊢
  generalize normalize_angle (360 - y) = N2 at h2 e2 ⊢
  have hsum : N1 + N2 = 360 * ((1 + m1 + m2 : ℤ) : α) := by
    push_cast
    rw [e1, e2]
    ring
  rw [abs_le] at h1 h2
  have hM1 : ((1 + m1 + m2 : ℤ) : α) ≤ 1 := by
    have : (360 : α) * ((1 + m1 + m2 : ℤ) : α) ≤ 360 := by rw [← hsum]; linarith
    linarith
  have hM2 : (-1 : α) ≤ ((1 + m1 + m2 : ℤ) : α) := by
    have : (-360 : α) ≤ 360 * ((1 + m1 + m2 : ℤ) : α) := by rw [← hsum]; linarith
    linarith
  have hM1z : (1 + m1 + m2 : ℤ) ≤ 1 := by exact_mod_cast hM1
  have hM2z : (-1 : ℤ) ≤ 1 + m1 + m2 := by exact_mod_cast hM2
  generalize (1 + m1 + m2 : ℤ) = M at hsum hM1z hM2z
  have hcases : M = -1 ∨ M = 0 ∨ M = 1 := by omega
  rcases hcases with rfl | rfl | rfl
  · have : N1 = -180 ∧ N2 = -180 := by
      push_cast at hsum
      constructor <;> linarith
    rw [this.1, this.2]
  · have : N2 = -N1 := by
      push_cast at hsum
      linarith
    rw [this, abs_neg]
  · have : N1 = 180 ∧ N2 = 180 := by
      push_cast at hsum
      constructor <;> linarith
    rw [this.1, this.2]

/-- The locals of lines 238-257 for a pair of tiles, seen from the one and from the other:
the distance, the larger of the two projections, the absolute misalignment and the
required separation are the same. -/
theorem pair_locals_symmetric [FloorRing α] (X : Ext α) (p1 p2 : Body α) (k l : Nat) :
    (pair_locals X p2 p1 (to_deg X p2.angle + (l : α) * 120) k).v.Length X =
      (pair_locals X p1 p2 (to_deg X p1.angle + (k : α) * 120) l).v.Length X ∧
    (pair_locals X p2 p1 (to_deg X p2.angle + (l : α) * 120) k).v_n_length =
      (pair_locals X p1 p2 (to_deg X p1.angle + (k : α) * 120) l).v_n2_length ∧
    (pair_locals X p2 p1 (to_deg X p2.angle + (l : α) * 120) k).v_n2_length =
      (pair_locals X p1 p2 (to_deg X p1.angle + (k : α) * 120) l).v_n_length ∧
    |(pair_locals X p2 p1 (to_deg X p2.angle + (l : α) * 120) k).ang_diff| =
      |(pair_locals X p1 p2 (to_deg X p1.angle + (k : α) * 120) l).ang_diff| ∧
    (pair_locals X p2 p1 (to_deg X p2.angle + (l : α) * 120) k).min_distance =
      (pair_locals X p1 p2 (to_deg X p1.angle + (k : α) * 120) l).min_distance := by
  have hlen : (p1.position.sub p2.position).Length X = (p2.position.sub p1.position).Length X :=
    length_sub_comm X _ _
  have hvn : (p1.position.sub p2.position).x *
        X.sin (to_rad X (to_deg X p2.angle + (l : α) * 120)) +
      (p1.position.sub p2.position).y *
        X.cos (to_rad X (to_deg X p2.angle + (l : α) * 120)) =
      -((p2.position.sub p1.position).x *
          X.sin (to_rad X (to_deg X p2.angle + (l : α) * 120)) +
        (p2.position.sub p1.position).y *
          X.cos (to_rad X (to_deg X p2.angle + (l : α) * 120))) := by
    simp only [Point.sub]; ring
  have hvn2 : -((p1.position.sub p2.position).x *
        X.sin (to_rad X (to_deg X p1.angle + (k : α) * 120)) +
      (p1.position.sub p2.position).y *
        X.cos (to_rad X (to_deg X p1.angle + (k : α) * 120))) =
      (p2.position.sub p1.position).x *
          X.sin (to_rad X (to_deg X p1.angle + (k : α) * 120)) +
        (p2.position.sub p1.position).y *
          X.cos (to_rad X (to_deg X p1.angle + (k : α) * 120)) := by
    simp only [Point.sub]; ring
  have hang : |angle_diff (to_deg X p2.angle + (l : α) * 120)
        (to_deg X p1.angle + (k : α) * 120 + 180)| =
      |angle_diff (to_deg X p1.angle + (k : α) * 120)
        (to_deg X p2.angle + (l : α) * 120 + 180)| := by
    unfold angle_diff
    rw [← normalize_angle_abs_symm
      (to_deg X p2.angle + (l : α) * 120 + 180 - (to_deg X p1.angle + (k : α) * 120))]
    congr 2
    ring
  unfold pair_locals
  dsimp only
  refine ⟨hlen, hvn, hvn2, hang, ?_⟩
  rw [hlen, hvn, hvn2, hang, max_comm]

end PairSymmetry
section PairSymmetryClaim

variable {α : Type} [LinearOrderedField α]

/-- C21: for two tiles `i` and `j`, with `k` the sector of `i` towards `j` and `l` the
sector of `j` towards `i` (both by `calc_direction`), the required separation
`min_distance` computed at `i` for `j` is the one computed at `j` for `i`, and so is the
distance; hence the entry `j` of the overlap list of `i` and the entry `i` of the overlap
list of `j` add the same term `max(0, 1 / (|v| / min_distance) - 1)` to `E`. -/
theorem required_separation_symmetric [FloorRing α] (X : Ext α) (points : List (Body α))
    (i j k l : Nat)
    (hk : calc_direction X (body_at points i).position (to_deg X (body_at points i).angle)
      (body_at points j).position = .ok k)
    (hl : calc_direction X (body_at points j).position (to_deg X (body_at points j).angle)
      (body_at points i).position = .ok l) :
    (pair_locals X (body_at points j) (body_at points i)
        (to_deg X (body_at points j).angle + (l : α) * 120) k).min_distance =
      (pair_locals X (body_at points i) (body_at points j)
        (to_deg X (body_at points i).angle + (k : α) * 120) l).min_distance ∧
    (pair_locals X (body_at points j) (body_at points i)
        (to_deg X (body_at points j).angle + (l : α) * 120) k).v.Length X =
      (pair_locals X (body_at points i) (body_at points j)
        (to_deg X (body_at points i).angle + (k : α) * 120) l).v.Length X ∧
    ∀ acc acc2 b b2, overlap_step X points i acc j = .ok b →
      overlap_step X points j acc2 i = .ok b2 →
      b.E - acc.E = b2.E - acc2.E ∧
      b.E - acc.E = max 0
        (1 / ((pair_locals X (body_at points i) (body_at points j)
            (to_deg X (body_at points i).angle + (k : α) * 120) l).v.Length X /
          (pair_locals X (body_at points i) (body_at points j)
            (to_deg X (body_at points i).angle + (k : α) * 120) l).min_distance) - 1) := by
  obtain ⟨s1, -, -, -, s5⟩ := pair_locals_symmetric X (body_at points i) (body_at points j) k l
  refine ⟨s5, s1, ?_⟩
  intro acc acc2 b b2 h1 h2
  unfold overlap_step at h1 h2
  dsimp only at h1 h2
  rw [hk, hl] at h1
  rw [hk, hl] at h2
  dsimp only at h1 h2
  rw [add_comm ((k : α) * 120)] at h1
  rw [add_comm ((l : α) * 120)] at h2
  split at h1
  · split at h2
    · cases h1
      cases h2
      dsimp only
      rw [s1, s5]
      constructor <;> ring
    · cases h2
  · cases h1

end PairSymmetryClaim

section PairSymmetryInstances

/-- C21 at `tile_low` and `tile_up`: the required separation is `3/2` from both sides. -/
theorem required_separation_symmetric_witness :
    calc_direction realExt (body_at [tile_low, tile_up] 0).position
      (to_deg realExt (body_at [tile_low, tile_up] 0).angle)
      (body_at [tile_low, tile_up] 1).position = .ok 0 ∧
    calc_direction realExt (body_at [tile_low, tile_up] 1).position
      (to_deg realExt (body_at [tile_low, tile_up] 1).angle)
      (body_at [tile_low, tile_up] 0).position = .ok 1 ∧
    (pair_locals realExt (body_at [tile_low, tile_up] 1) (body_at [tile_low, tile_up] 0)
        (to_deg realExt (body_at [tile_low, tile_up] 1).angle + ((1 : ℕ) : ℝ) * 120)
        0).min_distance =
      (pair_locals realExt (body_at [tile_low, tile_up] 0) (body_at [tile_low, tile_up] 1)
        (to_deg realExt (body_at [tile_low, tile_up] 0).angle + ((0 : ℕ) : ℝ) * 120)
        1).min_distance :=
  ⟨direction_low_up, direction_up_low,
    (required_separation_symmetric realExt [tile_low, tile_up] 0 1 0 1 direction_low_up
      direction_up_low).1⟩

end PairSymmetryInstances

section SectorTests

/-- The 60 degree test of sector `i` over the real numbers. -/
theorem sector_test_real (v : Point ℝ) (arc : ℝ) (i : Nat) :
    sector_test realExt 60 v arc i =
      decide (1 / 2 * Real.sqrt (v.x * v.x + v.y * v.y) ≤
        v.x * realExt.sin (to_rad realExt (arc + 120 * (i : ℝ))) +
          v.y * realExt.cos (to_rad realExt (arc + 120 * (i : ℝ)))) := by
  unfold sector_test Point.Length
  rw [cos_deg_60]
  rfl

/-- Of three headings 120 degrees apart, one is within 60 degrees of any vector. -/
theorem three_sectors_cover (x y s c L : ℝ) (hL : 0 ≤ L) (hLL : L * L = x * x + y * y)
    (hsc : s * s + c * c = 1) (r : ℝ) (hr : r * r = 3) :
    1 / 2 * L ≤ x * s + y * c ∨
    1 / 2 * L ≤ x * (s * -(1 / 2) + c * (r / 2)) + y * (c * -(1 / 2) - s * (r / 2)) ∨
    1 / 2 * L ≤ x * (s * -(1 / 2) + c * -(r / 2)) + y * (c * -(1 / 2) - s * -(r / 2)) := by
  by_contra hcon
  push_neg at hcon
  obtain ⟨h0, h1, h2⟩ := hcon
  have hsum : (x * s + y * c) +
      (x * (s * -(1 / 2) + c * (r / 2)) + y * (c * -(1 / 2) - s * (r / 2))) +
      (x * (s * -(1 / 2) + c * -(r / 2)) + y * (c * -(1 / 2) - s * -(r / 2))) = 0 := by ring
  have hsq : (x * s + y * c) ^ 2 +
      (x * (s * -(1 / 2) + c * (r / 2)) + y * (c * -(1 / 2) - s * (r / 2))) ^ 2 +
      (x * (s * -(1 / 2) + c * -(r / 2)) + y * (c * -(1 / 2) - s * -(r / 2))) ^ 2 =
      3 / 2 * (L * L) := by
    rw [hLL]
    linear_combination (3 / 2 * (x * x + y * y)) * hsc + (1 / 2 * (x * c - y * s) ^ 2) * hr
  generalize x * s + y * c = P0 at h0 hsum hsq
  generalize x * (s * -(1 / 2) + c * (r / 2)) + y * (c * -(1 / 2) - s * (r / 2)) = P1
    at h1 hsum hsq
  generalize x * (s * -(1 / 2) + c * -(r / 2)) + y * (c * -(1 / 2) - s * -(r / 2)) = P2
    at h2 hsum hsq
  have g0 : 0 < (1 / 2 * L - P0) * (P0 + L) := mul_pos (by linarith) (by linarith)
  have g1 : 0 < (1 / 2 * L - P1) * (P1 + L) := mul_pos (by linarith) (by linarith)
  have g2 : 0 < (1 / 2 * L - P2) * (P2 + L) := mul_pos (by linarith) (by linarith)
  nlinarith

/-- Over the real numbers some sector passes the 60 degree test. -/
theorem sector_exists (v : Point ℝ) (arc : ℝ) :
    sector_test realExt 60 v arc 0 = true ∨ sector_test realExt 60 v arc 1 = true ∨
      sector_test realExt 60 v arc 2 = true := by
  have h0 : arc + 120 * ((0 : ℕ) : ℝ) = arc + 0 := by norm_num
  have h1 : arc + 120 * ((1 : ℕ) : ℝ) = arc + 120 := by norm_num
  have h2 : arc + 120 * ((2 : ℕ) : ℝ) = arc + 240 := by norm_num
  simp only [sector_test_real, h0, h1, h2, sin_deg_add, cos_deg_add, sin_deg_0, cos_deg_0,
    sin_deg_120, cos_deg_120, sin_deg_240, cos_deg_240, decide_eq_true_eq]
  have hnn : 0 ≤ v.x * v.x + v.y * v.y :=
    add_nonneg (mul_self_nonneg _) (mul_self_nonneg _)
  have := three_sectors_cover v.x v.y (realExt.sin (to_rad realExt arc))
    (realExt.cos (to_rad realExt arc)) (Real.sqrt (v.x * v.x + v.y * v.y))
    (Real.sqrt_nonneg _) (Real.mul_self_sqrt hnn) (sin_cos_deg_sq arc) (Real.sqrt 3) sqrt3_sq
  rcases this with h | h | h
  · left
    linarith
  · right; left
    linarith
  · right; right
    linarith

/-- Over the real numbers some sector passes the 60 degree test, and `calc_direction`
returns the smallest one. -/
theorem calc_direction_returns (c : Point ℝ) (arc : ℝ) (p : Point ℝ) :
    ∃ k, k < 3 ∧ sector_test realExt 60 (p.sub c) arc k = true ∧
      (∀ k2, k2 < k → sector_test realExt 60 (p.sub c) arc k2 = false) ∧
      (List.range 3).find? (sector_test realExt 60 (p.sub c) arc) = some k ∧
      calc_direction realExt c arc p = .ok k ∧
      calc_direction realExt c arc p ≠ .error Abort.exit_minus_one := by
  have hex := sector_exists (p.sub c) arc
  have hcd : ∀ k, (List.range 3).find? (sector_test realExt 60 (p.sub c) arc) = some k →
      calc_direction realExt c arc p = .ok k := by
    intro k hk
    unfold calc_direction
    simp only [hk]
  cases h0 : sector_test realExt 60 (p.sub c) arc 0 with
  | true =>
    have hf : (List.range 3).find? (sector_test realExt 60 (p.sub c) arc) = some 0 := by
      simp [range_three, List.find?, h0]
    refine ⟨0, by decide, h0, fun k2 hk2 => absurd hk2 (Nat.not_lt_zero _), hf, hcd 0 hf, ?_⟩
    rw [hcd 0 hf]
    exact fun h => by cases h
  | false =>
    cases h1 : sector_test realExt 60 (p.sub c) arc 1 with
    | true =>
      have hf : (List.range 3).find? (sector_test realExt 60 (p.sub c) arc) = some 1 := by
        simp [range_three, List.find?, h0, h1]
      refine ⟨1, by decide, h1, fun k2 hk2 => ?_, hf, hcd 1 hf, ?_⟩
      · interval_cases k2
        exact h0
      · rw [hcd 1 hf]
        exact fun h => by cases h
    | false =>
      have h2 : sector_test realExt 60 (p.sub c) arc 2 = true := by
        rcases hex with h | h | h
        · rw [h0] at h; cases h
        · rw [h1] at h; cases h
        · exact h
      have hf : (List.range 3).find? (sector_test realExt 60 (p.sub c) arc) = some 2 := by
        simp [range_three, List.find?, h0, h1, h2]
      refine ⟨2, by decide, h2, fun k2 hk2 => ?_, hf, hcd 2 hf, ?_⟩
      · interval_cases k2
        · exact h0
        · exact h1
      · rw [hcd 2 hf]
        exact fun h => by cases h

end SectorTests
section SectorClaim

/-- C24: over the real numbers, for every centre `c`, orientation `arc` and point `p`
(`p = c` included) some sector `k` in {0,1,2} passes the 60 degree test
`cos(60) |p - c| <= (p - c).n(arc + 120 k)`; `calc_direction` returns the smallest such `k`
from its first loop, and so never reaches the 70 degree loop or `exit(-1)`. -/
theorem calc_direction_first_loop (c : Point ℝ) (arc : ℝ) (p : Point ℝ) :
    ∃ k, k < 3 ∧ sector_test realExt 60 (p.sub c) arc k = true ∧
      (∀ k2, k2 < k → sector_test realExt 60 (p.sub c) arc k2 = false) ∧
      (List.range 3).find? (sector_test realExt 60 (p.sub c) arc) = some k ∧
      calc_direction realExt c arc p = .ok k ∧
      calc_direction realExt c arc p ≠ .error Abort.exit_minus_one :=
  calc_direction_returns c arc p

end SectorClaim
section PairReal

theorem calc_direction_passes (c : Point ℝ) (arc : ℝ) (p : Point ℝ) (k : Nat)
    (h : calc_direction realExt c arc p = .ok k) :
    k < 3 ∧ sector_test realExt 60 (p.sub c) arc k = true := by
  obtain ⟨k2, hk2, ht, -, -, hcd, -⟩ := calc_direction_returns c arc p
  rw [hcd] at h
  cases h
  exact ⟨hk2, ht⟩

theorem dot_le_length (x y s c L : ℝ) (hL : 0 ≤ L) (hLL : L * L = x * x + y * y)
    (hsc : s * s + c * c = 1) : x * s + y * c ≤ L := by
  have h : (x * s + y * c) ^ 2 + (x * c - y * s) ^ 2 = L * L := by
    rw [hLL]
    linear_combination (x * x + y * y) * hsc
  by_contra hcon
  push_neg at hcon
  nlinarith [sq_nonneg (x * c - y * s)]

/-- Two headings, the one within 60 degrees of `v` and the other within 60 degrees of
`-v`, make an angle of at least 60 degrees. -/
theorem heading_dot_bound (x y s1 c1 s2 c2 L : ℝ) (hL : 0 < L)
    (hLL : L * L = x * x + y * y) (h1 : s1 * s1 + c1 * c1 = 1) (h2 : s2 * s2 + c2 * c2 = 1)
    (hP : 1 / 2 * L ≤ x * s1 + y * c1) (hP2 : 1 / 2 * L ≤ -(x * s2 + y * c2)) :
    s1 * s2 + c1 * c2 ≤ 1 / 2 := by
  have e1 : (x * s1 + y * c1) ^ 2 + (x * c1 - y * s1) ^ 2 = L * L := by
    rw [hLL]
    linear_combination (x * x + y * y) * h1
  have e2 : (x * s2 + y * c2) ^ 2 + (x * c2 - y * s2) ^ 2 = L * L := by
    rw [hLL]
    linear_combination (x * x + y * y) * h2
  have e3 : L * L * (s1 * s2 + c1 * c2) =
      (x * s1 + y * c1) * (x * s2 + y * c2) + (x * c1 - y * s1) * (x * c2 - y * s2) := by
    rw [hLL]
    ring
  generalize x * s1 + y * c1 = P at hP e1 e3
  generalize x * s2 + y * c2 = P2 at hP2 e2 e3
  generalize x * c1 - y * s1 = Q at e1 e3
  generalize x * c2 - y * s2 = Q2 at e2 e3
  have hPP : L * L / 4 ≤ P * -P2 := by
    have := mul_le_mul hP hP2 (by linarith) (by linarith)
    nlinarith
  have hPsq : L * L / 4 ≤ P ^ 2 := by nlinarith
  have hP2sq : L * L / 4 ≤ P2 ^ 2 := by nlinarith
  have hQQ : Q * Q2 ≤ (Q ^ 2 + Q2 ^ 2) / 2 := by nlinarith [sq_nonneg (Q - Q2)]
  have hle : L * L * (s1 * s2 + c1 * c2) ≤ L * L * (1 / 2) := by
    rw [e3]
    nlinarith
  exact le_of_mul_le_mul_left hle (mul_pos hL hL)

theorem abs_le_120_of_cos (a : ℝ) (h180 : |a| ≤ 180)
    (hcos : -(1 / 2) ≤ realExt.cos (to_rad realExt a)) : |a| ≤ 120 := by
  by_contra hcon
  push_neg at hcon
  have hpi := Real.pi_pos
  have h1 : realExt.cos (to_rad realExt |a|) = realExt.cos (to_rad realExt a) := by
    rw [real_cos_deg, real_cos_deg]
    rw [show |a| / 180 * Real.pi = |a / 180 * Real.pi| by
      rw [abs_mul, abs_div, abs_of_pos hpi]; norm_num]
    exact Real.cos_abs _
  have h2 : realExt.cos (to_rad realExt |a|) < realExt.cos (to_rad realExt 120) := by
    rw [real_cos_deg, real_cos_deg]
    apply Real.cos_lt_cos_of_nonneg_of_le_pi
    · positivity
    · have : |a| / 180 ≤ 1 := by linarith
      nlinarith
    · have : (120 : ℝ) / 180 < |a| / 180 := by linarith
      nlinarith
  rw [cos_deg_120, h1] at h2
  linarith

theorem sin_30_add_bounds (t : ℝ) (h0 : 0 ≤ t) (h1 : t ≤ 120) :
    1 / 2 ≤ realExt.sin (to_rad realExt (30 + t)) ∧
    realExt.sin (to_rad realExt (30 + t)) ≤ 1 := by
  have hpi := Real.pi_pos
  refine ⟨?_, Real.sin_le_one _⟩
  rw [real_sin_deg, ← Real.cos_sub_pi_div_two,
    show (30 + t) / 180 * Real.pi - Real.pi / 2 = (t - 60) / 180 * Real.pi by ring,
    ← Real.cos_abs, ← Real.cos_pi_div_three]
  apply Real.cos_le_cos_of_nonneg_of_le_pi (abs_nonneg _) (by linarith)
  rw [abs_mul, abs_div, abs_of_pos hpi]
  have : |t - 60| ≤ 60 := by rw [abs_le]; constructor <;> linarith
  norm_num
  nlinarith

end PairReal
section PairRealFacts

theorem cos_deg_normalize (y : ℝ) :
    realExt.cos (to_rad realExt (normalize_angle y)) = realExt.cos (to_rad realExt y) ∧
    |normalize_angle y| ≤ 180 := by
  obtain ⟨h1, m, e⟩ := normalize_angle_loop_spec _ y (normalize_angle_fuel_enough y)
  have d : normalize_angle y = normalize_angle_loop (⌈|y| / 360⌉₊ + 1) y := rfl
  rw [← d] at h1 e
  refine ⟨?_, h1⟩
  rw [e, real_cos_deg, real_cos_deg,
    show (y + 360 * (m : ℝ)) / 180 * Real.pi = y / 180 * Real.pi + (m : ℝ) * (2 * Real.pi) by
      ring]
  exact Real.cos_add_int_mul_two_pi _ m

theorem length_pos_of_ne (a b : Point ℝ) (h : a ≠ b) :
    0 < Real.sqrt ((b.sub a).x * (b.sub a).x + (b.sub a).y * (b.sub a).y) := by
  apply Real.sqrt_pos.mpr
  have hne : (b.sub a).x ≠ 0 ∨ (b.sub a).y ≠ 0 := by
    by_contra hcon
    push_neg at hcon
    apply h
    cases a
    cases b
    simp only [Point.sub] at hcon
    simp only [Point.mk.injEq]
    constructor <;> linarith [hcon.1, hcon.2]
  rcases hne with hx | hy
  · have := mul_self_pos.mpr hx
    nlinarith [mul_self_nonneg (b.sub a).y]
  · have := mul_self_pos.mpr hy
    nlinarith [mul_self_nonneg (b.sub a).x]

/-- The locals of lines 238-257 over the real numbers, for two tiles at distinct places
with the sectors `calc_direction` gives: both projections lie between `|v| / 2` and
`|v|`, the misalignment is at most 120 degrees, and so the numerator
`0.5 + sin(30 + |ang_diff|)` lies in `[1, 3/2]`, the divisor in `[1/2, 1]` and the
required separation in `[1, 3]`. -/
theorem pair_real_facts (p1 p2 : Body ℝ) (k l : Nat)
    (hk : calc_direction realExt p1.position (to_deg realExt p1.angle) p2.position = .ok k)
    (hl : calc_direction realExt p2.position (to_deg realExt p2.angle) p1.position = .ok l)
    (hv : p1.position ≠ p2.position) :
    0 < (pair_locals realExt p1 p2 (to_deg realExt p1.angle + (k : ℝ) * 120) l).v.Length
      realExt ∧
    1 / 2 * (pair_locals realExt p1 p2 (to_deg realExt p1.angle + (k : ℝ) * 120) l).v.Length
        realExt ≤
      (pair_locals realExt p1 p2 (to_deg realExt p1.angle + (k : ℝ) * 120) l).v_n_length ∧
    (pair_locals realExt p1 p2 (to_deg realExt p1.angle + (k : ℝ) * 120) l).v_n_length ≤
      (pair_locals realExt p1 p2 (to_deg realExt p1.angle + (k : ℝ) * 120) l).v.Length
        realExt ∧
    1 / 2 * (pair_locals realExt p1 p2 (to_deg realExt p1.angle + (k : ℝ) * 120) l).v.Length
        realExt ≤
      (pair_locals realExt p1 p2 (to_deg realExt p1.angle + (k : ℝ) * 120) l).v_n2_length ∧
    (pair_locals realExt p1 p2 (to_deg realExt p1.angle + (k : ℝ) * 120) l).v_n2_length ≤
      (pair_locals realExt p1 p2 (to_deg realExt p1.angle + (k : ℝ) * 120) l).v.Length
        realExt ∧
    |(pair_locals realExt p1 p2 (to_deg realExt p1.angle + (k : ℝ) * 120) l).ang_diff| ≤
      120 := by
  obtain ⟨-, tk⟩ := calc_direction_passes _ _ _ k hk
  obtain ⟨-, tl⟩ := calc_direction_passes _ _ _ l hl
  rw [sector_test_real, decide_eq_true_eq, mul_comm (120 : ℝ)] at tk tl
  have hL := length_pos_of_ne _ _ hv
  have hLL : Real.sqrt ((p2.position.sub p1.position).x * (p2.position.sub p1.position).x +
        (p2.position.sub p1.position).y * (p2.position.sub p1.position).y) *
      Real.sqrt ((p2.position.sub p1.position).x * (p2.position.sub p1.position).x +
        (p2.position.sub p1.position).y * (p2.position.sub p1.position).y) =
      (p2.position.sub p1.position).x * (p2.position.sub p1.position).x +
        (p2.position.sub p1.position).y * (p2.position.sub p1.position).y :=
    Real.mul_self_sqrt (add_nonneg (mul_self_nonneg _) (mul_self_nonneg _))
  have hrev : (p1.position.sub p2.position).x * (p1.position.sub p2.position).x +
      (p1.position.sub p2.position).y * (p1.position.sub p2.position).y =
      (p2.position.sub p1.position).x * (p2.position.sub p1.position).x +
        (p2.position.sub p1.position).y * (p2.position.sub p1.position).y := by
    simp only [Point.sub]; ring
  rw [hrev] at tl
  have tl2 : 1 / 2 * Real.sqrt ((p2.position.sub p1.position).x *
        (p2.position.sub p1.position).x +
        (p2.position.sub p1.position).y * (p2.position.sub p1.position).y) ≤
      -((p2.position.sub p1.position).x *
          realExt.sin (to_rad realExt (to_deg realExt p2.angle + (l : ℝ) * 120)) +
        (p2.position.sub p1.position).y *
          realExt.cos (to_rad realExt (to_deg realExt p2.angle + (l : ℝ) * 120))) := by
    refine tl.trans (le_of_eq ?_)
    simp only [Point.sub]; ring
  have h1 := sin_cos_deg_sq (to_deg realExt p1.angle + (k : ℝ) * 120)
  have h2 := sin_cos_deg_sq (to_deg realExt p2.angle + (l : ℝ) * 120)
  have hcosad := cos_deg_normalize
    (to_deg realExt p2.angle + (l : ℝ) * 120 + 180 -
      (to_deg realExt p1.angle + (k : ℝ) * 120))
  have hexpand : realExt.cos (to_rad realExt
      (to_deg realExt p2.angle + (l : ℝ) * 120 + 180 -
        (to_deg realExt p1.angle + (k : ℝ) * 120))) =
      -(realExt.sin (to_rad realExt (to_deg realExt p1.angle + (k : ℝ) * 120)) *
          realExt.sin (to_rad realExt (to_deg realExt p2.angle + (l : ℝ) * 120)) +
        realExt.cos (to_rad realExt (to_deg realExt p1.angle + (k : ℝ) * 120)) *
          realExt.cos (to_rad realExt (to_deg realExt p2.angle + (l : ℝ) * 120))) := by
    rw [sub_eq_add_neg,
      cos_deg_add (to_deg realExt p2.angle + (l : ℝ) * 120 + 180)
        (-(to_deg realExt p1.angle + (k : ℝ) * 120)),
      cos_deg_add (to_deg realExt p2.angle + (l : ℝ) * 120) 180,
      sin_deg_add (to_deg realExt p2.angle + (l : ℝ) * 120) 180,
      cos_deg_neg, sin_deg_neg, sin_deg_180, cos_deg_180]
    ring
  have hdot := heading_dot_bound _ _ _ _ _ _ _ hL hLL h1 h2 tk tl2
  have hang : |angle_diff (to_deg realExt p1.angle + (k : ℝ) * 120)
      (to_deg realExt p2.angle + (l : ℝ) * 120 + 180)| ≤ 120 := by
    unfold angle_diff
    apply abs_le_120_of_cos _ hcosad.2
    rw [hcosad.1, hexpand]
    linarith
  have hle1 := dot_le_length _ _ _ _ _ hL.le hLL h1
  have hle2 := dot_le_length (-(p2.position.sub p1.position).x)
    (-(p2.position.sub p1.position).y) _ _ _ hL.le (by rw [hLL]; ring) h2
  unfold pair_locals
  dsimp only
  unfold Point.Length
  refine ⟨hL, tk, hle1, tl2, ?_, hang⟩
  refine le_trans (le_of_eq ?_) hle2
  ring

end PairRealFacts
section PairBounds

theorem sin_deg_30 : realExt.sin (to_rad realExt 30) = 1 / 2 := by
  rw [real_sin_deg, show (30 / 180 * Real.pi : ℝ) = Real.pi / 6 by ring]
  exact Real.sin_pi_div_six

/-- The numerator, the divisor and the value of the required separation of lines 251-253
over the real numbers, for two tiles at distinct places. -/
theorem pair_real_bounds (p1 p2 : Body ℝ) (k l : Nat)
    (hk : calc_direction realExt p1.position (to_deg realExt p1.angle) p2.position = .ok k)
    (hl : calc_direction realExt p2.position (to_deg realExt p2.angle) p1.position = .ok l)
    (hv : p1.position ≠ p2.position) :
    (pair_locals realExt p1 p2 (to_deg realExt p1.angle + (k : ℝ) * 120) l).min_distance =
      (1 / 2 + realExt.sin (to_rad realExt (30 +
        |(pair_locals realExt p1 p2 (to_deg realExt p1.angle + (k : ℝ) * 120) l).ang_diff|))) /
      (max (pair_locals realExt p1 p2 (to_deg realExt p1.angle + (k : ℝ) * 120) l).v_n_length
          (pair_locals realExt p1 p2 (to_deg realExt p1.angle + (k : ℝ) * 120) l).v_n2_length /
        (pair_locals realExt p1 p2 (to_deg realExt p1.angle + (k : ℝ) * 120) l).v.Length
          realExt) ∧
    1 ≤ 1 / 2 + realExt.sin (to_rad realExt (30 +
        |(pair_locals realExt p1 p2 (to_deg realExt p1.angle + (k : ℝ) * 120) l).ang_diff|)) ∧
    1 / 2 + realExt.sin (to_rad realExt (30 +
        |(pair_locals realExt p1 p2 (to_deg realExt p1.angle + (k : ℝ) * 120) l).ang_diff|)) ≤
      3 / 2 ∧
    1 / 2 ≤ max (pair_locals realExt p1 p2 (to_deg realExt p1.angle + (k : ℝ) * 120) l).v_n_length
          (pair_locals realExt p1 p2 (to_deg realExt p1.angle + (k : ℝ) * 120) l).v_n2_length /
        (pair_locals realExt p1 p2 (to_deg realExt p1.angle + (k : ℝ) * 120) l).v.Length
          realExt ∧
    max (pair_locals realExt p1 p2 (to_deg realExt p1.angle + (k : ℝ) * 120) l).v_n_length
          (pair_locals realExt p1 p2 (to_deg realExt p1.angle + (k : ℝ) * 120) l).v_n2_length /
        (pair_locals realExt p1 p2 (to_deg realExt p1.angle + (k : ℝ) * 120) l).v.Length
          realExt ≤ 1 ∧
    1 ≤ (pair_locals realExt p1 p2 (to_deg realExt p1.angle + (k : ℝ) * 120) l).min_distance ∧
    (pair_locals realExt p1 p2 (to_deg realExt p1.angle + (k : ℝ) * 120) l).min_distance ≤
      3 := by
  obtain ⟨hL, a1, a2, b1, b2, hang⟩ := pair_real_facts p1 p2 k l hk hl hv
  have hmd : (pair_locals realExt p1 p2 (to_deg realExt p1.angle + (k : ℝ) * 120)
      l).min_distance =
      (1 / 2 + realExt.sin (to_rad realExt (30 +
        |(pair_locals realExt p1 p2 (to_deg realExt p1.angle + (k : ℝ) * 120) l).ang_diff|))) /
      (max (pair_locals realExt p1 p2 (to_deg realExt p1.angle + (k : ℝ) * 120) l).v_n_length
          (pair_locals realExt p1 p2 (to_deg realExt p1.angle + (k : ℝ) * 120) l).v_n2_length /
        (pair_locals realExt p1 p2 (to_deg realExt p1.angle + (k : ℝ) * 120) l).v.Length
          realExt) := rfl
  obtain ⟨s1, s2⟩ := sin_30_add_bounds _ (abs_nonneg _) hang
  rw [hmd]
  generalize (pair_locals realExt p1 p2 (to_deg realExt p1.angle + (k : ℝ) * 120) l).v.Length
    realExt = L at hL a1 a2 b1 b2
  generalize (pair_locals realExt p1 p2 (to_deg realExt p1.angle + (k : ℝ) * 120)
    l).v_n_length = P at a1 a2
  generalize (pair_locals realExt p1 p2 (to_deg realExt p1.angle + (k : ℝ) * 120)
    l).v_n2_length = P2 at b1 b2
  generalize realExt.sin (to_rad realExt (30 +
    |(pair_locals realExt p1 p2 (to_deg realExt p1.angle + (k : ℝ) * 120) l).ang_diff|)) = S
    at s1 s2
  have hD1 : 1 / 2 ≤ max P P2 / L := by
    rw [le_div_iff₀ hL]
    exact a1.trans (le_max_left _ _)
  have hD2 : max P P2 / L ≤ 1 := by
    rw [div_le_one hL]
    exact max_le a2 b2
  have hDpos : 0 < max P P2 / L := by linarith
  refine ⟨rfl, by linarith, by linarith, hD1, hD2, ?_, ?_⟩
  · rw [le_div_iff₀ hDpos]
    linarith
  · rw [div_le_iff₀ hDpos]
    linarith

end PairBounds
section OverlapEntries

variable {α : Type} [LinearOrderedField α]

theorem scan_pair_overlap (X : Ext α) (points : List (Body α)) (i : Nat)
    (visited : List Nat) (st st2 : List Int × List Nat) (j : Nat)
    (hs : ∀ m ∈ st.2, m ∈ visited ∧ m ≠ i)
    (h : scan_pair X points i st j = .ok st2) :
    ∀ m ∈ st2.2, m ∈ visited ++ [j] ∧ m ≠ i := by
  unfold scan_pair at h
  by_cases hij : i = j
  · rw [if_neg (not_not.mpr hij)] at h
    cases h
    intro m hm
    exact ⟨List.mem_append_left _ (hs m hm).1, (hs m hm).2⟩
  · rw [if_pos hij] at h
    dsimp only at h
    split at h
    · cases h
    · cases h
      intro m hm
      dsimp only at hm
      split at hm
      · rcases List.mem_append.mp hm with hm | hm
        · exact ⟨List.mem_append_left _ (hs m hm).1, (hs m hm).2⟩
        · rw [List.mem_singleton] at hm
          subst hm
          exact ⟨by simp, fun e => hij e.symm⟩
      · exact ⟨List.mem_append_left _ (hs m hm).1, (hs m hm).2⟩

/-- The entries of `overlap_module[i]` are tiles other than `i`. -/
theorem scan_tile_overlap (X : Ext α) (poly : List (Point α)) (points : List (Body α))
    (i : Nat) (row : Row) (h : scan_tile X poly points i = .ok row) :
    ∀ m ∈ row.overlap_module, m < points.length ∧ m ≠ i := by
  unfold scan_tile at h
  split at h
  · cases h
  · rename_i st hst
    cases h
    have := foldlM_ok_prefix
      (fun visited (s : List Int × List Nat) => ∀ m ∈ s.2, m ∈ visited ∧ m ≠ i)
      (scan_pair X points i)
      (fun visited s b s2 hs hb => scan_pair_overlap X points i visited s s2 b hs hb)
      _ [] _ st (fun m hm => absurd hm (List.not_mem_nil m)) hst
    intro m hm
    have h2 := this m hm
    rw [List.nil_append, List.mem_range] at h2
    exact h2

end OverlapEntries
section LoopsReturn

/-- Over the real numbers the assertion of line 256 holds for a neighbour at another
place: the round of the neighbour loop ends well and adds the weight of line 258. -/
theorem neighbour_step_ok (points : List (Body ℝ)) (i j k l : Nat) (np : List Int)
    (acc : TileAcc ℝ) (hnp : np.getD k (-1) = (j : Int))
    (hk : calc_direction realExt (body_at points i).position
      (to_deg realExt (body_at points i).angle) (body_at points j).position = .ok k)
    (hl : calc_direction realExt (body_at points j).position
      (to_deg realExt (body_at points j).angle) (body_at points i).position = .ok l)
    (hv : (body_at points i).position ≠ (body_at points j).position) :
    ∃ b, neighbour_step realExt points i np acc k = .ok b ∧
      b.weight_sum = acc.weight_sum +
        (calc_weight (pair_locals realExt (body_at points i) (body_at points j)
            (to_deg realExt (body_at points i).angle + (k : ℝ) * 120) l).min_distance 2 +
          calc_weight ((pair_locals realExt (body_at points i) (body_at points j)
            (to_deg realExt (body_at points i).angle + (k : ℝ) * 120) l).v.Length realExt)
            2) := by
  obtain ⟨hL, a1, -⟩ := pair_real_facts _ _ k l hk hl hv
  have hvn : 0 ≤ (pair_locals realExt (body_at points i) (body_at points j)
      (to_deg realExt (body_at points i).angle + (k : ℝ) * 120) l).v_n_length := by
    linarith
  have hne : np.getD k (-1) ≠ -1 := by rw [hnp]; omega
  have hj : (np.getD k (-1)).toNat = j := by rw [hnp]; rfl
  unfold neighbour_step
  rw [if_pos hne]
  dsimp only
  rw [hj, hl]
  dsimp only
  rw [if_pos hvn]
  exact ⟨_, rfl, rfl⟩

/-- Over the real numbers the assertion of line 289 holds for an overlapping tile at
another place: the round of the overlap loop ends well. -/
theorem overlap_step_ok (points : List (Body ℝ)) (i j k l : Nat) (acc : TileAcc ℝ)
    (hk : calc_direction realExt (body_at points i).position
      (to_deg realExt (body_at points i).angle) (body_at points j).position = .ok k)
    (hl : calc_direction realExt (body_at points j).position
      (to_deg realExt (body_at points j).angle) (body_at points i).position = .ok l)
    (hv : (body_at points i).position ≠ (body_at points j).position) :
    ∃ b, overlap_step realExt points i acc j = .ok b := by
  obtain ⟨hL, a1, -⟩ := pair_real_facts _ _ k l hk hl hv
  have hvn : 0 ≤ (pair_locals realExt (body_at points i) (body_at points j)
      (to_deg realExt (body_at points i).angle + (k : ℝ) * 120) l).v_n_length := by
    linarith
  unfold overlap_step
  dsimp only
  rw [hk, hl]
  dsimp only
  rw [add_comm ((k : ℝ) * 120), if_pos hvn]
  exact ⟨_, rfl⟩

end LoopsReturn

section PairClaims

/-- C22: over the real numbers, for two tiles at distinct places, with the sector `k` of
the one towards the other and the sector `l` of the other towards the one as
`calc_direction` gives them: `|ang_diff| ≤ 120`, hence `0.5 + sin(30 + |ang_diff|) ≥ 1`,
and the required separation is at least the one of the same pair with `ang_diff = 0`,
which is at least 1. -/
theorem misalignment_bound (points : List (Body ℝ)) (i j k l : Nat)
    (hk : calc_direction realExt (body_at points i).position
      (to_deg realExt (body_at points i).angle) (body_at points j).position = .ok k)
    (hl : calc_direction realExt (body_at points j).position
      (to_deg realExt (body_at points j).angle) (body_at points i).position = .ok l)
    (hv : (body_at points i).position ≠ (body_at points j).position) :
    |(pair_locals realExt (body_at points i) (body_at points j)
      (to_deg realExt (body_at points i).angle + (k : ℝ) * 120) l).ang_diff| ≤ 120 ∧
    1 ≤ 1 / 2 + realExt.sin (to_rad realExt (30 +
      |(pair_locals realExt (body_at points i) (body_at points j)
        (to_deg realExt (body_at points i).angle + (k : ℝ) * 120) l).ang_diff|)) ∧
    (1 / 2 + realExt.sin (to_rad realExt (30 + |(0 : ℝ)|))) /
        (max (pair_locals realExt (body_at points i) (body_at points j)
            (to_deg realExt (body_at points i).angle + (k : ℝ) * 120) l).v_n_length
          (pair_locals realExt (body_at points i) (body_at points j)
            (to_deg realExt (body_at points i).angle + (k : ℝ) * 120) l).v_n2_length /
          (pair_locals realExt (body_at points i) (body_at points j)
            (to_deg realExt (body_at points i).angle + (k : ℝ) * 120) l).v.Length realExt) ≤
      (pair_locals realExt (body_at points i) (body_at points j)
        (to_deg realExt (body_at points i).angle + (k : ℝ) * 120) l).min_distance ∧
    1 ≤ (1 / 2 + realExt.sin (to_rad realExt (30 + |(0 : ℝ)|))) /
        (max (pair_locals realExt (body_at points i) (body_at points j)
            (to_deg realExt (body_at points i).angle + (k : ℝ) * 120) l).v_n_length
          (pair_locals realExt (body_at points i) (body_at points j)
            (to_deg realExt (body_at points i).angle + (k : ℝ) * 120) l).v_n2_length /
          (pair_locals realExt (body_at points i) (body_at points j)
            (to_deg realExt (body_at points i).angle + (k : ℝ) * 120) l).v.Length realExt) := by
  obtain ⟨-, -, -, -, -, hang⟩ := pair_real_facts _ _ k l hk hl hv
  obtain ⟨hmd, n1, -, d1, d2, -, -⟩ := pair_real_bounds _ _ k l hk hl hv
  have h30 : (1 / 2 + realExt.sin (to_rad realExt (30 + |(0 : ℝ)|))) = 1 := by
    rw [abs_zero, add_zero, sin_deg_30]
    norm_num
  refine ⟨hang, n1, ?_, ?_⟩
  · rw [h30, hmd]
    exact div_le_div_of_nonneg_right n1 (by linarith)
  · rw [h30, le_div_iff₀ (by linarith)]
    linarith

end PairClaims
section ProjectionClaim

/-- C25: over the real numbers, for tiles at pairwise distinct places, in the neighbour
loop (every resolved sector `k` of tile `i`, the neighbour being `j`) and in the overlap
loop (every entry `j` of the overlap list of tile `i`): the assertion
`0 <= v_n_length` holds and the round ends well, the divisor
`max(v_n_length, v_n2_length) / |v|` lies between `1/2` and `1`, and `min_distance` is at
most 3. -/
theorem projection_assertions_hold (poly : List (Point ℝ)) (points : List (Body ℝ))
    (rows : List Row) (hscan : scan_tiles realExt poly points = .ok rows)
    (hdist : ∀ a b, a < points.length → b < points.length → a ≠ b →
      (body_at points a).position ≠ (body_at points b).position)
    (i : Nat) (hi : i < points.length) :
    (∀ k, k < 3 → (rows.getD i Row.initial).nearest_point.getD k (-1) ≠ -1 →
      ∃ (j l : Nat), (rows.getD i Row.initial).nearest_point.getD k (-1) = (j : Int) ∧
        calc_direction realExt (body_at points j).position
          (to_deg realExt (body_at points j).angle) (body_at points i).position = .ok l ∧
        (∀ acc, ∃ b, neighbour_step realExt points i
          (rows.getD i Row.initial).nearest_point acc k = .ok b) ∧
        0 ≤ (pair_locals realExt (body_at points i) (body_at points j)
          (to_deg realExt (body_at points i).angle + (k : ℝ) * 120) l).v_n_length ∧
        1 / 2 ≤ max (pair_locals realExt (body_at points i) (body_at points j)
              (to_deg realExt (body_at points i).angle + (k : ℝ) * 120) l).v_n_length
            (pair_locals realExt (body_at points i) (body_at points j)
              (to_deg realExt (body_at points i).angle + (k : ℝ) * 120) l).v_n2_length /
          (pair_locals realExt (body_at points i) (body_at points j)
            (to_deg realExt (body_at points i).angle + (k : ℝ) * 120) l).v.Length realExt ∧
        max (pair_locals realExt (body_at points i) (body_at points j)
              (to_deg realExt (body_at points i).angle + (k : ℝ) * 120) l).v_n_length
            (pair_locals realExt (body_at points i) (body_at points j)
              (to_deg realExt (body_at points i).angle + (k : ℝ) * 120) l).v_n2_length /
          (pair_locals realExt (body_at points i) (body_at points j)
            (to_deg realExt (body_at points i).angle + (k : ℝ) * 120) l).v.Length realExt ≤
          1 ∧
        (pair_locals realExt (body_at points i) (body_at points j)
          (to_deg realExt (body_at points i).angle + (k : ℝ) * 120) l).min_distance ≤ 3) ∧
    (∀ j, j ∈ (rows.getD i Row.initial).overlap_module →
      ∃ k l, calc_direction realExt (body_at points i).position
          (to_deg realExt (body_at points i).angle) (body_at points j).position = .ok k ∧
        calc_direction realExt (body_at points j).position
          (to_deg realExt (body_at points j).angle) (body_at points i).position = .ok l ∧
        (∀ acc, ∃ b, overlap_step realExt points i acc j = .ok b) ∧
        0 ≤ (pair_locals realExt (body_at points i) (body_at points j)
          (to_deg realExt (body_at points i).angle + (k : ℝ) * 120) l).v_n_length ∧
        1 / 2 ≤ max (pair_locals realExt (body_at points i) (body_at points j)
              (to_deg realExt (body_at points i).angle + (k : ℝ) * 120) l).v_n_length
            (pair_locals realExt (body_at points i) (body_at points j)
              (to_deg realExt (body_at points i).angle + (k : ℝ) * 120) l).v_n2_length /
          (pair_locals realExt (body_at points i) (body_at points j)
            (to_deg realExt (body_at points i).angle + (k : ℝ) * 120) l).v.Length realExt ∧
        max (pair_locals realExt (body_at points i) (body_at points j)
              (to_deg realExt (body_at points i).angle + (k : ℝ) * 120) l).v_n_length
            (pair_locals realExt (body_at points i) (body_at points j)
              (to_deg realExt (body_at points i).angle + (k : ℝ) * 120) l).v_n2_length /
          (pair_locals realExt (body_at points i) (body_at points j)
            (to_deg realExt (body_at points i).angle + (k : ℝ) * 120) l).v.Length realExt ≤
          1 ∧
        (pair_locals realExt (body_at points i) (body_at points j)
          (to_deg realExt (body_at points i).angle + (k : ℝ) * 120) l).min_distance ≤ 3) := by
  have hrow := (scan_tiles_row realExt poly points rows hscan).2 i hi
  obtain ⟨-, hall⟩ := scan_tile_nearest realExt poly points i _ hrow
  have hov := scan_tile_overlap realExt poly points i _ hrow
  constructor
  · intro k hk3 hne
    rcases hall k hk3 with ⟨h1, -⟩ | ⟨j, hj, h1, h2, h3, -⟩
    · exact absurd h1 hne
    · obtain ⟨l, -, -, -, -, hl, -⟩ := calc_direction_returns
        (body_at points j).position (to_deg realExt (body_at points j).angle)
        (body_at points i).position
      have hv := hdist i j hi (List.mem_range.mp hj) (Ne.symm h2)
      obtain ⟨-, a1, -⟩ := pair_real_facts _ _ k l h3 hl hv
      obtain ⟨hL, -⟩ := pair_real_facts _ _ k l h3 hl hv
      obtain ⟨-, -, -, d1, d2, -, m2⟩ := pair_real_bounds _ _ k l h3 hl hv
      refine ⟨j, l, h1, hl, fun acc => ?_, by linarith, d1, d2, m2⟩
      obtain ⟨b, hb, -⟩ := neighbour_step_ok points i j k l _ acc h1 h3 hl hv
      exact ⟨b, hb⟩
  · intro j hj
    obtain ⟨hjn, hji⟩ := hov j hj
    obtain ⟨k, -, -, -, -, hk, -⟩ := calc_direction_returns
      (body_at points i).position (to_deg realExt (body_at points i).angle)
      (body_at points j).position
    obtain ⟨l, -, -, -, -, hl, -⟩ := calc_direction_returns
      (body_at points j).position (to_deg realExt (body_at points j).angle)
      (body_at points i).position
    have hv := hdist i j hi hjn (Ne.symm hji)
    obtain ⟨hL, a1, -⟩ := pair_real_facts _ _ k l hk hl hv
    obtain ⟨-, -, -, d1, d2, -, m2⟩ := pair_real_bounds _ _ k l hk hl hv
    exact ⟨k, l, hk, hl, fun acc => overlap_step_ok points i j k l acc hk hl hv,
      by linarith, d1, d2, m2⟩

end ProjectionClaim

section PairInstances

theorem low_up_apart : ∀ a b, a < [tile_low, tile_up].length → b < [tile_low, tile_up].length →
    a ≠ b → (body_at [tile_low, tile_up] a).position ≠ (body_at [tile_low, tile_up] b).position := by
  intro a b ha hb hab
  have h01 : tile_low.position ≠ tile_up.position := by
    intro h
    have := congrArg Point.y h
    norm_num [tile_low, tile_up] at this
  simp only [List.length_cons, List.length_nil] at ha hb
  interval_cases a <;> interval_cases b
  · exact absurd rfl hab
  · exact h01
  · exact fun h => h01 h.symm
  · exact absurd rfl hab

/-- C22 at `tile_low` and `tile_up`: the misalignment is 60 degrees. -/
theorem misalignment_bound_witness :
    calc_direction realExt (body_at [tile_low, tile_up] 0).position
      (to_deg realExt (body_at [tile_low, tile_up] 0).angle)
      (body_at [tile_low, tile_up] 1).position = .ok 0 ∧
    calc_direction realExt (body_at [tile_low, tile_up] 1).position
      (to_deg realExt (body_at [tile_low, tile_up] 1).angle)
      (body_at [tile_low, tile_up] 0).position = .ok 1 ∧
    (body_at [tile_low, tile_up] 0).position ≠ (body_at [tile_low, tile_up] 1).position ∧
    |(pair_locals realExt (body_at [tile_low, tile_up] 0) (body_at [tile_low, tile_up] 1)
      (to_deg realExt (body_at [tile_low, tile_up] 0).angle + ((0 : ℕ) : ℝ) * 120)
      1).ang_diff| ≤ 120 :=
  ⟨direction_low_up, direction_up_low, low_up_apart 0 1 (by decide) (by decide) (by decide),
    (misalignment_bound [tile_low, tile_up] 0 1 0 1 direction_low_up direction_up_low
      (low_up_apart 0 1 (by decide) (by decide) (by decide))).1⟩

/-- C25 at `tile_low` next to `tile_up`: the entry `tile_up` of the overlap list passes
the assertion of line 289. -/
theorem projection_assertions_hold_witness :
    scan_tiles realExt square [tile_low, tile_up] =
      .ok [Row.mk [1, -1, -1] [1] [0], Row.mk [-1, 0, -1] [0] []] ∧
    (∀ a b, a < [tile_low, tile_up].length → b < [tile_low, tile_up].length → a ≠ b →
      (body_at [tile_low, tile_up] a).position ≠ (body_at [tile_low, tile_up] b).position) ∧
    0 < [tile_low, tile_up].length ∧
    ∀ acc, ∃ b, overlap_step realExt [tile_low, tile_up] 0 acc 1 = .ok b :=
  ⟨scan_two, low_up_apart, by decide, fun acc => by
    obtain ⟨k, l, -, -, h, -⟩ :=
      (projection_assertions_hold square [tile_low, tile_up] _ scan_two low_up_apart 0
        (by decide)).2 1 (by simp)
    exact h acc⟩

end PairInstances

section EdgeDistance

theorem cross_swap {α : Type} [LinearOrderedField α] (a b p : Point α) :
    cross b a p = -cross a b p := by
  unfold cross; ring

/-- A triangle (of non-zero area) whose corners lie strictly to the right of the line
through a segment does not meet the segment. -/
theorem tri_seg_exact_of_right {α : Type} [LinearOrderedField α] (T : Triangle α)
    (s : Segment α)
    (h0 : cross s.s1 s.s2 T.p0 < 0) (h1 : cross s.s1 s.s2 T.p1 < 0)
    (h2 : cross s.s1 s.s2 T.p2 < 0) (hA : cross T.p0 T.p1 T.p2 ≠ 0) :
    tri_seg_exact T s = false := by
  have g0 : 0 < cross s.s2 s.s1 T.p0 := by rw [cross_swap]; linarith
  have g1 : 0 < cross s.s2 s.s1 T.p1 := by rw [cross_swap]; linarith
  have g2 : 0 < cross s.s2 s.s1 T.p2 := by rw [cross_swap]; linarith
  have a1 : in_triangle T s.s1 = false :=
    in_triangle_of_left T s.s2 s.s1 s.s1 g0 g1 g2 hA (by unfold cross; ring)
  have a2 : in_triangle T s.s2 = false :=
    in_triangle_of_left T s.s2 s.s1 s.s2 g0 g1 g2 hA (by unfold cross; ring)
  have b1 : seg_seg_exact ⟨T.p0, T.p1⟩ s = false :=
    seg_seg_exact_of_same_side _ _ (mul_pos_of_neg_of_neg h0 h1)
  have b2 : seg_seg_exact ⟨T.p1, T.p2⟩ s = false :=
    seg_seg_exact_of_same_side _ _ (mul_pos_of_neg_of_neg h1 h2)
  have b3 : seg_seg_exact ⟨T.p2, T.p0⟩ s = false :=
    seg_seg_exact_of_same_side _ _ (mul_pos_of_neg_of_neg h2 h0)
  simp [tri_seg_exact, sides, a1, a2, b1, b2, b3]

/-- A point at distance 1 of `c` is at most the length of the segment away from `c` in the
value of `cross`. -/
theorem cross_near (u v c p : Point ℝ) (L : ℝ) (hL : 0 ≤ L)
    (hLL : L * L = (u.x - v.x) * (u.x - v.x) + (u.y - v.y) * (u.y - v.y))
    (hp : (p.x - c.x) * (p.x - c.x) + (p.y - c.y) * (p.y - c.y) = 1) :
    |cross u v p - cross u v c| ≤ L := by
  have e : cross u v p - cross u v c =
      (v.x - u.x) * (p.y - c.y) - (v.y - u.y) * (p.x - c.x) := by
    unfold cross; ring
  have hid : ((v.x - u.x) * (p.y - c.y) - (v.y - u.y) * (p.x - c.x)) ^ 2 =
      ((u.x - v.x) * (u.x - v.x) + (u.y - v.y) * (u.y - v.y)) *
        ((p.x - c.x) * (p.x - c.x) + (p.y - c.y) * (p.y - c.y)) -
      ((v.x - u.x) * (p.x - c.x) + (v.y - u.y) * (p.y - c.y)) ^ 2 := by ring
  have hsq : (cross u v p - cross u v c) ^ 2 ≤ L ^ 2 := by
    rw [e, hid, hp, mul_one, ← hLL]
    linarith [sq_nonneg ((v.x - u.x) * (p.x - c.x) + (v.y - u.y) * (p.y - c.y))]
  exact abs_le.mpr (abs_le_of_sq_le_sq' hsq hL)

end EdgeDistance
section EdgeDistance2

/-- The corners of the footprint lie on the unit circle around the centre, and the
footprint has a non-zero area. -/
theorem footprint_unit (c : Point ℝ) (arc : ℝ) :
    (((create_triangle realExt c arc).p0.x - c.x) * ((create_triangle realExt c arc).p0.x - c.x) +
      ((create_triangle realExt c arc).p0.y - c.y) * ((create_triangle realExt c arc).p0.y - c.y) =
        1) ∧
    (((create_triangle realExt c arc).p1.x - c.x) * ((create_triangle realExt c arc).p1.x - c.x) +
      ((create_triangle realExt c arc).p1.y - c.y) * ((create_triangle realExt c arc).p1.y - c.y) =
        1) ∧
    (((create_triangle realExt c arc).p2.x - c.x) * ((create_triangle realExt c arc).p2.x - c.x) +
      ((create_triangle realExt c arc).p2.y - c.y) * ((create_triangle realExt c arc).p2.y - c.y) =
        1) ∧
    cross (create_triangle realExt c arc).p0 (create_triangle realExt c arc).p1
      (create_triangle realExt c arc).p2 ≠ 0 := by
  have h1 := sin_cos_deg_sq arc
  have h3 := sqrt3_sq
  have hr := sqrt3_lower
  rw [create_triangle_real]
  generalize realExt.sin (to_rad realExt arc) = s at h1 ⊢
  generalize realExt.cos (to_rad realExt arc) = k at h1 ⊢
  refine ⟨?_, ?_, ?_, ?_⟩
  · dsimp only
    linear_combination ((1 + Real.sqrt 3 * Real.sqrt 3) / 4) * h1 + (1 / 4) * h3
  · dsimp only
    linear_combination h1
  · dsimp only
    linear_combination ((1 + Real.sqrt 3 * Real.sqrt 3) / 4) * h1 + (1 / 4) * h3
  · have hc : cross (⟨c.x + (s / 2 - k * Real.sqrt 3 / 2), c.y + (k / 2 + s * Real.sqrt 3 / 2)⟩ :
          Point ℝ) ⟨c.x - s, c.y - k⟩
        ⟨c.x + (s / 2 + k * Real.sqrt 3 / 2), c.y + (k / 2 - s * Real.sqrt 3 / 2)⟩ =
        3 * Real.sqrt 3 / 2 := by
      unfold cross
      dsimp only
      linear_combination (3 * Real.sqrt 3 / 2) * h1
    rw [hc]
    intro h
    linarith

/-- A footprint that meets an edge has its centre at distance at most 1 of the line of the
edge (whatever orientation the footprint was built with). -/
theorem edge_distance_le_one (c : Point ℝ) (arc : ℝ) (u v : Point ℝ)
    (h : intersect_each_segment realExt c arc u v = true) :
    distance_to_line realExt c u v ≤ 1 := by
  obtain ⟨c0, c1, c2, hA⟩ := footprint_unit c arc
  have hL0 : 0 ≤ Real.sqrt ((u.x - v.x) * (u.x - v.x) + (u.y - v.y) * (u.y - v.y)) :=
    Real.sqrt_nonneg _
  have hLL : Real.sqrt ((u.x - v.x) * (u.x - v.x) + (u.y - v.y) * (u.y - v.y)) *
      Real.sqrt ((u.x - v.x) * (u.x - v.x) + (u.y - v.y) * (u.y - v.y)) =
      (u.x - v.x) * (u.x - v.x) + (u.y - v.y) * (u.y - v.y) :=
    Real.mul_self_sqrt (add_nonneg (mul_self_nonneg _) (mul_self_nonneg _))
  have n0 := cross_near u v c _ _ hL0 hLL c0
  have n1 := cross_near u v c _ _ hL0 hLL c1
  have n2 := cross_near u v c _ _ hL0 hLL c2
  have hd : distance_to_line realExt c u v =
      |cross u v c| / Real.sqrt ((u.x - v.x) * (u.x - v.x) + (u.y - v.y) * (u.y - v.y)) := by
    unfold distance_to_line Point.Length
    dsimp only
    congr 1
    rw [← abs_neg]
    congr 1
    unfold cross
    simp only [Point.sub]
    ring
  rw [hd]
  generalize Real.sqrt ((u.x - v.x) * (u.x - v.x) + (u.y - v.y) * (u.y - v.y)) = L
    at hL0 n0 n1 n2
  rcases eq_or_lt_of_le hL0 with hz | hpos
  · rw [← hz, div_zero]
    norm_num
  · rw [div_le_one hpos]
    by_contra hcon
    push_neg at hcon
    rw [abs_le] at n0 n1 n2
    unfold intersect_each_segment at h
    have hT : realExt.tri_seg (create_triangle realExt c arc) (create_segment u v) =
        tri_seg_exact (create_triangle realExt c arc) ⟨u, v⟩ := rfl
    rw [hT] at h
    rcases lt_abs.mp hcon with hc | hc
    · have := tri_seg_exact_of_left (create_triangle realExt c arc) ⟨u, v⟩
        (by show 0 < cross u v _; linarith [n0.1]) (by show 0 < cross u v _; linarith [n1.1])
        (by show 0 < cross u v _; linarith [n2.1]) hA
      rw [this] at h
      cases h
    · have := tri_seg_exact_of_right (create_triangle realExt c arc) ⟨u, v⟩
        (by show cross u v _ < 0; linarith [n0.2]) (by show cross u v _ < 0; linarith [n1.2])
        (by show cross u v _ < 0; linarith [n2.2]) hA
      rw [this] at h
      cases h

end EdgeDistance2
section WeightGap

/-- A property kept by every round over an entry of the list that ends well is kept by the
whole loop. -/
theorem foldlM_ok_mem {σ β : Type} (P : σ → Prop) (f : σ → β → Except Abort σ) :
    ∀ (l : List β), (∀ s b s', b ∈ l → P s → f s b = .ok s' → P s') →
      ∀ (s s' : σ), P s → l.foldlM f s = .ok s' → P s' := by
  intro l
  induction l with
  | nil =>
    intro _ s s' hs h
    simp only [List.foldlM, pure, Except.pure] at h
    cases h
    exact hs
  | cons b l ih =>
    intro hf s s' hs h
    simp only [List.foldlM, bind, Except.bind] at h
    cases hb : f s b with
    | error e => rw [hb] at h; cases h
    | ok s1 =>
      rw [hb] at h
      exact ih (fun s b2 s' hb2 => hf s b2 s' (List.mem_cons_of_mem _ hb2)) s1 s'
        (hf s b s1 (List.mem_cons_self _ _) hs hb) h

/-- The entries of `overlap_edge[i]` are edges that passed the test of line 215. -/
theorem scan_tile_edges {α : Type} [LinearOrderedField α] (X : Ext α) (poly : List (Point α))
    (points : List (Body α)) (i : Nat) (row : Row)
    (h : scan_tile X poly points i = .ok row) :
    ∀ e ∈ row.overlap_edge, edge_overlaps X poly (body_at points i) e = true := by
  unfold scan_tile at h
  split at h
  · cases h
  · cases h
    intro e he
    exact (List.mem_filter.mp he).2

theorem calc_weight_nonneg (d m : ℝ) : 0 ≤ calc_weight d m := by
  unfold calc_weight
  rw [show (-12 : ℤ) = -((12 : ℕ) : ℤ) by norm_num, zpow_neg, zpow_natCast]
  exact inv_nonneg.mpr (by positivity)

theorem calc_weight_ge (d m B : ℝ) (hd : 0 < d / m) (hB : d / m ≤ B) :
    (B ^ 12)⁻¹ ≤ calc_weight d m := by
  unfold calc_weight
  rw [show (-12 : ℤ) = -((12 : ℕ) : ℤ) by norm_num, zpow_neg, zpow_natCast]
  exact inv_anti₀ (pow_pos hd 12) (pow_le_pow_left₀ hd.le hB 12)

/-- A round of the neighbour loop over the real numbers, for tiles at pairwise distinct
places: either nothing is added, or the weight sum grows by at least `(2/3)^12`. -/
theorem neighbour_step_gap (points : List (Body ℝ)) (i : Nat) (np : List Int)
    (hna : nearest_after realExt points i (List.range points.length) np)
    (hdist : ∀ a b, a < points.length → b < points.length → a ≠ b →
      (body_at points a).position ≠ (body_at points b).position)
    (hi : i < points.length) (acc b : TileAcc ℝ) (k : Nat) (hk : k < 3)
    (hinv : (acc.weight_sum = 0 ∧ acc.force = ⟨0, 0⟩ ∧ acc.angle = 0) ∨
      1 / 1000 ≤ acc.weight_sum)
    (h : neighbour_step realExt points i np acc k = .ok b) :
    (b.weight_sum = 0 ∧ b.force = ⟨0, 0⟩ ∧ b.angle = 0) ∨ 1 / 1000 ≤ b.weight_sum := by
  rcases hna.2 k hk with ⟨hnone, -⟩ | ⟨j, hj, hget, hji, hdir, -⟩
  · unfold neighbour_step at h
    rw [if_neg (not_not.mpr hnone)] at h
    cases h
    exact hinv
  · obtain ⟨l, -, -, -, -, hl, -⟩ := calc_direction_returns (body_at points j).position
      (to_deg realExt (body_at points j).angle) (body_at points i).position
    have hv := hdist i j hi (List.mem_range.mp hj) (fun e => hji e.symm)
    obtain ⟨b2, hb2, hw⟩ := neighbour_step_ok points i j k l np acc hget hdir hl hv
    rw [hb2] at h
    cases h
    obtain ⟨-, -, -, -, -, m1, m3⟩ := pair_real_bounds _ _ k l hdir hl hv
    right
    rw [hw]
    have hacc : 0 ≤ acc.weight_sum := by
      rcases hinv with ⟨h0, -⟩ | h0
      · rw [h0]
      · linarith
    have w1 := calc_weight_ge _ 2 (3 / 2) (div_pos (lt_of_lt_of_le one_pos m1) two_pos)
      (by linarith)
    have w2 := calc_weight_nonneg ((pair_locals realExt (body_at points i) (body_at points j)
      (to_deg realExt (body_at points i).angle + (k : ℝ) * 120) l).v.Length realExt) 2
    have hc : (1 / 1000 : ℝ) ≤ ((3 / 2 : ℝ) ^ 12)⁻¹ := by norm_num
    linarith

/-- A round of the edge loop over the real numbers, for an edge that passed the test of
line 215: either the round is skipped, or the weight sum grows by at least 1. -/
theorem edge_step_gap (poly : List (Point ℝ)) (points : List (Body ℝ)) (i : Nat)
    (acc b : TileAcc ℝ) (e : Nat)
    (he : edge_overlaps realExt poly (body_at points i) e = true)
    (hinv : (acc.weight_sum = 0 ∧ acc.force = ⟨0, 0⟩ ∧ acc.angle = 0) ∨
      1 / 1000 ≤ acc.weight_sum)
    (h : edge_step realExt poly points i acc e = .ok b) :
    (b.weight_sum = 0 ∧ b.force = ⟨0, 0⟩ ∧ b.angle = 0) ∨ 1 / 1000 ≤ b.weight_sum := by
  have hd1 : (edge_locals realExt poly (body_at points i) e).dis ≤ 1 :=
    edge_distance_le_one _ _ _ _ he
  have hd0 : 0 ≤ (edge_locals realExt poly (body_at points i) e).dis := by
    show 0 ≤ distance_to_line realExt _ _ _
    unfold distance_to_line
    exact div_nonneg (abs_nonneg _) (Real.sqrt_nonneg _)
  have hkn : (edge_locals realExt poly (body_at points i) e).kn =
      1 - ((edge_locals realExt poly (body_at points i) e).dis /
        (edge_locals realExt poly (body_at points i) e).min_distance) ^ (-2 : ℤ) := rfl
  have hacc : 0 ≤ acc.weight_sum := by
    rcases hinv with ⟨h0, -⟩ | h0
    · rw [h0]
    · linarith
  have key : ¬ 0 < (edge_locals realExt poly (body_at points i) e).kn →
      1 / 1000 ≤ acc.weight_sum +
        (calc_weight (edge_locals realExt poly (body_at points i) e).min_distance 1 +
          calc_weight (edge_locals realExt poly (body_at points i) e).dis 1) := by
    intro h2
    have hpos : 0 < (edge_locals realExt poly (body_at points i) e).dis := by
      rcases eq_or_lt_of_le hd0 with hz | hz
      · exfalso
        apply h2
        rw [hkn, ← hz, zero_div, zero_zpow _ (by norm_num)]
        norm_num
      · exact hz
    have w1 := calc_weight_ge (edge_locals realExt poly (body_at points i) e).dis 1 1
      (by rw [div_one]; exact hpos) (by rw [div_one]; exact hd1)
    have w2 := calc_weight_nonneg
      (edge_locals realExt poly (body_at points i) e).min_distance 1
    norm_num at w1
    linarith
  unfold edge_step at h
  dsimp only at h
  split_ifs at h with h1 h2 h3 h4
  · cases h
    exact hinv
  · cases h
    exact Or.inr (key h2)
  · cases h
    exact Or.inr (key h2)

/-- The sums of a tile after the loop body of lines 226-393, over the real numbers, for
tiles at pairwise distinct places: either nothing was added (weight sum, force sum and
angle sum are zero), or the weight sum is at least `1/1000`. -/
theorem tile_weight_gap (poly : List (Point ℝ)) (points : List (Body ℝ)) (row : Row)
    (i : Nat) (K E : ℝ) (a : TileAcc ℝ)
    (hrow : scan_tile realExt poly points i = .ok row)
    (hdist : ∀ a b, a < points.length → b < points.length → a ≠ b →
      (body_at points a).position ≠ (body_at points b).position)
    (hi : i < points.length)
    (h : tile_forces realExt poly points row i K E = .ok a) :
    (a.weight_sum = 0 ∧ a.force = ⟨0, 0⟩ ∧ a.angle = 0) ∨ 1 / 1000 ≤ a.weight_sum := by
  unfold tile_forces at h
  split at h
  · cases h
  · rename_i a1 h1
    split at h
    · cases h
    · rename_i a2 h2
      split at h
      · cases h
      · rename_i a3 h3
        cases h
        have i1 := foldlM_ok_mem
          (fun s : TileAcc ℝ => (s.weight_sum = 0 ∧ s.force = ⟨0, 0⟩ ∧ s.angle = 0) ∨
            1 / 1000 ≤ s.weight_sum)
          (neighbour_step realExt points i row.nearest_point) (List.range 3)
          (fun s k s' hk hs hstep => neighbour_step_gap points i row.nearest_point
            (scan_tile_nearest _ _ _ _ _ hrow) hdist hi s s' k (List.mem_range.mp hk) hs hstep)
          _ a1 (Or.inl ⟨rfl, rfl, rfl⟩) h1
        have i2 := foldlM_ok_invariant
          (fun s : TileAcc ℝ => (s.weight_sum = 0 ∧ s.force = ⟨0, 0⟩ ∧ s.angle = 0) ∨
            1 / 1000 ≤ s.weight_sum)
          (overlap_step realExt points i)
          (fun s j s' hs hstep => by
            obtain ⟨e1, e2, e3⟩ := overlap_step_sums realExt points i s s' j hstep
            rw [e1, e2, e3]
            exact hs)
          _ a1 a2 i1 h2
        have i3 := foldlM_ok_mem
          (fun s : TileAcc ℝ => (s.weight_sum = 0 ∧ s.force = ⟨0, 0⟩ ∧ s.angle = 0) ∨
            1 / 1000 ≤ s.weight_sum)
          (edge_step realExt poly points i) row.overlap_edge
          (fun s e s' he hs hstep => edge_step_gap poly points i s s' e
            (scan_tile_edges realExt poly points i row hrow e he) hs hstep)
          a2 a3 i2 h3
        unfold normalize_by_weight
        split_ifs with hz
        · right
          rcases i3 with ⟨h0, -⟩ | h0
          · rw [h0] at hz
            norm_num [ZERO] at hz
          · exact h0
        · exact i3

/-- On line 437 the vector `points` stands as lines 396-400 left it, or (from frame
60102 on) with every velocity set to zero. -/
theorem track_points_cases {α : Type} [LinearOrderedField α] (X : Ext α) (g : Globals α)
    (points : List (Body α)) (f : Forces α) (rnd : Nat) :
    (track X g points f rnd).points = set_velocities X points f.tiles ∨
    (track X g points f rnd).points = zero_velocities (set_velocities X points f.tiles) := by
  by_cases hfr : g.frame + 1 ≤ 60101
  · exact Or.inl (track_points_running X g points f rnd hfr)
  · right
    unfold track
    dsimp only
    have hstop : decide (g.frame + 1 > 60001 + 100) = true := by
      rw [decide_eq_true_iff]
      omega
    rw [hstop]
    rfl

theorem body_at_zero_velocities {α : Type} [LinearOrderedField α] (points : List (Body α))
    (i : Nat) (hi : i < points.length) :
    (body_at (zero_velocities points) i).linearVelocity = ⟨0, 0⟩ ∧
    (body_at (zero_velocities points) i).angularVelocity = 0 := by
  apply mem_zero_velocities points
  unfold body_at
  have hl : i < (zero_velocities points).length := by
    unfold zero_velocities
    rw [List.length_map]
    exact hi
  rw [List.getD_eq_getElem _ _ hl]
  exact List.getElem_mem hl

end WeightGap

section WeightGapClaim

/-- Over the real numbers, in a step of `calc_next_step` that returns, for tiles at
pairwise distinct places: the weight sum the loop body of lines 226-393 accumulates for
tile `i` is `0` or at least `1/1000`; when it is not above `ZERO = 1e-9`, the linear and
the angular velocity of tile `i` after the step are exactly zero if no tile is removed,
and every remaining tile has zero velocities if one is removed. -/
theorem zero_weight_zero_velocity (poly : List (Point ℝ)) (g : Globals ℝ)
    (points : List (Body ℝ)) (rnd : Nat) (r : StepResult ℝ)
    (h : calc_next_step realExt poly g points rnd = .ok r)
    (hdist : ∀ a b, a < points.length → b < points.length → a ≠ b →
      (body_at points a).position ≠ (body_at points b).position)
    (i : Nat) (hi : i < points.length) :
    ∃ rows K E a, scan_tiles realExt poly points = .ok rows ∧
      tile_forces realExt poly points (rows.getD i Row.initial) i K E = .ok a ∧
      (a.weight_sum = 0 ∨ 1 / 1000 ≤ a.weight_sum) ∧
      (a.weight_sum ≤ ZERO →
        (r.destroyed = none →
          (body_at r.points i).linearVelocity = ⟨0, 0⟩ ∧
          (body_at r.points i).angularVelocity = 0) ∧
        (r.destroyed ≠ none →
          ∀ p ∈ r.points, p.linearVelocity = ⟨0, 0⟩ ∧ p.angularVelocity = 0)) := by
  obtain ⟨rows, f, hrows, hf, hr⟩ := calc_next_step_ok realExt poly g points rnd r h
  obtain ⟨K, E, hKE⟩ := forces_tile realExt poly points rows f hf i hi ⟨⟨0, 0⟩, 0, 0, 0, 0, 0, 0⟩
  have hrow := (scan_tiles_row realExt poly points rows hrows).2 i hi
  have gap := tile_weight_gap poly points _ i K E _ hrow hdist hi hKE
  refine ⟨rows, K, E, _, hrows, hKE, gap.imp (fun x => x.1) id, fun hw => ?_⟩
  have hz : (f.tiles.getD i ⟨⟨0, 0⟩, 0, 0, 0, 0, 0, 0⟩).force = ⟨0, 0⟩ ∧
      (f.tiles.getD i ⟨⟨0, 0⟩, 0, 0, 0, 0, 0, 0⟩).angle = 0 := by
    rcases gap with ⟨-, g1, g2⟩ | g0
    · exact ⟨g1, g2⟩
    · exfalso
      unfold ZERO at hw
      linarith
  obtain ⟨v1, v2⟩ := body_at_set_velocities realExt points f.tiles i hi
  constructor
  · intro hd
    rcases remove_or_keep_cases (track realExt g points f rnd) with
      ⟨-, hd2, -⟩ | ⟨-, -, hp, -⟩
    · rw [← hr, hd] at hd2
      cases hd2
    · rw [← hr] at hp
      rw [hp]
      rcases track_points_cases realExt g points f rnd with ht | ht
      · rw [ht, v1, v2, hz.1, hz.2]
        exact ⟨rfl, by simp [to_rad]⟩
      · rw [ht]
        exact body_at_zero_velocities _ i (by simpa [set_velocities] using hi)
  · intro hd p hp
    have hrem := (remove_or_keep_removed (track realExt g points f rnd)
      (by rw [← hr]; exact hd)).2.2.1
    rw [hr, hrem] at hp
    exact mem_zero_velocities _ p hp

end WeightGapClaim

section WeightGapInstances

/-- The first step of a tile in the middle of `square`: nothing acts on it, and its
velocities are zero. -/
theorem zero_weight_zero_velocity_witness :
    calc_next_step realExt square Globals.initial [tile_mid] 0 = .ok result_mid_initial ∧
    (∀ a b, a < [tile_mid].length → b < [tile_mid].length → a ≠ b →
      (body_at [tile_mid] a).position ≠ (body_at [tile_mid] b).position) ∧
    0 < [tile_mid].length ∧
    ∃ rows K E a, scan_tiles realExt square [tile_mid] = .ok rows ∧
      tile_forces realExt square [tile_mid] (rows.getD 0 Row.initial) 0 K E = .ok a ∧
      (a.weight_sum = 0 ∨ 1 / 1000 ≤ a.weight_sum) ∧
      (a.weight_sum ≤ ZERO →
        (result_mid_initial.destroyed = none →
          (body_at result_mid_initial.points 0).linearVelocity = ⟨0, 0⟩ ∧
          (body_at result_mid_initial.points 0).angularVelocity = 0) ∧
        (result_mid_initial.destroyed ≠ none →
          ∀ p ∈ result_mid_initial.points,
            p.linearVelocity = ⟨0, 0⟩ ∧ p.angularVelocity = 0)) :=
  ⟨step_mid_initial,
    fun a b ha hb hab => absurd (by
      rw [List.length_singleton] at ha hb
      omega) hab,
    by decide,
    zero_weight_zero_velocity square Globals.initial [tile_mid] 0 result_mid_initial
      step_mid_initial
      (fun a b ha hb hab => absurd (by
        rw [List.length_singleton] at ha hb
        omega) hab)
      0 (by decide)⟩

end WeightGapInstances

section PairUp

/-- The locals of lines 238-257 for `tile_up` and its neighbour `tile_low`. -/
theorem pair_up_low : pair_locals realExt tile_up tile_low 120 0 =
    { v := ⟨0, -1⟩, n := ⟨Real.sqrt 3 / 2, -(1 / 2)⟩, t := ⟨-(1 / 2), -(Real.sqrt 3 / 2)⟩,
      p1_line_middle := ⟨Real.sqrt 3 / 4, -(1 / 4)⟩,
      n2 := ⟨0, 1⟩, p2_line_middle := ⟨0, -(1 / 2)⟩,
      ang_diff := 60, v_n_length := 1 / 2, v_n2_length := 1,
      p2_line_middle_t_length := Real.sqrt 3 / 4, min_distance := 3 / 2, kr := -(5 / 4),
      kt := Real.sqrt 3 / 8, r := ⟨0, -1⟩ } := by
  have hal : to_deg realExt tile_low.angle + ((0 : ℕ) : ℝ) * 120 = 0 := by
    rw [show to_deg realExt tile_low.angle = 0 from to_deg_zero]; norm_num
  have hv : tile_low.position.sub tile_up.position = ⟨0, -1⟩ := by
    simp only [tile_up, tile_low, Point.sub]; norm_num
  have hlen : Point.Length realExt (⟨0, -1⟩ : Point ℝ) = 1 :=
    real_length_eq _ 1 (by norm_num) (by norm_num)
  have hang : angle_diff (120 : ℝ) (0 + 180) = 60 := by
    unfold angle_diff
    rw [normalize_angle_of_le _ (by norm_num [abs_le])]
    norm_num
  have hsin : realExt.sin (to_rad realExt (30 + |(60 : ℝ)|)) = 1 := by
    rw [show (30 + |(60 : ℝ)|) = 90 by norm_num]
    exact sin_deg_90
  have hs210 : realExt.sin (to_rad realExt (120 + 90)) = -(1 / 2) := by
    rw [sin_deg_add, sin_deg_120, cos_deg_120, sin_deg_90, cos_deg_90]; ring
  have hc210 : realExt.cos (to_rad realExt (120 + 90)) = -(Real.sqrt 3 / 2) := by
    rw [cos_deg_add, sin_deg_120, cos_deg_120, sin_deg_90, cos_deg_90]; ring
  unfold pair_locals
  simp only [hal, hv, hlen, hang, hsin, hs210, hc210, sin_deg_0, cos_deg_0,
    sin_deg_120, cos_deg_120, Point.smul, Point.add]
  norm_num
  constructor <;> ring


/-- The neighbour `tile_low` in the sums of `tile_up`. -/
theorem neighbour_step_up (acc : TileAcc ℝ) :
    neighbour_step realExt [tile_low, tile_up] 1 [-1, 0, -1] acc 1 =
      .ok { acc with
            force := acc.force.add
              (Point.smul weight_low_up ⟨-(Real.sqrt 3 / 16), 17 / 16⟩)
            angle := acc.angle + 1 / 2 * 60 * weight_low_up
            weight_sum := acc.weight_sum + weight_low_up } := by
  have hb1 : body_at [tile_low, tile_up] 1 = tile_up := rfl
  have hj : body_at [tile_low, tile_up] (([-1, 0, -1] : List Int).getD 1 (-1)).toNat =
      tile_low := rfl
  have hne : ([-1, 0, -1] : List Int).getD 1 (-1) ≠ -1 := by decide
  have hmid : Point.Length realExt
      ((⟨Real.sqrt 3 / 4, -(1 / 4)⟩ : Point ℝ).sub ⟨0, -(1 / 2)⟩) = 1 / 2 := by
    apply real_length_eq _ _ (by norm_num)
    simp only [Point.sub]
    have := sqrt3_sq
    nlinarith
  have hlen : Point.Length realExt (⟨0, -1⟩ : Point ℝ) = 1 :=
    real_length_eq _ 1 (by norm_num) (by norm_num)
  have hak : to_deg realExt tile_up.angle + ((1 : ℕ) : ℝ) * 120 = 120 := by
    rw [show to_deg realExt tile_up.angle = 0 from to_deg_zero]; norm_num
  have h3 := sqrt3_sq
  unfold neighbour_step
  rw [if_pos hne]
  simp only [hb1, hj, direction_low_up, hak, pair_up_low, hmid, hlen]
  have hw : calc_weight (3 / 2 : ℝ) 2 + calc_weight 1 2 = weight_low_up := rfl
  rw [hw]
  norm_num [Point.smul, Point.add]
  constructor
  · left; ring
  · left; linarith

/-- The sectors 0 and 2 of `tile_up` have no neighbour. -/
theorem neighbour_step_up_0 (acc : TileAcc ℝ) :
    neighbour_step realExt [tile_low, tile_up] 1 [-1, 0, -1] acc 0 = .ok acc := rfl

theorem neighbour_step_up_2 (acc : TileAcc ℝ) :
    neighbour_step realExt [tile_low, tile_up] 1 [-1, 0, -1] acc 2 = .ok acc := rfl

/-- The entry `tile_low` of the overlap list of `tile_up`: only `E`, `K` and the removal
score change. -/
theorem overlap_step_up (acc : TileAcc ℝ) :
    overlap_step realExt [tile_low, tile_up] 1 acc 0 =
      .ok { acc with E := acc.E + 1 / 2, K := min acc.K (2 / 3),
                     rank_score := acc.rank_score - 1 / 3 } := by
  have hb0 : body_at [tile_low, tile_up] 0 = tile_low := rfl
  have hb1 : body_at [tile_low, tile_up] 1 = tile_up := rfl
  have hlen : Point.Length realExt (⟨0, -1⟩ : Point ℝ) = 1 :=
    real_length_eq _ 1 (by norm_num) (by norm_num)
  have hak : ((1 : ℕ) : ℝ) * 120 + to_deg realExt tile_up.angle = 120 := by
    rw [show to_deg realExt tile_up.angle = 0 from to_deg_zero]; norm_num
  unfold overlap_step
  simp only [hb0, hb1, direction_low_up, direction_up_low, hak, pair_up_low, hlen]
  norm_num

end PairUp

section PairStep

/-- The sums of `tile_up` above `tile_low`, as the code computes them. -/
theorem tile_forces_up_pair :
    tile_forces realExt square [tile_low, tile_up] (Row.mk [-1, 0, -1] [0] []) 1 (1 / 2)
      (3 / 2) = .ok forces_up_pair := by
  have hw := weight_low_up_pos
  have hw1 : (1 : ℝ) ≤ weight_low_up := by
    unfold weight_low_up calc_weight
    norm_num
  have hz : (ZERO : ℝ) < 0 + weight_low_up := by
    unfold ZERO; linarith
  have hne : weight_low_up ≠ 0 := ne_of_gt hw
  unfold tile_forces
  rw [range_three, foldlM_triple _ _ _ _ 0 1 2 (neighbour_step_up_0 _) (neighbour_step_up _),
    neighbour_step_up_2]
  dsimp only
  rw [foldlM_single, overlap_step_up]
  dsimp only
  rw [show ([] : List Nat).foldlM (edge_step realExt square [tile_low, tile_up] 1) _ =
    Except.ok _ from rfl]
  dsimp only
  rw [normalize_by_weight, if_pos hz]
  unfold forces_up_pair
  simp only [Point.add, Point.smul]
  norm_num
  refine ⟨⟨?_, ?_⟩, ?_⟩ <;> field_simp

/-- The forces on `tile_low` and `tile_up` in `square`. -/
theorem forces_pair :
    forces realExt square [tile_low, tile_up]
      [Row.mk [1, -1, -1] [1] [0], Row.mk [-1, 0, -1] [0] []] =
      .ok ⟨1 / 2, 2, [forces_low_pair, forces_up_pair]⟩ := by
  have hr : List.range [tile_low, tile_up].length = [0, 1] := rfl
  have h0 : forces_step realExt square [tile_low, tile_up]
      [Row.mk [1, -1, -1] [1] [0], Row.mk [-1, 0, -1] [0] []] ⟨1, 0, []⟩ 0 =
      .ok ⟨1 / 2, 3 / 2, [forces_low_pair]⟩ := by
    unfold forces_step
    rw [show ([Row.mk [1, -1, -1] [1] [0], Row.mk [-1, 0, -1] [0] []] : List Row).getD 0
      Row.initial = Row.mk [1, -1, -1] [1] [0] from rfl]
    dsimp only
    rw [tile_forces_low_pair]
    rfl
  have h1 : forces_step realExt square [tile_low, tile_up]
      [Row.mk [1, -1, -1] [1] [0], Row.mk [-1, 0, -1] [0] []]
      ⟨1 / 2, 3 / 2, [forces_low_pair]⟩ 1 =
      .ok ⟨1 / 2, 2, [forces_low_pair, forces_up_pair]⟩ := by
    unfold forces_step
    rw [show ([Row.mk [1, -1, -1] [1] [0], Row.mk [-1, 0, -1] [0] []] : List Row).getD 1
      Row.initial = Row.mk [-1, 0, -1] [0] [] from rfl]
    dsimp only
    rw [tile_forces_up_pair]
    rfl
  unfold forces
  rw [hr]
  simp only [List.foldlM, bind, Except.bind, pure, Except.pure, h0, h1]

end PairStep

section PairStep2

theorem set_velocities_pair :
    set_velocities realExt [tile_low, tile_up] [forces_low_pair, forces_up_pair] =
      [tile_low_pair_pushed, tile_up_pushed] := rfl

/-- The removal ranking of `tile_low` and `tile_up`: `tile_low`, with the greater
overlap, comes first and is the deletion candidate. -/
theorem del_pair :
    sort_del_rank (del_rank_of [forces_low_pair, forces_up_pair]) =
      [((0, -(5 / 6)), 0), ((0, -(1 / 3)), 1)] ∧
    find_del ([((0, -(5 / 6)), 0), ((0, -(1 / 3)), 1)] : List (Rank ℝ))
      (([((0, -(5 / 6)), 0), ((0, -(1 / 3)), 1)] : List (Rank ℝ)).foldl
        (fun s r => s + r.1.2) 0) = 0 := by
  have hlt : rank_lt (((0, -(1 / 3)), 1) : Rank ℝ) ((0, -(5 / 6)), 0) = false := by
    unfold rank_lt key_lt
    norm_num
  constructor
  · unfold sort_del_rank del_rank_of
    simp only [List.enum, List.enumFrom, List.map, List.insertionSort, List.orderedInsert]
    rw [show ((forces_low_pair.rank_count, forces_low_pair.rank_score) : Int × ℝ) =
      (0, -(5 / 6)) from rfl,
      show ((forces_up_pair.rank_count, forces_up_pair.rank_score) : Int × ℝ) =
      (0, -(1 / 3)) from rfl]
    simp only [zero_add, Nat.cast_zero, Nat.cast_one]
    rw [if_pos hlt]
  · unfold find_del
    simp only [List.foldl, List.find?, List.length_cons, List.length_nil]
    have hdec : decide (|(0 + -(5 / 6 : ℝ) + -(1 / 3)) / ((0 + 1 + 1 : ℕ) : ℝ)| ≤
        |(-(5 / 6) : ℝ)|) = true := by
      rw [decide_eq_true_iff]
      norm_num [abs_le, abs_of_neg]
    rw [hdec]

/-- The values lines 394-436 compute for `tile_low` and `tile_up` in the state
`stalled_pair`. -/
theorem track_pair_stalled :
    track realExt stalled_pair [tile_low, tile_up]
      ⟨1 / 2, 2, [forces_low_pair, forces_up_pair]⟩ 0 =
      { K := 1 / 2, E := 1, pre_E := 1 / 2, min_E := 1 / 2, min_t := 7201, frame := 7201,
        pre_del := (0, 7201), pause_time := 5, del := 0,
        points := [tile_low_pair_pushed, tile_up_pushed] } := by
  have hexp : ¬ (realExt.exp (1 - 2 / 2 / (1 / 2)) <
      ((0 : ℕ) : ℝ) / (realExt.RAND_MAX : ℝ)) := by
    have := Real.exp_pos (1 - 2 / 2 / (1 / 2))
    rw [not_lt, Nat.cast_zero, zero_div (realExt.RAND_MAX : ℝ)]
    exact this.le
  unfold track
  simp only [stalled_pair, del_pair.1, del_pair.2, set_velocities_pair, if_neg hexp]
  norm_num

/-- The values lines 394-436 compute for `tile_low` and `tile_up` with the initial
globals. -/
theorem track_pair_initial :
    track realExt Globals.initial [tile_low, tile_up]
      ⟨1 / 2, 2, [forces_low_pair, forces_up_pair]⟩ 0 =
      { K := 1 / 2, E := 1, pre_E := (INT_MAX : ℝ), min_E := 1, min_t := 0, frame := 1,
        pre_del := (0, 1), pause_time := 0, del := 0,
        points := [tile_low_pair_pushed, tile_up_pushed] } := by
  have hexp : ¬ (realExt.exp (1 - 2 / 2 / ((INT_MAX : ℤ) : ℝ)) <
      ((0 : ℕ) : ℝ) / (realExt.RAND_MAX : ℝ)) := by
    have := Real.exp_pos (1 - 2 / 2 / ((INT_MAX : ℤ) : ℝ))
    rw [not_lt, Nat.cast_zero, zero_div (realExt.RAND_MAX : ℝ)]
    exact this.le
  unfold track
  simp only [Globals.initial, del_pair.1, del_pair.2, set_velocities_pair, if_neg hexp]
  norm_num [INT_MAX]

/-- The step on `tile_low` and `tile_up` in the state `stalled_pair` removes `tile_low`:
`tile_up` takes slot 0 and its velocities are set to zero. -/
theorem step_pair_removed :
    calc_next_step realExt square stalled_pair [tile_low, tile_up] 0 =
      .ok result_pair_removed := by
  unfold result_pair_removed calc_next_step
  rw [scan_two]
  simp only [forces_pair, finish, track_pair_stalled]
  unfold remove_or_keep removal_gate
  simp only [zero_velocities, body_at]
  norm_num
  rfl

/-- The step on `tile_low` and `tile_up` with the initial globals removes no tile. -/
theorem step_pair_initial :
    calc_next_step realExt square Globals.initial [tile_low, tile_up] 0 =
      .ok result_pair_initial := by
  unfold result_pair_initial calc_next_step
  rw [scan_two]
  simp only [forces_pair, finish, track_pair_initial]
  unfold remove_or_keep removal_gate
  norm_num

end PairStep2

section RemovalPair

/-- C11 at `tile_low` and `tile_up` in the state `stalled_pair`: the tile of slot 0,
`tile_low`, is removed, one slot is left, and it holds `tile_up`, the tile of the former
last slot 1. -/
theorem swap_remove_step_witness :
    calc_next_step realExt square stalled_pair [tile_low, tile_up] 0 =
      .ok result_pair_removed ∧
    result_pair_removed.destroyed ≠ none ∧
    result_pair_removed.points = [tile_up] ∧
    result_pair_removed.destroyed.map Body.pose = some tile_low.pose ∧
    (0 < [tile_low, tile_up].length ∧
      result_pair_removed.globals.pre_del.1 = ((0 : ℕ) : Int) ∧
      result_pair_removed.destroyed.map Body.pose = ([tile_low, tile_up].map Body.pose)[0]? ∧
      result_pair_removed.points.length = [tile_low, tile_up].length - 1 ∧
      (0 < [tile_low, tile_up].length - 1 →
        (result_pair_removed.points.map Body.pose)[0]? =
          ([tile_low, tile_up].map Body.pose)[[tile_low, tile_up].length - 1]?) ∧
      (∀ i, i < [tile_low, tile_up].length - 1 → i ≠ 0 →
        (result_pair_removed.points.map Body.pose)[i]? =
          ([tile_low, tile_up].map Body.pose)[i]?) ∧
      (result_pair_removed.points.map Body.pose).Perm
        (([tile_low, tile_up].map Body.pose).eraseIdx 0)) :=
  ⟨step_pair_removed, by simp [result_pair_removed], rfl, rfl, by
    obtain ⟨del, h1, h2, h3⟩ := swap_remove_step realExt square stalled_pair
      [tile_low, tile_up] 0 result_pair_removed step_pair_removed
      (by simp [result_pair_removed])
    have hdel : del = 0 := by
      have h0 : result_pair_removed.globals.pre_del.1 = 0 := rfl
      rw [h0] at h2
      exact_mod_cast h2.symm
    subst hdel
    exact ⟨h1, h2, h3⟩⟩

/-- C12 at `tile_low` and `tile_up` in the state `stalled_pair`, whose pause accumulator
is 5: `tile_low` is removed, the counters are reset, and `tile_up`, for which the step
computed the velocity `(-sqrt 3 / 16, 17 / 16)`, is left with zero velocities. -/
theorem removal_resets_witness :
    calc_next_step realExt square stalled_pair [tile_low, tile_up] 0 =
      .ok result_pair_removed ∧
    result_pair_removed.destroyed ≠ none ∧
    stalled_pair.pause_time = 5 ∧ stalled_pair.min_t = 7200 ∧
    forces realExt square [tile_low, tile_up]
      [Row.mk [1, -1, -1] [1] [0], Row.mk [-1, 0, -1] [0] []] =
      .ok ⟨1 / 2, 2, [forces_low_pair, forces_up_pair]⟩ ∧
    forces_up_pair.force = ⟨-(Real.sqrt 3 / 16), 17 / 16⟩ ∧
    forces_up_pair.force ≠ ⟨0, 0⟩ ∧
    result_pair_removed.points = [tile_up] ∧
    result_pair_removed.globals.pause_time = 0 ∧ result_pair_removed.globals.min_t = 0 ∧
    result_pair_removed.globals.min_E = (INT_MAX : ℝ) ∧
    result_pair_removed.globals.min_E = (Globals.initial : Globals ℝ).min_E ∧
    ∀ b ∈ result_pair_removed.points, b.linearVelocity = ⟨0, 0⟩ ∧ b.angularVelocity = 0 :=
  ⟨step_pair_removed, by simp [result_pair_removed], rfl, rfl, forces_pair, rfl,
    fun h => by
      have hy := congrArg Point.y h
      simp only [forces_up_pair] at hy
      norm_num at hy,
    rfl,
    removal_resets realExt square stalled_pair [tile_low, tile_up] 0 result_pair_removed
      step_pair_removed (by simp [result_pair_removed])⟩

end RemovalPair

section SumsSpec

variable {α : Type} [LinearOrderedField α]

theorem point_add_zero (a : Point α) : a.add ⟨0, 0⟩ = a := by
  cases a
  simp [Point.add]

theorem point_sub_smul (a p : Point α) (c : α) :
    a.sub (Point.smul c p) = a.add (Point.smul (-c) p) := by
  simp only [Point.sub, Point.add, Point.smul, Point.mk.injEq]
  constructor <;> ring

/-- A round of the neighbour loop that ends well adds the contribution of its sector to
the three sums. -/
theorem neighbour_step_term [FloorRing α] (X : Ext α) (points : List (Body α)) (i : Nat)
    (np : List Int) (acc b : TileAcc α) (k : Nat)
    (h : neighbour_step X points i np acc k = .ok b) :
    b.weight_sum = acc.weight_sum + (spec_neighbour_term X points i np k).weight ∧
    b.force = acc.force.add (spec_neighbour_term X points i np k).linear ∧
    b.angle = acc.angle + (spec_neighbour_term X points i np k).angular := by
  unfold neighbour_step at h
  unfold spec_neighbour_term
  by_cases hnp : np.getD k (-1) = -1
  · rw [if_neg (not_not.mpr hnp)] at h
    cases h
    rw [if_pos hnp]
    exact ⟨(add_zero _).symm, (point_add_zero _).symm, (add_zero _).symm⟩
  · rw [if_pos hnp] at h
    rw [if_neg hnp]
    dsimp only at h ⊢
    cases hl : calc_direction X (body_at points (np.getD k (-1)).toNat).position
        (to_deg X (body_at points (np.getD k (-1)).toNat).angle)
        (body_at points i).position with
    | error e =>
      rw [hl] at h
      cases h
    | ok l =>
      rw [hl] at h
      dsimp only at h ⊢
      split at h
      · cases h
        exact ⟨rfl, rfl, rfl⟩
      · cases h

/-- A round of the edge loop that ends well adds the contribution of its edge to the
three sums. -/
theorem edge_step_term [FloorRing α] (X : Ext α) (poly : List (Point α))
    (points : List (Body α)) (i : Nat) (acc b : TileAcc α) (e : Nat)
    (h : edge_step X poly points i acc e = .ok b) :
    b.weight_sum = acc.weight_sum + (spec_edge_term X poly points i e).weight ∧
    b.force = acc.force.add (spec_edge_term X poly points i e).linear ∧
    b.angle = acc.angle + (spec_edge_term X poly points i e).angular := by
  unfold edge_step at h
  unfold spec_edge_term
  dsimp only at h ⊢
  by_cases hk : (edge_locals X poly (body_at points i) e).k = -1
  · rw [if_pos hk] at h
    cases h
  · rw [if_neg hk] at h
    by_cases hkn : 0 < (edge_locals X poly (body_at points i) e).kn
    · rw [if_pos hkn] at h
      cases h
      rw [if_pos hkn]
      exact ⟨(add_zero _).symm, (point_add_zero _).symm, (add_zero _).symm⟩
    · rw [if_neg hkn] at h
      rw [if_neg hkn]
      split at h
      · cases h
        exact ⟨rfl, point_sub_smul _ _ _, rfl⟩
      · cases h

/-- A loop whose rounds add contributions to the three sums adds their sum, taken from
the left. -/
theorem foldlM_terms {β : Type} (f : TileAcc α → β → Except Abort (TileAcc α))
    (term : β → Term α)
    (hf : ∀ acc b acc', f acc b = .ok acc' →
      acc'.weight_sum = acc.weight_sum + (term b).weight ∧
      acc'.force = acc.force.add (term b).linear ∧
      acc'.angle = acc.angle + (term b).angular) :
    ∀ (l : List β) (acc acc' : TileAcc α), l.foldlM f acc = .ok acc' →
      (⟨acc'.weight_sum, acc'.force, acc'.angle⟩ : Term α) =
        (l.map term).foldl
          (fun s t => ⟨s.weight + t.weight, s.linear.add t.linear, s.angular + t.angular⟩)
          ⟨acc.weight_sum, acc.force, acc.angle⟩ := by
  intro l
  induction l with
  | nil =>
    intro acc acc' h
    simp only [List.foldlM, pure, Except.pure] at h
    cases h
    rfl
  | cons b l ih =>
    intro acc acc' h
    simp only [List.foldlM, bind, Except.bind] at h
    cases hb : f acc b with
    | error e => rw [hb] at h; cases h
    | ok s1 =>
      rw [hb] at h
      obtain ⟨e1, e2, e3⟩ := hf acc b s1 hb
      rw [ih s1 acc' h, List.map_cons, List.foldl_cons, e1, e2, e3]

/-- The sums the loop body of lines 226-393 leaves for a tile are the weight-normalised
sums of the contributions of its sectors and of the edges of its edge-overlap list. -/
theorem tile_forces_spec [FloorRing α] (X : Ext α) (poly : List (Point α))
    (points : List (Body α)) (row : Row) (i : Nat) (K E : α) (a : TileAcc α)
    (h : tile_forces X poly points row i K E = .ok a) :
    a.force = (spec_velocity X poly points row i).1 ∧
    a.angle = (spec_velocity X poly points row i).2 := by
  unfold tile_forces at h
  split at h
  · cases h
  · rename_i a1 h1
    split at h
    · cases h
    · rename_i a2 h2
      split at h
      · cases h
      · rename_i a3 h3
        cases h
        have s1 := foldlM_terms (neighbour_step X points i row.nearest_point)
          (spec_neighbour_term X points i row.nearest_point)
          (fun acc b acc' hb => neighbour_step_term X points i _ acc acc' b hb) _ _ a1 h1
        have s2 : (⟨a2.weight_sum, a2.force, a2.angle⟩ : Term α) =
            ⟨a1.weight_sum, a1.force, a1.angle⟩ := by
          have := foldlM_ok_invariant
            (fun s : TileAcc α => (⟨s.weight_sum, s.force, s.angle⟩ : Term α) =
              ⟨a1.weight_sum, a1.force, a1.angle⟩)
            (overlap_step X points i)
            (fun s j s' hs hstep => by
              obtain ⟨e1, e2, e3⟩ := overlap_step_sums X points i s s' j hstep
              rw [e1, e2, e3]
              exact hs)
            _ a1 a2 rfl h2
          exact this
        have s3 := foldlM_terms (edge_step X poly points i) (spec_edge_term X poly points i)
          (fun acc b acc' hb => edge_step_term X poly points i acc acc' b hb) _ a2 a3 h3
        rw [s2, s1, ← List.foldl_append] at s3
        have hsum : (⟨a3.weight_sum, a3.force, a3.angle⟩ : Term α) =
            sum_terms ((List.range 3).map (spec_neighbour_term X points i row.nearest_point) ++
              row.overlap_edge.map (spec_edge_term X poly points i)) := by
          rw [s3]
          rfl
        have hw : a3.weight_sum = (sum_terms
            ((List.range 3).map (spec_neighbour_term X points i row.nearest_point) ++
              row.overlap_edge.map (spec_edge_term X poly points i))).weight :=
          congrArg Term.weight hsum
        have hl : a3.force = (sum_terms
            ((List.range 3).map (spec_neighbour_term X points i row.nearest_point) ++
              row.overlap_edge.map (spec_edge_term X poly points i))).linear :=
          congrArg Term.linear hsum
        have ha : a3.angle = (sum_terms
            ((List.range 3).map (spec_neighbour_term X points i row.nearest_point) ++
              row.overlap_edge.map (spec_edge_term X poly points i))).angular :=
          congrArg Term.angular hsum
        unfold normalize_by_weight spec_velocity
        dsimp only
        rw [← hw, ← hl, ← ha]
        split_ifs
        · exact ⟨rfl, rfl⟩
        · exact ⟨rfl, rfl⟩

end SumsSpec

section SumsSpecClaim

variable {α : Type} [LinearOrderedField α]

/-- C15, amended: in a step that removes no tile and does not pass the frame limit (from
frame 60102 on every velocity is set to zero), the linear and the angular velocity handed
to the store for tile `i` are the weight-normalised sums over two kinds of interaction:
every resolved sector neighbour adds its weight, `weight * (kr * unit(v) + kt * t)` and
`weight * ang_diff / 2`, every corrected edge of the edge-overlap list adds its weight,
`-(weight * kn) * n` and `weight * ang_diff`, and the two sums are divided by the sum of
the weights when that is above `ZERO`.  An entry of the tile/tile overlap list adds
nothing to the three sums. -/
theorem velocities_from_neighbours_and_edges [FloorRing α] (X : Ext α)
    (poly : List (Point α)) (g : Globals α) (points : List (Body α)) (rnd : Nat)
    (r : StepResult α) (h : calc_next_step X poly g points rnd = .ok r)
    (hd : r.destroyed = none) (hfr : g.frame + 1 ≤ 60101) (i : Nat)
    (hi : i < points.length) :
    ∃ rows, scan_tiles X poly points = .ok rows ∧
      (body_at r.points i).linearVelocity =
        (spec_velocity X poly points (rows.getD i Row.initial) i).1 ∧
      (body_at r.points i).angularVelocity =
        to_rad X (spec_velocity X poly points (rows.getD i Row.initial) i).2 ∧
      ∀ (acc b : TileAcc α) (j : Nat), overlap_step X points i acc j = .ok b →
        b.force = acc.force ∧ b.angle = acc.angle ∧ b.weight_sum = acc.weight_sum := by
  obtain ⟨rows, f, hrows, hf, hr⟩ := calc_next_step_ok X poly g points rnd r h
  have hp : r.points = set_velocities X points f.tiles := by
    rcases remove_or_keep_cases (track X g points f rnd) with
      ⟨-, hd2, -⟩ | ⟨-, -, hp, -⟩
    · rw [← hr, hd] at hd2
      cases hd2
    · rw [← hr] at hp
      rw [hp, track_points_running X g points f rnd hfr]
  obtain ⟨K, E, hKE⟩ := forces_tile X poly points rows f hf i hi ⟨⟨0, 0⟩, 0, 0, 0, 0, 0, 0⟩
  obtain ⟨e1, e2⟩ := tile_forces_spec X poly points _ i K E _ hKE
  obtain ⟨v1, v2⟩ := body_at_set_velocities X points f.tiles i hi
  exact ⟨rows, hrows, by rw [hp, v1, e1], by rw [hp, v2, e2],
    fun acc b j hb => overlap_step_sums X points i acc b j hb⟩

end SumsSpecClaim

section SumsSpecInstances

/-- The amended C15 at the first step of `tile_low` next to `tile_up`: the velocities of
tile 0 are the sums over its neighbour `tile_up` and the lower edge, divided by
`weight_low_up + 4097`; the entry `tile_up` of its overlap list is not in them. -/
theorem velocities_from_neighbours_and_edges_witness :
    calc_next_step realExt square Globals.initial [tile_low, tile_up] 0 =
      .ok result_pair_initial ∧
    result_pair_initial.destroyed = none ∧
    (Globals.initial : Globals ℝ).frame + 1 ≤ 60101 ∧ 0 < [tile_low, tile_up].length ∧
    (body_at result_pair_initial.points 0).linearVelocity =
      Point.smul (1 / (weight_low_up + 4097))
        ⟨weight_low_up * (Real.sqrt 3 / 8), weight_low_up * -(5 / 4) + 12291⟩ ∧
    (body_at result_pair_initial.points 0).angularVelocity =
      to_rad realExt ((1 / 2 * -60 * weight_low_up + 60 * 4097) / (weight_low_up + 4097)) ∧
    ∃ rows, scan_tiles realExt square [tile_low, tile_up] = .ok rows ∧
      (body_at result_pair_initial.points 0).linearVelocity =
        (spec_velocity realExt square [tile_low, tile_up] (rows.getD 0 Row.initial) 0).1 ∧
      (body_at result_pair_initial.points 0).angularVelocity =
        to_rad realExt
          (spec_velocity realExt square [tile_low, tile_up] (rows.getD 0 Row.initial) 0).2 ∧
      ∀ (acc b : TileAcc ℝ) (j : Nat),
        overlap_step realExt [tile_low, tile_up] 0 acc j = .ok b →
        b.force = acc.force ∧ b.angle = acc.angle ∧ b.weight_sum = acc.weight_sum :=
  ⟨step_pair_initial, rfl, by decide, by decide, rfl, rfl,
    velocities_from_neighbours_and_edges realExt square Globals.initial [tile_low, tile_up] 0
      result_pair_initial step_pair_initial rfl (by decide) 0 (by decide)⟩

end SumsSpecInstances

section WeightTwins

/-- C16 at two tiles at the same place (`tile_mid` and `tile_twin` in `square`): the round
of the neighbour loop for tile 0 and its sector 0 neighbour, tile 1, passes the assertion
of line 256 and adds `weight = calc_weight(min_distance, 2) + calc_weight(v.Length(), 2)`
to the weight sum of the tile, where `v.Length()` is 0 and the divisor
`max(v_n_length, v_n2_length) / v.Length()` of `min_distance` is `0 / 0`: with IEEE
numbers `min_distance` is `NaN` and the weight is `pow(NaN, -12) + pow(0, -12)`, a `NaN`
(the field's division makes both terms 0).  The only test between that weight sum and the
velocities is `ZERO < weight_sum` of line 389, and when it fails, as it does for a `NaN`,
the sums are handed out as they are. -/
theorem coincident_tiles_weight :
    tile_twin.position = tile_mid.position ∧
    scan_tiles realExt square [tile_mid, tile_twin] =
      .ok [Row.mk [1, -1, -1] [1] [], Row.mk [0, -1, -1] [0] []] ∧
    (∀ acc : TileAcc ℝ, ∃ b,
      neighbour_step realExt [tile_mid, tile_twin] 0 [1, -1, -1] acc 0 = .ok b ∧
      b.weight_sum = acc.weight_sum +
        (calc_weight (pair_locals realExt tile_mid tile_twin
            (to_deg realExt tile_mid.angle + ((0 : ℕ) : ℝ) * 120) 0).min_distance 2 +
          calc_weight ((pair_locals realExt tile_mid tile_twin
            (to_deg realExt tile_mid.angle + ((0 : ℕ) : ℝ) * 120) 0).v.Length realExt) 2)) ∧
    (pair_locals realExt tile_mid tile_twin
      (to_deg realExt tile_mid.angle + ((0 : ℕ) : ℝ) * 120) 0).v.Length realExt = 0 ∧
    max (pair_locals realExt tile_mid tile_twin
          (to_deg realExt tile_mid.angle + ((0 : ℕ) : ℝ) * 120) 0).v_n_length
        (pair_locals realExt tile_mid tile_twin
          (to_deg realExt tile_mid.angle + ((0 : ℕ) : ℝ) * 120) 0).v_n2_length = 0 ∧
    (pair_locals realExt tile_mid tile_twin
        (to_deg realExt tile_mid.angle + ((0 : ℕ) : ℝ) * 120) 0).min_distance =
      (1 / 2 + realExt.sin (to_rad realExt (30 +
          |(pair_locals realExt tile_mid tile_twin
            (to_deg realExt tile_mid.angle + ((0 : ℕ) : ℝ) * 120) 0).ang_diff|))) /
        (max (pair_locals realExt tile_mid tile_twin
              (to_deg realExt tile_mid.angle + ((0 : ℕ) : ℝ) * 120) 0).v_n_length
            (pair_locals realExt tile_mid tile_twin
              (to_deg realExt tile_mid.angle + ((0 : ℕ) : ℝ) * 120) 0).v_n2_length /
          (pair_locals realExt tile_mid tile_twin
            (to_deg realExt tile_mid.angle + ((0 : ℕ) : ℝ) * 120) 0).v.Length realExt) ∧
    (∀ a : TileAcc ℝ, ¬ ZERO < a.weight_sum → normalize_by_weight a = a) := by
  have hs := pair_locals_same realExt real_sqrt_zero tile_mid tile_twin rfl
    (to_deg realExt tile_mid.angle + ((0 : ℕ) : ℝ) * 120) 0
  refine ⟨rfl, scan_twins, ?_, hs.2.1, hs.2.2.2.1, rfl, ?_⟩
  · intro acc
    have hne : ([1, -1, -1] : List Int).getD 0 (-1) ≠ -1 := by decide
    have hb0 : body_at [tile_mid, tile_twin] 0 = tile_mid := rfl
    have hj : body_at [tile_mid, tile_twin] (([1, -1, -1] : List Int).getD 0 (-1)).toNat =
        tile_twin := rfl
    have hd : calc_direction realExt tile_twin.position (to_deg realExt tile_twin.angle)
        tile_mid.position = .ok 0 := calc_direction_same realExt real_sqrt_zero _ _
    unfold neighbour_step
    rw [if_pos hne]
    dsimp only
    rw [hb0, hj, hd]
    dsimp only
    rw [if_pos (le_of_eq hs.2.2.1.symm)]
    exact ⟨_, rfl, rfl⟩
  · intro a ha
    unfold normalize_by_weight
    rw [if_neg ha]

end WeightTwins

section StoredFloats

theorem int_log_two_eq (x : ℝ) (e : ℤ) (hx : 0 < x) (h1 : (2 : ℝ) ^ e ≤ x)
    (h2 : x < (2 : ℝ) ^ (e + 1)) : Int.log 2 x = e := by
  have a1 : e ≤ Int.log 2 x := by
    rw [← Int.zpow_le_iff_le_log (by norm_num) hx]
    exact_mod_cast h1
  have a2 : Int.log 2 x < e + 1 := by
    rw [← Int.lt_zpow_iff_log_lt (by norm_num) hx]
    exact_mod_cast h2
  omega

/-- A positive number between `m` and `m + 1/2` units of the last place of its binade is
rounded down to `m` units. -/
theorem round_f32_down (x : ℝ) (e m : ℤ) (hx : 0 < x) (h1 : (2 : ℝ) ^ e ≤ x)
    (h2 : x < (2 : ℝ) ^ (e + 1)) (hm1 : (m : ℝ) ≤ x / (2 : ℝ) ^ (e - 23))
    (hm2 : x / (2 : ℝ) ^ (e - 23) < (m : ℝ) + 1 / 2) :
    round_f32 x = (m : ℝ) * (2 : ℝ) ^ (e - 23) := by
  have hfl : ⌊x / (2 : ℝ) ^ (e - 23)⌋ = m := by
    rw [Int.floor_eq_iff]
    exact ⟨hm1, by linarith⟩
  unfold round_f32
  rw [if_neg (ne_of_gt hx)]
  dsimp only
  rw [abs_of_pos hx, int_log_two_eq x e hx h1 h2, hfl,
    if_pos (show x / (2 : ℝ) ^ (e - 23) - (m : ℝ) < 1 / 2 by linarith),
    if_neg (not_lt.mpr hx.le), one_mul]

theorem round_f32_zero : round_f32 (0 : ℝ) = 0 := by
  unfold round_f32
  rw [if_pos rfl]

theorem round_f32_one : round_f32 (1 : ℝ) = 1 := by
  rw [round_f32_down 1 0 8388608 one_pos (by norm_num) (by norm_num) (by norm_num)
    (by norm_num)]
  norm_num

/-- The `float` below `1/2`: `(2^24 - 1) / 2^25`, in hexadecimal `0x1.fffffep-2`. -/
theorem round_f32_below_half : round_f32 (16777215 / 33554432 : ℝ) = 16777215 / 33554432 := by
  rw [round_f32_down (16777215 / 33554432) (-2) 16777215 (by norm_num) (by norm_num)
    (by norm_num) (by norm_num) (by norm_num)]
  norm_num

/-- A number that is not positive is not rounded to a positive one. -/
theorem round_f32_nonpos (x : ℝ) (hx : x ≤ 0) : round_f32 x ≤ 0 := by
  rcases eq_or_lt_of_le hx with h0 | hneg
  · rw [h0, round_f32_zero]
  · unfold round_f32
    rw [if_neg (ne_of_lt hneg)]
    dsimp only
    rw [if_pos hneg]
    have hq : (0 : ℝ) < (2 : ℝ) ^ (Int.log 2 |x| - 23) := by positivity
    have hm : 0 ≤ ⌊|x| / (2 : ℝ) ^ (Int.log 2 |x| - 23)⌋ :=
      Int.floor_nonneg.mpr (div_nonneg (abs_nonneg x) hq.le)
    have hn : (0 : ℝ) ≤ ((if |x| / (2 : ℝ) ^ (Int.log 2 |x| - 23) -
          (⌊|x| / (2 : ℝ) ^ (Int.log 2 |x| - 23)⌋ : ℝ) < 1 / 2
        then ⌊|x| / (2 : ℝ) ^ (Int.log 2 |x| - 23)⌋
        else if 1 / 2 < |x| / (2 : ℝ) ^ (Int.log 2 |x| - 23) -
            (⌊|x| / (2 : ℝ) ^ (Int.log 2 |x| - 23)⌋ : ℝ)
          then ⌊|x| / (2 : ℝ) ^ (Int.log 2 |x| - 23)⌋ + 1
          else if ⌊|x| / (2 : ℝ) ^ (Int.log 2 |x| - 23)⌋ % 2 = 0
            then ⌊|x| / (2 : ℝ) ^ (Int.log 2 |x| - 23)⌋
            else ⌊|x| / (2 : ℝ) ^ (Int.log 2 |x| - 23)⌋ + 1 : ℤ) : ℝ) := by
      split_ifs <;> exact_mod_cast (by omega)
    nlinarith [mul_nonneg hn hq.le]

end StoredFloats

section StoredHeading

theorem b2_cos_deg (x : ℝ) : b2Ext.cos (to_rad b2Ext x) = Real.cos (x / 180 * b2_pi) := rfl

theorem b2_sin_deg (x : ℝ) : b2Ext.sin (to_rad b2Ext x) = Real.sin (x / 180 * b2_pi) := rfl

/-- With `b2_pi` for `π`, `cos(to_rad(60))` lies strictly between the `float`
`(2^24 - 1) / 2^25` and the midpoint `1/2 - 2^-26` of that `float` and `1/2`. -/
theorem b2_cos_60_bounds :
    (16777215 / 33554432 : ℝ) < b2Ext.cos (to_rad b2Ext 60) ∧
    b2Ext.cos (to_rad b2Ext 60) < 33554431 / 67108864 := by
  have hlo := Real.pi_gt_d20
  have hhi := Real.pi_lt_d20
  have r1 := sqrt3_lower
  have r2 := sqrt3_upper
  have hd0 : (29 / 1000000000 : ℝ) < (b2_pi : ℝ) / 3 - Real.pi / 3 := by
    unfold b2_pi
    norm_num at hlo hhi ⊢
    linarith
  have hd1 : (b2_pi : ℝ) / 3 - Real.pi / 3 < 292 / 10000000000 := by
    unfold b2_pi
    norm_num at hlo hhi ⊢
    linarith
  have harg : (60 : ℝ) / 180 * b2_pi = Real.pi / 3 + ((b2_pi : ℝ) / 3 - Real.pi / 3) := by
    ring
  rw [b2_cos_deg, harg, Real.cos_add, Real.cos_pi_div_three, Real.sin_pi_div_three]
  generalize (b2_pi : ℝ) / 3 - Real.pi / 3 = d at hd0 hd1
  have hdpos : 0 < d := by linarith
  have hs1 : Real.sin d ≤ d := Real.sin_le hdpos.le
  have hs0 : d - d ^ 3 / 4 < Real.sin d := Real.sin_gt_sub_cube hdpos (by linarith)
  have hc1 : Real.cos d ≤ 1 := Real.cos_le_one d
  have hc0 : 1 - d ^ 2 / 2 ≤ Real.cos d := Real.one_sub_sq_div_two_le_cos
  have hd3 : d ^ 3 / 4 < 1 / 1000000000000 := by
    have : d ^ 3 < (1 / 10000) ^ 3 := by
      apply pow_lt_pow_left₀ (by linarith) hdpos.le (by norm_num)
    norm_num at this ⊢
    linarith
  have hd2 : d ^ 2 / 2 < 1 / 1000000000000 := by
    have : d ^ 2 < (1 / 1000000) ^ 2 := by
      apply pow_lt_pow_left₀ (by linarith) hdpos.le (by norm_num)
    norm_num at this ⊢
    linarith
  generalize Real.sin d = s at hs0 hs1
  generalize Real.cos d = k at hc0 hc1
  generalize Real.sqrt 3 = r at r1 r2
  have hspos : 0 < s := by linarith
  have hrs1 : r * s ≤ 18 / 10 * d :=
    mul_le_mul r2.le hs1 hspos.le (by norm_num)
  have hrs0 : 17 / 10 * (d - d ^ 3 / 4) ≤ r * s :=
    mul_le_mul r1.le hs0.le (by linarith) (by linarith)
  constructor
  · linarith
  · linarith

/-- Stored in a `float`, `cos(to_rad(60))` is the `float` below it. -/
theorem b2_cos_60_stored :
    round_f32 (b2Ext.cos (to_rad b2Ext 60)) = 16777215 / 33554432 := by
  obtain ⟨h1, h2⟩ := b2_cos_60_bounds
  rw [round_f32_down _ (-2) 16777215 (by linarith) (by norm_num; linarith)
    (by norm_num; linarith)
    (by rw [le_div_iff₀ (by positivity)]; norm_num; linarith)
    (by rw [div_lt_iff₀ (by positivity)]; norm_num; linarith)]
  norm_num

theorem b2_cos_180_neg : b2Ext.cos (to_rad b2Ext 180) < 0 := by
  have hlo := Real.pi_gt_d2
  have hhi := Real.pi_lt_d2
  rw [b2_cos_deg]
  apply Real.cos_neg_of_pi_div_two_lt_of_lt
  · unfold b2_pi; norm_num; linarith
  · unfold b2_pi; norm_num; linarith

/-- With `b2_pi` for `π`, `cos(to_rad(70))` is below the `float` `(2^24 - 1) / 2^25`. -/
theorem b2_cos_70_le : b2Ext.cos (to_rad b2Ext 70) ≤ 16777215 / 33554432 := by
  have hlo := Real.pi_gt_d2
  have hhi := Real.pi_lt_d2
  have r1 := sqrt3_lower
  have hd0 : (17 / 100 : ℝ) < (70 : ℝ) / 180 * b2_pi - Real.pi / 3 := by
    unfold b2_pi
    norm_num at hlo hhi ⊢
    linarith
  have hd1 : (70 : ℝ) / 180 * b2_pi - Real.pi / 3 < 18 / 100 := by
    unfold b2_pi
    norm_num at hlo hhi ⊢
    linarith
  have harg : (70 : ℝ) / 180 * b2_pi =
      Real.pi / 3 + ((70 : ℝ) / 180 * b2_pi - Real.pi / 3) := by ring
  rw [b2_cos_deg, harg, Real.cos_add, Real.cos_pi_div_three, Real.sin_pi_div_three]
  generalize (70 : ℝ) / 180 * b2_pi - Real.pi / 3 = d at hd0 hd1
  have hdpos : 0 < d := by linarith
  have hs0 : d - d ^ 3 / 4 < Real.sin d := Real.sin_gt_sub_cube hdpos (by linarith)
  have hc1 : Real.cos d ≤ 1 := Real.cos_le_one d
  have hd3 : d ^ 3 / 4 < 1 / 100 := by
    have : d ^ 3 < (1 / 4) ^ 3 := by
      apply pow_lt_pow_left₀ (by linarith) hdpos.le (by norm_num)
    norm_num at this ⊢
    linarith
  generalize Real.sin d = s at hs0
  generalize Real.cos d = k at hc1
  generalize Real.sqrt 3 = r at r1
  have hs : (16 / 100 : ℝ) < s := by linarith
  have hrs0 : 17 / 10 * (16 / 100) ≤ r * s :=
    mul_le_mul r1.le hs.le (by norm_num) (by linarith)
  linarith

end StoredHeading

section StoredDirection

/-- The test of `sector_test_f32` for the vector `(0, 1)`: the length is 1 and the dot
product is the stored `cos` of the heading, both without rounding. -/
theorem stored_test_up (deg arc : ℝ) (k : Nat) :
    sector_test_f32 b2Ext deg ⟨0, 1⟩ arc k =
      decide (b2Ext.cos (to_rad b2Ext deg) ≤
        round_f32 (round_f32 (round_f32 (b2Ext.cos (to_rad b2Ext (arc + 120 * (k : ℝ))))))) := by
  have hsq : b2Ext.sqrt 1 = 1 := Real.sqrt_one
  unfold sector_test_f32
  simp only [mul_zero, zero_mul, mul_one, one_mul, round_f32_zero, round_f32_one, zero_add,
    hsq]

theorem b2_cos_neg_60 : b2Ext.cos (to_rad b2Ext (-60)) = b2Ext.cos (to_rad b2Ext 60) := by
  rw [b2_cos_deg, b2_cos_deg, show (-60 : ℝ) / 180 * b2_pi = -(60 / 180 * b2_pi) by ring,
    Real.cos_neg]

/-- C24, as stated, fails with the storage of the source (the heading `n` is a `b2Vec2`
of `float`s, `pi` is the `float` `b2_pi`): for `c = (0, 0)`, `arc = -60` and `p = (0, 1)`,
on the boundary of the sectors 0 and 1, `cos(to_rad(60))` is a `double` strictly between
the `float` `(2^24 - 1) / 2^25` and `1/2`, and the second coordinate of `n` for the headings
`-60` and `60` is that value stored in a `float`, the `float` below it; so the tests of
the sectors 0 and 1 fail, the test of sector 2 (heading 180) fails, and `calc_direction`
returns 0 from its second loop, the 70 degree retry. -/
theorem first_loop_fails_stored :
    (16777215 / 33554432 : ℝ) < b2Ext.cos (to_rad b2Ext 60) ∧
    round_f32 (b2Ext.cos (to_rad b2Ext 60)) = 16777215 / 33554432 ∧
    sector_test_f32 b2Ext 60 ⟨0, 1⟩ (-60) 0 = false ∧
    sector_test_f32 b2Ext 60 ⟨0, 1⟩ (-60) 1 = false ∧
    sector_test_f32 b2Ext 60 ⟨0, 1⟩ (-60) 2 = false ∧
    (List.range 3).find? (sector_test_f32 b2Ext 60 ⟨0, 1⟩ (-60)) = none ∧
    sector_test_f32 b2Ext 70 ⟨0, 1⟩ (-60) 0 = true ∧
    calc_direction_f32 b2Ext ⟨0, 0⟩ (-60) ⟨0, 1⟩ = .ok 0 := by
  obtain ⟨hlo, hhi⟩ := b2_cos_60_bounds
  have hst := b2_cos_60_stored
  have a0 : (-60 : ℝ) + 120 * ((0 : ℕ) : ℝ) = -60 := by norm_num
  have a1 : (-60 : ℝ) + 120 * ((1 : ℕ) : ℝ) = 60 := by norm_num
  have a2 : (-60 : ℝ) + 120 * ((2 : ℕ) : ℝ) = 180 := by norm_num
  have t0 : sector_test_f32 b2Ext 60 ⟨0, 1⟩ (-60) 0 = false := by
    rw [stored_test_up, a0, b2_cos_neg_60, hst, round_f32_below_half, round_f32_below_half]
    exact decide_le_false hlo
  have t1 : sector_test_f32 b2Ext 60 ⟨0, 1⟩ (-60) 1 = false := by
    rw [stored_test_up, a1, hst, round_f32_below_half, round_f32_below_half]
    exact decide_le_false hlo
  have t2 : sector_test_f32 b2Ext 60 ⟨0, 1⟩ (-60) 2 = false := by
    rw [stored_test_up, a2]
    apply decide_le_false
    have := round_f32_nonpos _ (round_f32_nonpos _ (round_f32_nonpos _ b2_cos_180_neg.le))
    linarith
  have t70 : sector_test_f32 b2Ext 70 ⟨0, 1⟩ (-60) 0 = true := by
    rw [stored_test_up, a0, b2_cos_neg_60, hst, round_f32_below_half, round_f32_below_half]
    exact decide_le_true b2_cos_70_le
  have hf60 : (List.range 3).find? (sector_test_f32 b2Ext 60 ⟨0, 1⟩ (-60)) = none := by
    rw [range_three]
    simp only [List.find?, t0, t1, t2]
  have hf70 : (List.range 3).find? (sector_test_f32 b2Ext 70 ⟨0, 1⟩ (-60)) = some 0 := by
    rw [range_three]
    simp only [List.find?, t70]
  refine ⟨hlo, hst, t0, t1, t2, hf60, t70, ?_⟩
  unfold calc_direction_f32
  simp only [sub_zero, round_f32_zero, round_f32_one, hf60, hf70]

end StoredDirection

end ITPLA
